import Mathlib

/-!
# UKF tractography: work partitioner, compartment swap, bound-constrained solver,
seed construction and fibre propagation

A shallow embedding of parts of the `ukftractography` sources
(`ukf/thread.cc`, `ukf/tractography.cc`, `ukf/lfbgsb.hpp`) together with
machine-checked statements about them.

Conventions of the embedding.

* A C++ `int` is a 32-bit two's complement number: an `Int` in the range
  from `-2 ^ 31` to `2 ^ 31 - 1`.  In the partitioner the sum
  `iter += num_threads` is reduced modulo `2 ^ 32` into this range
  (`wrapInt32`); signed overflow is undefined in C++, and the wrap is what
  the usual targets compute.  Counters that never leave the range (loop
  indices, step numbers below `_max_length`) are exact integers.
* C++ `double` values are modelled by `Dbl α` (see below): the three special
  values NaN, +∞, -∞ and the finite values, which carry an element of an
  ordered field `α` and are combined exactly (no rounding, no overflow, no
  signed zero).  Comparisons and `std::min`/`std::max` follow IEEE-754 / the
  C++ standard on the special values.  Where a statement depends on the
  rounding, the operations are rounded to binary64 (`roundToDouble`,
  `invTransformAt64`) and the statement about the exact reading says so.
* A loop without a bound of its own takes a fuel argument and returns `none`
  when the fuel runs out; the theorems show how much fuel suffices.  A loop
  that counts its passes up to a limit recurses on the passes that are left.
* Routines of other files (the estimator, the signal data, `FindODFMaxima`,
  `State2Tensor3T`, `curve_radius`, the objective of the solver object) are
  parameters: fields of `Tractography`, `SeedConfig`, `Optimizer`,
  `ODFMaxima`.  A run of `Follow3T` returns `Except Fault _`: a fault is a
  `throw` of `Record`, a remainder by zero, or exhausted fuel.
-/

namespace UKF

/-! ## Work partitioner (`ukf/thread.cc`) -/

/-- The value of a 32-bit `int` after an operation whose exact result is `v`: `v` reduced
modulo `2 ^ 32` into the range from `-2 ^ 31` to `2 ^ 31 - 1`.  Inside the range it is `v`. -/
def wrapInt32 (v : Int) : Int :=
  (v + 2 ^ 31) % 2 ^ 32 - 2 ^ 31

/-- The inner loop `while (iter < total_num_works) { distribution[i].push_back(iter);
iter += num_threads; }` of `GenerateWorkDistribution` (thread.cc:27-31), with `iter` a 32-bit
`int`.  One unit of fuel is spent per evaluation of the loop condition. -/
def workLoop (num_threads total_num_works : Int) : Nat → Int → List Int → Option (List Int)
  | 0, _, _ => none
  | fuel + 1, iter, work_list =>
    if iter < total_num_works then
      workLoop num_threads total_num_works fuel (wrapInt32 (iter + num_threads))
        (work_list ++ [iter])
    else
      some work_list

/-- The inner loop of `GenerateWorkDistribution` on exact integers, without the reduction to
32 bits: the loop that `workLoop` is compared with. -/
def workLoopExact (num_threads total_num_works : Int) :
    Nat → Int → List Int → Option (List Int)
  | 0, _, _ => none
  | fuel + 1, iter, work_list =>
    if iter < total_num_works then
      workLoopExact num_threads total_num_works fuel (iter + num_threads) (work_list ++ [iter])
    else
      some work_list

/-- The sum of two `int` values on the machine: the exact sum when it is representable in 32
bits, and otherwise whatever `overflow` yields for it (signed overflow is undefined in C++). -/
def addInt32 (overflow : Int → Int) (a b : Int) : Int :=
  if -2 ^ 31 ≤ a + b ∧ a + b < 2 ^ 31 then a + b else overflow (a + b)

/-- The inner loop of `GenerateWorkDistribution` with `iter += num_threads` computed by
`addInt32`, for an arbitrary result of an overflow. -/
def workLoop32 (overflow : Int → Int) (num_threads total_num_works : Int) :
    Nat → Int → List Int → Option (List Int)
  | 0, _, _ => none
  | fuel + 1, iter, work_list =>
    if iter < total_num_works then
      workLoop32 overflow num_threads total_num_works fuel (addInt32 overflow iter num_threads)
        (work_list ++ [iter])
    else
      some work_list

/-- The loop `for (int i = 0; i < num_threads; i++)` of `GenerateWorkDistribution`
(thread.cc:24-32) with `remaining = num_threads - i` passes left: each pass runs the inner loop
on `distribution[i]`. -/
def workFor (num_threads total_num_works : Int) (fuel : Nat) :
    Nat → Nat → List (List Int) → Option (List (List Int))
  | 0, _, distribution => some distribution
  | remaining + 1, i, distribution =>
    match workLoop num_threads total_num_works fuel (i : Int) (distribution.getD i []) with
    | none => none
    | some work_list =>
      workFor num_threads total_num_works fuel remaining (i + 1) (distribution.set i work_list)

/-- The function `GenerateWorkDistribution(num_threads, total_num_works)` (thread.cc:19-35):
`distribution.resize(num_threads)` followed by the `for` loop that fills `distribution[i]`.
The two arguments are `int` values.  A negative `num_threads` makes `resize` throw, which is
`none` here.  The index `i` stays below `num_threads`, so `i++` does not overflow. -/
def GenerateWorkDistribution (fuel : Nat) (num_threads total_num_works : Int) :
    Option (List (List Int)) :=
  if num_threads < 0 then none
  else
    workFor num_threads total_num_works fuel num_threads.toNat 0
      (List.replicate num_threads.toNat [])

/-- Number of values `start + k * num_threads` (`k = 0, 1, ...`) below `total_num_works`. -/
def workCount (num_threads total_num_works start : Int) : Nat :=
  ((total_num_works - start + num_threads - 1) / num_threads).toNat

/-- The values `start, start + stride, start + 2 * stride, ...` (`count` of them). -/
def strided (start stride : Int) (count : Nat) : List Int :=
  (List.range count).map (fun (k : Nat) => start + (k : Int) * stride)

/-! ## Compartment swap (`Tractography::SwapState`, `ukf/tractography.cc`)

Eigen vectors and matrices are functions of the index (`Nat → α`, `Nat → Nat → α`); the entry
type `α` is arbitrary because the routine only moves entries. -/

/-- The Eigen block assignment `dst.block(r, c, h, w) = src.block(r', c', h, w)`: the entries of
`dst` in rows `r .. r+h-1` and columns `c .. c+w-1` are overwritten by the corresponding entries
of the block of `src` that starts at `(r', c')`. -/
def assignBlock {α : Type} (dst src : Nat → Nat → α) (r c r' c' h w : Nat) : Nat → Nat → α :=
  fun a b =>
    if r ≤ a ∧ a < r + h ∧ c ≤ b ∧ b < c + w then src (a - r + r') (b - c + c') else dst a b

/-- The Eigen coefficient assignment `dst(r, c) = v`. -/
def assignCoeff {α : Type} (dst : Nat → Nat → α) (r c : Nat) (v : α) : Nat → Nat → α :=
  fun a b => if a = r ∧ b = c then v else dst a b

/-- The Eigen segment assignment `dst.segment(p, n) = src.segment(p', n)`. -/
def assignSegment {α : Type} (dst src : Nat → α) (p p' n : Nat) : Nat → α :=
  fun a => if p ≤ a ∧ a < p + n then src (a - p + p') else dst a

/-- The Eigen coefficient assignment `dst(p) = v` on a vector. -/
def assignEntry {α : Type} (dst : Nat → α) (p : Nat) (v : α) : Nat → α :=
  fun a => if a = p then v else dst a

/-- The method `Tractography::SwapState(State &state, ukfMatrixType &covariance, int i)`
(tractography.cc:1907-2002) for the 25-dimensional state (`_model->state_dim() == 25`), statement
by statement.  The result is `none` when the routine ends in its `throw` branch, that is for
every `i` other than 2 and 3. -/
def SwapState {α : Type} (state : Nat → α) (covariance : Nat → Nat → α) (i : Int) :
    Option ((Nat → α) × (Nat → Nat → α)) :=
  let ishift : Int := i - 1
  let state_dim : Nat := 7
  -- `--i; int j = i == 1 ? 2 : 1; i *= state_dim; j *= state_dim;`
  let i₁ : Int := i - 1
  let j₁ : Int := if i₁ = 1 then 2 else 1
  let i : Nat := (i₁ * 7).toNat
  let j : Nat := (j₁ * 7).toNat
  let tshift : Nat := 3 * state_dim
  let mshift : Nat := (ishift * 7).toNat
  let tmp := covariance
  let covariance := assignBlock covariance tmp i i 0 0 state_dim state_dim
  let covariance := assignBlock covariance tmp 0 0 i i state_dim state_dim
  let covariance := assignBlock covariance tmp 0 i i 0 state_dim state_dim
  let covariance := assignBlock covariance tmp i 0 0 i state_dim state_dim
  let covariance := assignBlock covariance tmp j i j 0 state_dim state_dim
  let covariance := assignBlock covariance tmp j 0 j i state_dim state_dim
  let covariance := assignBlock covariance tmp i j 0 j state_dim state_dim
  let covariance := assignBlock covariance tmp 0 j i j state_dim state_dim
  -- Swap weights in covariance matrix: lower part
  let covariance := assignBlock covariance tmp tshift mshift tshift 0 4 state_dim
  let covariance := assignBlock covariance tmp tshift 0 tshift mshift 4 state_dim
  -- right part
  let covariance := assignBlock covariance tmp mshift tshift 0 tshift state_dim 4
  let covariance := assignBlock covariance tmp 0 tshift mshift tshift state_dim 4
  -- lower right 4x4 matrix
  let corn_shift : Nat := tshift + ishift.toNat
  let covariance := assignCoeff covariance corn_shift corn_shift (tmp tshift tshift)
  let covariance := assignCoeff covariance tshift tshift (tmp corn_shift corn_shift)
  let covariance := assignCoeff covariance tshift corn_shift (tmp corn_shift tshift)
  let covariance := assignCoeff covariance corn_shift tshift (tmp tshift corn_shift)
  let oneshift : Nat := tshift + 1
  let twoshift : Nat := tshift + 2
  let swapped : Option (Nat → Nat → α) :=
    if ishift = 1 then
      let covariance := assignBlock covariance tmp twoshift tshift twoshift oneshift 2 1
      let covariance := assignBlock covariance tmp twoshift oneshift twoshift tshift 2 1
      let covariance := assignBlock covariance tmp tshift twoshift oneshift twoshift 1 2
      let covariance := assignBlock covariance tmp oneshift twoshift tshift twoshift 1 2
      some covariance
    else if ishift = 2 then
      -- horizontal mid
      let covariance := assignCoeff covariance oneshift tshift (tmp oneshift twoshift)
      let covariance := assignCoeff covariance oneshift twoshift (tmp oneshift tshift)
      -- vertical mid
      let covariance := assignCoeff covariance twoshift oneshift (tmp tshift oneshift)
      let covariance := assignCoeff covariance tshift oneshift (tmp twoshift oneshift)
      let threeshift : Nat := tshift + 3
      -- horizontal bottom
      let covariance := assignCoeff covariance threeshift twoshift (tmp threeshift tshift)
      let covariance := assignCoeff covariance threeshift tshift (tmp threeshift twoshift)
      -- vertical right
      let covariance := assignCoeff covariance twoshift threeshift (tmp tshift threeshift)
      let covariance := assignCoeff covariance tshift threeshift (tmp twoshift threeshift)
      some covariance
    else
      none
  match swapped with
  | none => none
  | some covariance =>
    -- swap the state
    let tmp_vec := state
    let state := assignSegment state tmp_vec i 0 state_dim
    let state := assignSegment state tmp_vec 0 i state_dim
    let tmp_weight := state 21
    let iw : Nat := 21 + ishift.toNat
    let state := assignEntry state 21 (state iw)
    let state := assignEntry state iw tmp_weight
    some (state, covariance)

/-- The permutation of the 25 state indices that exchanging compartment 1 with compartment `i`
calls for: index `k` of compartment 1 (`0 ≤ k ≤ 6`) goes to `7 (i - 1) + k` and back, weight
index 21 goes to `20 + i` and back, every other index stays. -/
def swapPerm (i : Nat) (k : Nat) : Nat :=
  if k < 7 then 7 * (i - 1) + k
  else if 7 * (i - 1) ≤ k ∧ k < 7 * (i - 1) + 7 then k - 7 * (i - 1)
  else if k = 21 then 20 + i
  else if k = 20 + i then 21
  else k

/-- The index bookkeeping of `SwapState`: the routine run on a state and a covariance whose
entries are their own indices (`Sum.inl k` for state entry `k`, `Sum.inr (a, b)` for covariance
entry `(a, b)`). -/
def swapLabels (i : Int) :
    Option ((Nat → Nat ⊕ (Nat × Nat)) × (Nat → Nat → Nat ⊕ (Nat × Nat))) :=
  SwapState (fun k => Sum.inl k) (fun a b => Sum.inr (a, b)) i

/-- The entry of a state or covariance that an index label names. -/
def readLabel {α : Type} (s : Nat → α) (c : Nat → Nat → α) : Nat ⊕ (Nat × Nat) → α
  | Sum.inl k => s k
  | Sum.inr p => c p.1 p.2

/-! ## Doubles

`Dbl α` stands for the C++ type `double` (`ukfPrecisionType`).  Finite values carry an element
of the ordered field `α` and are combined exactly; the special values behave as IEEE-754
prescribes.  Zero has no sign here (a division of a non-zero finite value by zero gives the
infinity with the sign of the numerator), and decimal literals of the source denote their
decimal value. -/

/-- A value of type `double`: NaN, +∞, -∞ or a finite number. -/
inductive Dbl (α : Type) where
  | nan : Dbl α
  | pinf : Dbl α
  | ninf : Dbl α
  | fin : α → Dbl α
  deriving DecidableEq

namespace Dbl

variable {α : Type} [LinearOrderedField α]

/-- The test `std::isnan`. -/
def isNaN : Dbl α → Bool
  | nan => true
  | _ => false

/-- The test `std::isfinite`. -/
def isFinite : Dbl α → Bool
  | fin _ => true
  | _ => false

/-- Unary minus. -/
def neg : Dbl α → Dbl α
  | nan => nan
  | pinf => ninf
  | ninf => pinf
  | fin x => fin (-x)

/-- Addition: `∞ + (-∞)` is NaN. -/
def add : Dbl α → Dbl α → Dbl α
  | nan, _ => nan
  | _, nan => nan
  | pinf, ninf => nan
  | ninf, pinf => nan
  | pinf, _ => pinf
  | _, pinf => pinf
  | ninf, _ => ninf
  | _, ninf => ninf
  | fin x, fin y => fin (x + y)

/-- The infinity with the sign of `s * x` (`s = true` for +∞), NaN when `x = 0`. -/
def infTimes (s : Bool) (x : α) : Dbl α :=
  if x = 0 then nan else if (0 < x) = s then pinf else ninf

/-- Multiplication: `0 * ∞` is NaN. -/
def mul : Dbl α → Dbl α → Dbl α
  | nan, _ => nan
  | _, nan => nan
  | pinf, pinf => pinf
  | pinf, ninf => ninf
  | ninf, pinf => ninf
  | ninf, ninf => pinf
  | pinf, fin y => infTimes true y
  | ninf, fin y => infTimes false y
  | fin x, pinf => infTimes true x
  | fin x, ninf => infTimes false x
  | fin x, fin y => fin (x * y)

/-- Division: `∞ / ∞` and `0 / 0` are NaN, a finite value over an infinity is 0. -/
def div : Dbl α → Dbl α → Dbl α
  | nan, _ => nan
  | _, nan => nan
  | pinf, pinf => nan
  | pinf, ninf => nan
  | ninf, pinf => nan
  | ninf, ninf => nan
  | pinf, fin y => if y < 0 then ninf else pinf
  | ninf, fin y => if y < 0 then pinf else ninf
  | fin _, pinf => fin 0
  | fin _, ninf => fin 0
  | fin x, fin y => if y = 0 then infTimes true x else fin (x / y)

instance : Neg (Dbl α) := ⟨neg⟩
instance : Add (Dbl α) := ⟨add⟩
instance : Sub (Dbl α) := ⟨fun a b => add a (neg b)⟩
instance : Mul (Dbl α) := ⟨mul⟩
instance : Div (Dbl α) := ⟨div⟩

/-- The comparison `a < b` of doubles as a Boolean: false when an operand is NaN. -/
def blt : Dbl α → Dbl α → Bool
  | nan, _ => false
  | _, nan => false
  | pinf, _ => false
  | _, pinf => true
  | ninf, ninf => false
  | ninf, _ => true
  | fin _, ninf => false
  | fin x, fin y => decide (x < y)

/-- The comparison `a <= b` of doubles as a Boolean: false when an operand is NaN. -/
def ble : Dbl α → Dbl α → Bool
  | nan, _ => false
  | _, nan => false
  | _, pinf => true
  | pinf, _ => false
  | ninf, _ => true
  | fin _, ninf => false
  | fin x, fin y => decide (x ≤ y)

/-- The comparison `a == b` of doubles as a Boolean: false when an operand is NaN. -/
def beq : Dbl α → Dbl α → Bool
  | pinf, pinf => true
  | ninf, ninf => true
  | fin x, fin y => decide (x = y)
  | _, _ => false

instance : LT (Dbl α) := ⟨fun a b => blt a b = true⟩
instance : LE (Dbl α) := ⟨fun a b => ble a b = true⟩
instance (a b : Dbl α) : Decidable (a < b) := inferInstanceAs (Decidable (blt a b = true))
instance (a b : Dbl α) : Decidable (a ≤ b) := inferInstanceAs (Decidable (ble a b = true))

/-- The function `std::abs`. -/
def abs : Dbl α → Dbl α
  | nan => nan
  | pinf => pinf
  | ninf => pinf
  | fin x => fin |x|

/-- The function `std::max(a, b)`, which is `(a < b) ? b : a`. -/
def max (a b : Dbl α) : Dbl α := if a < b then b else a

/-- The function `std::min(a, b)`, which is `(b < a) ? b : a`. -/
def min (a b : Dbl α) : Dbl α := if b < a then b else a

/-- The expression `std::pow(x, 2)`. -/
def sq (x : Dbl α) : Dbl α := x * x

end Dbl

/-- The functions of `<cmath>` that the sources call, as functions on doubles. -/
structure Libm (α : Type) where
  /-- The function `std::exp`. -/
  exp : Dbl α → Dbl α
  /-- The function `std::log`. -/
  log : Dbl α → Dbl α
  /-- The function `std::sqrt`. -/
  sqrt : Dbl α → Dbl α

/-- The `<cmath>` functions obtained from functions on the finite values, with the special
cases of the C standard: `exp(-∞) = 0`, `exp(+∞) = +∞`, `log(0) = -∞`, `log(+∞) = +∞`,
`sqrt(+∞) = +∞`; NaN is returned for a NaN argument and outside the domain. -/
def Libm.ofFinite {α : Type} [LinearOrderedField α] (exp log sqrt : α → α) : Libm α where
  exp := fun
    | Dbl.nan => Dbl.nan
    | Dbl.pinf => Dbl.pinf
    | Dbl.ninf => Dbl.fin 0
    | Dbl.fin x => Dbl.fin (exp x)
  log := fun
    | Dbl.nan => Dbl.nan
    | Dbl.pinf => Dbl.pinf
    | Dbl.ninf => Dbl.nan
    | Dbl.fin x => if x < 0 then Dbl.nan else if x = 0 then Dbl.ninf else Dbl.fin (log x)
  sqrt := fun
    | Dbl.nan => Dbl.nan
    | Dbl.pinf => Dbl.pinf
    | Dbl.ninf => Dbl.nan
    | Dbl.fin x => if x < 0 then Dbl.nan else Dbl.fin (sqrt x)

namespace Dbl

variable {α : Type} [LinearOrderedField α]

/-- The comparison `a != b` of doubles as a Boolean: true when an operand is NaN. -/
def bne (a b : Dbl α) : Bool := !(beq a b)

end Dbl

/-! ## Bound-constrained solver (`class LFBGSB`, `ukf/lfbgsb.hpp`)

An Eigen vector of dimension `n` (`ukfVectorType`) is a function on `Fin n`. -/

/-- An Eigen column vector of doubles with `n` rows. -/
abbrev Vec (α : Type) (n : Nat) : Type := Fin n → Dbl α

namespace Vec

variable {α : Type} [LinearOrderedField α] {n : Nat}

/-- The Eigen expression `a.dot(b)`. -/
def dot (a b : Vec α n) : Dbl α := Fin.foldl n (fun acc i => acc + a i * b i) (Dbl.fin 0)

/-- The Eigen expression `a.norm()`, the square root of `a.dot(a)`. -/
def norm (L : Libm α) (a : Vec α n) : Dbl α := L.sqrt (dot a a)

/-- The Eigen expression `a + b`. -/
def add (a b : Vec α n) : Vec α n := fun i => a i + b i

/-- The Eigen expression `a - b`. -/
def sub (a b : Vec α n) : Vec α n := fun i => a i - b i

/-- The Eigen expression `-a`. -/
def neg (a : Vec α n) : Vec α n := fun i => -(a i)

/-- The Eigen expression `c * a` for a scalar `c`. -/
def smul (c : Dbl α) (a : Vec α n) : Vec α n := fun i => c * a i

/-- The Eigen expression `a * c` for a scalar `c`. -/
def muls (a : Vec α n) (c : Dbl α) : Vec α n := fun i => a i * c

/-- The Eigen expression `a / c` for a scalar `c`. -/
def divs (a : Vec α n) (c : Dbl α) : Vec α n := fun i => a i / c

/-- The Eigen expression `a.array().isNaN().any()`. -/
def anyNaN (a : Vec α n) : Bool := (List.finRange n).any (fun i => (a i).isNaN)

end Vec

/-- The data of an `LFBGSB` object that `Solve` reads: the bounds, the objective
`functionValue` (which the object computes from its signal, gradient directions and fixed
parameters), the `<cmath>` functions, and the contents of the memory that `Solve` reads
without having written it: column `j` of the freshly resized history matrices
(`sUninit j`, `yUninit j`) and the column read past the end of the temporary in iteration `k`
(`sPastEnd k`, `yPastEnd k`). -/
structure LFBGSB (α : Type) (n : Nat) where
  lb : Vec α n
  ub : Vec α n
  libm : Libm α
  functionValue : Vec α n → Dbl α
  sUninit : Nat → Vec α n
  yUninit : Nat → Vec α n
  sPastEnd : Nat → Vec α n
  yPastEnd : Nat → Vec α n

namespace LFBGSB

variable {α : Type} [LinearOrderedField α] {n : Nat}

/-- The member `EPS = 2.2204e-16`. -/
def EPS : Dbl α := Dbl.fin (22204 / 10 ^ 20)

/-- The member `tol`, set to `1e-12` by the constructor. -/
def tol : Dbl α := Dbl.fin (1 / 10 ^ 12)

/-- The member `maxIter`, set to 2000 by the constructor. -/
def maxIter : Nat := 2000

/-- The member `m`, set to 10 by the constructor. -/
def m : Nat := 10

/-- The member `wolfe1`, set to `1e-04` by the constructor. -/
def wolfe1 : Dbl α := Dbl.fin (1 / 10 ^ 4)

/-- The member `wolfe2`, set to `0.9` by the constructor. -/
def wolfe2 : Dbl α := Dbl.fin (9 / 10)

/-- One coordinate of `JacobAdjust` (lfbgsb.hpp:850-853):
`exp(x) * (ub - lb) / pow(exp(x) + 1, 2)`. -/
def JacobAdjustAt (L : Libm α) (lb ub x : Dbl α) : Dbl α :=
  L.exp x * (ub - lb) / Dbl.sq (L.exp x + Dbl.fin 1)

/-- The method `JacobAdjust(x, output)`. -/
def JacobAdjust (S : LFBGSB α n) (x : Vec α n) : Vec α n :=
  fun i => JacobAdjustAt S.libm (S.lb i) (S.ub i) (x i)

/-- One coordinate of `transform` (lfbgsb.hpp:855-859):
`log((in - lb) + EPS) - log((ub - in) + EPS)`. -/
def transformAt (L : Libm α) (lb ub x : Dbl α) : Dbl α :=
  L.log ((x - lb) + EPS) - L.log ((ub - x) + EPS)

/-- The method `transform(in, out)`. -/
def transform (S : LFBGSB α n) (x : Vec α n) : Vec α n :=
  fun i => transformAt S.libm (S.lb i) (S.ub i) (x i)

/-- The body of the loop of `invTransform` (lfbgsb.hpp:868-891) for one coordinate, with
finite values combined exactly.  The same statements with the result of every operation
rounded to a `double` are `invTransformAt64`; the two differ by rounding errors, which can
carry the rounded result across a bound of the box. -/
def invTransformAt (L : Libm α) (lb ub x : Dbl α) : Dbl α :=
  if ¬ x.isFinite then
    if x.isNaN then (ub - lb) / Dbl.fin 2
    else if x < Dbl.fin 0 then lb + EPS
    else ub - EPS
  else
    let out := (lb + EPS + (ub - EPS) * L.exp x) / (Dbl.fin 1 + L.exp x)
    if ¬ out.isFinite then ub - EPS else out

/-- The method `invTransform(in, out)`. -/
def invTransform (S : LFBGSB α n) (x : Vec α n) : Vec α n :=
  fun i => invTransformAt S.libm (S.lb i) (S.ub i) (x i)

/-- The method `functionGradientMSE(x, grad)` (lfbgsb.hpp:289-390): the one-sided difference
quotient of `functionValue` in each coordinate, with step `sqrt(2.2204e-16) * x(it)`. -/
def functionGradientMSE (S : LFBGSB α n) (x : Vec α n) : Vec α n :=
  fun it =>
    let h := S.libm.sqrt EPS * x it
    let xph := x it + h
    let dx := xph - x it
    let p_h := Function.update x it xph
    let p_hh := x
    (S.functionValue p_h - S.functionValue p_hh) / dx

/-- The method `objFunc(x, grad)` (lfbgsb.hpp:392-407): the value returned and the gradient
written to `grad`. -/
def objFunc (S : LFBGSB α n) (x : Vec α n) : Dbl α × Vec α n :=
  let x_inv := S.invTransform x
  let vals_grad := S.functionGradientMSE x_inv
  let jacobian := S.JacobAdjust x
  (S.functionValue x_inv, fun i => jacobian i * vals_grad i)

end LFBGSB

namespace LFBGSB

variable {α : Type} [LinearOrderedField α] {n : Nat}

/-- The method `sup_norm(a, b, c)` (lfbgsb.hpp:497-500). -/
def sup_norm (a b c : Dbl α) : Dbl α :=
  Dbl.max (Dbl.max (Dbl.abs a) (Dbl.abs b)) (Dbl.abs c)

/-- The variables that `interv_uncert` receives by reference and may change. -/
structure Interval (α : Type) where
  st_best : Dbl α
  f_best : Dbl α
  d_best : Dbl α
  st_other : Dbl α
  f_other : Dbl α
  d_other : Dbl α
  step : Dbl α
  bracket : Bool

/-- The first part of `interv_uncert` (lfbgsb.hpp:508-665): the case distinction that sets
`info`, `bound`, the trial value `step_f` and `bracket`. -/
def interv_uncert_cases (L : Libm α) (v : Interval α) (f_step d_step step_min step_max : Dbl α) :
    Nat × Bool × Dbl α × Bool :=
  let sgnd := d_step * (v.d_best / Dbl.abs v.d_best)
  if f_step > v.f_best then
    let theta := Dbl.fin 3 * (v.f_best - f_step) / (v.step - v.st_best) + v.d_best + d_step
    let s := sup_norm theta v.d_best d_step
    let gamma := s * L.sqrt (Dbl.sq (theta / s) - (v.d_best / s) * (d_step / s))
    let gamma := if v.step < v.st_best then -gamma else gamma
    let p := (gamma - v.d_best) + theta
    let q := ((gamma - v.d_best) + gamma) + d_step
    let r := p / q
    let step_c := v.st_best + r * (v.step - v.st_best)
    let step_q := v.st_best
      + ((v.d_best / ((v.f_best - f_step) / (v.step - v.st_best) + v.d_best)) / Dbl.fin 2)
        * (v.step - v.st_best)
    let step_f :=
      if Dbl.abs (step_c - v.st_best) < Dbl.abs (step_q - v.st_best) then step_c
      else step_c + (step_q - step_c) / Dbl.fin 2
    (1, true, step_f, true)
  else if sgnd < Dbl.fin 0 then
    let theta := Dbl.fin 3 * (v.f_best - f_step) / (v.step - v.st_best) + v.d_best + d_step
    let s := sup_norm theta v.d_best d_step
    let gamma := s * L.sqrt (Dbl.sq (theta / s) - (v.d_best / s) * (d_step / s))
    let gamma := if v.step > v.st_best then -gamma else gamma
    let p := (gamma - d_step) + theta
    let q := ((gamma - d_step) + gamma) + v.d_best
    let r := p / q
    let step_c := v.step + r * (v.st_best - v.step)
    let step_q := v.step + (d_step / (d_step - v.d_best)) * (v.st_best - v.step)
    let step_f :=
      if Dbl.abs (step_c - v.step) > Dbl.abs (step_q - v.step) then step_c else step_q
    (2, false, step_f, true)
  else if Dbl.abs d_step < Dbl.abs v.d_best then
    let theta := Dbl.fin 3 * (v.f_best - f_step) / (v.step - v.st_best) + v.d_best + d_step
    let s := sup_norm theta v.d_best d_step
    let gamma := s * L.sqrt
      (Dbl.max (Dbl.fin 0) (Dbl.sq (theta / s) - (v.d_best / s) * (d_step / s)))
    let gamma := if v.step > v.st_best then -gamma else gamma
    let p := (gamma - d_step) + theta
    let q := (gamma + (v.d_best - d_step)) + gamma
    let r := p / q
    let step_c :=
      if r < Dbl.fin 0 ∧ Dbl.bne gamma (Dbl.fin 0) = true then v.step + r * (v.st_best - v.step)
      else if v.step > v.st_best then step_max
      else step_min
    let step_q := v.step + (d_step / (d_step - v.d_best)) * (v.st_best - v.step)
    let step_f :=
      if v.bracket then
        if Dbl.abs (v.step - step_c) < Dbl.abs (v.step - step_q) then step_c else step_q
      else
        if Dbl.abs (v.step - step_c) > Dbl.abs (v.step - step_q) then step_c else step_q
    (3, true, step_f, v.bracket)
  else
    let step_f :=
      if v.bracket then
        let theta := Dbl.fin 3 * (f_step - v.f_other) / (v.st_other - v.step) + v.d_other + d_step
        let s := sup_norm theta v.d_other d_step
        let gamma := s * L.sqrt (Dbl.sq (theta / s) - (v.d_other / s) * (d_step / s))
        let gamma := if v.step > v.st_other then -gamma else gamma
        let p := (gamma - d_step) + theta
        let q := ((gamma - d_step) + gamma) + v.d_other
        let r := p / q
        let step_c := v.step + r * (v.st_other - v.step)
        step_c
      else if v.step > v.st_best then step_max
      else step_min
    (4, false, step_f, v.bracket)

/-- The method `interv_uncert` (lfbgsb.hpp:503-706): the updated reference arguments and the
returned `info`. -/
def interv_uncert (L : Libm α) (v : Interval α) (f_step d_step step_min step_max : Dbl α) :
    Interval α × Nat :=
  let sgnd := d_step * (v.d_best / Dbl.abs v.d_best)
  match interv_uncert_cases L v f_step d_step step_min step_max with
  | (info, bound, step_f, bracket) =>
    -- actually perform update of the interval
    let v₁ : Interval α :=
      if f_step > v.f_best then
        { v with st_other := v.step, f_other := f_step, d_other := d_step }
      else
        let w : Interval α :=
          if sgnd < Dbl.fin 0 then
            { v with st_other := v.st_best, f_other := v.f_best, d_other := v.d_best }
          else v
        { w with st_best := v.step, f_best := f_step, d_best := d_step }
    -- compute new step
    let step_f := Dbl.min step_max step_f
    let step_f := Dbl.max step_min step_f
    let step := step_f
    let step :=
      if bracket = true ∧ bound = true then
        if v₁.st_other > v₁.st_best then
          Dbl.min (v₁.st_best + Dbl.fin (66 / 100) * (v₁.st_other - v₁.st_best)) step
        else
          Dbl.max (v₁.st_best + Dbl.fin (66 / 100) * (v₁.st_other - v₁.st_best)) step
      else step
    ({ v₁ with step := step, bracket := bracket }, info)

end LFBGSB

namespace LFBGSB

variable {α : Type} [LinearOrderedField α] {n : Nat}

/-- The local variables of `LineSearch` that live across passes of its `while (1)` loop. -/
structure LSState (α : Type) where
  step : Dbl α
  iter : Nat
  infoc : Nat
  bracket : Bool
  stage_1 : Bool
  width : Dbl α
  width_old : Dbl α
  st_best : Dbl α
  f_best : Dbl α
  dgrad_best : Dbl α
  st_other : Dbl α
  f_other : Dbl α
  dgrad_other : Dbl α

/-- What `LineSearch` returns and leaves in its reference arguments `x` and `grad`. -/
structure LSResult (α : Type) (n : Nat) where
  step : Dbl α
  x : Vec α n
  grad : Vec α n

/-- The local `st_min` of a pass of `LineSearch` (lfbgsb.hpp:749-760). -/
def lsMin (st : LSState α) : Dbl α :=
  if st.bracket then Dbl.min st.st_best st.st_other else st.st_best

/-- The local `st_max` of a pass of `LineSearch` (lfbgsb.hpp:749-760), with
`extra_delta = 4`. -/
def lsMax (st : LSState α) : Dbl α :=
  if st.bracket then Dbl.max st.st_best st.st_other
  else st.step + Dbl.fin 4 * (st.step - st.st_best)

/-- The step at which a pass of `LineSearch` evaluates the objective (lfbgsb.hpp:762-767),
with `step_min = 0`, `step_max = 10`, `iter_max = 100`, `x_tol = 1e-4`; `iter` is the
counter after `iter++`. -/
def lsTrialStep (st : LSState α) (iter : Nat) : Dbl α :=
  let step := Dbl.min (Dbl.max st.step (Dbl.fin 0)) (Dbl.fin 10)
  if (st.bracket = true ∧ (step ≤ lsMin st ∨ step ≥ lsMax st)) ∨ iter ≥ 100 - 1
      ∨ st.infoc = 0
      ∨ (st.bracket = true ∧ lsMax st - lsMin st ≤ Dbl.fin (1 / 10 ^ 4) * lsMax st) then
    st.st_best
  else step

/-- The stop conditions of a pass of `LineSearch` (lfbgsb.hpp:774-800): the value of `info`
when the pass reaches `if (info != 0)`. -/
def lsInfo (st : LSState α) (iter : Nat)
    (step f_step dgrad armijo_check_val dgrad_init dgrad_test : Dbl α) : Nat :=
  let info : Nat := 0
  let info :=
    if (st.bracket = true ∧ (step ≤ lsMin st ∨ step ≥ lsMax st)) ∨ st.infoc = 0 then 6
    else info
  let info :=
    if Dbl.beq step (Dbl.fin 10) = true ∧ f_step ≤ armijo_check_val ∧ dgrad ≤ dgrad_test then 5
    else info
  let info :=
    if Dbl.beq step (Dbl.fin 0) = true ∧ (f_step > armijo_check_val ∨ dgrad ≥ dgrad_test)
    then 4
    else info
  let info := if iter ≥ 100 then 3 else info
  let info :=
    if st.bracket = true ∧ lsMax st - lsMin st ≤ Dbl.fin (1 / 10 ^ 4) * lsMax st then 2
    else info
  -- strong Wolfe conditions
  let info :=
    if f_step ≤ armijo_check_val ∧ Dbl.abs dgrad ≤ wolfe2 * (-dgrad_init) then 1 else info
  info

/-- The flag `stage_1` after lfbgsb.hpp:807-810. -/
def lsStage (st : LSState α) (f_step dgrad armijo_check_val dgrad_init : Dbl α) : Bool :=
  if st.stage_1 = true ∧ f_step ≤ armijo_check_val
      ∧ dgrad ≥ Dbl.min wolfe1 wolfe2 * dgrad_init then false
  else st.stage_1

/-- The call of `interv_uncert` in a pass of `LineSearch` (lfbgsb.hpp:812-833): the updated
interval, `infoc`, and the new `f_best`, `f_other`, `dgrad_best`, `dgrad_other`. -/
def lsInterval (L : Libm α) (st : LSState α) (stage_1 : Bool)
    (step f_step dgrad armijo_check_val dgrad_test : Dbl α) :
    Interval α × Nat × Dbl α × Dbl α × Dbl α × Dbl α :=
  if stage_1 = true ∧ f_step ≤ st.f_best ∧ f_step > armijo_check_val then
    let f_mod := f_step - step * dgrad_test
    let f_best_mod := st.f_best - st.st_best * dgrad_test
    let f_other_mod := st.f_other - st.st_other * dgrad_test
    let dgrad_mod := dgrad - dgrad_test
    let dgrad_best_mod := st.dgrad_best - dgrad_test
    let dgrad_other_mod := st.dgrad_other - dgrad_test
    let u := interv_uncert L
      { st_best := st.st_best, f_best := f_best_mod, d_best := dgrad_best_mod,
        st_other := st.st_other, f_other := f_other_mod, d_other := dgrad_other_mod,
        step := step, bracket := st.bracket } f_mod dgrad_mod (lsMin st) (lsMax st)
    (u.1, u.2, u.1.f_best + u.1.st_best * dgrad_test, u.1.f_other + u.1.st_other * dgrad_test,
      u.1.d_best + dgrad_test, u.1.d_other + dgrad_test)
  else
    let u := interv_uncert L
      { st_best := st.st_best, f_best := st.f_best, d_best := st.dgrad_best,
        st_other := st.st_other, f_other := st.f_other, d_other := st.dgrad_other,
        step := step, bracket := st.bracket } f_step dgrad (lsMin st) (lsMax st)
    (u.1, u.2, u.1.f_best, u.1.f_other, u.1.d_best, u.1.d_other)

/-- The locals of `LineSearch` at the end of a pass that does not return
(lfbgsb.hpp:807-844). -/
def lsNext (L : Libm α) (st : LSState α) (iter : Nat)
    (step f_step dgrad armijo_check_val dgrad_init dgrad_test : Dbl α) : LSState α :=
  let stage_1 := lsStage st f_step dgrad armijo_check_val dgrad_init
  let r := lsInterval L st stage_1 step f_step dgrad armijo_check_val dgrad_test
  let v := r.1
  { step :=
      if v.bracket = true
          ∧ Dbl.abs (v.st_other - v.st_best) ≥ Dbl.fin (66 / 100) * st.width_old
      then v.st_best + Dbl.fin (5 / 10) * (v.st_other - v.st_best)
      else v.step
    iter := iter
    infoc := r.2.1
    bracket := v.bracket
    stage_1 := stage_1
    width := if v.bracket then Dbl.abs (v.st_other - v.st_best) else st.width
    width_old := if v.bracket then st.width else st.width_old
    st_best := v.st_best
    f_best := r.2.2.1
    dgrad_best := r.2.2.2.2.1
    st_other := v.st_other
    f_other := r.2.2.2.1
    dgrad_other := r.2.2.2.2.2 }

/-- One pass through the `while (1)` loop of `LineSearch` (lfbgsb.hpp:745-845): either the
function returns (`Sum.inl`) or the loop goes on with new values of the locals (`Sum.inr`). -/
def lineSearchPass (S : LFBGSB α n) (x_0 dir : Vec α n) (f_init dgrad_init dgrad_test : Dbl α)
    (st : LSState α) : LSResult α n ⊕ LSState α :=
  let iter := st.iter + 1
  let step := lsTrialStep st iter
  let x := Vec.add x_0 (Vec.smul step dir)
  let f_step := (S.objFunc x).1
  let grad := (S.objFunc x).2
  let dgrad := Vec.dot grad dir
  let armijo_check_val := f_init + step * dgrad_test
  if lsInfo st iter step f_step dgrad armijo_check_val dgrad_init dgrad_test ≠ 0 then
    Sum.inl { step := step, x := x, grad := grad }
  else
    Sum.inr (lsNext S.libm st iter step f_step dgrad armijo_check_val dgrad_init dgrad_test)

/-- The `while (1)` loop of `LineSearch`; `passes` bounds the number of passes, `none` when
the bound is reached without a return. -/
def lineSearchLoop (S : LFBGSB α n) (x_0 dir : Vec α n) (f_init dgrad_init dgrad_test : Dbl α) :
    Nat → LSState α → Option (LSResult α n)
  | 0, _ => none
  | passes + 1, st =>
    match lineSearchPass S x_0 dir f_init dgrad_init dgrad_test st with
    | Sum.inl r => some r
    | Sum.inr st' => lineSearchLoop S x_0 dir f_init dgrad_init dgrad_test passes st'

/-- The method `LineSearch(x, grad, dir)` (lfbgsb.hpp:710-848).  The loop is given
`iter_max = 100` passes, the pass in which the source sets `info = 3`. -/
def LineSearch (S : LFBGSB α n) (x _grad dir : Vec α n) : Option (LSResult α n) :=
  let step : Dbl α := Dbl.fin 1
  let step_min : Dbl α := Dbl.fin 0
  let step_max : Dbl α := Dbl.fin 10
  let x_0 := x
  let f_step := (S.objFunc x).1
  let grad := (S.objFunc x).2
  let dgrad_init := Vec.dot grad dir
  if dgrad_init ≥ Dbl.fin 0 then
    some { step := step, x := x, grad := grad }
  else
    let f_init := f_step
    let dgrad_test := wolfe1 * dgrad_init
    let width := step_max - step_min
    let width_old := Dbl.fin 2 * width
    lineSearchLoop S x_0 dir f_init dgrad_init dgrad_test 100
      { step := step, iter := 0, infoc := 1, bracket := false, stage_1 := true,
        width := width, width_old := width_old,
        st_best := Dbl.fin 0, f_best := f_init, dgrad_best := dgrad_init,
        st_other := Dbl.fin 0, f_other := f_init, dgrad_other := dgrad_init }

end LFBGSB

namespace LFBGSB

variable {α : Type} [LinearOrderedField α] {n : Nat}

/-- The first loop of `step` (lfbgsb.hpp:900-906) over the columns listed in `cols`:
the vector `q` and the coefficients `alpha`. -/
def stepForward (s_mat y_mat : Nat → Vec α n) :
    List Nat → Vec α n × (Nat → Dbl α) → Vec α n × (Nat → Dbl α)
  | [], acc => acc
  | i :: cols, (q, alpha) =>
    let rho := Dbl.fin 1 / Vec.dot (y_mat i) (s_mat i)
    let a := rho * Vec.dot (s_mat i) q
    stepForward s_mat y_mat cols (Vec.sub q (Vec.smul a (y_mat i)), Function.update alpha i a)

/-- The second loop of `step` (lfbgsb.hpp:910-916) over the columns listed in `cols`. -/
def stepBackward (s_mat y_mat : Nat → Vec α n) (alpha : Nat → Dbl α) :
    List Nat → Vec α n → Vec α n
  | [], r => r
  | i :: cols, r =>
    let rho := Dbl.fin 1 / Vec.dot (y_mat i) (s_mat i)
    let beta := rho * Vec.dot (y_mat i) r
    stepBackward s_mat y_mat alpha cols (Vec.add r (Vec.smul (alpha i - beta) (s_mat i)))

/-- The method `step(g, s_mat, y_mat, M, r)` (lfbgsb.hpp:895-917), the two-loop recursion;
the result is the vector written to `r`. -/
def step (g : Vec α n) (s_mat y_mat : Nat → Vec α n) (M : Nat) : Vec α n :=
  let fwd := stepForward s_mat y_mat (List.range M) (g, fun _ => Dbl.fin 0)
  let q := fwd.1
  let alpha := fwd.2
  let r := Vec.divs (Vec.muls q (Vec.dot (s_mat 0) (y_mat 0))) (Vec.dot (y_mat 0) (y_mat 0))
  stepBackward s_mat y_mat alpha (List.range M).reverse r

/-- The two statements `H.rightCols(m - 1) = H.leftCols(m - 2).eval(); H.col(0) = v;`
(lfbgsb.hpp:1005-1009) on a history matrix given by its columns: columns `1 .. m-2` receive
the old columns `0 .. m-3`, column `m-1` receives what lies behind the `m-2` columns of the
temporary (`pastEnd`), and column 0 receives `v`. -/
def shiftHistory (H : Nat → Vec α n) (pastEnd v : Vec α n) : Nat → Vec α n :=
  fun j =>
    if j = 0 then v
    else if j ≤ m - 2 then H (j - 1)
    else if j = m - 1 then pastEnd
    else H j

/-- The local variables of `Solve` that live across passes of its main loop. -/
structure SolveState (α : Type) (n : Nat) where
  x : Vec α n
  g : Vec α n
  x_prev : Vec α n
  g_prev : Vec α n
  err : Dbl α
  k : Nat
  sHistory : Nat → Vec α n
  yHistory : Nat → Vec α n

/-- The main loop `while (err > tol && k < maxIter)` of `Solve` (lfbgsb.hpp:975-1010) with
`remaining = maxIter - k` passes left; the result is the value of `x_prev` when the loop is
left, `none` when a line search does not return. -/
def solveLoop (S : LFBGSB α n) : Nat → SolveState α n → Option (Vec α n)
  | 0, st => some st.x_prev
  | remaining + 1, st =>
    if st.err > tol then
      let k := st.k + 1
      let r := step st.g st.sHistory st.yHistory (Nat.min k m)
      let d := Vec.neg r
      match LineSearch S st.x_prev st.g_prev d with
      | none => none
      | some ls =>
        let x_prev := ls.x
        let g_prev := ls.grad
        let err := Vec.norm S.libm g_prev
        if err ≤ tol then some x_prev
        else
          let s := Vec.sub x_prev st.x
          let y := Vec.sub g_prev st.g
          let err := Vec.norm S.libm s
          if Vec.anyNaN g_prev then some st.x
          else
            solveLoop S remaining
              { x := x_prev, g := g_prev, x_prev := x_prev, g_prev := g_prev, err := err, k := k,
                sHistory := shiftHistory st.sHistory (S.sPastEnd k) s,
                yHistory := shiftHistory st.yHistory (S.yPastEnd k) y }
    else some st.x_prev

/-- The three places where `Solve` assigns `XOpt`: `XOpt = x0` (line 937), `XOpt = x_prev`
after the first line search (line 952), `invTransform(x_prev, XOpt)` (line 1014). -/
inductive SolveExit where
  | startPoint
  | afterFirstSearch
  | final
  deriving DecidableEq

/-- What a call of `Solve` leaves behind: the member `XOpt`, and for the statements about it
the place where it was assigned and the unconstrained vector it was computed from. -/
structure SolveResult (α : Type) (n : Nat) where
  XOpt : Vec α n
  exit : SolveExit
  iterate : Vec α n

/-- The method `Solve(x0)` (lfbgsb.hpp:919-1015) for a start point and bounds of one
dimension `n` (so that both `Assert`s pass); `none` when a line search does not return. -/
def Solve (S : LFBGSB α n) (x0 : Vec α n) : Option (SolveResult α n) :=
  let x := S.transform x0
  let g := (S.objFunc x).2
  let err := Vec.norm S.libm g
  if err ≤ tol then
    some { XOpt := x0, exit := SolveExit.startPoint, iterate := x }
  else
    let d := Vec.neg g
    let x_prev := x
    let g_prev := g
    match LineSearch S x_prev g_prev d with
    | none => none
    | some ls =>
      let x_prev := ls.x
      let g_prev := ls.grad
      let err := Vec.norm S.libm g
      if err ≤ tol then
        some { XOpt := x_prev, exit := SolveExit.afterFirstSearch, iterate := x_prev }
      else
        let s := Vec.sub x_prev x
        let y := Vec.sub g_prev g
        let sHistory : Nat → Vec α n := fun j => if j = 0 then s else S.sUninit j
        let yHistory : Nat → Vec α n := fun j => if j = 0 then y else S.yUninit j
        let g := g_prev
        match solveLoop S maxIter
            { x := x, g := g, x_prev := x_prev, g_prev := g_prev, err := err, k := 0,
              sHistory := sHistory, yHistory := yHistory } with
        | none => none
        | some x_final =>
          some { XOpt := S.invTransform x_final, exit := SolveExit.final, iterate := x_final }

end LFBGSB

/-- An `LFBGSB` object of dimension `n` with the bounds `lb`, `ub` in every coordinate whose
objective `functionValue` returns `value` at every point. -/
def constantObjective {α : Type} (n : Nat) (L : Libm α) (lb ub : α) (value : Dbl α) :
    LFBGSB α n where
  lb := fun _ => Dbl.fin lb
  ub := fun _ => Dbl.fin ub
  libm := L
  functionValue := fun _ => value
  sUninit := fun _ _ => Dbl.nan
  yUninit := fun _ _ => Dbl.nan
  sPastEnd := fun _ _ => Dbl.nan
  yPastEnd := fun _ _ => Dbl.nan

/-! ## RTOP from the state (`Tractography::computeRTOPfromState`, `ukf/tractography.cc`) -/

/-- The clamping statements of `computeRTOPfromState` (tractography.cc:920-958), in the order
of the source: `state[k] = std::max(state[k], lo)` and `state[k] = std::min(state[k], hi)`. -/
def clampState {α : Type} [LinearOrderedField α] (state : Nat → Dbl α) : Nat → Dbl α :=
  let state := assignEntry state 3 (Dbl.max (state 3) (Dbl.fin 1))
  let state := assignEntry state 4 (Dbl.max (state 4) (Dbl.fin 1))
  let state := assignEntry state 5 (Dbl.max (state 5) (Dbl.fin (1 / 10)))
  let state := assignEntry state 6 (Dbl.max (state 6) (Dbl.fin (1 / 10)))
  let state := assignEntry state 3 (Dbl.min (state 3) (Dbl.fin 3000))
  let state := assignEntry state 4 (Dbl.min (state 4) (Dbl.fin 3000))
  let state := assignEntry state 5 (Dbl.min (state 5) (Dbl.fin 3000))
  let state := assignEntry state 6 (Dbl.min (state 6) (Dbl.fin 3000))
  let state := assignEntry state 10 (Dbl.max (state 10) (Dbl.fin 1))
  let state := assignEntry state 11 (Dbl.max (state 11) (Dbl.fin 1))
  let state := assignEntry state 12 (Dbl.max (state 12) (Dbl.fin (1 / 10)))
  let state := assignEntry state 13 (Dbl.max (state 13) (Dbl.fin (1 / 10)))
  let state := assignEntry state 10 (Dbl.min (state 10) (Dbl.fin 3000))
  let state := assignEntry state 11 (Dbl.min (state 11) (Dbl.fin 3000))
  let state := assignEntry state 12 (Dbl.min (state 12) (Dbl.fin 3000))
  let state := assignEntry state 13 (Dbl.min (state 13) (Dbl.fin 3000))
  let state := assignEntry state 17 (Dbl.max (state 17) (Dbl.fin 1))
  let state := assignEntry state 18 (Dbl.max (state 18) (Dbl.fin 1))
  let state := assignEntry state 19 (Dbl.max (state 19) (Dbl.fin (1 / 10)))
  let state := assignEntry state 20 (Dbl.max (state 20) (Dbl.fin (1 / 10)))
  let state := assignEntry state 17 (Dbl.min (state 17) (Dbl.fin 3000))
  let state := assignEntry state 18 (Dbl.min (state 18) (Dbl.fin 3000))
  let state := assignEntry state 19 (Dbl.min (state 19) (Dbl.fin 3000))
  let state := assignEntry state 20 (Dbl.min (state 20) (Dbl.fin 3000))
  let state := assignEntry state 21 (Dbl.max (state 21) (Dbl.fin 0))
  let state := assignEntry state 22 (Dbl.max (state 22) (Dbl.fin 0))
  let state := assignEntry state 23 (Dbl.max (state 23) (Dbl.fin 0))
  let state := assignEntry state 24 (Dbl.max (state 24) (Dbl.fin 0))
  let state := assignEntry state 21 (Dbl.min (state 21) (Dbl.fin 1))
  let state := assignEntry state 22 (Dbl.min (state 22) (Dbl.fin 1))
  let state := assignEntry state 23 (Dbl.min (state 23) (Dbl.fin 1))
  let state := assignEntry state 24 (Dbl.min (state 24) (Dbl.fin 1))
  state

/-- The four results `rtop`, `rtop1`, `rtop2`, `rtop3` of `computeRTOPfromState`. -/
structure RTOP (α : Type) where
  rtop : Dbl α
  rtop1 : Dbl α
  rtop2 : Dbl α
  rtop3 : Dbl α

/-- The computation of `computeRTOPfromState` after the clamping (tractography.cc:963-1000).
`D_ISO` is the constant of that name and `PI_COEFF` the value of `std::pow(UKF_PI, 1.5)`; both
constants are defined outside the files at hand. -/
def rtopOfState {α : Type} [LinearOrderedField α] (L : Libm α) (D_ISO PI_COEFF : Dbl α)
    (state : Nat → Dbl α) : RTOP α :=
  let l11 := state 3 * Dbl.fin (1 / 10 ^ 6)
  let l12 := state 4 * Dbl.fin (1 / 10 ^ 6)
  let l13 := state 5 * Dbl.fin (1 / 10 ^ 6)
  let l14 := state 6 * Dbl.fin (1 / 10 ^ 6)
  let l21 := state 10 * Dbl.fin (1 / 10 ^ 6)
  let l22 := state 11 * Dbl.fin (1 / 10 ^ 6)
  let l23 := state 12 * Dbl.fin (1 / 10 ^ 6)
  let l24 := state 13 * Dbl.fin (1 / 10 ^ 6)
  let l31 := state 17 * Dbl.fin (1 / 10 ^ 6)
  let l32 := state 18 * Dbl.fin (1 / 10 ^ 6)
  let l33 := state 19 * Dbl.fin (1 / 10 ^ 6)
  let l34 := state 20 * Dbl.fin (1 / 10 ^ 6)
  let w1 := state 21
  let w2 := state 22
  let w3 := state 23
  let wiso := state 24
  let det_l1 := l11 * l12
  let det_t1 := l13 * l14
  let det_l2 := l21 * l22
  let det_t2 := l23 * l24
  let det_l3 := l31 * l32
  let det_t3 := l33 * l34
  let det_fw := D_ISO * D_ISO * D_ISO
  let rtop1 := PI_COEFF * w1
    * (Dbl.fin (7 / 10) / L.sqrt det_l1 + Dbl.fin (3 / 10) / L.sqrt det_t1)
  let rtop2 := PI_COEFF * w2
    * (Dbl.fin (7 / 10) / L.sqrt det_l2 + Dbl.fin (3 / 10) / L.sqrt det_t2)
  let rtop3 := PI_COEFF * w3
    * (Dbl.fin (7 / 10) / L.sqrt det_l3 + Dbl.fin (3 / 10) / L.sqrt det_t3)
  let rtop := rtop1 + rtop2 + rtop3 + PI_COEFF * (wiso / L.sqrt det_fw)
  { rtop := rtop, rtop1 := rtop1, rtop2 := rtop2, rtop3 := rtop3 }

/-- The method `Tractography::computeRTOPfromState(state, rtop, rtop1, rtop2, rtop3)`
(tractography.cc:918-1001): the state it leaves in its reference argument and the four values
it writes. -/
def computeRTOPfromState {α : Type} [LinearOrderedField α] (L : Libm α)
    (D_ISO PI_COEFF : Dbl α) (state : Nat → Dbl α) : (Nat → Dbl α) × RTOP α :=
  (clampState state, rtopOfState L D_ISO PI_COEFF (clampState state))

/-- The value `v` clamped to the range from `lo` to `hi`: `lo` below the range, `hi` above
it, `v` itself inside. -/
def clampTo {α : Type} [LinearOrderedField α] (lo hi : α) (v : Dbl α) : Dbl α :=
  match v with
  | Dbl.nan => Dbl.nan
  | Dbl.pinf => Dbl.fin hi
  | Dbl.ninf => Dbl.fin lo
  | Dbl.fin x => if x < lo then Dbl.fin lo else if hi < x then Dbl.fin hi else Dbl.fin x

/-- The lower end of the valid range of state entry `k`: 1 for a fast diffusivity, 0.1 for a
slow one, 0 for a weight. -/
def rangeLo {α : Type} [LinearOrderedField α] (k : Nat) : α :=
  if k = 3 ∨ k = 4 ∨ k = 10 ∨ k = 11 ∨ k = 17 ∨ k = 18 then 1
  else if k = 5 ∨ k = 6 ∨ k = 12 ∨ k = 13 ∨ k = 19 ∨ k = 20 then 1 / 10
  else 0

/-- The upper end of the valid range of state entry `k`: 3000 for a diffusivity, 1 for a
weight. -/
def rangeHi {α : Type} [LinearOrderedField α] (k : Nat) : α :=
  if 21 ≤ k then 1 else 3000

/-- The closed form in the words of the specification for one compartment:
`rtop_i = pi^1.5 * w_i * (0.7 / sqrt(det_fast) + 0.3 / sqrt(det_slow))`, where `det_fast` and
`det_slow` are the determinants of the fast and of the slow diffusivity tensor of the
compartment, the axially symmetric tensors with the eigenvalues `(a, b, b)`: the product
`a * b * b` of the diffusivities scaled by `1e-6`. -/
def rtopClosedForm {α : Type} [LinearOrderedField α] (L : Libm α) (PI_COEFF : Dbl α)
    (w fast₁ fast₂ slow₁ slow₂ : Dbl α) : Dbl α :=
  let det_fast := (fast₁ * Dbl.fin (1 / 10 ^ 6)) * (fast₂ * Dbl.fin (1 / 10 ^ 6))
    * (fast₂ * Dbl.fin (1 / 10 ^ 6))
  let det_slow := (slow₁ * Dbl.fin (1 / 10 ^ 6)) * (slow₂ * Dbl.fin (1 / 10 ^ 6))
    * (slow₂ * Dbl.fin (1 / 10 ^ 6))
  PI_COEFF * w * (Dbl.fin (7 / 10) / L.sqrt det_fast + Dbl.fin (3 / 10) / L.sqrt det_slow)

/-! ## Seed refinement (`Tractography::NonLinearLeastSquareOptimization`, `ukf/tractography.cc`) -/

/-- The vector whose entry `j` is `state(idx j)`: the statements
`fixed_params(j) = state(idx j)` and `state_temp(j) = state(idx j)`. -/
def gather {α : Type} {n : Nat} (idx : Fin n → Nat) (state : Nat → α) : Fin n → α :=
  fun j => state (idx j)

/-- The statements `state(idx j) = v(j)` for `j = 0, 1, ..., n - 1`, in this order. -/
def scatter {α : Type} {n : Nat} (idx : Fin n → Nat) (v : Fin n → α) (state : Nat → α) :
    Nat → α :=
  Fin.foldl n (fun s j => assignEntry s (idx j) (v j)) state

/-- The state indices copied to `fixed_params` in the first phase (tractography.cc:1023-1035):
the three orientation triples and the three compartment weights. -/
def fixedIndex1 : Fin 12 → Nat := ![0, 1, 2, 7, 8, 9, 14, 15, 16, 21, 22, 23]

/-- The state indices copied to `state_temp` in the first phase (tractography.cc:1038-1051):
the twelve diffusivities and the free-water weight. -/
def freeIndex1 : Fin 13 → Nat := ![3, 4, 5, 6, 10, 11, 12, 13, 17, 18, 19, 20, 24]

/-- The state indices copied to `fixed_params` in the second phase (tractography.cc:1140-1161). -/
def fixedIndex2 : Fin 22 → Nat :=
  ![0, 1, 2, 3, 4, 5, 6, 7, 8, 9, 10, 11, 12, 13, 14, 15, 16, 17, 18, 19, 20, 24]

/-- The state indices copied to `state_temp` in the second phase (tractography.cc:1164-1166). -/
def freeIndex2 : Fin 3 → Nat := ![21, 22, 23]

/-- The vector `lowerBound` (tractography.cc:1054-1071). -/
def lowerBound {α : Type} [LinearOrderedField α] : Fin 13 → α :=
  ![1, 1, 1 / 10, 1 / 10, 1, 1, 1 / 10, 1 / 10, 1, 1, 1 / 10, 1 / 10, 0]

/-- The vector `upperBound` (tractography.cc:1074-1086). -/
def upperBound {α : Type} [LinearOrderedField α] : Fin 13 → α :=
  ![3000, 3000, 3000, 3000, 3000, 3000, 3000, 3000, 3000, 3000, 3000, 3000, 1]

/-- The vector `lowerBound2` (tractography.cc:1174). -/
def lowerBound2 {α : Type} [LinearOrderedField α] : Fin 3 → α := ![0, 0, 0]

/-- The vector `upperBound2` (tractography.cc:1177). -/
def upperBound2 {α : Type} [LinearOrderedField α] : Fin 3 → α := ![1, 1, 1]

/-- What the `LFBGSB` object of `NonLinearLeastSquareOptimization` contributes besides its
bounds.  The constructor `LFBGSB(_model)` and the setters `setSignal`, `setFixed` and `setPhase`
are not in the files at hand, so the objective that `Solve` minimises is a parameter: a function
of the signal, of the fixed parameters and of the point, one for each phase.  The remaining
fields are the `<cmath>` functions and the memory that `Solve` reads without having written it
(see `LFBGSB`), for the 13-dimensional and for the 3-dimensional run. -/
structure Optimizer (α : Type) where
  libm : Libm α
  functionValue1 : (Nat → Dbl α) → Vec α 12 → Vec α 13 → Dbl α
  functionValue2 : (Nat → Dbl α) → Vec α 22 → Vec α 3 → Dbl α
  sUninit1 : Nat → Vec α 13
  yUninit1 : Nat → Vec α 13
  sPastEnd1 : Nat → Vec α 13
  yPastEnd1 : Nat → Vec α 13
  sUninit2 : Nat → Vec α 3
  yUninit2 : Nat → Vec α 3
  sPastEnd2 : Nat → Vec α 3
  yPastEnd2 : Nat → Vec α 3

/-- The solver object after `setSignal(signal)`, `setFixed(fixed_params)`,
`setLowerBound(lowerBound)`, `setUpperBound(upperBound)` and `setPhase(1)`
(tractography.cc:1089-1094). -/
def Optimizer.phase1 {α : Type} [LinearOrderedField α] (O : Optimizer α)
    (signal : Nat → Dbl α) (fixed_params : Vec α 12) : LFBGSB α 13 where
  lb := fun i => Dbl.fin (lowerBound i)
  ub := fun i => Dbl.fin (upperBound i)
  libm := O.libm
  functionValue := O.functionValue1 signal fixed_params
  sUninit := O.sUninit1
  yUninit := O.yUninit1
  sPastEnd := O.sPastEnd1
  yPastEnd := O.yPastEnd1

/-- The solver object after `setSignal(signal)`, `setFixed(fixed_params)`,
`setLowerBound(lowerBound2)`, `setUpperBound(upperBound2)` and `setPhase(2)`
(tractography.cc:1180-1184). -/
def Optimizer.phase2 {α : Type} [LinearOrderedField α] (O : Optimizer α)
    (signal : Nat → Dbl α) (fixed_params : Vec α 22) : LFBGSB α 3 where
  lb := fun i => Dbl.fin (lowerBound2 i)
  ub := fun i => Dbl.fin (upperBound2 i)
  libm := O.libm
  functionValue := O.functionValue2 signal fixed_params
  sUninit := O.sUninit2
  yUninit := O.yUninit2
  sPastEnd := O.sPastEnd2
  yPastEnd := O.yPastEnd2

/-- The first phase of `NonLinearLeastSquareOptimization` (tractography.cc:1022-1131): the
state after the write-back of `fixed_params` and of `state_temp = _lbfgsb->XOpt`; `none` when
`Solve` does not return. -/
def optimizePhase1 {α : Type} [LinearOrderedField α] (O : Optimizer α)
    (state : Nat → Dbl α) (signal : Nat → Dbl α) : Option (Nat → Dbl α) :=
  let fixed_params := gather fixedIndex1 state
  let state_temp := gather freeIndex1 state
  match LFBGSB.Solve (O.phase1 signal fixed_params) state_temp with
  | none => none
  | some r =>
    let state_temp := r.XOpt
    let state := scatter fixedIndex1 fixed_params state
    some (scatter freeIndex1 state_temp state)

/-- The second phase of `NonLinearLeastSquareOptimization` (tractography.cc:1139-1217), run on
the state the first phase leaves. -/
def optimizePhase2 {α : Type} [LinearOrderedField α] (O : Optimizer α)
    (state : Nat → Dbl α) (signal : Nat → Dbl α) : Option (Nat → Dbl α) :=
  let fixed_params := gather fixedIndex2 state
  let state_temp := gather freeIndex2 state
  match LFBGSB.Solve (O.phase2 signal fixed_params) state_temp with
  | none => none
  | some r =>
    let state_temp := r.XOpt
    let state := scatter fixedIndex2 fixed_params state
    some (scatter freeIndex2 state_temp state)

/-- The method `Tractography::NonLinearLeastSquareOptimization(state, signal)`
(tractography.cc:1017-1220): the state it leaves in its reference argument. -/
def NonLinearLeastSquareOptimization {α : Type} [LinearOrderedField α] (O : Optimizer α)
    (state : Nat → Dbl α) (signal : Nat → Dbl α) : Option (Nat → Dbl α) :=
  match optimizePhase1 O state signal with
  | none => none
  | some state => optimizePhase2 O state signal

/-- An `Optimizer` whose objective returns `value` at every point in both phases. -/
def constantOptimizer {α : Type} (L : Libm α) (value : Dbl α) : Optimizer α where
  libm := L
  functionValue1 := fun _ _ _ => value
  functionValue2 := fun _ _ _ => value
  sUninit1 := fun _ _ => Dbl.nan
  yUninit1 := fun _ _ => Dbl.nan
  sPastEnd1 := fun _ _ => Dbl.nan
  yPastEnd1 := fun _ _ => Dbl.nan
  sUninit2 := fun _ _ => Dbl.nan
  yUninit2 := fun _ _ => Dbl.nan
  sPastEnd2 := fun _ _ => Dbl.nan
  yPastEnd2 := fun _ _ => Dbl.nan

/-! ## Seed selection (`Tractography::Init`, `ukf/tractography.cc`) -/

/-- The Eigen product `a.cross(b)` of two 3-vectors. -/
def cross {α : Type} [LinearOrderedField α] (a b : Vec α 3) : Vec α 3 :=
  ![a 1 * b 2 - a 2 * b 1, a 2 * b 0 - a 0 * b 2, a 0 * b 1 - a 1 * b 0]

/-- What `FindODFMaxima` writes (the routine is not in the files at hand): the indices
`exe_vol` of the maxima (`exe_vol_size` of them), their directions, row by row, and the number
of directions `n_of_dirs`. -/
structure ODFMaxima (α : Type) where
  exe_vol : Nat → Nat
  exe_vol_size : Nat
  dir_vol : Nat → Vec α 3
  n_of_dirs : Nat

/-- The vector `ODF_val_at_max` after `setZero()` and the loop over the first
`min(exe_vol.size(), 6)` maxima (tractography.cc:525-530). -/
def ODF_val_at_max {α : Type} [LinearOrderedField α] (ODF : Nat → Dbl α) (M : ODFMaxima α) :
    Nat → Dbl α :=
  fun j => if j < Nat.min M.exe_vol_size 6 then ODF (M.exe_vol j) else Dbl.fin 0

/-- The local variables `dir_init`, `w1_init`, `w2_init`, `w3_init` of `Init`. -/
structure CoarseInit (α : Type) where
  dir_init : Nat → Vec α 3
  w1_init : Dbl α
  w2_init : Dbl α
  w3_init : Dbl α

/-- The statements of `Init` headed "STEP 1" (tractography.cc:533-587): the initial directions
and weights for the number of directions found. -/
def coarseInit {α : Type} [LinearOrderedField α] (L : Libm α) (ODF : Nat → Dbl α)
    (M : ODFMaxima α) : CoarseInit α :=
  let zero : Vec α 3 := fun _ => Dbl.fin 0
  let w1_init := ODF_val_at_max ODF M 0
  let row0 := M.dir_vol 0
  if M.n_of_dirs = 1 then
    let orthogonal : Vec α 3 := ![-(M.dir_vol 0 1), M.dir_vol 0 0, Dbl.fin 0]
    let orthogonal := Vec.divs orthogonal (Vec.norm L orthogonal)
    let orthogonal2 := cross row0 orthogonal
    let orthogonal2 := Vec.divs orthogonal2 (Vec.norm L orthogonal2)
    { dir_init := fun r => if r = 0 then row0 else if r = 1 then orthogonal
        else if r = 2 then orthogonal2 else zero,
      w1_init := Dbl.fin 1, w2_init := Dbl.fin 0, w3_init := Dbl.fin 0 }
  else if 1 < M.n_of_dirs then
    let c : CoarseInit α :=
      if M.n_of_dirs = 2 then
        let v1 := M.dir_vol 0
        let v2 := M.dir_vol 2
        let orthogonal := cross v1 v2
        let orthogonal := Vec.divs orthogonal (Vec.norm L orthogonal)
        let w2_init := ODF_val_at_max ODF M 2
        let denom := w1_init + w2_init
        { dir_init := fun r => if r = 0 then row0 else if r = 1 then M.dir_vol 2
            else if r = 2 then orthogonal else zero,
          w1_init := w1_init / denom, w2_init := w2_init / denom, w3_init := Dbl.fin 0 }
      else
        { dir_init := fun r => if r = 0 then row0 else zero,
          w1_init := w1_init, w2_init := Dbl.fin 0, w3_init := Dbl.fin 0 }
    if 2 < M.n_of_dirs then
      let w1_init := c.w1_init
      let w2_init := ODF_val_at_max ODF M 2
      let w3_init := ODF_val_at_max ODF M 4
      let denom := w1_init + w2_init + w3_init
      { dir_init := fun r => if r = 0 then row0 else if r = 1 then M.dir_vol 2
          else if r = 2 then M.dir_vol 4 else zero,
        w1_init := w1_init / denom, w2_init := w2_init / denom, w3_init := w3_init / denom }
    else c
  else
    { dir_init := fun r => if r = 0 then row0 else zero,
      w1_init := w1_init, w2_init := Dbl.fin 0, w3_init := Dbl.fin 0 }

/-- The 25 entries written to `tmp_info_state` before the refinement (tractography.cc:589-619);
`param` is the single-tensor fit of the starting point. -/
def coarseState {α : Type} [LinearOrderedField α] (param : Nat → Dbl α) (c : CoarseInit α) :
    Nat → Dbl α
  | 0 => c.dir_init 0 0
  | 1 => c.dir_init 0 1
  | 2 => c.dir_init 0 2
  | 3 => param 6
  | 4 => param 7
  | 5 => Dbl.fin (7 / 10) * param 6
  | 6 => Dbl.fin (7 / 10) * param 7
  | 7 => c.dir_init 1 0
  | 8 => c.dir_init 1 1
  | 9 => c.dir_init 1 2
  | 10 => param 6
  | 11 => param 7
  | 12 => Dbl.fin (7 / 10) * param 6
  | 13 => Dbl.fin (7 / 10) * param 7
  | 14 => c.dir_init 2 0
  | 15 => c.dir_init 2 1
  | 16 => c.dir_init 2 2
  | 17 => param 6
  | 18 => param 7
  | 19 => Dbl.fin (7 / 10) * param 6
  | 20 => Dbl.fin (7 / 10) * param 7
  | 21 => c.w1_init
  | 22 => c.w2_init
  | 23 => c.w3_init
  | 24 => Dbl.fin (5 / 100)
  | _ => Dbl.fin 0

/-- The method `Tractography::computeRTOPfromSignal(rtopSignal, signal)`
(tractography.cc:873-893): the sum of the first `signal.size() / 2` samples, added one by one
to `0.0`. -/
def computeRTOPfromSignal {α : Type} [LinearOrderedField α] (signal_size : Nat)
    (signal : Nat → Dbl α) : Dbl α :=
  (List.range (signal_size / 2)).foldl (fun rtopSignal i => rtopSignal + signal i) (Dbl.fin 0)

/-- The method `Tractography::InverseStateDiffusionPropagator(reference, inverted)`
(tractography.cc:1222-1234) for a `reference` of `size` entries: the content of `inverted`
afterwards. -/
def InverseStateDiffusionPropagator {α : Type} [LinearOrderedField α] (size : Nat)
    (reference inverted : Nat → Dbl α) : Nat → Dbl α :=
  fun it => if it < size then (if it ≤ 2 then -(reference it) else reference it) else inverted it

/-- The fields of a `SeedPointInfo`; `P` is the type of a point. -/
structure SeedPointInfo (α : Type) (P : Type) where
  point : P
  start_dir : Vec α 3
  fa : Dbl α
  fa2 : Dbl α
  fa3 : Dbl α
  trace : Dbl α
  trace2 : Dbl α
  state : Nat → Dbl α
  covariance : Nat → Nat → Dbl α

/-- The members and collaborators of `Tractography` that the seed construction reads: the
solver object of the refinement, the constants `D_ISO` and `std::pow(UKF_PI, 1.5)`, the
members `_p0`, `_full_brain`, `_is_seeds`, `_seeding_threshold`, and the number of samples of
an interpolated signal. -/
structure SeedConfig (α : Type) where
  optimizer : Optimizer α
  D_ISO : Dbl α
  PI_COEFF : Dbl α
  _p0 : Dbl α
  _full_brain : Bool
  _is_seeds : Bool
  _seeding_threshold : Dbl α
  signal_size : Nat

/-- The seeds that `Init` appends to `seed_infos` for one starting point once the test
`GFA > _seeding_threshold || !_full_brain || _is_seeds` has passed (tractography.cc:516-717):
coarse state, refinement, RTOP values, and one pair of seeds for each of up to three
directions.  `none` when the refinement or `SwapState` does not return.  The list holds the
records in the order of the `push_back` calls of the thread that runs this pass; the loop runs
under `#pragma omp parallel for`, so where they end up in `seed_infos` depends on the other
threads (`InitWithTwoThreads`). -/
def seedsOfPoint {α : Type} [LinearOrderedField α] {P : Type} (T : SeedConfig α) (point : P)
    (param signal ODF : Nat → Dbl α) (M : ODFMaxima α) : Option (List (SeedPointInfo α P)) :=
  let tmp_info_state := coarseState param (coarseInit T.optimizer.libm ODF M)
  let tmp_info_inv_state : Nat → Dbl α := fun _ => Dbl.fin 0
  let covariance : Nat → Nat → Dbl α := fun a b => if a = b ∧ a < 25 then T._p0 else Dbl.fin 0
  let p := covariance
  match NonLinearLeastSquareOptimization T.optimizer tmp_info_state signal with
  | none => none
  | some state =>
    let tmp_info_state := state
    let rt := (computeRTOPfromState T.optimizer.libm T.D_ISO T.PI_COEFF state).2
    let rtopSignal := computeRTOPfromSignal T.signal_size signal
    let tmp_info_inv_state := InverseStateDiffusionPropagator 25 tmp_info_state tmp_info_inv_state
    let info : SeedPointInfo α P :=
      { point := point,
        start_dir := ![tmp_info_state 0, tmp_info_state 1, tmp_info_state 2],
        fa := rt.rtop1, fa2 := rt.rtop2, fa3 := rt.rtop3, trace := rt.rtop, trace2 := rtopSignal,
        state := tmp_info_state, covariance := covariance }
    let info_inv : SeedPointInfo α P :=
      { info with
        start_dir := ![-(tmp_info_state 0), -(tmp_info_state 1), -(tmp_info_state 2)],
        state := tmp_info_inv_state }
    let seed_infos := [info, info_inv]
    if 1 < M.n_of_dirs then
      match SwapState tmp_info_state p 2 with
      | none => none
      | some (tmp_info_state, p) =>
        let info := { info with
          start_dir := ![tmp_info_state 0, tmp_info_state 1, tmp_info_state 2],
          state := tmp_info_state }
        let tmp_info_inv_state :=
          InverseStateDiffusionPropagator 25 tmp_info_state tmp_info_inv_state
        let info_inv := { info_inv with
          state := tmp_info_inv_state,
          start_dir := ![tmp_info_inv_state 0, tmp_info_inv_state 1, tmp_info_inv_state 2] }
        let seed_infos := seed_infos ++ [info, info_inv]
        if 2 < M.n_of_dirs then
          match SwapState tmp_info_state p 3 with
          | none => none
          | some (tmp_info_state, _) =>
            let info := { info with
              start_dir := ![tmp_info_state 0, tmp_info_state 1, tmp_info_state 2],
              state := tmp_info_state }
            let tmp_info_inv_state :=
              InverseStateDiffusionPropagator 25 tmp_info_state tmp_info_inv_state
            let info_inv := { info_inv with
              state := tmp_info_inv_state,
              start_dir := ![tmp_info_inv_state 0, tmp_info_inv_state 1, tmp_info_inv_state 2] }
            some (seed_infos ++ [info, info_inv])
        else some seed_infos
    else some seed_infos

/-- The body of the loop of `Init` over the starting points for one of them
(tractography.cc:452-719): nothing is appended when the test
`GFA > _seeding_threshold || !_full_brain || _is_seeds` fails.  `s2ga_value` is the value of
`s2ga(QRidgSignal * C)`, which is assigned to `GFA` only with `_full_brain`.  As for
`seedsOfPoint`, the list is what the thread of this pass appends, in its order. -/
def seedsOfStartingPoint {α : Type} [LinearOrderedField α] {P : Type} (T : SeedConfig α)
    (point : P) (param signal ODF : Nat → Dbl α) (s2ga_value : Dbl α) (M : ODFMaxima α) :
    Option (List (SeedPointInfo α P)) :=
  let GFA := if T._full_brain then s2ga_value else Dbl.fin 0
  if GFA > T._seeding_threshold ∨ ¬ T._full_brain ∨ T._is_seeds then
    seedsOfPoint T point param signal ODF M
  else some []

/-- A seed configuration over the rationals for evaluations: seeding from given seed points
(`_is_seeds`), an objective that is constantly 0, and the identity in place of the `<cmath>`
functions. -/
def sampleSeedConfig : SeedConfig ℚ where
  optimizer := constantOptimizer (Libm.ofFinite id id id) (Dbl.fin 0)
  D_ISO := Dbl.fin (3 / 1000)
  PI_COEFF := Dbl.fin 5
  _p0 := Dbl.fin (1 / 100)
  _full_brain := false
  _is_seeds := true
  _seeding_threshold := Dbl.fin 0
  signal_size := 4

/-- An output of `FindODFMaxima` with `n_of_dirs` directions along the coordinate axes and
`exe_vol_size` indices of maxima. -/
def sampleMaxima (n_of_dirs exe_vol_size : Nat) : ODFMaxima ℚ where
  exe_vol := fun j => j
  exe_vol_size := exe_vol_size
  dir_vol := fun r =>
    if r = 0 then ![Dbl.fin 1, Dbl.fin 0, Dbl.fin 0]
    else if r = 2 then ![Dbl.fin 0, Dbl.fin 1, Dbl.fin 0]
    else ![Dbl.fin 0, Dbl.fin 0, Dbl.fin 1]
  n_of_dirs := n_of_dirs

/-! ## Recording a fibre sample (`Tractography::Record`, `ukf/tractography.cc`) -/

/-- Modelled from the spec: `initNormalized(m, a, b, c)`, which is not in the files at hand.
The specification says that an orientation triple is "re-normalized to unit length": `m` is the
vector `(a, b, c)` divided by its Euclidean norm. -/
def initNormalized {α : Type} [LinearOrderedField α] (L : Libm α) (a b c : Dbl α) : Vec α 3 :=
  Vec.divs ![a, b, c] (Vec.norm L ![a, b, c])

/-- The Frobenius norm `.norm()` of the `h` by `h` block of `cov` whose first entry is
`(r, r)`: the square root of the sum of the squares of its entries. -/
def blockNorm {α : Type} [LinearOrderedField α] (L : Libm α) (cov : Nat → Nat → Dbl α)
    (r h : Nat) : Dbl α :=
  L.sqrt ((List.range h).foldl
    (fun acc j => (List.range h).foldl (fun acc i => acc + cov (r + i) (r + j) * cov (r + i) (r + j))
      acc) (Dbl.fin 0))

/-- The ten values that `computeUncertaintiesCharacteristics` writes. -/
structure Uncertainties (α : Type) where
  Fm1 : Dbl α
  lmd1 : Dbl α
  Fm2 : Dbl α
  lmd2 : Dbl α
  Fm3 : Dbl α
  lmd3 : Dbl α
  varW1 : Dbl α
  varW2 : Dbl α
  varW3 : Dbl α
  varWiso : Dbl α

/-- The method `Tractography::computeUncertaintiesCharacteristics` (tractography.cc:894-916). -/
def computeUncertaintiesCharacteristics {α : Type} [LinearOrderedField α] (L : Libm α)
    (cov : Nat → Nat → Dbl α) : Uncertainties α where
  Fm1 := blockNorm L cov 0 3
  lmd1 := blockNorm L cov 3 4
  Fm2 := blockNorm L cov 7 3
  lmd2 := blockNorm L cov 10 4
  Fm3 := blockNorm L cov 14 3
  lmd3 := blockNorm L cov 17 4
  varW1 := cov 21 21
  varW2 := cov 22 22
  varW3 := cov 23 23
  varWiso := cov 24 24

/-- The vectors of a `UKFFiber` to which `Record` appends. -/
structure UKFFiber (α : Type) where
  position : List (Vec α 3)
  norm : List (Dbl α)
  normMSE : List (Dbl α)
  trace : List (Dbl α)
  trace2 : List (Dbl α)
  fa : List (Dbl α)
  fa2 : List (Dbl α)
  fa3 : List (Dbl α)
  w1 : List (Dbl α)
  w2 : List (Dbl α)
  w3 : List (Dbl α)
  free_water : List (Dbl α)
  w1w2angle : List (Dbl α)
  w1w3angle : List (Dbl α)
  state : List (Nat → Dbl α)
  Fm1 : List (Dbl α)
  lmd1 : List (Dbl α)
  Fm2 : List (Dbl α)
  lmd2 : List (Dbl α)
  Fm3 : List (Dbl α)
  lmd3 : List (Dbl α)
  varW1 : List (Dbl α)
  varW2 : List (Dbl α)
  varW3 : List (Dbl α)
  varWiso : List (Dbl α)
  covariance : List (Nat → Nat → Dbl α)

/-- The members of `Tractography` that `Record`, `Step3T`, `LoopUKF` and `Follow3T` read, and
their collaborators, none of which is in the files at hand: `std::acos` and `RadToDeg`, the
signal data (`Interp3Signal`, `ScalarMaskValue`, `ScalarCSFValue`, `voxel`), the estimator
(`_ukf[thread_id]->Filter`, which returns the new state, the new covariance and the normalized
error), the model's `State2Tensor3T` (which returns `m1`, `m2`, `m3`), and `curve_radius`.
`D_ISO` and `PI_COEFF` are the constants of `computeRTOPfromState`. -/
structure Tractography (α : Type) where
  _record_nmse : Bool
  _record_rtop : Bool
  _record_weights : Bool
  _record_free_water : Bool
  _record_uncertainties : Bool
  _record_cov : Bool
  _num_tensors : Int
  _csf_provided : Bool
  _max_nmse : Dbl α
  _min_radius : Dbl α
  _rtop1_min_stop : Dbl α
  _fw_thresh : Dbl α
  _stepLength : Dbl α
  _max_length : Int
  _steps_per_record : Int
  _maxUKFIterations : Int
  D_ISO : Dbl α
  PI_COEFF : Dbl α
  libm : Libm α
  acos : Dbl α → Dbl α
  RadToDeg : Dbl α → Dbl α
  signal_size : Nat
  Interp3Signal : Vec α 3 → Nat → Dbl α
  ScalarMaskValue : Vec α 3 → Dbl α
  ScalarCSFValue : Vec α 3 → Dbl α
  voxel : Vec α 3
  Filter : (Nat → Dbl α) → (Nat → Nat → Dbl α) → (Nat → Dbl α) →
    (Nat → Dbl α) × (Nat → Nat → Dbl α) × Dbl α
  State2Tensor3T : (Nat → Dbl α) → Vec α 3 → Vec α 3 × Vec α 3 × Vec α 3
  curve_radius : List (Vec α 3) → Dbl α

/-- The member `_nPosFreeWater`, set to 24 by `UpdateFilterModelType` (tractography.cc:135). -/
def _nPosFreeWater : Nat := 24

/-- The statements of `Record` up to the block of `_record_weights` (tractography.cc:2017-2070):
position, norm of the covariance, and the values selected by `_record_nmse`, `_record_rtop`
and `_record_weights`. -/
def recordHead {α : Type} [LinearOrderedField α] (T : Tractography α) (x : Vec α 3)
    (fa fa2 fa3 : Dbl α) (state : Nat → Dbl α) (p : Nat → Nat → Dbl α) (fiber : UKFFiber α)
    (dNormMSE trace trace2 : Dbl α) : UKFFiber α :=
  let fiber := { fiber with position := fiber.position ++ [x],
                            norm := fiber.norm ++ [blockNorm T.libm p 0 25] }
  let fiber := if T._record_nmse then { fiber with normMSE := fiber.normMSE ++ [dNormMSE] }
    else fiber
  let fiber := if T._record_rtop then
      { fiber with trace := fiber.trace ++ [trace], trace2 := fiber.trace2 ++ [trace2] }
    else fiber
  let fiber := if T._record_rtop then
      let fiber := { fiber with fa := fiber.fa ++ [fa] }
      let fiber := if T._num_tensors ≥ 2 then { fiber with fa2 := fiber.fa2 ++ [fa2] } else fiber
      if T._num_tensors = 3 then { fiber with fa3 := fiber.fa3 ++ [fa3] } else fiber
    else fiber
  if T._record_weights then
    let w1 := state 21
    let w2 := state 22
    let w3 := state 23
    let wiso := state 24
    let store_state := state
    let dir1 := initNormalized T.libm (store_state 0) (store_state 1) (store_state 2)
    let dir2 := initNormalized T.libm (store_state 7) (store_state 8) (store_state 9)
    let dir3 := initNormalized T.libm (store_state 14) (store_state 15) (store_state 16)
    let d1d2 := Dbl.min (T.RadToDeg (T.acos (Vec.dot dir1 dir2)))
      (T.RadToDeg (T.acos (Vec.dot dir1 (Vec.neg dir2))))
    let d1d3 := Dbl.min (T.RadToDeg (T.acos (Vec.dot dir1 dir3)))
      (T.RadToDeg (T.acos (Vec.dot dir1 (Vec.neg dir3))))
    { fiber with w1 := fiber.w1 ++ [w1], w2 := fiber.w2 ++ [w2], w3 := fiber.w3 ++ [w3],
                 free_water := fiber.free_water ++ [wiso],
                 w1w2angle := fiber.w1w2angle ++ [d1d2],
                 w1w3angle := fiber.w1w3angle ++ [d1d3] }
  else fiber

/-- The value that the block of `_record_free_water` appends to `fiber.free_water`
(tractography.cc:2074-2090): `1 - state[_nPosFreeWater]`, rounded to 0 when it is negative but
not below `-1.0e-4`; `none` when the block ends in `throw`. -/
def recordFreeWater {α : Type} [LinearOrderedField α] (state : Nat → Dbl α) : Option (Dbl α) :=
  let fw := Dbl.fin 1 - state _nPosFreeWater
  if fw < Dbl.fin 0 then
    if fw ≥ Dbl.fin (-(1 / 10 ^ 4)) then some (Dbl.fin 0) else none
  else some fw

/-- The copy `store_state` of the state that `Record` appends to `fiber.state`
(tractography.cc:2093-2113): the three orientation triples are replaced by the result of
`initNormalized`. -/
def storeState {α : Type} [LinearOrderedField α] (L : Libm α) (state : Nat → Dbl α) :
    Nat → Dbl α :=
  let store_state := state
  let dir := initNormalized L (store_state 0) (store_state 1) (store_state 2)
  let store_state := assignEntry store_state 0 (dir 0)
  let store_state := assignEntry store_state 1 (dir 1)
  let store_state := assignEntry store_state 2 (dir 2)
  let dir := initNormalized L (store_state 7) (store_state 8) (store_state 9)
  let store_state := assignEntry store_state 7 (dir 0)
  let store_state := assignEntry store_state 8 (dir 1)
  let store_state := assignEntry store_state 9 (dir 2)
  let dir := initNormalized L (store_state 14) (store_state 15) (store_state 16)
  let store_state := assignEntry store_state 14 (dir 0)
  let store_state := assignEntry store_state 15 (dir 1)
  let store_state := assignEntry store_state 16 (dir 2)
  store_state

/-- The statements of `Record` after the block of `_record_free_water`
(tractography.cc:2093-2134): the normalized copy of the state, and the values selected by
`_record_uncertainties` and `_record_cov`. -/
def recordTail {α : Type} [LinearOrderedField α] (T : Tractography α) (u : Uncertainties α)
    (state : Nat → Dbl α) (p : Nat → Nat → Dbl α) (fiber : UKFFiber α) : UKFFiber α :=
  let fiber := { fiber with state := fiber.state ++ [storeState T.libm state] }
  let fiber := if T._record_uncertainties then
      { fiber with Fm1 := fiber.Fm1 ++ [u.Fm1], lmd1 := fiber.lmd1 ++ [u.lmd1],
                   Fm2 := fiber.Fm2 ++ [u.Fm2], lmd2 := fiber.lmd2 ++ [u.lmd2],
                   Fm3 := fiber.Fm3 ++ [u.Fm3], lmd3 := fiber.lmd3 ++ [u.lmd3],
                   varW1 := fiber.varW1 ++ [u.varW1], varW2 := fiber.varW2 ++ [u.varW2],
                   varW3 := fiber.varW3 ++ [u.varW3], varWiso := fiber.varWiso ++ [u.varWiso] }
    else fiber
  if T._record_cov then { fiber with covariance := fiber.covariance ++ [p] } else fiber

/-- The method `Tractography::Record` with twenty arguments (tractography.cc:2004-2135): the
fibre after the call, `none` when the call ends in `throw`.  The state is a `const` argument
and is not among the results. -/
def Record {α : Type} [LinearOrderedField α] (T : Tractography α) (x : Vec α 3)
    (fa fa2 fa3 : Dbl α) (u : Uncertainties α) (state : Nat → Dbl α) (p : Nat → Nat → Dbl α)
    (fiber : UKFFiber α) (dNormMSE trace trace2 : Dbl α) : Option (UKFFiber α) :=
  let fiber := recordHead T x fa fa2 fa3 state p fiber dNormMSE trace trace2
  if T._record_free_water then
    match recordFreeWater state with
    | none => none
    | some fw => some (recordTail T u state p { fiber with free_water := fiber.free_water ++ [fw] })
  else some (recordTail T u state p fiber)

/-! ## Fibre propagation (`Tractography::Follow3T`, `Step3T`, `LoopUKF`, `ukf/tractography.cc`) -/

/-- The loop `for (int jj = 0; jj < _maxUKFIterations; ++jj)` of `LoopUKF`
(tractography.cc:1882-1893) with `remaining` passes left: the final values of `state_prev` and
of `dNormMSE`. -/
def loopUKFIter {α : Type} [LinearOrderedField α] (T : Tractography α)
    (covariance : Nat → Nat → Dbl α) (signal : Nat → Dbl α) :
    Nat → (Nat → Dbl α) → (Nat → Dbl α) → Dbl α → Dbl α → (Nat → Dbl α) × Dbl α
  | 0, _, state_prev, _, dNormMSE => (state_prev, dNormMSE)
  | remaining + 1, state, state_prev, er, _ =>
    let r := T.Filter state covariance signal
    let state := r.1
    let dNormMSE := r.2.2
    let er_org := er
    let er := dNormMSE
    if er_org - er < Dbl.fin (1 / 1000) then (state_prev, dNormMSE)
    else loopUKFIter T covariance signal remaining state state er dNormMSE

/-- The method `Tractography::LoopUKF` (tractography.cc:1863-1896): the values it leaves in
`state`, `covariance` and `dNormMSE`. -/
def LoopUKF {α : Type} [LinearOrderedField α] (T : Tractography α) (state : Nat → Dbl α)
    (covariance : Nat → Nat → Dbl α) (signal : Nat → Dbl α) :
    (Nat → Dbl α) × (Nat → Nat → Dbl α) × Dbl α :=
  let r := T.Filter state covariance signal
  let state := r.1
  let covariance := r.2.1
  let dNormMSE := r.2.2
  let l := loopUKFIter T covariance signal T._maxUKFIterations.toNat state state dNormMSE dNormMSE
  (l.1, covariance, l.2)

/-- The local variables of the 4-argument `Follow3T` together with its two reference
arguments `fiber` and `is_discarded`. -/
structure FollowVars (α : Type) where
  x : Vec α 3
  m1 : Vec α 3
  m2 : Vec α 3
  m3 : Vec α 3
  state : Nat → Dbl α
  p : Nat → Nat → Dbl α
  dNormMSE : Dbl α
  rtop1 : Dbl α
  rtop2 : Dbl α
  rtop3 : Dbl α
  rtopModel : Dbl α
  rtopSignal : Dbl α
  unc : Uncertainties α
  fiber : UKFFiber α
  fiber_size : Int
  fiber_length : Int
  stepnr : Int
  is_discarded : Nat

/-- The method `Tractography::Step3T` with 23 arguments (tractography.cc:1682-1766), acting on
the variables of `Follow3T` that it receives by reference. -/
def Step3T {α : Type} [LinearOrderedField α] (T : Tractography α) (v : FollowVars α) :
    FollowVars α :=
  let signal := T.Interp3Signal v.x
  let l := LoopUKF T v.state v.p signal
  let state := l.1
  let covariance := l.2.1
  let dNormMSE := l.2.2
  let old_dir := v.m1
  let m := T.State2Tensor3T state old_dir
  let m1 := m.1
  let m2 := m.2.1
  let m3 := m.2.2
  let c := computeRTOPfromState T.libm T.D_ISO T.PI_COEFF state
  let state := c.1
  let _rtopSignal := computeRTOPfromSignal T.signal_size signal
  let unc := computeUncertaintiesCharacteristics T.libm covariance
  let dir := m1
  let voxel := T.voxel
  let dx : Vec α 3 := ![dir 2 / voxel 0, dir 1 / voxel 1, dir 0 / voxel 2]
  let x := Vec.add v.x (Vec.muls dx T._stepLength)
  { v with x := x, m1 := m1, m2 := m2, m3 := m3, state := state, p := covariance,
           dNormMSE := dNormMSE, rtop1 := c.2.rtop1, rtop2 := c.2.rtop2, rtop3 := c.2.rtop3,
           rtopModel := c.2.rtop, rtopSignal := _rtopSignal, unc := unc }

/-- Why a run of `Follow3T` has no result: `Record` ended in `throw`, the remainder by
`_steps_per_record` was taken with `_steps_per_record == 0`, or the passes granted to the loop
`while (true)` were used up. -/
inductive Fault where
  | thrown
  | divisionByZero
  | outOfFuel
  deriving DecidableEq

/-- The part of a pass of the loop of `Follow3T` up to the tests (tractography.cc:1487-1490):
`++stepnr` and the call of `Step3T`. -/
def followStep {α : Type} [LinearOrderedField α] (T : Tractography α) (v : FollowVars α) :
    FollowVars α :=
  Step3T T { v with stepnr := v.stepnr + 1 }

/-- The part of a pass after the tests (tractography.cc:1541-1552), reached when the loop is
not left: growth of the reserved size, and every `_steps_per_record` passes a recorded
sample. -/
def followRecord {α : Type} [LinearOrderedField α] (T : Tractography α) (v : FollowVars α) :
    Except Fault (FollowVars α) :=
  let v := if v.fiber_length ≥ v.fiber_size then { v with fiber_size := v.fiber_size + 100 } else v
  if T._steps_per_record = 0 then Except.error Fault.divisionByZero
  else if Int.tmod (v.stepnr + 1) T._steps_per_record = 0 then
    let fiber_length := v.fiber_length + 1
    match Record T v.x v.rtop1 v.rtop2 v.rtop3 v.unc v.state v.p v.fiber v.dNormMSE
        v.rtopModel v.rtopSignal with
    | none => Except.error Fault.thrown
    | some fiber => Except.ok { v with fiber_length := fiber_length, fiber := fiber }
  else Except.ok v

/-- One pass of the loop `while (true)` of `Follow3T` (tractography.cc:1485-1553): the
variables after the pass and whether the loop was left by `break`.  The call
`_model->H(state_tmp, signal_tmp)` writes to a local that is not read afterwards. -/
def followPass {α : Type} [LinearOrderedField α] (T : Tractography α) (v : FollowVars α) :
    Except Fault (FollowVars α × Bool) :=
  let v := followStep T v
  let is_brain : Bool := T.ScalarMaskValue v.x > Dbl.fin 0
  let in_csf : Bool := if T._csf_provided then T.ScalarCSFValue v.x > Dbl.fin (1 / 2) else false
  if T._csf_provided && in_csf then Except.ok ({ v with is_discarded := 1 }, true)
  else
    let v := { v with is_discarded := 0 }
    let dNormMSE_too_high : Bool := v.dNormMSE > T._max_nmse
    let is_curving : Bool := T.curve_radius v.fiber.position < T._min_radius
    let in_rtop1 : Bool := v.rtop1 < T._rtop1_min_stop
    let is_high_fw : Bool := v.state 24 > T._fw_thresh
    if !is_brain || in_rtop1 || is_high_fw || in_csf || is_curving || dNormMSE_too_high
        || decide (v.stepnr > T._max_length) then Except.ok (v, true)
    else
      match followRecord T v with
      | Except.error e => Except.error e
      | Except.ok v => Except.ok (v, false)

/-- The loop `while (true)` of `Follow3T` with `fuel` passes granted. -/
def followLoop {α : Type} [LinearOrderedField α] (T : Tractography α) :
    Nat → FollowVars α → Except Fault (FollowVars α)
  | 0, _ => Except.error Fault.outOfFuel
  | fuel + 1, v =>
    match followPass T v with
    | Except.error e => Except.error e
    | Except.ok (v, true) => Except.ok v
    | Except.ok (v, false) => followLoop T fuel v

/-- The variables of `Follow3T` when its loop is entered (tractography.cc:1439-1484), `fiber`
being the fibre after the start point has been recorded.  `m2` and `m3` are the contents of
the locals of these names, which are not initialized. -/
def followEntry {α : Type} [LinearOrderedField α] (T : Tractography α)
    (fiberStartSeed : SeedPointInfo α (Vec α 3)) (fiber : UKFFiber α) (is_discarded : Nat)
    (m2 m3 : Vec α 3) : FollowVars α where
  x := fiberStartSeed.point
  m1 := fiberStartSeed.start_dir
  m2 := m2
  m3 := m3
  state := fiberStartSeed.state
  p := fiberStartSeed.covariance
  dNormMSE := Dbl.fin 0
  rtop1 := fiberStartSeed.fa
  rtop2 := fiberStartSeed.fa2
  rtop3 := fiberStartSeed.fa3
  rtopModel := fiberStartSeed.trace
  rtopSignal := fiberStartSeed.trace2
  unc := computeUncertaintiesCharacteristics T.libm fiberStartSeed.covariance
  fiber := fiber
  fiber_size := 100
  fiber_length := 0
  stepnr := 0
  is_discarded := is_discarded

/-- The record of the start point in `Follow3T` (tractography.cc:1475): the fibre after it,
`none` when `Record` ends in `throw`. -/
def recordStart {α : Type} [LinearOrderedField α] (T : Tractography α)
    (fiberStartSeed : SeedPointInfo α (Vec α 3)) (fiber : UKFFiber α) : Option (UKFFiber α) :=
  Record T fiberStartSeed.point fiberStartSeed.fa fiberStartSeed.fa2 fiberStartSeed.fa3
    (computeUncertaintiesCharacteristics T.libm fiberStartSeed.covariance)
    fiberStartSeed.state fiberStartSeed.covariance fiber (Dbl.fin 0)
    fiberStartSeed.trace fiberStartSeed.trace2

/-- The 4-argument method `Tractography::Follow3T` (tractography.cc:1433-1555): the variables
when it returns, among them its reference arguments `fiber` and `is_discarded`.  The calls of
`FiberReserve` only reserve memory. -/
def Follow3T {α : Type} [LinearOrderedField α] (T : Tractography α) (fuel : Nat)
    (fiberStartSeed : SeedPointInfo α (Vec α 3)) (fiber : UKFFiber α) (is_discarded : Nat)
    (m2 m3 : Vec α 3) : Except Fault (FollowVars α) :=
  match recordStart T fiberStartSeed fiber with
  | none => Except.error Fault.thrown
  | some fiber => followLoop T fuel (followEntry T fiberStartSeed fiber is_discarded m2 m3)

/-- The stop conditions in the words of the specification, for the variables `v` after the
step: the mask value at the new position is not above 0, a CSF mask is provided and its value
at the new position is above 0.5, the normalized error is above `_max_nmse`, the radius of
curvature of the recorded positions is below `_min_radius`, `rtop1` is below
`_rtop1_min_stop`, the free-water weight `state[24]` is above `_fw_thresh`, or the number of
the step is above `_max_length`. -/
def stopCondition {α : Type} [LinearOrderedField α] (T : Tractography α) (v : FollowVars α) :
    Prop :=
  ¬ (T.ScalarMaskValue v.x > Dbl.fin 0) ∨
  (T._csf_provided = true ∧ T.ScalarCSFValue v.x > Dbl.fin (1 / 2)) ∨
  v.dNormMSE > T._max_nmse ∨
  T.curve_radius v.fiber.position < T._min_radius ∨
  v.rtop1 < T._rtop1_min_stop ∨
  v.state 24 > T._fw_thresh ∨
  v.stepnr > T._max_length

/-- The value of `is_discarded` when the loop is left with the variables `v`: 1 when a CSF mask
is provided and its value at the position is above 0.5, else 0. -/
def discardFlag {α : Type} [LinearOrderedField α] (T : Tractography α) (v : FollowVars α) :
    Nat :=
  if T._csf_provided = true ∧ T.ScalarCSFValue v.x > Dbl.fin (1 / 2) then 1 else 0

/-- A tractography configuration for evaluations: no CSF mask, step length 1 in voxels of
size 1, an estimator that returns the state and covariance it is given with error 0, a model
whose first direction is always `(1, 0, 0)` (so every step adds 1 to the last coordinate of
the position), radius of curvature 10, and the thresholds `_max_nmse = 1`, `_min_radius = 0`,
`_rtop1_min_stop = 0`, `_fw_thresh = 1`. -/
def sampleTractography {α : Type} [LinearOrderedField α] (L : Libm α)
    (record_free_water : Bool) (steps_per_record max_length : Int)
    (mask : Vec α 3 → Dbl α) : Tractography α where
  _record_nmse := false
  _record_rtop := false
  _record_weights := false
  _record_free_water := record_free_water
  _record_uncertainties := false
  _record_cov := false
  _num_tensors := 3
  _csf_provided := false
  _max_nmse := Dbl.fin 1
  _min_radius := Dbl.fin 0
  _rtop1_min_stop := Dbl.fin 0
  _fw_thresh := Dbl.fin 1
  _stepLength := Dbl.fin 1
  _max_length := max_length
  _steps_per_record := steps_per_record
  _maxUKFIterations := 0
  D_ISO := Dbl.fin (3 / 1000)
  PI_COEFF := Dbl.fin 5
  libm := L
  acos := fun t => t
  RadToDeg := fun t => t
  signal_size := 2
  Interp3Signal := fun _ _ => Dbl.fin 1
  ScalarMaskValue := mask
  ScalarCSFValue := fun _ => Dbl.fin 0
  voxel := fun _ => Dbl.fin 1
  Filter := fun state covariance _ => (state, covariance, Dbl.fin 0)
  State2Tensor3T := fun _ old_dir => (![Dbl.fin 1, Dbl.fin 0, Dbl.fin 0], old_dir, old_dir)
  curve_radius := fun _ => Dbl.fin 10

/-- A seed at the origin whose state has the value `value` in every entry. -/
def sampleSeed {α : Type} [LinearOrderedField α] (value : α) : SeedPointInfo α (Vec α 3) where
  point := fun _ => Dbl.fin 0
  start_dir := ![Dbl.fin 1, Dbl.fin 0, Dbl.fin 0]
  fa := Dbl.fin 1
  fa2 := Dbl.fin 1
  fa3 := Dbl.fin 1
  trace := Dbl.fin 1
  trace2 := Dbl.fin 1
  state := fun _ => Dbl.fin value
  covariance := fun a b => if a = b then Dbl.fin 1 else Dbl.fin 0

/-- The fibre without samples. -/
def emptyFiber {α : Type} : UKFFiber α where
  position := []
  norm := []
  normMSE := []
  trace := []
  trace2 := []
  fa := []
  fa2 := []
  fa3 := []
  w1 := []
  w2 := []
  w3 := []
  free_water := []
  w1w2angle := []
  w1w3angle := []
  state := []
  Fm1 := []
  lmd1 := []
  Fm2 := []
  lmd2 := []
  Fm3 := []
  lmd3 := []
  varW1 := []
  varW2 := []
  varW3 := []
  varWiso := []
  covariance := []

/-- A brain mask that is 0 where the last coordinate of the position is 0 and 1 elsewhere. -/
def sampleMask {α : Type} [LinearOrderedField α] : Vec α 3 → Dbl α :=
  fun x => if Dbl.beq (x 2) (Dbl.fin 0) then Dbl.fin 0 else Dbl.fin 1

namespace LFBGSB

section LineSearchStates

variable {α : Type} [LinearOrderedField α] {n : Nat}

/-- The locals of `LineSearch` when its `while (1)` loop is entered (lfbgsb.hpp:712-743):
`step = 1`, `iter = 0`, `infoc = 1`, no bracket, stage 1, `width = step_max - step_min`,
`width_old = 2 * width`, and both ends of the interval at step 0. -/
def lsStart (f_init dgrad_init : Dbl α) : LSState α :=
  { step := Dbl.fin 1, iter := 0, infoc := 1, bracket := false, stage_1 := true,
    width := Dbl.fin 10 - Dbl.fin 0, width_old := Dbl.fin 2 * (Dbl.fin 10 - Dbl.fin 0),
    st_best := Dbl.fin 0, f_best := f_init, dgrad_best := dgrad_init,
    st_other := Dbl.fin 0, f_other := f_init, dgrad_other := dgrad_init }

/-- The locals of `LineSearch` after `p` passes of its loop none of which returned, starting
from the locals `st`; `none` when one of these passes returned. -/
def lineSearchStates (S : LFBGSB α n) (x_0 dir : Vec α n)
    (f_init dgrad_init dgrad_test : Dbl α) : Nat → LSState α → Option (LSState α)
  | 0, st => some st
  | p + 1, st =>
    match lineSearchPass S x_0 dir f_init dgrad_init dgrad_test st with
    | Sum.inl _ => none
    | Sum.inr st' => lineSearchStates S x_0 dir f_init dgrad_init dgrad_test p st'

end LineSearchStates

end LFBGSB

/-- An `LFBGSB` object of dimension 1 with the bounds `lb`, `ub` whose objective
`functionValue` returns the coordinate of the point. -/
def coordinateObjective {α : Type} (L : Libm α) (lb ub : α) : LFBGSB α 1 where
  lb := fun _ => Dbl.fin lb
  ub := fun _ => Dbl.fin ub
  libm := L
  functionValue := fun v => v 0
  sUninit := fun _ _ => Dbl.nan
  yUninit := fun _ _ => Dbl.nan
  sPastEnd := fun _ _ => Dbl.nan
  yPastEnd := fun _ _ => Dbl.nan

namespace LFBGSB

section StepRangeDefs

variable {α : Type} [LinearOrderedField α]

/-- The property of a step length to be a finite value of `[step_min, step_max] = [0, 10]`
(the constants of `LineSearch`, lfbgsb.hpp:717-718). -/
def inStepRange (d : Dbl α) : Prop := ∃ v : α, d = Dbl.fin v ∧ 0 ≤ v ∧ v ≤ 10

/-- The property of the locals of `LineSearch` that `step` is finite and both ends of the
interval, `st_best` and `st_other`, are finite values of `[0, 10]`. -/
def lsBounded (st : LSState α) : Prop :=
  (∃ a : α, st.step = Dbl.fin a) ∧ inStepRange st.st_best ∧ inStepRange st.st_other

end StepRangeDefs

end LFBGSB

namespace LFBGSB

section MainLoopExits

variable {α : Type} [LinearOrderedField α] {n : Nat}

/-- The ways in which the main loop of `Solve` (lfbgsb.hpp:975-1010) is left: the `break`
after `err = g_prev.norm()` (line 990), the `break` of the NaN test (line 1001), the loop test
failing in `err > tol`, and the loop test failing in `k < maxIter` only. -/
inductive LoopExit where
  | gradientTest
  | nanGradient
  | loopTest
  | iterationLimit
  deriving DecidableEq

/-- The locals `x_prev`, `k` and `err` of `Solve` when its main loop is left, and the way in
which it was left. -/
structure LoopResult (α : Type) (n : Nat) where
  x_prev : Vec α n
  exit : LoopExit
  k : Nat
  err : Dbl α

/-- The body of the main loop of `Solve` (lfbgsb.hpp:977-1009): either the loop is left
(`Sum.inl`) or the locals for the next loop test (`Sum.inr`); `none` when the line search does
not return. -/
def solvePass (S : LFBGSB α n) (st : SolveState α n) :
    Option (LoopResult α n ⊕ SolveState α n) :=
  let k := st.k + 1
  let r := step st.g st.sHistory st.yHistory (Nat.min k m)
  let d := Vec.neg r
  match LineSearch S st.x_prev st.g_prev d with
  | none => none
  | some ls =>
    let x_prev := ls.x
    let g_prev := ls.grad
    let err := Vec.norm S.libm g_prev
    if err ≤ tol then
      some (Sum.inl { x_prev := x_prev, exit := LoopExit.gradientTest, k := k, err := err })
    else
      let s := Vec.sub x_prev st.x
      let y := Vec.sub g_prev st.g
      let err := Vec.norm S.libm s
      if Vec.anyNaN g_prev then
        some (Sum.inl { x_prev := st.x, exit := LoopExit.nanGradient, k := k, err := err })
      else
        some (Sum.inr
          { x := x_prev, g := g_prev, x_prev := x_prev, g_prev := g_prev, err := err, k := k,
            sHistory := shiftHistory st.sHistory (S.sPastEnd k) s,
            yHistory := shiftHistory st.yHistory (S.yPastEnd k) y })

/-- The main loop `while (err > tol && k < maxIter)` of `Solve` with `remaining = maxIter - k`
passes left, as `solveLoop`, with the way in which the loop is left. -/
def solveLoopExit (S : LFBGSB α n) : Nat → SolveState α n → Option (LoopResult α n)
  | 0, st =>
    some { x_prev := st.x_prev,
           exit := if st.err > tol then LoopExit.iterationLimit else LoopExit.loopTest,
           k := st.k, err := st.err }
  | remaining + 1, st =>
    if st.err > tol then
      match solvePass S st with
      | none => none
      | some (Sum.inl r) => some r
      | some (Sum.inr st') => solveLoopExit S remaining st'
    else some { x_prev := st.x_prev, exit := LoopExit.loopTest, k := st.k, err := st.err }

end MainLoopExits

end LFBGSB

/-- An `LFBGSB` object of dimension 1 with the bounds `lb`, `ub` whose objective
`functionValue` returns 0 at the points with coordinate `c` and `+∞` at all others. -/
def spikeObjective {α : Type} [LinearOrderedField α] (L : Libm α) (lb ub c : α) :
    LFBGSB α 1 where
  lb := fun _ => Dbl.fin lb
  ub := fun _ => Dbl.fin ub
  libm := L
  functionValue := fun v => if v 0 = Dbl.fin c then Dbl.fin 0 else Dbl.pinf
  sUninit := fun _ _ => Dbl.nan
  yUninit := fun _ _ => Dbl.nan
  sPastEnd := fun _ _ => Dbl.nan
  yPastEnd := fun _ _ => Dbl.nan

/-- The locals of `Solve` at a test of its main loop, in dimension 1: the vectors `x`,
`x_prev`, `g = g_prev`, `err = 1`, `k = 0`, and the stored pair `(s, y)` in every column of
the histories. -/
def sampleSolveState {α : Type} [LinearOrderedField α] (x x_prev g s y : α) :
    LFBGSB.SolveState α 1 where
  x := fun _ => Dbl.fin x
  g := fun _ => Dbl.fin g
  x_prev := fun _ => Dbl.fin x_prev
  g_prev := fun _ => Dbl.fin g
  err := Dbl.fin 1
  k := 0
  sHistory := fun _ _ => Dbl.fin s
  yHistory := fun _ _ => Dbl.fin y

/-! ## The size checks of `Solve` (`LFBGSB::Solve`, `ukf/lfbgsb.hpp`) -/

/-- A vector of type `ukfVectorType` with its run-time size `rows()`. -/
abbrev DynVec (α : Type) : Type := (k : Nat) × Vec α k

/-- An `LFBGSB` object whose vectors `lb`, `ub` and `XOpt` have sizes of their own; the
objective and the memory read by `Solve` are given for every size. -/
structure LFBGSBObject (α : Type) where
  lb : DynVec α
  ub : DynVec α
  XOpt : DynVec α
  libm : Libm α
  functionValue : (k : Nat) → Vec α k → Dbl α
  sUninit : (k : Nat) → Nat → Vec α k
  yUninit : (k : Nat) → Nat → Vec α k
  sPastEnd : (k : Nat) → Nat → Vec α k
  yPastEnd : (k : Nat) → Nat → Vec α k

/-- The object as `LFBGSB.Solve` reads it when both bounds have the size `k`. -/
def LFBGSBObject.typed {α : Type} (O : LFBGSBObject α) (k : Nat) (hl : O.lb.1 = k)
    (hu : O.ub.1 = k) : LFBGSB α k where
  lb := hl ▸ O.lb.2
  ub := hu ▸ O.ub.2
  libm := O.libm
  functionValue := O.functionValue k
  sUninit := O.sUninit k
  yUninit := O.yUninit k
  sPastEnd := O.sPastEnd k
  yPastEnd := O.yPastEnd k

/-- How a call of `Solve` ends: a `std::runtime_error` with its message is thrown, or the
call returns; both with the object as the call leaves it.  `noReturn` stands for a line
search that does not return. -/
inductive SolveOutcome (α : Type) where
  | raised (message : String) (object : LFBGSBObject α)
  | returned (object : LFBGSBObject α)
  | noReturn

/-- The method `Solve(x0)` (lfbgsb.hpp:919-1015) with its two `Assert`s
(lfbgsb.hpp:921-922, the macro at lines 53-57); `XOpt` is resized and assigned only after
both have passed. -/
def LFBGSBObject.Solve {α : Type} [LinearOrderedField α] (O : LFBGSBObject α)
    (x0 : DynVec α) : SolveOutcome α :=
  if hl : x0.1 = O.lb.1 then
    if hu : x0.1 = O.ub.1 then
      match LFBGSB.Solve (O.typed x0.1 hl.symm hu.symm) x0.2 with
      | some r => SolveOutcome.returned { O with XOpt := ⟨x0.1, r.XOpt⟩ }
      | none => SolveOutcome.noReturn
    else SolveOutcome.raised ("upper bound size incorrect") O
  else SolveOutcome.raised ("lower bound size incorrect") O

/-! ## The status of a run (`Tractography::Run`, `ukf/tractography.cc`, and
`ModuleEntryPoint`, `UKFTractography/UKFTractography.cxx`) -/

/-- The macro `EXIT_SUCCESS` of `<cstdlib>`. -/
def EXIT_SUCCESS : Int := 0

/-- The macro `EXIT_FAILURE` of `<cstdlib>`. -/
def EXIT_FAILURE : Int := 1

/-- The conversion of an `int` to `bool`: every value except 0 is `true`. -/
def intToBool (i : Int) : Bool := i != 0

/-- The conversion of a `bool` to `int`: `false` is 0 and `true` is 1. -/
def boolToInt (b : Bool) : Int := if b then 1 else 0

/-- The value returned by `bool Tractography::Run()` (tractography.cc:723-872) as a function
of the number of seeds that `Init` yields, the number of fibres left after
`PostProcessFibers`, and the `int` status left in `writeStatus` by the output branch:
`return false` for an empty seed set, `return EXIT_FAILURE` when there are no fibres,
`return writeStatus` at the end. -/
def Run (numSeeds numFibers : Nat) (writeStatus : Int) : Bool :=
  if numSeeds < 1 then false
  else if numFibers = 0 then intToBool EXIT_FAILURE
  else intToBool writeStatus

/-- The status returned by `ModuleEntryPoint` (UKFTractography.cxx:63-105) after the command
line was parsed: `run` is the value of `tract->Run()`, `none` when the `try` block ends in
an exception. -/
def ModuleEntryPoint (run : Option Bool) : Int :=
  match run with
  | some b => boolToInt b
  | none => EXIT_FAILURE

/-! ## The tensors of the signal model (`LFBGSB::H`, `ukf/lfbgsb.hpp`) and the products under
the square roots of `computeRTOPfromState` -/

/-- The diagonal of `lambdas11` in `H` (lfbgsb.hpp:123-125): the eigenvalues of the fast
tensor of compartment 1. -/
def lambdas11 {β : Type} (X : Nat → β) : Fin 3 → β := ![X 3, X 4, X 4]

/-- The diagonal of `lambdas12` in `H` (lfbgsb.hpp:127-129): the eigenvalues of the slow
tensor of compartment 1. -/
def lambdas12 {β : Type} (X : Nat → β) : Fin 3 → β := ![X 5, X 6, X 6]

/-- The local `det_l1` of `computeRTOPfromState` (tractography.cc:965-966, 981):
`l11 * l12` with `l11 = state[3] * 1e-6` and `l12 = state[4] * 1e-6`. -/
def det_l1 {α : Type} [LinearOrderedField α] (state : Nat → Dbl α) : Dbl α :=
  (state 3 * Dbl.fin (1 / 10 ^ 6)) * (state 4 * Dbl.fin (1 / 10 ^ 6))

/-- The local `det_t1` of `computeRTOPfromState` (tractography.cc:967-968, 982):
`l13 * l14` with `l13 = state[5] * 1e-6` and `l14 = state[6] * 1e-6`. -/
def det_t1 {α : Type} [LinearOrderedField α] (state : Nat → Dbl α) : Dbl α :=
  (state 5 * Dbl.fin (1 / 10 ^ 6)) * (state 6 * Dbl.fin (1 / 10 ^ 6))

/-- The number that a finite double stands for, and 0 for NaN and the infinities; used to
speak of the derivative of a function computed on doubles. -/
def finiteValue {α : Type} [Zero α] : Dbl α → α
  | Dbl.fin x => x
  | _ => 0

/-- The number of calls of `Filter` in the loop of `LoopUKF` (tractography.cc:1882-1893) with
`remaining` passes left: `loopUKFIter` with a counter in the place of the results. -/
def loopUKFCalls {α : Type} [LinearOrderedField α] (T : Tractography α)
    (covariance : Nat → Nat → Dbl α) (signal : Nat → Dbl α) :
    Nat → (Nat → Dbl α) → Dbl α → Nat
  | 0, _, _ => 0
  | remaining + 1, state, er =>
    let r := T.Filter state covariance signal
    let state := r.1
    let dNormMSE := r.2.2
    let er_org := er
    let er := dNormMSE
    if er_org - er < Dbl.fin (1 / 1000) then 1
    else 1 + loopUKFCalls T covariance signal remaining state er

/-- The number of calls of `Filter` in `LoopUKF` (tractography.cc:1863-1896): the call in
front of the loop and those of the loop. -/
def LoopUKFCalls {α : Type} [LinearOrderedField α] (T : Tractography α) (state : Nat → Dbl α)
    (covariance : Nat → Nat → Dbl α) (signal : Nat → Dbl α) : Nat :=
  let r := T.Filter state covariance signal
  1 + loopUKFCalls T r.2.1 signal T._maxUKFIterations.toNat r.1 r.2.2

/-- The estimates in the words of the specification: estimate 0 is the result of the
estimator for the given state and covariance, and estimate `j + 1` (refinement `j + 1`) is the
result of the estimator for the state of estimate `j` and the covariance of estimate 0. -/
def ukfEstimate {α : Type} [LinearOrderedField α] (T : Tractography α) (state : Nat → Dbl α)
    (covariance : Nat → Nat → Dbl α) (signal : Nat → Dbl α) :
    Nat → (Nat → Dbl α) × (Nat → Nat → Dbl α) × Dbl α
  | 0 => T.Filter state covariance signal
  | j + 1 =>
    T.Filter (ukfEstimate T state covariance signal j).1
      (T.Filter state covariance signal).2.1 signal

/-- The sample run with an estimator that adds 1 to every entry of the state and of the
covariance and reports as error ten times the first entry of the state it is given, and with
one refinement allowed (`_maxUKFIterations = 1`). -/
def refiningTractography : Tractography ℚ :=
  { sampleTractography (Libm.ofFinite id id id) false 1 1 (fun _ => Dbl.fin 1) with
    _maxUKFIterations := 1
    Filter := fun s c _ => (fun k => s k + Dbl.fin 1, fun a b => c a b + Dbl.fin 1,
      s 0 * Dbl.fin 10) }

/-! ## The reordering of the compartments (`Tractography::Step3T` with 16 arguments,
`ukf/tractography.cc`) -/

/-- The orientations, eigenvalue triples, state and covariance after the reordering block of
the 16-argument `Step3T`, with the list of the calls of `SwapState` it made (their third
argument). -/
structure Reordered (α : Type) where
  m1 : Vec α 3
  l1 : Vec α 3
  m2 : Vec α 3
  l2 : Vec α 3
  m3 : Vec α 3
  l3 : Vec α 3
  state : Nat → Dbl α
  covariance : Nat → Nat → Dbl α
  swapCalls : List Int

/-- The reordering block of the 16-argument `Step3T` (tractography.cc:1806-1838): `old_dir`
is the primary orientation before the estimation and the other arguments are the values that
`State2Tensor3T` and the estimator left; `none` when `SwapState` ends in `throw`. -/
def Step3T_reorder {α : Type} [LinearOrderedField α] (old_dir m1 l1 m2 l2 m3 l3 : Vec α 3)
    (state : Nat → Dbl α) (covariance : Nat → Nat → Dbl α) : Option (Reordered α) :=
  let dot1 := Vec.dot m1 old_dir
  let dot2 := Vec.dot m2 old_dir
  let dot3 := Vec.dot m3 old_dir
  if dot1 < dot2 ∧ dot3 < dot2 then
    match SwapState state covariance 2 with
    | none => none
    | some r =>
      some { m1 := m2, l1 := l2, m2 := m1, l2 := l1, m3 := m3, l3 := l3,
             state := r.1, covariance := r.2, swapCalls := [2] }
  else if dot1 < dot3 then
    match SwapState state covariance 3 with
    | none => none
    | some r =>
      some { m1 := m3, l1 := l3, m2 := m2, l2 := l2, m3 := m1, l3 := l1,
             state := r.1, covariance := r.2, swapCalls := [3] }
  else
    some { m1 := m1, l1 := l1, m2 := m2, l2 := l2, m3 := m3, l3 := l3,
           state := state, covariance := covariance, swapCalls := [] }

/-- The sample run with both `_record_weights` and `_record_free_water` set. -/
def weightsAndFreeWaterTractography : Tractography ℚ :=
  { sampleTractography (Libm.ofFinite id id id) true 1 1 (fun _ => Dbl.fin 1) with
    _record_weights := true }

/-- An output of `FindODFMaxima` with the single direction `d`. -/
def singleDirection {α : Type} (d : Vec α 3) : ODFMaxima α where
  exe_vol := fun j => j
  exe_vol_size := 1
  dir_vol := fun _ => d
  n_of_dirs := 1

/-- The configuration `sampleTractography` with free water recorded, a mask that is 1
everywhere, one record per step, `_max_length = 1`, and an estimator that returns NaN in the
free-water entry of the state. -/
def nanFreeWaterTractography : Tractography ℚ :=
  { sampleTractography (Libm.ofFinite id id id) true 1 1 (fun _ => Dbl.fin 1) with
    Filter := fun state covariance _ => (assignEntry state 24 Dbl.nan, covariance, Dbl.fin 0) }

/-- The variables of `Follow3T` when the loop is entered from the seed whose state has the
value 1 in every entry, after its start point has been recorded into `fiber`. -/
def nanFreeWaterEntry (fiber : UKFFiber ℚ) : FollowVars ℚ :=
  followEntry nanFreeWaterTractography (sampleSeed 1) fiber 0 (fun _ => Dbl.nan)
    (fun _ => Dbl.nan)

/-! ## The loop of `Init` over the starting points under `#pragma omp parallel for`
(tractography.cc:440-452)

The loop compiles only with OpenMP (the branch `#else` does not compile), so its passes are
shared among `min(_num_threads, starting_points.size())` threads, and every pass appends to
the one vector `seed_infos` without synchronisation. -/

/-- The data of one starting point that its pass of the loop of `Init` reads. -/
structure StartingPoint (α : Type) (P : Type) where
  point : P
  param : Nat → Dbl α
  signal : Nat → Dbl α
  ODF : Nat → Dbl α
  s2ga_value : Dbl α
  maxima : ODFMaxima α

/-- The passes of the loop of `Init` that one thread runs, for its share `chunk` of the
starting points in their order: the records that this thread appends, in the order of its
calls of `push_back`. -/
def seedsOfChunk {α : Type} [LinearOrderedField α] {P : Type} (T : SeedConfig α) :
    List (StartingPoint α P) → Option (List (SeedPointInfo α P))
  | [] => some []
  | s :: chunk =>
    match seedsOfStartingPoint T s.point s.param s.signal s.ODF s.s2ga_value s.maxima with
    | none => none
    | some seeds =>
      match seedsOfChunk T chunk with
      | none => none
      | some others => some (seeds ++ others)

/-- The contents `zs` that a vector can have after one thread has appended the elements of
`xs` and another those of `ys`, each in its own order, when every `push_back` is taken as one
indivisible step (without synchronisation the calls need not even be that). -/
inductive Interleaving {β : Type} : List β → List β → List β → Prop
  | nil : Interleaving [] [] []
  | left (x : β) {xs ys zs : List β} : Interleaving xs ys zs →
      Interleaving (x :: xs) ys (x :: zs)
  | right (y : β) {xs ys zs : List β} : Interleaving xs ys zs →
      Interleaving xs (y :: ys) (y :: zs)

/-- The loop of `Init` run by two threads, the first with the starting points `chunk₀` and
the second with `chunk₁`: `seed_infos` can end as `result`. -/
def InitWithTwoThreads {α : Type} [LinearOrderedField α] {P : Type} (T : SeedConfig α)
    (chunk₀ chunk₁ : List (StartingPoint α P)) (result : List (SeedPointInfo α P)) : Prop :=
  ∃ seeds₀ seeds₁, seedsOfChunk T chunk₀ = some seeds₀ ∧ seedsOfChunk T chunk₁ = some seeds₁ ∧
    Interleaving seeds₀ seeds₁ result

/-- A starting point at `point` with one detected direction, for evaluations. -/
def sampleStartingPoint (point : Nat) : StartingPoint ℚ Nat where
  point := point
  param := fun _ => Dbl.fin 1
  signal := fun _ => Dbl.fin 1
  ODF := fun _ => Dbl.fin 1
  s2ga_value := Dbl.fin 0
  maxima := sampleMaxima 1 1

/-- The lists that `GenerateWorkDistribution(2147483647, 2)` builds: worker 0 has `[0]`,
worker 1 has `[1, -2147483648, -1]`, every other worker the empty list. -/
def wrappedWorkList (i : Nat) : List Int :=
  if i = 0 then [0] else if i = 1 then [1, -2147483648, -1] else []

/-! ## Rounding to `double` (IEEE-754 binary64)

The definitions above combine finite doubles exactly.  The definitions of this section round
the result of every operation to the nearest `double`, so that the two readings can be compared
where a bound is at stake. -/

/-- The integer nearest to `q`, the even one of the two when `q` lies halfway between them. -/
def roundHalfEven (q : ℚ) : Int :=
  if q - ⌊q⌋ < 1 / 2 then ⌊q⌋
  else if 1 / 2 < q - ⌊q⌋ then ⌊q⌋ + 1
  else if ⌊q⌋ % 2 = 0 then ⌊q⌋ else ⌊q⌋ + 1

/-- The `double` nearest to the rational number `x` (round to nearest, ties to even): 53
significant bits, the spacing `2 ^ (e - 52)` for `2 ^ e ≤ |x| < 2 ^ (e + 1)` and `e ≥ -1022`,
the spacing `2 ^ (-1074)` below, and an infinity when the rounded value reaches `2 ^ 1024`. -/
def roundToDouble (x : ℚ) : Dbl ℚ :=
  if x = 0 then Dbl.fin 0
  else
    let e := max (Int.log 2 |x|) (-1022)
    let y := (roundHalfEven (x / 2 ^ (e - 52)) : ℚ) * 2 ^ (e - 52)
    if (2 : ℚ) ^ 1024 ≤ |y| then (if 0 < x then Dbl.pinf else Dbl.ninf) else Dbl.fin y

/-- The result of an operation on doubles as it is stored: a finite exact result is rounded,
NaN and the infinities stay. -/
def Dbl.rounded : Dbl ℚ → Dbl ℚ
  | Dbl.fin x => roundToDouble x
  | d => d

/-- The member `EPS` as a `double`: the literal `2.2204e-16` rounded. -/
def LFBGSB.EPS64 : Dbl ℚ := roundToDouble (22204 / 10 ^ 20)

/-- The body of the loop of `invTransform` (lfbgsb.hpp:868-891) for one coordinate in `double`
arithmetic: `invTransformAt` with the result of every operation rounded.  The two calls
`std::exp(in(i))` return the same double. -/
def LFBGSB.invTransformAt64 (L : Libm ℚ) (lb ub x : Dbl ℚ) : Dbl ℚ :=
  if ¬ x.isFinite then
    if x.isNaN then Dbl.rounded (Dbl.rounded (ub - lb) / Dbl.fin 2)
    else if x < Dbl.fin 0 then Dbl.rounded (lb + LFBGSB.EPS64)
    else Dbl.rounded (ub - LFBGSB.EPS64)
  else
    let out := Dbl.rounded
      (Dbl.rounded (Dbl.rounded (lb + LFBGSB.EPS64)
          + Dbl.rounded (Dbl.rounded (ub - LFBGSB.EPS64) * L.exp x))
        / Dbl.rounded (Dbl.fin 1 + L.exp x))
    if ¬ out.isFinite then Dbl.rounded (ub - LFBGSB.EPS64) else out

/-! # Theorems -/

/-! ## Work partitioner: stride lists and their counts -/

theorem workLoopExact_eq (w total : Int) :
    ∀ (fuel : Nat) (m : Nat) (iter : Int) (acc : List Int),
      (∀ k : Nat, k < m ↔ iter + (k : Int) * w < total) → m < fuel →
      workLoopExact w total fuel iter acc = some (acc ++ strided iter w m) := by
  intro fuel
  induction fuel with
  | zero => intro m iter acc _ hm; omega
  | succ fuel ih =>
    intro m iter acc hk hm
    unfold workLoopExact
    by_cases hlt : iter < total
    · rw [if_pos hlt]
      have h0 : 0 < m := by
        have := (hk 0).2 (by simpa using hlt)
        exact this
      obtain ⟨m', rfl⟩ : ∃ m', m = m' + 1 := ⟨m - 1, by omega⟩
      have hk' : ∀ k : Nat, k < m' ↔ (iter + w) + (k : Int) * w < total := by
        intro k
        have := hk (k + 1)
        have e : iter + ((k + 1 : Nat) : Int) * w = (iter + w) + (k : Int) * w := by
          push_cast; ring
        rw [e] at this
        constructor
        · intro h; exact this.1 (by omega)
        · intro h; have := this.2 h; omega
      rw [ih m' (iter + w) (acc ++ [iter]) hk' (by omega)]
      congr 1
      simp only [strided, List.range_succ_eq_map, List.map_cons, List.map_map, List.append_assoc,
        List.singleton_append]
      congr 1
      congr 1
      · simp
      · apply List.map_congr_left
        intro k _
        simp only [Function.comp]
        push_cast; ring
    · rw [if_neg hlt]
      have h0 : m = 0 := by
        by_contra hne
        have := (hk 0).1 (by omega)
        simp at this
        exact hlt this
      subst h0
      simp [strided]

theorem wrapInt32_of_range (v : Int) (h1 : -2 ^ 31 ≤ v) (h2 : v < 2 ^ 31) :
    wrapInt32 v = v := by
  unfold wrapInt32
  rw [Int.emod_eq_of_lt (by omega) (by omega)]
  omega

theorem workLoop_eq_exact (w total : Int) (hw : 0 ≤ w) (hsum : w + total ≤ 2 ^ 31) :
    ∀ (fuel : Nat) (iter : Int) (acc : List Int), 0 ≤ iter →
      workLoop w total fuel iter acc = workLoopExact w total fuel iter acc := by
  intro fuel
  induction fuel with
  | zero => intro iter acc _; rfl
  | succ fuel ih =>
    intro iter acc h0
    unfold workLoop workLoopExact
    by_cases hlt : iter < total
    · rw [if_pos hlt, if_pos hlt, wrapInt32_of_range _ (by omega) (by omega)]
      exact ih (iter + w) (acc ++ [iter]) (by omega)
    · rw [if_neg hlt, if_neg hlt]

theorem workLoop_eq (w total : Int) (hw : 0 ≤ w) (hsum : w + total ≤ 2 ^ 31) (fuel : Nat)
    (m : Nat) (iter : Int) (acc : List Int) (h0 : 0 ≤ iter)
    (hk : ∀ k : Nat, k < m ↔ iter + (k : Int) * w < total) (hm : m < fuel) :
    workLoop w total fuel iter acc = some (acc ++ strided iter w m) := by
  rw [workLoop_eq_exact w total hw hsum fuel iter acc h0]
  exact workLoopExact_eq w total fuel m iter acc hk hm

theorem workCount_spec (w n s : Int) (hw : 1 ≤ w) (k : Nat) :
    k < workCount w n s ↔ s + (k : Int) * w < n := by
  unfold workCount
  have hw0 : 0 < w := by omega
  rw [Int.lt_toNat]
  rw [Int.lt_iff_add_one_le, Int.le_ediv_iff_mul_le hw0]
  constructor
  · intro h
    have : ((k : Int) + 1) * w = (k : Int) * w + w := by ring
    omega
  · intro h
    have : ((k : Int) + 1) * w = (k : Int) * w + w := by ring
    omega

theorem workCount_le (w n s : Int) (hw : 1 ≤ w) : workCount w n s ≤ (n - s).toNat := by
  by_contra hlt
  push_neg at hlt
  have h1 := (workCount_spec w n s hw (n - s).toNat).1 hlt
  have h2 : (0 : Int) ≤ ((n - s).toNat : Int) := by positivity
  have h3 : ((n - s).toNat : Int) ≤ ((n - s).toNat : Int) * w := by nlinarith
  have h4 : n - s ≤ ((n - s).toNat : Int) := Int.self_le_toNat _
  omega

theorem workFor_eq (w n : Int) (fuel : Nat) (g : Nat → List Int) :
    ∀ (remaining i : Nat) (done : List (List Int)),
      done.length = i →
      (∀ j, j < remaining → workLoop w n fuel ((i + j : Nat) : Int) [] = some (g (i + j))) →
      workFor w n fuel remaining i (done ++ List.replicate remaining [])
        = some (done ++ (List.range remaining).map (fun j => g (i + j))) := by
  intro remaining
  induction remaining with
  | zero => intro i done _ _; simp [workFor]
  | succ r ih =>
    intro i done hlen hg
    unfold workFor
    have hget : (done ++ List.replicate (r + 1) ([] : List Int)).getD i [] = [] := by
      subst hlen
      rw [List.getD_eq_getElem?_getD, List.getElem?_append_right (Nat.le_refl _)]
      simp [List.replicate_succ]
    rw [hget]
    have h0 := hg 0 (by omega)
    simp only [Nat.add_zero] at h0
    rw [h0]
    simp only
    have hset : (done ++ List.replicate (r + 1) ([] : List Int)).set i (g i)
        = (done ++ [g i]) ++ List.replicate r [] := by
      subst hlen
      simp [List.replicate_succ]
    rw [hset, ih (i + 1) (done ++ [g i]) (by simp [hlen])]
    · congr 1
      rw [List.range_succ_eq_map]
      simp [Function.comp, Nat.add_comm, Nat.add_left_comm]
    · intro j hj
      have := hg (j + 1) (by omega)
      have e : i + 1 + j = i + (j + 1) := by omega
      rw [e]; exact this

theorem GenerateWorkDistribution_eq (fuel : Nat) (w n : Int) (hw : 1 ≤ w) (hn : 0 ≤ n)
    (hsum : w + n ≤ 2 ^ 31) (hf : n.toNat < fuel) :
    GenerateWorkDistribution fuel w n
      = some ((List.range w.toNat).map
          (fun (i : Nat) => strided (i : Int) w (workCount w n i))) := by
  unfold GenerateWorkDistribution
  rw [if_neg (by omega)]
  have := workFor_eq w n fuel (fun i => strided (i : Int) w (workCount w n i)) w.toNat 0 []
    rfl (by
      intro j _
      have h := workLoop_eq w n (by omega) hsum fuel (workCount w n ((0 + j : Nat) : Int))
        ((0 + j : Nat) : Int) [] (by positivity) (fun k => workCount_spec w n _ hw k) (by
          have := workCount_le w n ((0 + j : Nat) : Int) hw
          omega)
      simpa using h)
  simpa using this


theorem mem_strided (s w : Int) (m : Nat) (v : Int) :
    v ∈ strided s w m ↔ ∃ k : Nat, k < m ∧ v = s + (k : Int) * w := by
  simp [strided, eq_comm]

theorem length_strided (s w : Int) (m : Nat) : (strided s w m).length = m := by
  simp [strided]

theorem nodup_strided (s w : Int) (hw : 1 ≤ w) (m : Nat) : (strided s w m).Nodup := by
  unfold strided
  apply List.Nodup.map _ (List.nodup_range _)
  intro a b hab
  simp only at hab
  have h : (a : Int) * w = (b : Int) * w := by omega
  have hw0 : w ≠ 0 := by omega
  exact_mod_cast mul_right_cancel₀ hw0 h

/-- Claim C1, amended: for `numWorkers ≥ 1` and `numItems ≥ 0` with
`numWorkers + numItems ≤ 2 ^ 31`, `GenerateWorkDistribution` returns (every fuel above
`numItems` gives the same result) exactly `numWorkers` lists, and the lists taken together are
a rearrangement of `0, 1, ..., numItems - 1`: every index occurs exactly once and nothing else
occurs. -/
theorem GenerateWorkDistribution_partition (numWorkers numItems : Int)
    (hw : 1 ≤ numWorkers) (hn : 0 ≤ numItems) (hsum : numWorkers + numItems ≤ 2 ^ 31) :
    ∃ d : List (List Int),
      (∀ fuel : Nat, numItems.toNat < fuel →
        GenerateWorkDistribution fuel numWorkers numItems = some d) ∧
      d.length = numWorkers.toNat ∧
      d.flatten.Perm ((List.range numItems.toNat).map (fun (v : Nat) => (v : Int))) := by
  refine ⟨_, fun fuel hf => GenerateWorkDistribution_eq fuel numWorkers numItems hw hn hsum hf,
    ?_, ?_⟩
  · simp
  · have hw0 : numWorkers ≠ 0 := by omega
    rw [List.perm_ext_iff_of_nodup]
    · intro v
      simp only [List.mem_flatten, List.mem_map, List.mem_range, exists_exists_and_eq_and,
        mem_strided, workCount_spec _ _ _ hw]
      constructor
      · rintro ⟨i, hi, k, hk, rfl⟩
        have h1 : (0 : Int) ≤ (k : Int) * numWorkers := by positivity
        refine ⟨((i : Int) + (k : Int) * numWorkers).toNat, ?_, ?_⟩ <;> omega
      · rintro ⟨a, ha, rfl⟩
        refine ⟨((a : Int) % numWorkers).toNat, ?_, ((a : Int) / numWorkers).toNat, ?_, ?_⟩
        · have := Int.emod_lt_of_pos (a : Int) (by omega : 0 < numWorkers)
          have := Int.emod_nonneg (a : Int) hw0
          omega
        · have h1 := Int.emod_nonneg (a : Int) hw0
          have h2 : 0 ≤ (a : Int) / numWorkers := Int.ediv_nonneg (by omega) (by omega)
          have h3 := Int.emod_add_ediv (a : Int) numWorkers
          rw [Int.toNat_of_nonneg h1, Int.toNat_of_nonneg h2, mul_comm]
          omega
        · have h1 := Int.emod_nonneg (a : Int) hw0
          have h2 : 0 ≤ (a : Int) / numWorkers := Int.ediv_nonneg (by omega) (by omega)
          have h3 := Int.emod_add_ediv (a : Int) numWorkers
          rw [Int.toNat_of_nonneg h1, Int.toNat_of_nonneg h2, mul_comm]
          omega
    · rw [List.nodup_flatten]
      constructor
      · intro l hl
        simp only [List.mem_map, List.mem_range] at hl
        obtain ⟨i, _, rfl⟩ := hl
        exact nodup_strided _ _ hw _
      · rw [List.pairwise_map]
        apply List.Pairwise.imp_of_mem _ (List.nodup_range numWorkers.toNat)
        intro i j hi hj hij
        simp only [List.mem_range] at hi hj
        intro v hv1 hv2
        rw [mem_strided] at hv1 hv2
        obtain ⟨k1, _, e1⟩ := hv1
        obtain ⟨k2, _, e2⟩ := hv2
        apply hij
        have h : ((i : Int) + (k1 : Int) * numWorkers) % numWorkers
            = ((j : Int) + (k2 : Int) * numWorkers) % numWorkers := by rw [← e1, ← e2]
        rw [Int.add_mul_emod_self, Int.add_mul_emod_self] at h
        rw [Int.emod_eq_of_lt (by omega) (by omega), Int.emod_eq_of_lt (by omega) (by omega)] at h
        exact_mod_cast h
    · apply List.Nodup.map _ (List.nodup_range _)
      intro a b hab
      simp only at hab
      exact_mod_cast hab


theorem workCount_balanced (w n : Int) (hw : 1 ≤ w) (i j : Nat) (hj : (j : Int) < w) :
    workCount w n i ≤ workCount w n j + 1 := by
  by_contra hlt
  push_neg at hlt
  have h1 := (workCount_spec w n i hw (workCount w n j + 1)).1 hlt
  have h2 := (workCount_spec w n j hw (workCount w n j)).not.1 (lt_irrefl _)
  have e : ((workCount w n j + 1 : Nat) : Int) * w = (workCount w n j : Int) * w + w := by
    push_cast; ring
  rw [e] at h1
  omega

/-- Claim C7, amended: for `numWorkers ≥ 1` and `numItems ≥ 0` with
`numWorkers + numItems ≤ 2 ^ 31`, `GenerateWorkDistribution` returns and the lengths of any
two worker lists that it returns differ by at most 1. -/
theorem GenerateWorkDistribution_balanced (numWorkers numItems : Int)
    (hw : 1 ≤ numWorkers) (hn : 0 ≤ numItems) (hsum : numWorkers + numItems ≤ 2 ^ 31) :
    ∃ d : List (List Int),
      (∀ fuel : Nat, numItems.toNat < fuel →
        GenerateWorkDistribution fuel numWorkers numItems = some d) ∧
      ∀ l₁ ∈ d, ∀ l₂ ∈ d, l₁.length ≤ l₂.length + 1 := by
  refine ⟨_, fun fuel hf => GenerateWorkDistribution_eq fuel numWorkers numItems hw hn hsum hf,
    ?_⟩
  intro l₁ h₁ l₂ h₂
  simp only [List.mem_map, List.mem_range] at h₁ h₂
  obtain ⟨i, hi, rfl⟩ := h₁
  obtain ⟨j, hj, rfl⟩ := h₂
  rw [length_strided, length_strided]
  exact workCount_balanced numWorkers numItems hw i j (by omega)

/-- Claim C8, amended: for `numWorkers ≥ 1` and `numItems ≥ 0` with
`numWorkers + numItems ≤ 2 ^ 31`, and `i < numWorkers`, the list of worker `i` is
`i, i + numWorkers, i + 2 * numWorkers, ...` in this order, with exactly those `m` terms that
are below `numItems`; it is empty when `i ≥ numItems`. -/
theorem GenerateWorkDistribution_strided (numWorkers numItems : Int)
    (hw : 1 ≤ numWorkers) (hn : 0 ≤ numItems) (hsum : numWorkers + numItems ≤ 2 ^ 31) :
    ∃ d : List (List Int),
      (∀ fuel : Nat, numItems.toNat < fuel →
        GenerateWorkDistribution fuel numWorkers numItems = some d) ∧
      ∀ i : Nat, (i : Int) < numWorkers →
        ∃ m : Nat, d[i]? = some (strided (i : Int) numWorkers m) ∧
          (∀ k : Nat, k < m ↔ (i : Int) + (k : Int) * numWorkers < numItems) ∧
          (numItems ≤ (i : Int) → d[i]? = some []) := by
  refine ⟨_, fun fuel hf => GenerateWorkDistribution_eq fuel numWorkers numItems hw hn hsum hf,
    ?_⟩
  intro i hi
  have hlt : i < numWorkers.toNat := by omega
  refine ⟨workCount numWorkers numItems i, ?_, fun k => workCount_spec _ _ _ hw k, ?_⟩
  · simp [List.getElem?_map, List.getElem?_range hlt]
  · intro hge
    have h0 : workCount numWorkers numItems i = 0 := by
      by_contra hne
      have := (workCount_spec numWorkers numItems i hw 0).1 (by omega)
      simp at this
      omega
    simp [List.getElem?_map, List.getElem?_range hlt, h0, strided]

/-- The amended claim C1 at 3 workers and 10 items. -/
theorem GenerateWorkDistribution_partition_witness :
    (1 : Int) ≤ 3 ∧ (0 : Int) ≤ 10 ∧ (3 : Int) + 10 ≤ 2 ^ 31 ∧
    ∃ d : List (List Int),
      (∀ fuel : Nat, (10 : Int).toNat < fuel → GenerateWorkDistribution fuel 3 10 = some d) ∧
      d.length = (3 : Int).toNat ∧
      d.flatten.Perm ((List.range (10 : Int).toNat).map (fun (v : Nat) => (v : Int))) :=
  ⟨by decide, by decide, by decide,
    GenerateWorkDistribution_partition 3 10 (by decide) (by decide) (by decide)⟩

/-- The amended claim C7 at 4 workers and 2 items. -/
theorem GenerateWorkDistribution_balanced_witness :
    (1 : Int) ≤ 4 ∧ (0 : Int) ≤ 2 ∧ (4 : Int) + 2 ≤ 2 ^ 31 ∧
    ∃ d : List (List Int),
      (∀ fuel : Nat, (2 : Int).toNat < fuel → GenerateWorkDistribution fuel 4 2 = some d) ∧
      ∀ l₁ ∈ d, ∀ l₂ ∈ d, l₁.length ≤ l₂.length + 1 :=
  ⟨by decide, by decide, by decide,
    GenerateWorkDistribution_balanced 4 2 (by decide) (by decide) (by decide)⟩

/-- The amended claim C8 at 2 workers and 7 items. -/
theorem GenerateWorkDistribution_strided_witness :
    (1 : Int) ≤ 2 ∧ (0 : Int) ≤ 7 ∧ (2 : Int) + 7 ≤ 2 ^ 31 ∧
    ∃ d : List (List Int),
      (∀ fuel : Nat, (7 : Int).toNat < fuel → GenerateWorkDistribution fuel 2 7 = some d) ∧
      ∀ i : Nat, (i : Int) < 2 →
        ∃ m : Nat, d[i]? = some (strided (i : Int) 2 m) ∧
          (∀ k : Nat, k < m ↔ (i : Int) + (k : Int) * 2 < 7) ∧
          ((7 : Int) ≤ (i : Int) → d[i]? = some []) :=
  ⟨by decide, by decide, by decide,
    GenerateWorkDistribution_strided 2 7 (by decide) (by decide) (by decide)⟩

/-! ## Compartment swap -/

theorem assignBlock_outside {α : Type} (d s : Nat → Nat → α) (r c r' c' h w a b : Nat)
    (hr : r + h ≤ 25) (hc : c + w ≤ 25) (hab : 25 ≤ a ∨ 25 ≤ b) :
    assignBlock d s r c r' c' h w a b = d a b := by
  unfold assignBlock
  rw [if_neg (by omega)]

theorem assignCoeff_outside {α : Type} (d : Nat → Nat → α) (r c : Nat) (v : α) (a b : Nat)
    (hr : r < 25) (hc : c < 25) (hab : 25 ≤ a ∨ 25 ≤ b) :
    assignCoeff d r c v a b = d a b := by
  unfold assignCoeff
  rw [if_neg (by omega)]

theorem assignSegment_outside {α : Type} (d s : Nat → α) (p p' n a : Nat)
    (hp : p + n ≤ 25) (ha : 25 ≤ a) : assignSegment d s p p' n a = d a := by
  unfold assignSegment
  rw [if_neg (by omega)]

theorem assignEntry_outside {α : Type} (d : Nat → α) (p : Nat) (v : α) (a : Nat)
    (hp : p < 25) (ha : 25 ≤ a) : assignEntry d p v a = d a := by
  unfold assignEntry
  rw [if_neg (by omega)]

theorem SwapState_outside {α : Type} (s : Nat → α) (c : Nat → Nat → α) (i : Int)
    (r : (Nat → α) × (Nat → Nat → α)) (h : SwapState s c i = some r) :
    (∀ k, 25 ≤ k → r.1 k = s k) ∧ (∀ a b, 25 ≤ a ∨ 25 ≤ b → r.2 a b = c a b) := by
  unfold SwapState at h
  by_cases h1 : i - 1 = 1
  · simp only [h1, if_true, Option.some.injEq, Int.toNat_ofNat, Int.reduceMul, Int.reduceSub,
      Int.reduceToNat, Nat.reduceMul, Nat.reduceAdd] at h
    subst h
    constructor
    · intro k hk
      simp (disch := omega) only [assignSegment_outside, assignEntry_outside]
    · intro a b hab
      simp (disch := omega) only [assignBlock_outside, assignCoeff_outside]
  · by_cases h2 : i - 1 = 2
    · have e : ¬ ((2 : Int) = 1) := by decide
      simp only [h2, e, if_true, if_false, Option.some.injEq, Int.toNat_ofNat, Int.reduceMul,
        Int.reduceSub, Int.reduceToNat, Nat.reduceMul, Nat.reduceAdd] at h
      subst h
      constructor
      · intro k hk
        simp (disch := omega) only [assignSegment_outside, assignEntry_outside]
      · intro a b hab
        simp (disch := omega) only [assignBlock_outside, assignCoeff_outside]
    · simp [h1, h2] at h


theorem SwapState_map {α β : Type} (g : β → α) (s : Nat → β) (c : Nat → Nat → β) (i : Int) :
    SwapState (fun k => g (s k)) (fun a b => g (c a b)) i
      = (SwapState s c i).map (fun r => ((fun k => g (r.1 k)), (fun a b => g (r.2 a b)))) := by
  unfold SwapState
  by_cases h1 : i - 1 = 1
  · simp only [h1, if_true, Option.map_some']
    delta assignBlock assignCoeff assignSegment assignEntry
    simp only [apply_ite g]
  · by_cases h2 : i - 1 = 2
    · have e : ¬ ((2 : Int) = 1) := by decide
      simp only [h2, e, if_true, if_false, Option.map_some']
      delta assignBlock assignCoeff assignSegment assignEntry
      simp only [apply_ite g]
    · simp only [h1, h2, if_false, Option.map_none']

theorem SwapState_eq_labels {α : Type} (s : Nat → α) (c : Nat → Nat → α) (i : Int) :
    SwapState s c i
      = (swapLabels i).map
          (fun r => ((fun k => readLabel s c (r.1 k)), (fun a b => readLabel s c (r.2 a b)))) :=
  SwapState_map (readLabel s c) (fun k => Sum.inl k) (fun a b => Sum.inr (a, b)) i

set_option maxRecDepth 100000 in
theorem swapLabels_twice_small (i : Int) (hi : i = 2 ∨ i = 3) :
    ∃ r r', swapLabels i = some r ∧ SwapState r.1 r.2 i = some r' ∧
      (∀ k < 25, r'.1 k = Sum.inl k) ∧ (∀ a < 25, ∀ b < 25, r'.2 a b = Sum.inr (a, b)) := by
  rcases hi with rfl | rfl
  · exact ⟨_, _, rfl, rfl, by decide, by decide⟩
  · exact ⟨_, _, rfl, rfl, by decide, by decide⟩

theorem swapLabels_twice (i : Int) (hi : i = 2 ∨ i = 3) :
    ∃ r r', swapLabels i = some r ∧ SwapState r.1 r.2 i = some r' ∧
      (∀ k, r'.1 k = Sum.inl k) ∧ (∀ a b, r'.2 a b = Sum.inr (a, b)) := by
  obtain ⟨r, r', h1, h2, hs, hc⟩ := swapLabels_twice_small i hi
  refine ⟨r, r', h1, h2, ?_, ?_⟩
  · intro k
    by_cases hk : k < 25
    · exact hs k hk
    · have o1 := (SwapState_outside _ _ i r h1).1 k (by omega)
      have o2 := (SwapState_outside _ _ i r' h2).1 k (by omega)
      rw [o2, o1]
  · intro a b
    by_cases hab : a < 25 ∧ b < 25
    · exact hc a hab.1 b hab.2
    · have o1 := (SwapState_outside _ _ i r h1).2 a b (by omega)
      have o2 := (SwapState_outside _ _ i r' h2).2 a b (by omega)
      rw [o2, o1]

/-- Claim C3: for `i = 2` and `i = 3`, `SwapState` applied twice with the same `i` gives back
the state and the covariance it started from, entry for entry. -/
theorem SwapState_twice {α : Type} (state : Nat → α) (covariance : Nat → Nat → α) (i : Int)
    (hi : i = 2 ∨ i = 3) :
    ∃ r, SwapState state covariance i = some r ∧ SwapState r.1 r.2 i = some (state, covariance) := by
  obtain ⟨r, r', h1, h2, hs, hc⟩ := swapLabels_twice i hi
  refine ⟨((fun k => readLabel state covariance (r.1 k)),
    (fun a b => readLabel state covariance (r.2 a b))), ?_, ?_⟩
  · rw [SwapState_eq_labels, h1]; rfl
  · rw [SwapState_map (readLabel state covariance) r.1 r.2 i, h2]
    simp only [Option.map_some', hs, hc, readLabel]

/-- Claim C3 at `i = 2`, state entries `k` and covariance entries `25 * a + b`. -/
theorem SwapState_twice_witness :
    ((2 : Int) = 2 ∨ (2 : Int) = 3) ∧
    ∃ r, SwapState (fun (k : Nat) => k) (fun (a b : Nat) => 25 * a + b) 2 = some r ∧
      SwapState r.1 r.2 2 = some ((fun (k : Nat) => k), (fun (a b : Nat) => 25 * a + b)) :=
  ⟨by decide, SwapState_twice _ _ 2 (by decide)⟩


set_option maxRecDepth 100000 in
theorem swapLabels_small (i : Nat) (hi : i = 2 ∨ i = 3) :
    ∃ r, swapLabels (i : Int) = some r ∧
      (∀ k < 25, r.1 k = Sum.inl (swapPerm i k)) ∧
      (∀ a < 25, ∀ b < 25, r.2 a b =
        Sum.inr (if b < 21 ∧ 21 ≤ a then a else swapPerm i a,
                 if a < 21 ∧ 21 ≤ b then b else swapPerm i b)) := by
  rcases hi with rfl | rfl
  · exact ⟨_, rfl, by decide, by decide⟩
  · exact ⟨_, rfl, by decide, by decide⟩

theorem swapPerm_outside (i : Nat) (hi : i = 2 ∨ i = 3) (k : Nat) (hk : 25 ≤ k) :
    swapPerm i k = k := by
  unfold swapPerm
  rcases hi with rfl | rfl <;> (split_ifs <;> omega)

/-- What `SwapState` does for `i = 2` and `i = 3`: the state is permuted by `swapPerm i`;
in the covariance, an entry whose row and column are both compartment indices (below 21) or
both weight indices (21 to 24) is permuted by `swapPerm i` in row and column, while in the
weight-by-compartment cross blocks only the compartment index is permuted. -/
theorem SwapState_indices {α : Type} (state : Nat → α) (covariance : Nat → Nat → α) (i : Nat)
    (hi : i = 2 ∨ i = 3) :
    ∃ r, SwapState state covariance (i : Int) = some r ∧
      (∀ k, r.1 k = state (swapPerm i k)) ∧
      (∀ a b, a < 25 → b < 25 → r.2 a b =
        covariance (if b < 21 ∧ 21 ≤ a then a else swapPerm i a)
                   (if a < 21 ∧ 21 ≤ b then b else swapPerm i b)) := by
  obtain ⟨r, h1, hs, hc⟩ := swapLabels_small i hi
  refine ⟨((fun k => readLabel state covariance (r.1 k)),
    (fun a b => readLabel state covariance (r.2 a b))), ?_, ?_, ?_⟩
  · rw [SwapState_eq_labels, h1]; rfl
  · intro k
    by_cases hk : k < 25
    · simp only [hs k hk, readLabel]
    · have o1 := (SwapState_outside _ _ (i : Int) r h1).1 k (by omega)
      simp only [o1, readLabel, swapPerm_outside i hi k (by omega)]
  · intro a b ha hb
    simp only [hc a ha b hb, readLabel]

/-- Claim C4, evaluated where the code departs from it: for `i = 2`, state entries `k` and
covariance entries `25 * a + b`, `SwapState` leaves `25 * 21 + 7 = 532` at row 21, column 0,
whereas the entry that the permutation `swapPerm 2` of rows and columns puts there is
`25 * 22 + 7 = 557`; in the same way it leaves `25 * 7 + 21` at row 0, column 21 instead of
`25 * 7 + 22`. -/
theorem SwapState_cross_block_divergence :
    ∃ r, SwapState (fun (k : Nat) => k) (fun (a b : Nat) => 25 * a + b) 2 = some r ∧
      r.2 21 0 = 532 ∧
      (fun (a b : Nat) => 25 * a + b) (swapPerm 2 21) (swapPerm 2 0) = 557 ∧
      r.2 0 21 = 7 * 25 + 21 ∧
      (fun (a b : Nat) => 25 * a + b) (swapPerm 2 0) (swapPerm 2 21) = 7 * 25 + 22 :=
  ⟨_, rfl, by decide, by decide, by decide, by decide⟩

/-! ## Doubles and the reparameterization -/

namespace Dbl

@[simp] theorem isFinite_fin {α : Type} (a : α) : (fin a : Dbl α).isFinite = true := rfl
@[simp] theorem isNaN_fin {α : Type} (a : α) : (fin a : Dbl α).isNaN = false := rfl
@[simp] theorem isNaN_nan {α : Type} : (nan : Dbl α).isNaN = true := rfl
@[simp] theorem isFinite_nan {α : Type} : (nan : Dbl α).isFinite = false := rfl

variable {α : Type} [LinearOrderedField α]

@[simp] theorem fin_add_fin (a b : α) : (fin a + fin b : Dbl α) = fin (a + b) := rfl
@[simp] theorem fin_mul_fin (a b : α) : (fin a * fin b : Dbl α) = fin (a * b) := rfl
@[simp] theorem neg_fin (a : α) : (-(fin a) : Dbl α) = fin (-a) := rfl
@[simp] theorem fin_sub_fin (a b : α) : (fin a - fin b : Dbl α) = fin (a - b) := by
  show add (fin a) (neg (fin b)) = fin (a - b)
  simp [add, neg, sub_eq_add_neg]
theorem fin_div_fin (a b : α) (hb : b ≠ 0) : (fin a / fin b : Dbl α) = fin (a / b) := by
  show div (fin a) (fin b) = fin (a / b)
  simp [div, hb]
@[simp] theorem fin_lt_fin (a b : α) : (fin a < fin b) ↔ a < b := by
  show blt (fin a) (fin b) = true ↔ a < b
  simp [blt]
@[simp] theorem fin_le_fin (a b : α) : (fin a ≤ fin b) ↔ a ≤ b := by
  show ble (fin a) (fin b) = true ↔ a ≤ b
  simp [ble]
@[simp] theorem nan_add (x : Dbl α) : (nan + x : Dbl α) = nan := by
  show add nan x = nan
  cases x <;> rfl
@[simp] theorem add_nan (x : Dbl α) : (x + nan : Dbl α) = nan := by
  show add x nan = nan
  cases x <;> rfl
@[simp] theorem nan_mul (x : Dbl α) : (nan * x : Dbl α) = nan := by
  show mul nan x = nan
  cases x <;> rfl
@[simp] theorem mul_nan (x : Dbl α) : (x * nan : Dbl α) = nan := by
  show mul x nan = nan
  cases x <;> rfl
@[simp] theorem nan_sub (x : Dbl α) : (nan - x : Dbl α) = nan := by
  show add nan (neg x) = nan
  cases x <;> rfl
@[simp] theorem sub_nan (x : Dbl α) : (x - nan : Dbl α) = nan := by
  show add x (neg nan) = nan
  cases x <;> rfl
@[simp] theorem nan_div (x : Dbl α) : (nan / x : Dbl α) = nan := by
  show div nan x = nan
  cases x <;> rfl
@[simp] theorem div_nan (x : Dbl α) : (x / nan : Dbl α) = nan := by
  show div x nan = nan
  cases x <;> rfl
@[simp] theorem not_nan_lt (x : Dbl α) : ¬ (nan < x) := by
  show ¬ (blt nan x = true)
  cases x <;> simp [blt]
@[simp] theorem not_lt_nan (x : Dbl α) : ¬ (x < nan) := by
  show ¬ (blt x nan = true)
  cases x <;> simp [blt]
@[simp] theorem not_nan_le (x : Dbl α) : ¬ (nan ≤ x) := by
  show ¬ (ble nan x = true)
  cases x <;> simp [ble]
@[simp] theorem not_le_nan (x : Dbl α) : ¬ (x ≤ nan) := by
  show ¬ (ble x nan = true)
  cases x <;> simp [ble]

@[simp] theorem not_pinf_lt (x : Dbl α) : ¬ (pinf < x) := by
  show ¬ (blt pinf x = true)
  cases x <;> simp [blt]
@[simp] theorem not_lt_ninf (x : Dbl α) : ¬ (x < ninf) := by
  show ¬ (blt x ninf = true)
  cases x <;> simp [blt]
@[simp] theorem ninf_lt_fin (a : α) : (ninf : Dbl α) < fin a := by
  show blt ninf (fin a) = true
  rfl
@[simp] theorem fin_lt_pinf (a : α) : (fin a : Dbl α) < pinf := by
  show blt (fin a) pinf = true
  rfl

end Dbl

namespace LFBGSB

variable {α : Type} [LinearOrderedField α] {n : Nat}

theorem EPS_eq : (EPS : Dbl α) = Dbl.fin (22204 / 10 ^ 20) := rfl

theorem eps_pos : (0 : α) < 22204 / 10 ^ 20 := by positivity

/-- `invTransform` lands between `lb + EPS` and `ub - EPS` on every input that is not NaN. -/
theorem invTransformAt_mem (L : Libm α)
    (hexp : ∀ t v : α, L.exp (Dbl.fin t) = Dbl.fin v → 0 ≤ v)
    (l u : α) (hw : 22204 / 10 ^ 20 ≤ u - l) (x : Dbl α) (hx : x ≠ Dbl.nan) :
    ∃ v : α, invTransformAt L (Dbl.fin l) (Dbl.fin u) x = Dbl.fin v ∧ l ≤ v ∧ v ≤ u := by
  have he : (0 : α) < 22204 / 10 ^ 20 := eps_pos
  cases x with
  | nan => exact absurd rfl hx
  | pinf =>
    refine ⟨u - 22204 / 10 ^ 20, ?_, by linarith, by linarith⟩
    simp [invTransformAt, Dbl.isFinite, Dbl.isNaN, EPS_eq]
  | ninf =>
    refine ⟨l + 22204 / 10 ^ 20, ?_, by linarith, by linarith⟩
    simp [invTransformAt, Dbl.isFinite, Dbl.isNaN, EPS_eq]
  | fin t =>
    simp only [invTransformAt, Dbl.isFinite_fin, EPS_eq, Dbl.fin_add_fin, Dbl.fin_sub_fin]
    cases hE : L.exp (Dbl.fin t) with
    | nan =>
      refine ⟨u - 22204 / 10 ^ 20, ?_, by linarith, by linarith⟩
      simp
    | pinf =>
      refine ⟨u - 22204 / 10 ^ 20, ?_, by linarith, by linarith⟩
      have hout : ((Dbl.fin (l + 22204 / 10 ^ 20) + Dbl.fin (u - 22204 / 10 ^ 20) * Dbl.pinf)
          / (Dbl.fin 1 + Dbl.pinf)).isFinite = false := by
        show (Dbl.div (Dbl.add (Dbl.fin _) (Dbl.mul (Dbl.fin _) Dbl.pinf))
          (Dbl.add (Dbl.fin 1) Dbl.pinf)).isFinite = false
        simp only [Dbl.mul, Dbl.infTimes]
        split_ifs <;> rfl
      simp [hout]
    | ninf =>
      refine ⟨u - 22204 / 10 ^ 20, ?_, by linarith, by linarith⟩
      have hout : ((Dbl.fin (l + 22204 / 10 ^ 20) + Dbl.fin (u - 22204 / 10 ^ 20) * Dbl.ninf)
          / (Dbl.fin 1 + Dbl.ninf)).isFinite = false := by
        show (Dbl.div (Dbl.add (Dbl.fin _) (Dbl.mul (Dbl.fin _) Dbl.ninf))
          (Dbl.add (Dbl.fin 1) Dbl.ninf)).isFinite = false
        simp only [Dbl.mul, Dbl.infTimes]
        split_ifs <;> rfl
      simp [hout]
    | fin v =>
      have hv : 0 ≤ v := hexp t v hE
      have h1 : (1 + v) ≠ 0 := by linarith
      have h1' : 0 < 1 + v := by linarith
      refine ⟨(l + 22204 / 10 ^ 20 + (u - 22204 / 10 ^ 20) * v) / (1 + v), ?_, ?_, ?_⟩
      · simp [Dbl.fin_div_fin _ _ h1]
      · rw [le_div_iff₀ h1']
        nlinarith
      · rw [div_le_iff₀ h1']
        nlinarith

end LFBGSB

/-! ## Line search and main loop of the solver: they return -/

namespace LFBGSB

variable {α : Type} [LinearOrderedField α] {n : Nat}

theorem lsInfo_ne_zero (st : LSState α) (iter : Nat)
    (step f_step dgrad armijo dgrad_init dgrad_test : Dbl α) (h : iter ≥ 100) :
    lsInfo st iter step f_step dgrad armijo dgrad_init dgrad_test ≠ 0 := by
  unfold lsInfo
  simp only [h, if_true]
  split_ifs <;> decide

/-- A pass of the line search that goes on has counted one more pass, fewer than 100. -/
theorem lineSearchPass_continue (S : LFBGSB α n) (x_0 dir : Vec α n)
    (f_init dgrad_init dgrad_test : Dbl α) (st st' : LSState α)
    (h : lineSearchPass S x_0 dir f_init dgrad_init dgrad_test st = Sum.inr st') :
    st'.iter = st.iter + 1 ∧ st.iter + 1 < 100 := by
  unfold lineSearchPass at h
  simp only at h
  split_ifs at h with h1
  obtain ⟨rfl⟩ := Sum.inr.inj h
  refine ⟨rfl, ?_⟩
  by_contra hge
  exact lsInfo_ne_zero _ _ _ _ _ _ _ _ (by omega) (not_not.1 h1)

/-- A pass of the line search that returns leaves `x = x_0 + step * dir` and the gradient at
that `x`. -/
theorem lineSearchPass_return (S : LFBGSB α n) (x_0 dir : Vec α n)
    (f_init dgrad_init dgrad_test : Dbl α) (st : LSState α) (r : LSResult α n)
    (h : lineSearchPass S x_0 dir f_init dgrad_init dgrad_test st = Sum.inl r) :
    r.x = Vec.add x_0 (Vec.smul r.step dir) ∧ r.grad = (S.objFunc r.x).2 := by
  unfold lineSearchPass at h
  simp only at h
  split_ifs at h with h1
  obtain ⟨rfl⟩ := Sum.inl.inj h
  exact ⟨rfl, rfl⟩

/-- The loop of the line search returns when it is given the passes that are left up to
pass 100. -/
theorem lineSearchLoop_returns (S : LFBGSB α n) (x_0 dir : Vec α n)
    (f_init dgrad_init dgrad_test : Dbl α) :
    ∀ (passes : Nat) (st : LSState α), 100 ≤ st.iter + passes → 1 ≤ passes →
      ∃ r, lineSearchLoop S x_0 dir f_init dgrad_init dgrad_test passes st = some r ∧
        r.x = Vec.add x_0 (Vec.smul r.step dir) ∧ r.grad = (S.objFunc r.x).2 := by
  intro passes
  induction passes with
  | zero => intro st _ h; omega
  | succ p ih =>
    intro st h100 _
    unfold lineSearchLoop
    cases hp : lineSearchPass S x_0 dir f_init dgrad_init dgrad_test st with
    | inl r => exact ⟨r, rfl, lineSearchPass_return S x_0 dir _ _ _ st r hp⟩
    | inr st' =>
      obtain ⟨h1, h2⟩ := lineSearchPass_continue S x_0 dir _ _ _ st st' hp
      exact ih st' (by omega) (by omega)

/-- `LineSearch` returns: either at once with `x` unchanged, or with `x = x_0 + step * dir`;
`grad` is the gradient at the `x` it leaves. -/
theorem LineSearch_returns (S : LFBGSB α n) (x grad dir : Vec α n) :
    ∃ r, LineSearch S x grad dir = some r ∧ r.grad = (S.objFunc r.x).2 ∧
      ((Vec.dot (S.objFunc x).2 dir ≥ Dbl.fin 0 ∧ r.x = x) ∨
       (¬ (Vec.dot (S.objFunc x).2 dir ≥ Dbl.fin 0) ∧ r.x = Vec.add x (Vec.smul r.step dir))) := by
  unfold LineSearch
  simp only
  split_ifs with h
  · exact ⟨_, rfl, rfl, Or.inl ⟨h, rfl⟩⟩
  · obtain ⟨r, hr, hx, hg⟩ := lineSearchLoop_returns S x dir (S.objFunc x).1
      (Vec.dot (S.objFunc x).2 dir) (wolfe1 * Vec.dot (S.objFunc x).2 dir) 100 _
      (by simp) (by omega)
    exact ⟨r, hr, hg, Or.inr ⟨h, hx⟩⟩

/-- The main loop of `Solve` ends. -/
theorem solveLoop_returns (S : LFBGSB α n) :
    ∀ (remaining : Nat) (st : SolveState α n), ∃ x_final, solveLoop S remaining st = some x_final := by
  intro remaining
  induction remaining with
  | zero => intro st; exact ⟨_, rfl⟩
  | succ r ih =>
    intro st
    unfold solveLoop
    split_ifs with h
    · obtain ⟨ls, hls, _⟩ := LineSearch_returns S st.x_prev st.g_prev
        (Vec.neg (step st.g st.sHistory st.yHistory (Nat.min (st.k + 1) m)))
      simp only [hls]
      split_ifs
      · exact ⟨_, rfl⟩
      · exact ⟨_, rfl⟩
      · exact ih _
    · exact ⟨_, rfl⟩

end LFBGSB

/-! ## The solver's result and the bounds -/

namespace LFBGSB

variable {α : Type} [LinearOrderedField α] {n : Nat}

theorem solveLoop_of_not_gt (S : LFBGSB α n) (remaining : Nat) (st : SolveState α n)
    (h : ¬ (st.err > tol)) : solveLoop S remaining st = some st.x_prev := by
  cases remaining with
  | zero => rfl
  | succ r => unfold solveLoop; rw [if_neg h]

theorem dot_nan_right (a b : Vec α (n + 1)) (hb : ∀ i, b i = Dbl.nan) :
    Vec.dot a b = Dbl.nan := by
  unfold Vec.dot
  rw [Fin.foldl_succ_last]
  simp [hb]

/-- What holds of `XOpt` when finite doubles are combined exactly (no rounding): for finite
bounds with `ub - lb ≥ EPS` in every coordinate, a start point inside the box and an `exp` whose finite values are non-negative, `Solve` returns
whatever the objective is; `XOpt` is assigned either at the early exit (`XOpt = x0`) or by the
final `invTransform`, never at the exit after the first line search; and every coordinate of
`XOpt` lies in `[lb, ub]`, except possibly a coordinate in which the final unconstrained
iterate is NaN. -/
theorem Solve_XOpt_within_bounds (S : LFBGSB α n) (l u x₀ : Fin n → α)
    (hlb : S.lb = fun i => Dbl.fin (l i)) (hub : S.ub = fun i => Dbl.fin (u i))
    (hexp : ∀ t v : α, S.libm.exp (Dbl.fin t) = Dbl.fin v → 0 ≤ v)
    (hw : ∀ i, 22204 / 10 ^ 20 ≤ u i - l i)
    (hx₀ : ∀ i, l i ≤ x₀ i ∧ x₀ i ≤ u i) :
    ∃ r, Solve S (fun i => Dbl.fin (x₀ i)) = some r ∧
      r.exit ≠ SolveExit.afterFirstSearch ∧
      (r.exit = SolveExit.startPoint → r.XOpt = fun i => Dbl.fin (x₀ i)) ∧
      (r.exit = SolveExit.final → r.XOpt = S.invTransform r.iterate) ∧
      ∀ i, (r.exit = SolveExit.final → r.iterate i ≠ Dbl.nan) →
        ∃ v : α, r.XOpt i = Dbl.fin v ∧ l i ≤ v ∧ v ≤ u i := by
  unfold Solve
  simp only
  split_ifs with h
  · refine ⟨_, rfl, by simp, fun _ => rfl, by simp, ?_⟩
    intro i _
    exact ⟨x₀ i, rfl, (hx₀ i).1, (hx₀ i).2⟩
  · obtain ⟨ls, hls, _⟩ := LineSearch_returns S (S.transform fun i => Dbl.fin (x₀ i))
      (S.objFunc (S.transform fun i => Dbl.fin (x₀ i))).2
      (Vec.neg (S.objFunc (S.transform fun i => Dbl.fin (x₀ i))).2)
    simp only [hls]
    obtain ⟨xf, hxf⟩ := solveLoop_returns S maxIter
      { x := S.transform fun i => Dbl.fin (x₀ i), g := ls.grad, x_prev := ls.x, g_prev := ls.grad,
        err := Vec.norm S.libm (S.objFunc (S.transform fun i => Dbl.fin (x₀ i))).2, k := 0,
        sHistory := fun j => if j = 0 then
          Vec.sub ls.x (S.transform fun i => Dbl.fin (x₀ i)) else S.sUninit j,
        yHistory := fun j => if j = 0 then
          Vec.sub ls.grad (S.objFunc (S.transform fun i => Dbl.fin (x₀ i))).2 else S.yUninit j }
    simp only [hxf]
    refine ⟨_, rfl, by simp, by simp, fun _ => rfl, ?_⟩
    intro i hi
    have hne : xf i ≠ Dbl.nan := hi rfl
    obtain ⟨v, hv, h1, h2⟩ := invTransformAt_mem S.libm hexp (l i) (u i) (hw i) (xf i) hne
    refine ⟨v, ?_, h1, h2⟩
    simp only [invTransform, hlb, hub]
    exact hv


theorem objFunc_grad_of_nan (S : LFBGSB α n) (hfv : ∀ x, S.functionValue x = Dbl.nan)
    (x : Vec α n) : (S.objFunc x).2 = fun _ => Dbl.nan := by
  funext i
  simp [objFunc, functionGradientMSE, hfv]

/-- With an objective that returns NaN everywhere, `Solve` ends in `invTransform` of an
all-NaN vector: every coordinate of `XOpt` is `(ub - lb) / 2`. -/
theorem Solve_of_nan_objective (S : LFBGSB α (n + 1))
    (hfv : ∀ x, S.functionValue x = Dbl.nan) (hsqrt : S.libm.sqrt Dbl.nan = Dbl.nan)
    (x0 : Vec α (n + 1)) :
    ∃ r, Solve S x0 = some r ∧ r.exit = SolveExit.final ∧ (∀ i, r.iterate i = Dbl.nan) ∧
      r.XOpt = fun i => (S.ub i - S.lb i) / Dbl.fin 2 := by
  have hnorm : Vec.norm S.libm (fun _ => Dbl.nan : Vec α (n + 1)) = Dbl.nan := by
    unfold Vec.norm
    rw [dot_nan_right _ _ (fun _ => rfl), hsqrt]
  obtain ⟨ls, hls, _, hx⟩ := LineSearch_returns S (S.transform x0) (S.objFunc (S.transform x0)).2
    (Vec.neg (S.objFunc (S.transform x0)).2)
  have hdir : Vec.neg (S.objFunc (S.transform x0)).2 = fun _ => Dbl.nan := by
    rw [objFunc_grad_of_nan S hfv]; rfl
  have hlsx : ls.x = fun _ => Dbl.nan := by
    rcases hx with ⟨h, _⟩ | ⟨_, h⟩
    · rw [hdir, dot_nan_right _ _ (fun _ => rfl)] at h
      exact absurd h (Dbl.not_le_nan _)
    · rw [h, hdir]
      funext i
      simp [Vec.add, Vec.smul]
  unfold Solve
  simp only [objFunc_grad_of_nan S hfv, hnorm, Dbl.not_nan_le, if_false]
  rw [objFunc_grad_of_nan S hfv] at hls
  simp only [hls]
  rw [solveLoop_of_not_gt]
  · refine ⟨_, rfl, rfl, ?_, ?_⟩
    · intro i; simp [hlsx]
    · funext i
      simp [hlsx, invTransform, invTransformAt, Dbl.isFinite, Dbl.isNaN]
  · simp only
    exact Dbl.not_lt_nan _

end LFBGSB

/-- Claim C2 (divergence): with bounds `[10, 11]`, start point `10.5` and an objective that
returns NaN, `Solve` leaves `XOpt = (ub - lb) / 2 = 0.5`, which is below the lower bound: the
NaN branch of `invTransform` returns the half-width of the box, where the two branches next to
it return the points `lb + EPS` and `ub - EPS` of the box. -/
theorem Solve_XOpt_outside_bounds :
    (10 : ℝ) < 11 ∧ (10 : ℝ) ≤ 21 / 2 ∧ (21 / 2 : ℝ) ≤ 11 ∧
    ∃ r, LFBGSB.Solve
        (constantObjective 1 (Libm.ofFinite Real.exp Real.log Real.sqrt) (10 : ℝ) 11 Dbl.nan)
        (fun _ => Dbl.fin (21 / 2)) = some r ∧
      r.XOpt 0 = Dbl.fin (1 / 2) ∧ ¬ (Dbl.fin (10 : ℝ) ≤ r.XOpt 0) := by
  refine ⟨by norm_num, by norm_num, by norm_num, ?_⟩
  obtain ⟨r, hr, _, _, hX⟩ := LFBGSB.Solve_of_nan_objective
    (constantObjective 1 (Libm.ofFinite Real.exp Real.log Real.sqrt) (10 : ℝ) 11 Dbl.nan)
    (fun _ => rfl) rfl (fun _ => Dbl.fin (21 / 2))
  refine ⟨r, hr, ?_, ?_⟩
  · rw [hX]
    simp only [constantObjective, Dbl.fin_sub_fin]
    rw [Dbl.fin_div_fin _ _ (by norm_num)]
    norm_num
  · rw [hX]
    simp only [constantObjective, Dbl.fin_sub_fin]
    rw [Dbl.fin_div_fin _ _ (by norm_num)]
    simp only [Dbl.fin_le_fin]
    norm_num

/-- The statement of `Solve_XOpt_within_bounds` at bounds `[10, 11]`, start point `10.5` and the
objective that is constantly 0, in real arithmetic. -/
theorem Solve_XOpt_within_bounds_witness :
    ∃ r, LFBGSB.Solve
        (constantObjective 1 (Libm.ofFinite Real.exp Real.log Real.sqrt) (10 : ℝ) 11 (Dbl.fin 0))
        (fun i => Dbl.fin ((fun _ => (21 / 2 : ℝ)) i)) = some r ∧
      r.exit ≠ LFBGSB.SolveExit.afterFirstSearch ∧
      (r.exit = LFBGSB.SolveExit.startPoint →
        r.XOpt = fun i => Dbl.fin ((fun _ => (21 / 2 : ℝ)) i)) ∧
      (r.exit = LFBGSB.SolveExit.final →
        r.XOpt = (constantObjective 1 (Libm.ofFinite Real.exp Real.log Real.sqrt)
          (10 : ℝ) 11 (Dbl.fin 0)).invTransform r.iterate) ∧
      ∀ i, (r.exit = LFBGSB.SolveExit.final → r.iterate i ≠ Dbl.nan) →
        ∃ v : ℝ, r.XOpt i = Dbl.fin v ∧ (fun _ => (10 : ℝ)) i ≤ v ∧ v ≤ (fun _ => (11 : ℝ)) i :=
  LFBGSB.Solve_XOpt_within_bounds
    (constantObjective 1 (Libm.ofFinite Real.exp Real.log Real.sqrt) (10 : ℝ) 11 (Dbl.fin 0))
    (fun _ => 10) (fun _ => 11) (fun _ => 21 / 2) rfl rfl
    (fun t v h => by
      have hv : v = Real.exp t := by
        have h' : (Dbl.fin (Real.exp t) : Dbl ℝ) = Dbl.fin v := h
        injection h' with h2
        exact h2.symm
      rw [hv]; exact (Real.exp_pos t).le)
    (fun _ => by norm_num) (fun _ => by norm_num)

/-! ## The reparameterization: finiteness and round trip -/

namespace LFBGSB

variable {α : Type} [LinearOrderedField α] {n : Nat}

/-- Claim C5: in exact real arithmetic, for finite bounds and `x` strictly inside the box,
`invTransform(transform(x))` is finite in every coordinate and differs from `x` by at most
`2 * EPS` there. -/
theorem invTransform_transform_close (S : LFBGSB ℝ n) (l u x : Fin n → ℝ)
    (hL : S.libm = Libm.ofFinite Real.exp Real.log Real.sqrt)
    (hlb : S.lb = fun i => Dbl.fin (l i)) (hub : S.ub = fun i => Dbl.fin (u i))
    (hx : ∀ i, l i < x i ∧ x i < u i) :
    ∀ i, ∃ v : ℝ, S.invTransform (S.transform (fun i => Dbl.fin (x i))) i = Dbl.fin v ∧
      |v - x i| ≤ 2 * (22204 / 10 ^ 20) := by
  intro i
  obtain ⟨h1, h2⟩ := hx i
  have he : (0 : ℝ) < 22204 / 10 ^ 20 := eps_pos
  set e : ℝ := 22204 / 10 ^ 20 with he_def
  have hA : 0 < x i - l i + e := by linarith
  have hB : 0 < u i - x i + e := by linarith
  have hlogA : (Libm.ofFinite Real.exp Real.log Real.sqrt).log (Dbl.fin (x i - l i + e))
      = Dbl.fin (Real.log (x i - l i + e)) := by
    show (if x i - l i + e < 0 then Dbl.nan else if x i - l i + e = 0 then Dbl.ninf
      else Dbl.fin (Real.log (x i - l i + e))) = _
    rw [if_neg (not_lt.2 hA.le), if_neg hA.ne']
  have hlogB : (Libm.ofFinite Real.exp Real.log Real.sqrt).log (Dbl.fin (u i - x i + e))
      = Dbl.fin (Real.log (u i - x i + e)) := by
    show (if u i - x i + e < 0 then Dbl.nan else if u i - x i + e = 0 then Dbl.ninf
      else Dbl.fin (Real.log (u i - x i + e))) = _
    rw [if_neg (not_lt.2 hB.le), if_neg hB.ne']
  have hexp : (Libm.ofFinite Real.exp Real.log Real.sqrt).exp
      (Dbl.fin (Real.log (x i - l i + e) - Real.log (u i - x i + e)))
      = Dbl.fin ((x i - l i + e) / (u i - x i + e)) := by
    show Dbl.fin (Real.exp _) = _
    rw [Real.exp_sub, Real.exp_log hA, Real.exp_log hB]
  have hden : (1 + (x i - l i + e) / (u i - x i + e)) ≠ 0 := by
    have : 0 < (x i - l i + e) / (u i - x i + e) := div_pos hA hB
    linarith
  refine ⟨(l i + e + (u i - e) * ((x i - l i + e) / (u i - x i + e)))
      / (1 + (x i - l i + e) / (u i - x i + e)), ?_, ?_⟩
  · simp only [invTransform, transform, hlb, hub, hL, transformAt, EPS_eq, Dbl.fin_sub_fin,
      Dbl.fin_add_fin, ← he_def, hlogA, hlogB, invTransformAt, Dbl.isFinite_fin, hexp,
      Dbl.fin_mul_fin]
    rw [Dbl.fin_div_fin _ _ hden]
    simp
  · have hsum : 0 < u i - l i + 2 * e := by linarith
    have key : (l i + e + (u i - e) * ((x i - l i + e) / (u i - x i + e)))
        / (1 + (x i - l i + e) / (u i - x i + e)) - x i
        = 2 * e * (l i + u i - 2 * x i) / (u i - l i + 2 * e) := by
      field_simp
      ring
    rw [key, abs_le]
    constructor
    · rw [le_div_iff₀ hsum]
      nlinarith
    · rw [div_le_iff₀ hsum]
      nlinarith

/-- Claim C5 at bounds `[10, 11]` and `x = 10.5`. -/
theorem invTransform_transform_close_witness :
    ∃ v : ℝ,
      (constantObjective 1 (Libm.ofFinite Real.exp Real.log Real.sqrt) (10 : ℝ) 11
          (Dbl.fin 0)).invTransform
        ((constantObjective 1 (Libm.ofFinite Real.exp Real.log Real.sqrt) (10 : ℝ) 11
          (Dbl.fin 0)).transform (fun i => Dbl.fin ((fun _ => (21 / 2 : ℝ)) i))) 0 = Dbl.fin v ∧
      |v - (fun _ => (21 / 2 : ℝ)) (0 : Fin 1)| ≤ 2 * (22204 / 10 ^ 20) :=
  invTransform_transform_close
    (constantObjective 1 (Libm.ofFinite Real.exp Real.log Real.sqrt) (10 : ℝ) 11 (Dbl.fin 0))
    (fun _ => 10) (fun _ => 11) (fun _ => 21 / 2) rfl rfl rfl (fun _ => by norm_num) 0

end LFBGSB

/-! ## RTOP from the state -/

section RTOP

variable {α : Type} [LinearOrderedField α]

/-- The entries that `clampState` writes. -/
theorem clampState_apply (s : Nat → Dbl α) (k : Nat) :
    clampState s k =
      if (3 ≤ k ∧ k ≤ 6) ∨ (10 ≤ k ∧ k ≤ 13) ∨ (17 ≤ k ∧ k ≤ 24) then
        Dbl.min (Dbl.max (s k) (Dbl.fin (rangeLo k))) (Dbl.fin (rangeHi k))
      else s k := by
  by_cases hk : k < 25
  · interval_cases k <;> rfl
  · have h : ¬ ((3 ≤ k ∧ k ≤ 6) ∨ (10 ≤ k ∧ k ≤ 13) ∨ (17 ≤ k ∧ k ≤ 24)) := by omega
    rw [if_neg h]
    unfold clampState
    simp only [assignEntry]
    repeat rw [if_neg (by omega)]

theorem min_max_eq_clampTo (lo hi : α) (h : lo ≤ hi) (v : Dbl α) :
    Dbl.min (Dbl.max v (Dbl.fin lo)) (Dbl.fin hi) = clampTo lo hi v := by
  cases v with
  | nan => simp [Dbl.min, Dbl.max, clampTo]
  | pinf => simp [Dbl.min, Dbl.max, clampTo]
  | ninf => simp [Dbl.min, Dbl.max, clampTo, not_lt.2 h]
  | fin x =>
    simp only [Dbl.min, Dbl.max, clampTo, Dbl.fin_lt_fin]
    by_cases h1 : x < lo
    · simp [h1, not_lt.2 h]
    · simp [h1]

theorem clampTo_mem (lo hi : α) (h : lo ≤ hi) (v : Dbl α) (hv : v ≠ Dbl.nan) :
    ∃ x : α, clampTo lo hi v = Dbl.fin x ∧ lo ≤ x ∧ x ≤ hi := by
  cases v with
  | nan => exact absurd rfl hv
  | pinf => exact ⟨hi, rfl, h, le_refl _⟩
  | ninf => exact ⟨lo, rfl, le_refl _, h⟩
  | fin x =>
    simp only [clampTo]
    by_cases h1 : x < lo
    · exact ⟨lo, by simp [h1], le_refl _, h⟩
    · by_cases h2 : hi < x
      · exact ⟨hi, by simp [h1, h2], h, le_refl _⟩
      · exact ⟨x, by simp [h1, h2], not_lt.1 h1, not_lt.1 h2⟩

theorem rangeLo_le_rangeHi (k : Nat) : (rangeLo k : α) ≤ rangeHi k := by
  unfold rangeLo rangeHi
  split_ifs <;> first | omega | norm_num


/-- Claim C10, amended: after `computeRTOPfromState`, every diffusivity and weight entry
(indices 3-6, 10-13, 17-24) is the input entry clamped to its range, where NaN stays NaN; an
entry that was not NaN on entry is a finite number of its range (`[1, 3000]` fast,
`[0.1, 3000]` slow, `[0, 1]` weights); the nine orientation entries are unchanged; and the RTOP
values are computed from the state so clamped. -/
theorem computeRTOPfromState_clamps (L : Libm α) (D_ISO PI_COEFF : Dbl α)
    (state : Nat → Dbl α) :
    (∀ k, (3 ≤ k ∧ k ≤ 6) ∨ (10 ≤ k ∧ k ≤ 13) ∨ (17 ≤ k ∧ k ≤ 24) →
      (computeRTOPfromState L D_ISO PI_COEFF state).1 k
          = clampTo (rangeLo k) (rangeHi k) (state k) ∧
      (state k ≠ Dbl.nan →
        ∃ x : α, (computeRTOPfromState L D_ISO PI_COEFF state).1 k = Dbl.fin x ∧
          rangeLo k ≤ x ∧ x ≤ rangeHi k)) ∧
    (∀ k, k ≤ 2 ∨ (7 ≤ k ∧ k ≤ 9) ∨ (14 ≤ k ∧ k ≤ 16) →
      (computeRTOPfromState L D_ISO PI_COEFF state).1 k = state k) ∧
    (computeRTOPfromState L D_ISO PI_COEFF state).2
      = rtopOfState L D_ISO PI_COEFF (computeRTOPfromState L D_ISO PI_COEFF state).1 := by
  refine ⟨?_, ?_, rfl⟩
  · intro k hk
    have e : (computeRTOPfromState L D_ISO PI_COEFF state).1 k
        = clampTo (rangeLo k) (rangeHi k) (state k) := by
      show clampState state k = _
      rw [clampState_apply, if_pos hk, min_max_eq_clampTo _ _ (rangeLo_le_rangeHi k)]
    refine ⟨e, fun hne => ?_⟩
    rw [e]
    exact clampTo_mem _ _ (rangeLo_le_rangeHi k) _ hne
  · intro k hk
    show clampState state k = _
    rw [clampState_apply, if_neg (by omega)]

/-- Claim C10 fails as stated: on a state whose entries are NaN, entry 3 is still NaN after
`computeRTOPfromState`, so it does not lie in `[1, 3000]`. -/
theorem computeRTOPfromState_keeps_nan :
    (computeRTOPfromState (Libm.ofFinite Real.exp Real.log Real.sqrt) (Dbl.fin (3 / 1000))
        (Dbl.fin (Real.pi ^ (3 / 2 : ℝ))) (fun _ => (Dbl.nan : Dbl ℝ))).1 3 = Dbl.nan ∧
    ¬ (Dbl.fin (1 : ℝ) ≤ (computeRTOPfromState (Libm.ofFinite Real.exp Real.log Real.sqrt)
        (Dbl.fin (3 / 1000)) (Dbl.fin (Real.pi ^ (3 / 2 : ℝ))) (fun _ => Dbl.nan)).1 3) := by
  have e : (computeRTOPfromState (Libm.ofFinite Real.exp Real.log Real.sqrt)
      (Dbl.fin (3 / 1000)) (Dbl.fin (Real.pi ^ (3 / 2 : ℝ))) (fun _ => (Dbl.nan : Dbl ℝ))).1 3
      = Dbl.nan := by
    show clampState (fun _ => (Dbl.nan : Dbl ℝ)) 3 = Dbl.nan
    rw [clampState_apply]
    simp [Dbl.min, Dbl.max]
  exact ⟨e, by rw [e]; exact Dbl.not_le_nan _⟩

/-- The amended claim C10 at entry 3 of the state whose entries are all 7000. -/
theorem computeRTOPfromState_clamps_witness :
    ∃ x : ℝ, (computeRTOPfromState (Libm.ofFinite Real.exp Real.log Real.sqrt)
        (Dbl.fin (3 / 1000)) (Dbl.fin (Real.pi ^ (3 / 2 : ℝ)))
        (fun _ => (Dbl.fin 7000 : Dbl ℝ))).1 3 = Dbl.fin x ∧
      rangeLo 3 ≤ x ∧ x ≤ rangeHi 3 :=
  ((computeRTOPfromState_clamps (Libm.ofFinite Real.exp Real.log Real.sqrt)
      (Dbl.fin (3 / 1000)) (Dbl.fin (Real.pi ^ (3 / 2 : ℝ)))
      (fun _ => (Dbl.fin 7000 : Dbl ℝ))).1 3
      (Or.inl ⟨by decide, by decide⟩)).2 (by simp)

theorem clampTo_of_mem (lo hi x : α) (h1 : lo ≤ x) (h2 : x ≤ hi) :
    clampTo lo hi (Dbl.fin x) = Dbl.fin x := by
  simp [clampTo, not_lt.2 h1, not_lt.2 h2]

/-- The bracket `0.7 / sqrt(det_fast) + 0.3 / sqrt(det_slow)` is a finite number when the four
diffusivities are finite and positive and `sqrt` of a positive number is a positive number. -/
theorem rtop_bracket_finite (L : Libm α)
    (hsqrt : ∀ a : α, 0 < a → ∃ b : α, 0 < b ∧ L.sqrt (Dbl.fin a) = Dbl.fin b)
    (x₁ x₂ x₃ x₄ : α) (h₁ : 0 < x₁) (h₂ : 0 < x₂) (h₃ : 0 < x₃) (h₄ : 0 < x₄) :
    ∃ c : α, Dbl.fin (7 / 10)
        / L.sqrt ((Dbl.fin x₁ * Dbl.fin (1 / 10 ^ 6)) * (Dbl.fin x₂ * Dbl.fin (1 / 10 ^ 6)))
      + Dbl.fin (3 / 10)
        / L.sqrt ((Dbl.fin x₃ * Dbl.fin (1 / 10 ^ 6)) * (Dbl.fin x₄ * Dbl.fin (1 / 10 ^ 6)))
      = Dbl.fin c := by
  obtain ⟨b₁, hb₁, e₁⟩ := hsqrt (x₁ * (1 / 10 ^ 6) * (x₂ * (1 / 10 ^ 6))) (by positivity)
  obtain ⟨b₂, hb₂, e₂⟩ := hsqrt (x₃ * (1 / 10 ^ 6) * (x₄ * (1 / 10 ^ 6))) (by positivity)
  refine ⟨7 / 10 / b₁ + 3 / 10 / b₂, ?_⟩
  simp only [Dbl.fin_mul_fin, e₁, e₂]
  rw [Dbl.fin_div_fin _ _ hb₁.ne', Dbl.fin_div_fin _ _ hb₂.ne', Dbl.fin_add_fin]

theorem rtop_single_compartment (L : Libm α) (D_ISO PI_COEFF : Dbl α)
    (state : Nat → Dbl α) (x : Nat → α) (d p : α)
    (hsqrt : ∀ a : α, 0 < a → ∃ b : α, 0 < b ∧ L.sqrt (Dbl.fin a) = Dbl.fin b)
    (hD : D_ISO = Dbl.fin d) (hd : 0 < d) (hP : PI_COEFF = Dbl.fin p)
    (hfin : ∀ k, state k = Dbl.fin (x k))
    (hrange : ∀ k, (3 ≤ k ∧ k ≤ 6) ∨ (10 ≤ k ∧ k ≤ 13) ∨ (17 ≤ k ∧ k ≤ 20) →
        rangeLo k ≤ x k ∧ x k ≤ rangeHi k)
    (h21 : x 21 = 1) (h22 : x 22 = 0) (h23 : x 23 = 0) (h24 : x 24 = 0) :
    (computeRTOPfromState L D_ISO PI_COEFF state).2.rtop
      = PI_COEFF *
        (Dbl.fin (7 / 10)
            / L.sqrt ((state 3 * Dbl.fin (1 / 10 ^ 6)) * (state 4 * Dbl.fin (1 / 10 ^ 6)))
          + Dbl.fin (3 / 10)
            / L.sqrt ((state 5 * Dbl.fin (1 / 10 ^ 6)) * (state 6 * Dbl.fin (1 / 10 ^ 6)))) := by
  have hpos : ∀ k, (3 ≤ k ∧ k ≤ 6) ∨ (10 ≤ k ∧ k ≤ 13) ∨ (17 ≤ k ∧ k ≤ 20) → 0 < x k := by
    intro k hk
    have h := (hrange k hk).1
    have : (0 : α) < rangeLo k := by
      unfold rangeLo
      split_ifs <;> first | omega | norm_num
    linarith
  have hc : ∀ k, (3 ≤ k ∧ k ≤ 6) ∨ (10 ≤ k ∧ k ≤ 13) ∨ (17 ≤ k ∧ k ≤ 20) →
      clampState state k = Dbl.fin (x k) := by
    intro k hk
    rw [clampState_apply, if_pos (by omega), min_max_eq_clampTo _ _ (rangeLo_le_rangeHi k),
      hfin k, clampTo_of_mem _ _ _ (hrange k hk).1 (hrange k hk).2]
  have hw : ∀ k, 21 ≤ k ∧ k ≤ 24 → (0 : α) ≤ x k → x k ≤ 1 →
      clampState state k = Dbl.fin (x k) := by
    intro k hk h0 h1
    have hlo : (rangeLo k : α) = 0 := by
      unfold rangeLo
      rw [if_neg (by omega), if_neg (by omega)]
    have hhi : (rangeHi k : α) = 1 := by
      unfold rangeHi
      rw [if_pos (by omega)]
    rw [clampState_apply, if_pos (by omega), min_max_eq_clampTo _ _ (rangeLo_le_rangeHi k),
      hfin k, clampTo_of_mem _ _ _ (by rw [hlo]; exact h0) (by rw [hhi]; exact h1)]
  obtain ⟨c₁, e₁⟩ := rtop_bracket_finite L hsqrt (x 3) (x 4) (x 5) (x 6)
    (hpos 3 (by omega)) (hpos 4 (by omega)) (hpos 5 (by omega)) (hpos 6 (by omega))
  obtain ⟨c₂, e₂⟩ := rtop_bracket_finite L hsqrt (x 10) (x 11) (x 12) (x 13)
    (hpos 10 (by omega)) (hpos 11 (by omega)) (hpos 12 (by omega)) (hpos 13 (by omega))
  obtain ⟨c₃, e₃⟩ := rtop_bracket_finite L hsqrt (x 17) (x 18) (x 19) (x 20)
    (hpos 17 (by omega)) (hpos 18 (by omega)) (hpos 19 (by omega)) (hpos 20 (by omega))
  obtain ⟨b, hb, eb⟩ := hsqrt (d * d * d) (by positivity)
  simp only [computeRTOPfromState, rtopOfState]
  rw [hc 3 (by omega), hc 4 (by omega), hc 5 (by omega), hc 6 (by omega), hc 10 (by omega),
    hc 11 (by omega), hc 12 (by omega), hc 13 (by omega), hc 17 (by omega), hc 18 (by omega),
    hc 19 (by omega), hc 20 (by omega),
    hw 21 (by omega) (by rw [h21]; norm_num) (by rw [h21]),
    hw 22 (by omega) (by rw [h22]) (by rw [h22]; norm_num),
    hw 23 (by omega) (by rw [h23]) (by rw [h23]; norm_num),
    hw 24 (by omega) (by rw [h24]) (by rw [h24]; norm_num)]
  rw [hfin 3, hfin 4, hfin 5, hfin 6, e₁, e₂, e₃, hD, hP, h21, h22, h23, h24]
  simp only [Dbl.fin_mul_fin, eb]
  rw [Dbl.fin_div_fin _ _ hb.ne']
  simp

end RTOP

/-! ## Supplements -/

/-- The width condition of `Solve_XOpt_within_bounds` cannot be dropped: in the box `[0, 1e-16]`,
narrower than `EPS`, `invTransform` maps `-∞` to `lb + EPS = 2.2204e-16`, above the upper
bound. -/
theorem invTransformAt_narrow_box :
    LFBGSB.invTransformAt (Libm.ofFinite Real.exp Real.log Real.sqrt) (Dbl.fin (0 : ℝ))
        (Dbl.fin (1 / 10 ^ 16)) Dbl.ninf = Dbl.fin (22204 / 10 ^ 20) ∧
    ¬ (Dbl.fin (22204 / 10 ^ 20 : ℝ) ≤ Dbl.fin (1 / 10 ^ 16)) := by
  constructor
  · simp [LFBGSB.invTransformAt, Dbl.isFinite, Dbl.isNaN, LFBGSB.EPS_eq]
  · simp only [Dbl.fin_le_fin]
    norm_num

/-- The index bookkeeping of `SwapState` at `i = 2`, state entries `k` and covariance entries
`25 * a + b`. -/
theorem SwapState_indices_witness :
    ∃ r, SwapState (fun (k : Nat) => k) (fun (a b : Nat) => 25 * a + b) ((2 : Nat) : Int) = some r ∧
      (∀ k, r.1 k = (fun (k : Nat) => k) (swapPerm 2 k)) ∧
      (∀ a b, a < 25 → b < 25 → r.2 a b =
        (fun (a b : Nat) => 25 * a + b) (if b < 21 ∧ 21 ≤ a then a else swapPerm 2 a)
                   (if a < 21 ∧ 21 ≤ b then b else swapPerm 2 b)) :=
  SwapState_indices _ _ 2 (Or.inl rfl)

/-- On 32-bit `int`s the inner loop of `GenerateWorkDistribution` does what it does on exact
integers as long as `num_threads + total_num_works ≤ 2 ^ 31`: no sum `iter + num_threads`
overflows, whatever an overflow would yield. -/
theorem workLoop32_eq_workLoopExact (overflow : Int → Int) (w total : Int) (hw : 0 ≤ w)
    (hsum : w + total ≤ 2 ^ 31) :
    ∀ (fuel : Nat) (iter : Int) (acc : List Int), 0 ≤ iter →
      workLoop32 overflow w total fuel iter acc = workLoopExact w total fuel iter acc := by
  intro fuel
  induction fuel with
  | zero => intro iter acc _; rfl
  | succ fuel ih =>
    intro iter acc h0
    unfold workLoop32 workLoopExact
    by_cases hlt : iter < total
    · rw [if_pos hlt, if_pos hlt]
      have e : addInt32 overflow iter w = iter + w := by
        unfold addInt32
        rw [if_pos ⟨by omega, by omega⟩]
      rw [e]
      exact ih (iter + w) (acc ++ [iter]) (by omega)
    · rw [if_neg hlt, if_neg hlt]

/-- The agreement of the 32-bit loop with the exact one at 3 workers, 10 items, start 1. -/
theorem workLoop32_eq_workLoopExact_witness :
    workLoop32 (fun _ => 0) 3 10 11 1 [] = workLoopExact 3 10 11 1 [] :=
  workLoop32_eq_workLoopExact (fun _ => 0) 3 10 (by decide) (by decide) 11 1 [] (by decide)

/-! ## Seed refinement: frame and ranges -/

namespace LFBGSB

variable {α : Type} [LinearOrderedField α] {n : Nat}

/-- `Solve` returns for every object and every start point, and `XOpt` is either the start
point or `invTransform` of the final iterate. -/
theorem Solve_returns (S : LFBGSB α n) (x0 : Vec α n) :
    ∃ r, Solve S x0 = some r ∧
      (r.XOpt = x0 ∨ r.XOpt = S.invTransform r.iterate) := by
  unfold Solve
  simp only
  split_ifs with h
  · exact ⟨_, rfl, Or.inl rfl⟩
  · obtain ⟨ls, hls, _⟩ := LineSearch_returns S (S.transform x0)
      (S.objFunc (S.transform x0)).2 (Vec.neg (S.objFunc (S.transform x0)).2)
    simp only [hls]
    obtain ⟨xf, hxf⟩ := solveLoop_returns S maxIter
      { x := S.transform x0, g := ls.grad, x_prev := ls.x, g_prev := ls.grad,
        err := Vec.norm S.libm (S.objFunc (S.transform x0)).2, k := 0,
        sHistory := fun j => if j = 0 then Vec.sub ls.x (S.transform x0) else S.sUninit j,
        yHistory := fun j => if j = 0 then
          Vec.sub ls.grad (S.objFunc (S.transform x0)).2 else S.yUninit j }
    simp only [hxf]
    exact ⟨_, rfl, Or.inr rfl⟩

/-- In a box of width at least `EPS` that contains `(ub - lb) / 2`, `invTransform` sends every
double, NaN included, into the box. -/
theorem invTransformAt_mem_box (L : Libm α)
    (hexp : ∀ t v : α, L.exp (Dbl.fin t) = Dbl.fin v → 0 ≤ v)
    (l u : α) (hw : 22204 / 10 ^ 20 ≤ u - l) (hmid : l ≤ (u - l) / 2 ∧ (u - l) / 2 ≤ u)
    (x : Dbl α) :
    ∃ v : α, invTransformAt L (Dbl.fin l) (Dbl.fin u) x = Dbl.fin v ∧ l ≤ v ∧ v ≤ u := by
  by_cases hx : x = Dbl.nan
  · subst hx
    refine ⟨(u - l) / 2, ?_, hmid.1, hmid.2⟩
    simp [invTransformAt, Dbl.fin_div_fin]
  · exact invTransformAt_mem L hexp l u hw x hx

/-- With such a box in every coordinate and a start point inside it, `Solve` returns a point
of the box. -/
theorem Solve_mem_box (S : LFBGSB α n) (l u : Fin n → α) (x₀ : Vec α n)
    (hlb : S.lb = fun i => Dbl.fin (l i)) (hub : S.ub = fun i => Dbl.fin (u i))
    (hexp : ∀ t v : α, S.libm.exp (Dbl.fin t) = Dbl.fin v → 0 ≤ v)
    (hw : ∀ i, 22204 / 10 ^ 20 ≤ u i - l i)
    (hmid : ∀ i, l i ≤ (u i - l i) / 2 ∧ (u i - l i) / 2 ≤ u i)
    (hx₀ : ∀ i, ∃ v : α, x₀ i = Dbl.fin v ∧ l i ≤ v ∧ v ≤ u i) :
    ∃ r, Solve S x₀ = some r ∧
      ∀ i, ∃ v : α, r.XOpt i = Dbl.fin v ∧ l i ≤ v ∧ v ≤ u i := by
  obtain ⟨r, hr, hX⟩ := Solve_returns S x₀
  refine ⟨r, hr, fun i => ?_⟩
  rcases hX with hX | hX
  · rw [hX]
    exact hx₀ i
  · obtain ⟨v, hv, h1, h2⟩ :=
      invTransformAt_mem_box S.libm hexp (l i) (u i) (hw i) (hmid i) (r.iterate i)
    refine ⟨v, ?_, h1, h2⟩
    rw [hX]
    simp only [invTransform, hlb, hub]
    exact hv

end LFBGSB

theorem scatter_of_not_mem {α : Type} {n : Nat} (idx : Fin n → Nat) (v : Fin n → α)
    (state : Nat → α) (k : Nat) (hk : ∀ j, idx j ≠ k) : scatter idx v state k = state k := by
  induction n with
  | zero => simp [scatter]
  | succ n ih =>
    unfold scatter
    rw [Fin.foldl_succ_last]
    unfold assignEntry
    rw [if_neg (fun h => hk (Fin.last n) h.symm)]
    exact ih (fun j => idx j.castSucc) (fun j => v j.castSucc) (fun j => hk j.castSucc)

theorem scatter_idx {α : Type} {n : Nat} (idx : Fin n → Nat) (v : Fin n → α)
    (state : Nat → α) (hinj : Function.Injective idx) (j : Fin n) :
    scatter idx v state (idx j) = v j := by
  induction n with
  | zero => exact j.elim0
  | succ n ih =>
    unfold scatter
    rw [Fin.foldl_succ_last]
    unfold assignEntry
    by_cases hj : j = Fin.last n
    · rw [if_pos (by rw [hj])]; rw [hj]
    · rw [if_neg (fun h => hj (hinj h))]
      obtain ⟨j', rfl⟩ : ∃ j' : Fin n, j = j'.castSucc := ⟨j.castPred hj, by simp⟩
      exact ih (fun j => idx j.castSucc) (fun j => v j.castSucc)
        (fun a b h => Fin.castSucc_injective n (hinj h)) j'

theorem scatter_gather {α : Type} {n : Nat} (idx : Fin n → Nat) (hinj : Function.Injective idx)
    (state : Nat → α) : scatter idx (gather idx state) state = state := by
  funext k
  by_cases hk : ∃ j, idx j = k
  · obtain ⟨j, rfl⟩ := hk
    rw [scatter_idx idx _ state hinj j]; rfl
  · exact scatter_of_not_mem idx _ state k (fun j h => hk ⟨j, h⟩)

theorem fixedIndex1_injective : Function.Injective fixedIndex1 := by decide
theorem freeIndex1_injective : Function.Injective freeIndex1 := by decide
theorem fixedIndex2_injective : Function.Injective fixedIndex2 := by decide
theorem freeIndex2_injective : Function.Injective freeIndex2 := by decide

section Refinement

variable {α : Type} [LinearOrderedField α]

theorem optimizePhase1_eq (O : Optimizer α) (state signal : Nat → Dbl α) :
    ∃ r, LFBGSB.Solve (O.phase1 signal (gather fixedIndex1 state)) (gather freeIndex1 state)
        = some r ∧
      optimizePhase1 O state signal = some (scatter freeIndex1 r.XOpt state) := by
  obtain ⟨r, hr, _⟩ := LFBGSB.Solve_returns (O.phase1 signal (gather fixedIndex1 state))
    (gather freeIndex1 state)
  refine ⟨r, hr, ?_⟩
  unfold optimizePhase1
  simp only [hr, scatter_gather fixedIndex1 fixedIndex1_injective]

theorem optimizePhase2_eq (O : Optimizer α) (state signal : Nat → Dbl α) :
    ∃ r, LFBGSB.Solve (O.phase2 signal (gather fixedIndex2 state)) (gather freeIndex2 state)
        = some r ∧
      optimizePhase2 O state signal = some (scatter freeIndex2 r.XOpt state) := by
  obtain ⟨r, hr, _⟩ := LFBGSB.Solve_returns (O.phase2 signal (gather fixedIndex2 state))
    (gather freeIndex2 state)
  refine ⟨r, hr, ?_⟩
  unfold optimizePhase2
  simp only [hr, scatter_gather fixedIndex2 fixedIndex2_injective]

/-- Claim C19: for every state, signal, objective and memory content,
`NonLinearLeastSquareOptimization` returns; the state after its first phase differs from the
state on entry at most in the twelve diffusivities and the free-water weight (indices 3..6,
10..13, 17..20, 24), the state after its second phase differs from the state after the first
at most in the weights 21..23, and the nine orientation entries (0..2, 7..9, 14..16) of the
result are those on entry. -/
theorem NonLinearLeastSquareOptimization_frame (O : Optimizer α)
    (state signal : Nat → Dbl α) :
    ∃ s₁ s₂, optimizePhase1 O state signal = some s₁ ∧ optimizePhase2 O s₁ signal = some s₂ ∧
      NonLinearLeastSquareOptimization O state signal = some s₂ ∧
      (∀ k, k ∉ [3, 4, 5, 6, 10, 11, 12, 13, 17, 18, 19, 20, 24] → s₁ k = state k) ∧
      (∀ k, k ∉ [21, 22, 23] → s₂ k = s₁ k) ∧
      (∀ k, k ∈ [0, 1, 2, 7, 8, 9, 14, 15, 16] → s₂ k = state k) := by
  obtain ⟨r₁, _, h₁⟩ := optimizePhase1_eq O state signal
  obtain ⟨r₂, _, h₂⟩ := optimizePhase2_eq O (scatter freeIndex1 r₁.XOpt state) signal
  have hf₁ : ∀ k, k ∉ [3, 4, 5, 6, 10, 11, 12, 13, 17, 18, 19, 20, 24] →
      scatter freeIndex1 r₁.XOpt state k = state k := by
    intro k hk
    apply scatter_of_not_mem
    intro j hj
    have hmem : ∀ j, freeIndex1 j ∈ [3, 4, 5, 6, 10, 11, 12, 13, 17, 18, 19, 20, 24] := by
      decide
    exact hk (hj ▸ hmem j)
  have hf₂ : ∀ k, k ∉ [21, 22, 23] →
      scatter freeIndex2 r₂.XOpt (scatter freeIndex1 r₁.XOpt state) k
        = scatter freeIndex1 r₁.XOpt state k := by
    intro k hk
    apply scatter_of_not_mem
    intro j hj
    have hmem : ∀ j, freeIndex2 j ∈ [21, 22, 23] := by decide
    exact hk (hj ▸ hmem j)
  refine ⟨_, _, h₁, h₂, ?_, hf₁, hf₂, ?_⟩
  · unfold NonLinearLeastSquareOptimization
    simp only [h₁, h₂]
  · intro k hk
    rw [hf₂ k, hf₁ k]
    · intro h
      simp only [List.mem_cons, List.mem_singleton, List.not_mem_nil, or_false] at hk h
      omega
    · intro h
      simp only [List.mem_cons, List.mem_singleton, List.not_mem_nil, or_false] at hk h
      omega

end Refinement

section RefinementRanges

variable {α : Type} [LinearOrderedField α]

theorem lowerBound_eq (j : Fin 13) : (lowerBound j : α) = rangeLo (freeIndex1 j) := by
  fin_cases j <;> rfl

theorem upperBound_eq (j : Fin 13) : (upperBound j : α) = rangeHi (freeIndex1 j) := by
  fin_cases j <;> rfl

theorem lowerBound2_eq (j : Fin 3) : (lowerBound2 j : α) = rangeLo (freeIndex2 j) := by
  fin_cases j <;> rfl

theorem upperBound2_eq (j : Fin 3) : (upperBound2 j : α) = rangeHi (freeIndex2 j) := by
  fin_cases j <;> rfl

theorem lowerBound_box (j : Fin 13) :
    (22204 / 10 ^ 20 : α) ≤ upperBound j - lowerBound j ∧
      (lowerBound j : α) ≤ (upperBound j - lowerBound j) / 2 ∧
      ((upperBound j - lowerBound j) / 2 : α) ≤ upperBound j := by
  fin_cases j <;> first
    | (show (22204 / 10 ^ 20 : α) ≤ 3000 - 1 ∧ (1 : α) ≤ (3000 - 1) / 2 ∧
        ((3000 - 1) / 2 : α) ≤ 3000
       norm_num)
    | (show (22204 / 10 ^ 20 : α) ≤ 3000 - 1 / 10 ∧ (1 / 10 : α) ≤ (3000 - 1 / 10) / 2 ∧
        ((3000 - 1 / 10) / 2 : α) ≤ 3000
       norm_num)
    | (show (22204 / 10 ^ 20 : α) ≤ 1 - 0 ∧ (0 : α) ≤ (1 - 0) / 2 ∧ ((1 - 0) / 2 : α) ≤ 1
       norm_num)

theorem lowerBound2_box (j : Fin 3) :
    (22204 / 10 ^ 20 : α) ≤ upperBound2 j - lowerBound2 j ∧
      (lowerBound2 j : α) ≤ (upperBound2 j - lowerBound2 j) / 2 ∧
      ((upperBound2 j - lowerBound2 j) / 2 : α) ≤ upperBound2 j := by
  fin_cases j <;>
    (show (22204 / 10 ^ 20 : α) ≤ 1 - 0 ∧ (0 : α) ≤ (1 - 0) / 2 ∧ ((1 - 0) / 2 : α) ≤ 1
     norm_num)


theorem optimizePhase1_mem_box (O : Optimizer α) (state signal : Nat → Dbl α)
    (hexp : ∀ t v : α, O.libm.exp (Dbl.fin t) = Dbl.fin v → 0 ≤ v)
    (hs : ∀ j, ∃ v : α, state (freeIndex1 j) = Dbl.fin v ∧
      rangeLo (freeIndex1 j) ≤ v ∧ v ≤ rangeHi (freeIndex1 j)) :
    ∃ s₁, optimizePhase1 O state signal = some s₁ ∧
      (∀ k, (∀ j, freeIndex1 j ≠ k) → s₁ k = state k) ∧
      ∀ j, ∃ v : α, s₁ (freeIndex1 j) = Dbl.fin v ∧
        rangeLo (freeIndex1 j) ≤ v ∧ v ≤ rangeHi (freeIndex1 j) := by
  obtain ⟨r, hr, h₁⟩ := optimizePhase1_eq O state signal
  obtain ⟨r', hr', hbox⟩ := LFBGSB.Solve_mem_box (O.phase1 signal (gather fixedIndex1 state))
    lowerBound upperBound (gather freeIndex1 state) rfl rfl hexp
    (fun j => (lowerBound_box j).1) (fun j => (lowerBound_box j).2)
    (fun j => by rw [lowerBound_eq, upperBound_eq]; exact hs j)
  rw [hr] at hr'
  cases hr'
  refine ⟨_, h₁, fun k hk => scatter_of_not_mem _ _ _ k hk, fun j => ?_⟩
  rw [scatter_idx _ _ _ freeIndex1_injective, ← lowerBound_eq, ← upperBound_eq]
  exact hbox j

theorem optimizePhase2_mem_box (O : Optimizer α) (state signal : Nat → Dbl α)
    (hexp : ∀ t v : α, O.libm.exp (Dbl.fin t) = Dbl.fin v → 0 ≤ v)
    (hs : ∀ j, ∃ v : α, state (freeIndex2 j) = Dbl.fin v ∧
      rangeLo (freeIndex2 j) ≤ v ∧ v ≤ rangeHi (freeIndex2 j)) :
    ∃ s₂, optimizePhase2 O state signal = some s₂ ∧
      (∀ k, (∀ j, freeIndex2 j ≠ k) → s₂ k = state k) ∧
      ∀ j, ∃ v : α, s₂ (freeIndex2 j) = Dbl.fin v ∧
        rangeLo (freeIndex2 j) ≤ v ∧ v ≤ rangeHi (freeIndex2 j) := by
  obtain ⟨r, hr, h₁⟩ := optimizePhase2_eq O state signal
  obtain ⟨r', hr', hbox⟩ := LFBGSB.Solve_mem_box (O.phase2 signal (gather fixedIndex2 state))
    lowerBound2 upperBound2 (gather freeIndex2 state) rfl rfl hexp
    (fun j => (lowerBound2_box j).1) (fun j => (lowerBound2_box j).2)
    (fun j => by rw [lowerBound2_eq, upperBound2_eq]; exact hs j)
  rw [hr] at hr'
  cases hr'
  refine ⟨_, h₁, fun k hk => scatter_of_not_mem _ _ _ k hk, fun j => ?_⟩
  rw [scatter_idx _ _ _ freeIndex2_injective, ← lowerBound2_eq, ← upperBound2_eq]
  exact hbox j

/-- Claim C20, amended: when finite doubles are combined exactly (no rounding), the
exponential of the math library has no negative finite value and the twelve diffusivities and
four weights of the initial state are finite numbers inside their ranges (fast diffusivities 3, 4, 10, 11, 17, 18 in `[1, 3000]`, slow diffusivities 5, 6, 12,
13, 19, 20 in `[0.1, 3000]`, weights 21..24 in `[0, 1]`), `NonLinearLeastSquareOptimization`
returns, for every signal and every objective, a state whose sixteen entries are again finite
numbers inside these ranges. -/
theorem NonLinearLeastSquareOptimization_ranges (O : Optimizer α)
    (state signal : Nat → Dbl α)
    (hexp : ∀ t v : α, O.libm.exp (Dbl.fin t) = Dbl.fin v → 0 ≤ v)
    (hs : ∀ k, k ∈ [3, 4, 5, 6, 10, 11, 12, 13, 17, 18, 19, 20, 21, 22, 23, 24] →
      ∃ v : α, state k = Dbl.fin v ∧ rangeLo k ≤ v ∧ v ≤ rangeHi k) :
    ∃ r, NonLinearLeastSquareOptimization O state signal = some r ∧
      ∀ k, k ∈ [3, 4, 5, 6, 10, 11, 12, 13, 17, 18, 19, 20, 21, 22, 23, 24] →
        ∃ v : α, r k = Dbl.fin v ∧ rangeLo k ≤ v ∧ v ≤ rangeHi k := by
  have hm₁ : ∀ j, freeIndex1 j ∈ [3, 4, 5, 6, 10, 11, 12, 13, 17, 18, 19, 20, 21, 22, 23, 24] := by
    decide
  have hm₂ : ∀ j, freeIndex2 j ∈ [3, 4, 5, 6, 10, 11, 12, 13, 17, 18, 19, 20, 21, 22, 23, 24] := by
    decide
  have hd : ∀ j i, freeIndex1 j ≠ freeIndex2 i := by decide
  have hcover : ∀ k, k ∈ [3, 4, 5, 6, 10, 11, 12, 13, 17, 18, 19, 20, 21, 22, 23, 24] →
      (∃ j, freeIndex1 j = k) ∨ ∃ j, freeIndex2 j = k := by decide
  obtain ⟨s₁, h₁, hf₁, hb₁⟩ := optimizePhase1_mem_box O state signal hexp
    (fun j => hs _ (hm₁ j))
  obtain ⟨s₂, h₂, hf₂, hb₂⟩ := optimizePhase2_mem_box O s₁ signal hexp
    (fun j => by rw [hf₁ _ (fun i => hd i j)]; exact hs _ (hm₂ j))
  refine ⟨s₂, ?_, fun k hk => ?_⟩
  · unfold NonLinearLeastSquareOptimization
    simp only [h₁, h₂]
  · rcases hcover k hk with ⟨j, rfl⟩ | ⟨j, rfl⟩
    · rw [hf₂ _ (fun i h => hd j i h.symm)]
      exact hb₁ j
    · exact hb₂ j

end RefinementRanges

/-- The amended claim C20 at the state whose entries are all 1, with the objective that is
constantly 0, in real arithmetic. -/
theorem NonLinearLeastSquareOptimization_ranges_witness :
    ∃ r, NonLinearLeastSquareOptimization
        (constantOptimizer (Libm.ofFinite Real.exp Real.log Real.sqrt) (Dbl.fin 0))
        (fun _ => Dbl.fin (1 : ℝ)) (fun _ => Dbl.fin 1) = some r ∧
      ∀ k, k ∈ [3, 4, 5, 6, 10, 11, 12, 13, 17, 18, 19, 20, 21, 22, 23, 24] →
        ∃ v : ℝ, r k = Dbl.fin v ∧ rangeLo k ≤ v ∧ v ≤ rangeHi k :=
  NonLinearLeastSquareOptimization_ranges
    (constantOptimizer (Libm.ofFinite Real.exp Real.log Real.sqrt) (Dbl.fin 0))
    (fun _ => Dbl.fin (1 : ℝ)) (fun _ => Dbl.fin 1)
    (fun t v h => by
      have hv : v = Real.exp t := by
        have h' : (Dbl.fin (Real.exp t) : Dbl ℝ) = Dbl.fin v := h
        injection h' with h2
        exact h2.symm
      rw [hv]; exact (Real.exp_pos t).le)
    (fun k _ => ⟨1, rfl, by unfold rangeLo; split_ifs <;> norm_num,
      by unfold rangeHi; split_ifs <;> norm_num⟩)

/-! ## Seed selection -/

section SeedSelection

variable {α : Type} [LinearOrderedField α]

end SeedSelection

section SeedSelectionClaim

variable {α : Type} [LinearOrderedField α]

end SeedSelectionClaim

/-! ## Seed construction -/

section SeedConstruction

variable {α : Type} [LinearOrderedField α]

theorem NonLinearLeastSquareOptimization_returns (O : Optimizer α)
    (state signal : Nat → Dbl α) :
    ∃ r, NonLinearLeastSquareOptimization O state signal = some r := by
  obtain ⟨r₁, _, h₁⟩ := optimizePhase1_eq O state signal
  obtain ⟨r₂, _, h₂⟩ := optimizePhase2_eq O (scatter freeIndex1 r₁.XOpt state) signal
  refine ⟨scatter freeIndex2 r₂.XOpt (scatter freeIndex1 r₁.XOpt state), ?_⟩
  unfold NonLinearLeastSquareOptimization
  simp only [h₁, h₂]

theorem SwapState_returns {β : Type} (s : Nat → β) (c : Nat → Nat → β) (i : Nat)
    (hi : i = 2 ∨ i = 3) : ∃ r, SwapState s c (i : Int) = some r := by
  obtain ⟨r, hr, _⟩ := swapLabels_small i hi
  rw [SwapState_eq_labels, hr]
  exact ⟨_, rfl⟩

theorem InverseStateDiffusionPropagator_spec (reference inverted : Nat → Dbl α) :
    (∀ k, k ≤ 2 → InverseStateDiffusionPropagator 25 reference inverted k = -(reference k)) ∧
      ∀ k, 3 ≤ k → k < 25 →
        InverseStateDiffusionPropagator 25 reference inverted k = reference k := by
  constructor
  · intro k hk
    have h25 : k < 25 := by omega
    simp only [InverseStateDiffusionPropagator, h25, hk, if_true]
  · intro k h3 h25
    have h2 : ¬ k ≤ 2 := by omega
    simp only [InverseStateDiffusionPropagator, h25, h2, if_true, if_false]

/-- The pass of the loop of `Init` for one starting point, taken by itself: when the point
passes the test and `FindODFMaxima` reports `n` directions, `n` being 1, 2 or 3, the thread of
the pass appends `2 * n` records, and for each `j < n` the records number `2 * j` and
`2 * j + 1` among them are a seed and its twin: the twin's state is the seed's state with entries 0..2 negated and entries 3..24
equal, and the twin's start direction is the negation of the seed's. -/
theorem seedsOfStartingPoint_pairs {P : Type} (T : SeedConfig α) (point : P)
    (param signal ODF : Nat → Dbl α) (s2ga_value : Dbl α) (M : ODFMaxima α)
    (htest : (if T._full_brain then s2ga_value else Dbl.fin 0) > T._seeding_threshold ∨
      ¬ T._full_brain ∨ T._is_seeds)
    (hn : M.n_of_dirs = 1 ∨ M.n_of_dirs = 2 ∨ M.n_of_dirs = 3) :
    ∃ seeds, seedsOfStartingPoint T point param signal ODF s2ga_value M = some seeds ∧
      seeds.length = 2 * M.n_of_dirs ∧
      ∀ j, j < M.n_of_dirs → ∃ seed twin,
        seeds[2 * j]? = some seed ∧ seeds[2 * j + 1]? = some twin ∧
        (∀ k, k ≤ 2 → twin.state k = -(seed.state k)) ∧
        (∀ k, 3 ≤ k → k < 25 → twin.state k = seed.state k) ∧
        ∀ i, twin.start_dir i = -(seed.start_dir i) := by
  obtain ⟨st, hst⟩ := NonLinearLeastSquareOptimization_returns T.optimizer
    (coarseState param (coarseInit T.optimizer.libm ODF M)) signal
  obtain ⟨⟨s2, p2⟩, hs2⟩ := SwapState_returns st
    (fun a b => if a = b ∧ a < 25 then T._p0 else Dbl.fin 0) 2 (Or.inl rfl)
  obtain ⟨⟨s3, p3⟩, hs3⟩ := SwapState_returns s2 p2 3 (Or.inr rfl)
  have hdir : ∀ (s inv : Nat → Dbl α) (i : Fin 3),
      (![InverseStateDiffusionPropagator 25 s inv 0, InverseStateDiffusionPropagator 25 s inv 1,
          InverseStateDiffusionPropagator 25 s inv 2] : Vec α 3) i = -((![s 0, s 1, s 2] : Vec α 3) i) := by
    intro s inv i
    fin_cases i <;> simp [InverseStateDiffusionPropagator]
  have hneg : ∀ (s : Nat → Dbl α) (i : Fin 3),
      (![-(s 0), -(s 1), -(s 2)] : Vec α 3) i = -((![s 0, s 1, s 2] : Vec α 3) i) := by
    intro s i
    fin_cases i <;> simp
  unfold seedsOfStartingPoint
  simp only [if_pos htest]
  unfold seedsOfPoint
  simp only [hst]
  rcases hn with hn | hn | hn
  · simp only [hn, show ¬ (1 < 1) by decide, if_false]
    refine ⟨_, rfl, rfl, ?_⟩
    intro j hj
    obtain rfl : j = 0 := by omega
    exact ⟨_, _, rfl, rfl, (InverseStateDiffusionPropagator_spec _ _).1,
      (InverseStateDiffusionPropagator_spec _ _).2, hneg _⟩
  · have hs2' : SwapState st (fun a b => if a = b ∧ a < 25 then T._p0 else Dbl.fin 0) 2
        = some (s2, p2) := hs2
    simp only [hn, show (1 < 2) by decide, show ¬ (2 < 2) by decide, if_true, if_false, hs2']
    refine ⟨_, rfl, rfl, ?_⟩
    intro j hj
    have hj' : j = 0 ∨ j = 1 := by omega
    rcases hj' with rfl | rfl
    · exact ⟨_, _, rfl, rfl, (InverseStateDiffusionPropagator_spec _ _).1,
        (InverseStateDiffusionPropagator_spec _ _).2, hneg _⟩
    · exact ⟨_, _, rfl, rfl, (InverseStateDiffusionPropagator_spec _ _).1,
        (InverseStateDiffusionPropagator_spec _ _).2, hdir _ _⟩
  · have hs2' : SwapState st (fun a b => if a = b ∧ a < 25 then T._p0 else Dbl.fin 0) 2
        = some (s2, p2) := hs2
    have hs3' : SwapState s2 p2 3 = some (s3, p3) := hs3
    simp only [hn, show (1 < 3) by decide, show (2 < 3) by decide, if_true, hs2', hs3']
    refine ⟨_, rfl, rfl, ?_⟩
    intro j hj
    have hj' : j = 0 ∨ j = 1 ∨ j = 2 := by omega
    rcases hj' with rfl | rfl | rfl
    · exact ⟨_, _, rfl, rfl, (InverseStateDiffusionPropagator_spec _ _).1,
        (InverseStateDiffusionPropagator_spec _ _).2, hneg _⟩
    · exact ⟨_, _, rfl, rfl, (InverseStateDiffusionPropagator_spec _ _).1,
        (InverseStateDiffusionPropagator_spec _ _).2, hdir _ _⟩
    · exact ⟨_, _, rfl, rfl, (InverseStateDiffusionPropagator_spec _ _).1,
        (InverseStateDiffusionPropagator_spec _ _).2, hdir _ _⟩

end SeedConstruction

/-- The pass for a starting point with two directions appends four seeds. -/
theorem seedsOfStartingPoint_pairs_witness :
    ∃ seeds, seedsOfStartingPoint sampleSeedConfig (0 : Nat) (fun _ => Dbl.fin 1)
        (fun _ => Dbl.fin 1) (fun _ => Dbl.fin 1) (Dbl.fin 0) (sampleMaxima 2 6) = some seeds ∧
      seeds.length = 4 := by
  obtain ⟨seeds, h, hl, _⟩ := seedsOfStartingPoint_pairs sampleSeedConfig (0 : Nat)
    (fun _ => Dbl.fin 1) (fun _ => Dbl.fin 1) (fun _ => Dbl.fin 1) (Dbl.fin 0) (sampleMaxima 2 6)
    (Or.inr (Or.inr rfl)) (Or.inr (Or.inl rfl))
  exact ⟨seeds, h, hl⟩

/-- Claim C18, evaluated where the code departs from it: when `FindODFMaxima` reports no
direction and no maximum (`n_of_dirs = 0`, empty `exe_vol`), `Init` still appends one pair of
seeds, but the coarse state has `w1 = ODF_val_at_max(0) = 0`, not 1; all three compartment
weights are 0.  Only the branch `n_of_dirs == 1` assigns `w1_init = 1.0`. -/
theorem coarseInit_no_direction :
    (coarseInit sampleSeedConfig.optimizer.libm (fun _ => Dbl.fin 1) (sampleMaxima 0 0)).w1_init
        = Dbl.fin 0 ∧
      coarseState (fun _ => Dbl.fin 1)
        (coarseInit sampleSeedConfig.optimizer.libm (fun _ => Dbl.fin 1) (sampleMaxima 0 0)) 21
        ≠ Dbl.fin 1 ∧
      coarseState (fun _ => Dbl.fin 1)
        (coarseInit sampleSeedConfig.optimizer.libm (fun _ => Dbl.fin 1) (sampleMaxima 0 0)) 22
        = Dbl.fin 0 ∧
      coarseState (fun _ => Dbl.fin 1)
        (coarseInit sampleSeedConfig.optimizer.libm (fun _ => Dbl.fin 1) (sampleMaxima 0 0)) 23
        = Dbl.fin 0 ∧
      (coarseInit sampleSeedConfig.optimizer.libm (fun _ => Dbl.fin 1) (sampleMaxima 1 0)).w1_init
        = Dbl.fin 1 ∧
      ∃ seeds, seedsOfStartingPoint sampleSeedConfig (0 : Nat) (fun _ => Dbl.fin 1)
          (fun _ => Dbl.fin 1) (fun _ => Dbl.fin 1) (Dbl.fin 0) (sampleMaxima 0 0) = some seeds ∧
        seeds.length = 2 := by
  have hw : (coarseInit sampleSeedConfig.optimizer.libm (fun _ => Dbl.fin 1)
      (sampleMaxima 0 0)).w1_init = Dbl.fin 0 := by
    simp [coarseInit, sampleMaxima, ODF_val_at_max]
  refine ⟨hw, ?_, ?_, ?_, ?_, ?_⟩
  · show (coarseInit sampleSeedConfig.optimizer.libm (fun _ => Dbl.fin 1)
      (sampleMaxima 0 0)).w1_init ≠ Dbl.fin 1
    rw [hw]
    intro h
    injection h with h
    exact absurd h (by norm_num)
  · show (coarseInit sampleSeedConfig.optimizer.libm (fun _ => Dbl.fin 1)
      (sampleMaxima 0 0)).w2_init = Dbl.fin 0
    simp [coarseInit, sampleMaxima]
  · show (coarseInit sampleSeedConfig.optimizer.libm (fun _ => Dbl.fin 1)
      (sampleMaxima 0 0)).w3_init = Dbl.fin 0
    simp [coarseInit, sampleMaxima]
  · simp [coarseInit, sampleMaxima]
  · obtain ⟨st, hst⟩ := NonLinearLeastSquareOptimization_returns sampleSeedConfig.optimizer
      (coarseState (fun _ => Dbl.fin 1)
        (coarseInit sampleSeedConfig.optimizer.libm (fun _ => Dbl.fin 1) (sampleMaxima 0 0)))
      (fun _ => Dbl.fin 1)
    have htest : (if sampleSeedConfig._full_brain then (Dbl.fin 0 : Dbl ℚ) else Dbl.fin 0)
        > sampleSeedConfig._seeding_threshold ∨
        ¬ sampleSeedConfig._full_brain ∨ sampleSeedConfig._is_seeds := Or.inr (Or.inr rfl)
    unfold seedsOfStartingPoint
    simp only [if_pos htest]
    unfold seedsOfPoint
    have h10 : ¬ (1 < (sampleMaxima 0 0).n_of_dirs) := by decide
    simp only [hst, h10, if_false]
    exact ⟨_, rfl, rfl⟩

/-! ## Recording a fibre sample -/

section Recording

variable {α : Type} [LinearOrderedField α]

theorem dot3 (a b : Vec α 3) : Vec.dot a b = Dbl.fin 0 + a 0 * b 0 + a 1 * b 1 + a 2 * b 2 := by
  unfold Vec.dot
  simp [Fin.foldl_succ_last]
  rfl

theorem initNormalized_fin (L : Libm α)
    (hsqrt : ∀ t : α, 0 < t → ∃ r : α, 0 < r ∧ r * r = t ∧ L.sqrt (Dbl.fin t) = Dbl.fin r)
    (a b c : α) (h : a ≠ 0 ∨ b ≠ 0 ∨ c ≠ 0) :
    ∃ n : α, 0 < n ∧ n * n = a * a + b * b + c * c ∧
      initNormalized L (Dbl.fin a) (Dbl.fin b) (Dbl.fin c)
        = ![Dbl.fin (a / n), Dbl.fin (b / n), Dbl.fin (c / n)] ∧
      (a / n) * (a / n) + (b / n) * (b / n) + (c / n) * (c / n) = 1 := by
  have hpos : 0 < a * a + b * b + c * c := by
    rcases h with h | h | h
    · have := mul_self_pos.mpr h
      nlinarith [mul_self_nonneg b, mul_self_nonneg c]
    · have := mul_self_pos.mpr h
      nlinarith [mul_self_nonneg a, mul_self_nonneg c]
    · have := mul_self_pos.mpr h
      nlinarith [mul_self_nonneg a, mul_self_nonneg b]
  obtain ⟨n, hn, hnn, hs⟩ := hsqrt _ hpos
  have hn0 : n ≠ 0 := ne_of_gt hn
  refine ⟨n, hn, hnn, ?_, ?_⟩
  · have hnorm : Vec.norm L (![Dbl.fin a, Dbl.fin b, Dbl.fin c] : Vec α 3) = Dbl.fin n := by
      unfold Vec.norm
      rw [dot3]
      simp only [Matrix.cons_val_zero, Matrix.cons_val_one, Matrix.head_cons, Matrix.cons_val_two,
        Matrix.tail_cons, Dbl.fin_mul_fin, Dbl.fin_add_fin, zero_add]
      exact hs
    unfold initNormalized
    rw [hnorm]
    funext i
    fin_cases i <;> simp [Vec.divs, Dbl.fin_div_fin _ _ hn0]
  · field_simp
    rw [← hnn]


theorem recordHead_state (T : Tractography α) (x : Vec α 3) (fa fa2 fa3 : Dbl α)
    (state : Nat → Dbl α) (p : Nat → Nat → Dbl α) (fiber : UKFFiber α)
    (dNormMSE trace trace2 : Dbl α) :
    (recordHead T x fa fa2 fa3 state p fiber dNormMSE trace trace2).state = fiber.state ∧
      (recordHead T x fa fa2 fa3 state p fiber dNormMSE trace trace2).position
        = fiber.position ++ [x] := by
  unfold recordHead
  simp only
  split_ifs <;> exact ⟨rfl, rfl⟩

theorem recordTail_state (T : Tractography α) (u : Uncertainties α) (state : Nat → Dbl α)
    (p : Nat → Nat → Dbl α) (fiber : UKFFiber α) :
    (recordTail T u state p fiber).state = fiber.state ++ [storeState T.libm state] ∧
      (recordTail T u state p fiber).position = fiber.position := by
  unfold recordTail
  simp only
  split_ifs <;> exact ⟨rfl, rfl⟩

theorem recordFreeWater_eq_none (state : Nat → Dbl α) :
    recordFreeWater state = none ↔ Dbl.fin 1 - state 24 < Dbl.fin (-(1 / 10 ^ 4)) := by
  unfold recordFreeWater _nPosFreeWater
  cases h : state 24 with
  | nan => simp [Dbl.not_nan_lt]
  | pinf =>
    have e : (Dbl.fin 1 - Dbl.pinf : Dbl α) = Dbl.ninf := rfl
    have h2 : ¬ ((Dbl.ninf : Dbl α) ≥ Dbl.fin (-(1 / 10 ^ 4))) := by
      show ¬ (Dbl.ble (Dbl.fin (-(1 / 10 ^ 4))) (Dbl.ninf : Dbl α) = true)
      simp [Dbl.ble]
    simp only [e, Dbl.ninf_lt_fin, if_true, if_neg h2]
  | ninf =>
    have e : (Dbl.fin 1 - Dbl.ninf : Dbl α) = Dbl.pinf := rfl
    simp [e]
  | fin v =>
    simp only [Dbl.fin_sub_fin, Dbl.fin_lt_fin, ge_iff_le, Dbl.fin_le_fin]
    have h4 : (0 : α) < 1 / 10 ^ 4 := by positivity
    split_ifs with h1 h2
    · simp only [reduceCtorEq, false_iff, not_lt]; exact h2
    · simp only [true_iff]; exact not_le.mp h2
    · simp only [reduceCtorEq, false_iff, not_lt]; linarith

theorem Record_eq (T : Tractography α) (x : Vec α 3) (fa fa2 fa3 : Dbl α)
    (u : Uncertainties α) (state : Nat → Dbl α) (p : Nat → Nat → Dbl α) (fiber : UKFFiber α)
    (dNormMSE trace trace2 : Dbl α)
    (h : ¬ (T._record_free_water = true ∧
      Dbl.fin 1 - state 24 < Dbl.fin (-(1 / 10 ^ 4)))) :
    ∃ fiber', Record T x fa fa2 fa3 u state p fiber dNormMSE trace trace2 = some fiber' ∧
      fiber'.state = fiber.state ++ [storeState T.libm state] ∧
      fiber'.position = fiber.position ++ [x] := by
  unfold Record
  by_cases hf : T._record_free_water = true
  · have hne : recordFreeWater state ≠ none :=
      fun hn => h ⟨hf, (recordFreeWater_eq_none state).mp hn⟩
    obtain ⟨fw, hfw⟩ := Option.ne_none_iff_exists'.mp hne
    simp only [hf, if_true, hfw]
    refine ⟨_, rfl, ?_, ?_⟩
    · rw [(recordTail_state _ _ _ _ _).1]
      simp only [(recordHead_state T x fa fa2 fa3 state p fiber dNormMSE trace trace2).1]
    · rw [(recordTail_state _ _ _ _ _).2]
      simp only [(recordHead_state T x fa fa2 fa3 state p fiber dNormMSE trace trace2).2]
  · simp only [hf, Bool.false_eq_true, if_false]
    refine ⟨_, rfl, ?_, ?_⟩
    · rw [(recordTail_state _ _ _ _ _).1, (recordHead_state _ _ _ _ _ _ _ _ _ _ _).1]
    · rw [(recordTail_state _ _ _ _ _).2, (recordHead_state _ _ _ _ _ _ _ _ _ _ _).2]

theorem storeState_apply (L : Libm α) (state : Nat → Dbl α) (k : Nat) :
    storeState L state k =
      if k = 0 ∨ k = 1 ∨ k = 2 then
        initNormalized L (state 0) (state 1) (state 2) ⟨k % 3, Nat.mod_lt _ (by decide)⟩
      else if k = 7 ∨ k = 8 ∨ k = 9 then
        initNormalized L (state 7) (state 8) (state 9) ⟨(k - 7) % 3, Nat.mod_lt _ (by decide)⟩
      else if k = 14 ∨ k = 15 ∨ k = 16 then
        initNormalized L (state 14) (state 15) (state 16) ⟨(k - 14) % 3, Nat.mod_lt _ (by decide)⟩
      else state k := by
  by_cases hk : k < 17
  · interval_cases k <;> rfl
  · have h1 : ¬ (k = 0 ∨ k = 1 ∨ k = 2) := by omega
    have h2 : ¬ (k = 7 ∨ k = 8 ∨ k = 9) := by omega
    have h3 : ¬ (k = 14 ∨ k = 15 ∨ k = 16) := by omega
    rw [if_neg h1, if_neg h2, if_neg h3]
    unfold storeState
    simp only [assignEntry]
    repeat rw [if_neg (by omega)]

end Recording

section RecordingClaim

variable {α : Type} [LinearOrderedField α]

/-- Claim C15, amended: when `Record` does not end in its `throw` (free water is not recorded,
or `1 - state[24]` is not below `-1.0e-4`) and each of the three orientation triples of the
working state consists of finite numbers that are not all zero, `Record` appends to
`fiber.state` one copy of the state; the entries of the copy outside the triples (3..6, 10..13,
17..24) are those of the working state, and each triple of the copy is the working triple
divided by its positive Euclidean norm `n`, so it has unit length.  The working state is a
constant argument of `Record`. -/
theorem Record_appends_normalized_copy (T : Tractography α) (x : Vec α 3)
    (fa fa2 fa3 : Dbl α) (u : Uncertainties α) (state : Nat → Dbl α) (p : Nat → Nat → Dbl α)
    (fiber : UKFFiber α) (dNormMSE trace trace2 : Dbl α)
    (hsqrt : ∀ t : α, 0 < t → ∃ r : α, 0 < r ∧ r * r = t ∧ T.libm.sqrt (Dbl.fin t) = Dbl.fin r)
    (hfw : ¬ (T._record_free_water = true ∧
      Dbl.fin 1 - state 24 < Dbl.fin (-(1 / 10 ^ 4))))
    (htriple : ∀ b, b ∈ [0, 7, 14] → ∃ a₀ a₁ a₂ : α, state b = Dbl.fin a₀ ∧
      state (b + 1) = Dbl.fin a₁ ∧ state (b + 2) = Dbl.fin a₂ ∧ (a₀ ≠ 0 ∨ a₁ ≠ 0 ∨ a₂ ≠ 0)) :
    ∃ fiber' store,
      Record T x fa fa2 fa3 u state p fiber dNormMSE trace trace2 = some fiber' ∧
      fiber'.state = fiber.state ++ [store] ∧
      (∀ k, k ∉ [0, 1, 2, 7, 8, 9, 14, 15, 16] → store k = state k) ∧
      ∀ b, b ∈ [0, 7, 14] → ∃ a₀ a₁ a₂ n : α, state b = Dbl.fin a₀ ∧
        state (b + 1) = Dbl.fin a₁ ∧ state (b + 2) = Dbl.fin a₂ ∧ 0 < n ∧
        store b = Dbl.fin (a₀ / n) ∧ store (b + 1) = Dbl.fin (a₁ / n) ∧
        store (b + 2) = Dbl.fin (a₂ / n) ∧
        (a₀ / n) * (a₀ / n) + (a₁ / n) * (a₁ / n) + (a₂ / n) * (a₂ / n) = 1 := by
  obtain ⟨fiber', hrec, hstate, _⟩ :=
    Record_eq T x fa fa2 fa3 u state p fiber dNormMSE trace trace2 hfw
  refine ⟨fiber', storeState T.libm state, hrec, hstate, ?_, ?_⟩
  · intro k hk
    rw [storeState_apply]
    simp only [List.mem_cons, List.mem_singleton, List.not_mem_nil, or_false, not_or] at hk
    rw [if_neg (by omega), if_neg (by omega), if_neg (by omega)]
  · intro b hb
    obtain ⟨a₀, a₁, a₂, h0, h1, h2, hne⟩ := htriple b hb
    obtain ⟨n, hn, _, hinit, hunit⟩ := initNormalized_fin T.libm hsqrt a₀ a₁ a₂ hne
    refine ⟨a₀, a₁, a₂, n, h0, h1, h2, hn, ?_, ?_, ?_, hunit⟩
    all_goals
      simp only [List.mem_cons, List.mem_singleton, List.not_mem_nil, or_false] at hb
      rcases hb with rfl | rfl | rfl
    · show initNormalized T.libm (state 0) (state 1) (state 2) 0 = _
      rw [h0, h1, h2, hinit]; rfl
    · show initNormalized T.libm (state 7) (state 8) (state 9) 0 = _
      rw [h0, h1, h2, hinit]; rfl
    · show initNormalized T.libm (state 14) (state 15) (state 16) 0 = _
      rw [h0, h1, h2, hinit]; rfl
    · show initNormalized T.libm (state 0) (state 1) (state 2) 1 = _
      rw [h0, h1, h2, hinit]; rfl
    · show initNormalized T.libm (state 7) (state 8) (state 9) 1 = _
      rw [h0, h1, h2, hinit]; rfl
    · show initNormalized T.libm (state 14) (state 15) (state 16) 1 = _
      rw [h0, h1, h2, hinit]; rfl
    · show initNormalized T.libm (state 0) (state 1) (state 2) 2 = _
      rw [h0, h1, h2, hinit]; rfl
    · show initNormalized T.libm (state 7) (state 8) (state 9) 2 = _
      rw [h0, h1, h2, hinit]; rfl
    · show initNormalized T.libm (state 14) (state 15) (state 16) 2 = _
      rw [h0, h1, h2, hinit]; rfl

end RecordingClaim

/-! ## Fibre propagation -/

section Propagation

variable {α : Type} [LinearOrderedField α]

theorem followStep_frame (T : Tractography α) (v : FollowVars α) :
    (followStep T v).stepnr = v.stepnr + 1 ∧ (followStep T v).fiber = v.fiber ∧
      (followStep T v).fiber_length = v.fiber_length ∧
      (followStep T v).fiber_size = v.fiber_size := ⟨rfl, rfl, rfl, rfl⟩

theorem clampState_24 (s : Nat → Dbl α) :
    clampState s 24 = Dbl.nan ∨ ∃ w : α, clampState s 24 = Dbl.fin w ∧ 0 ≤ w ∧ w ≤ 1 := by
  rw [clampState_apply, if_pos (by omega)]
  have hlo : (rangeLo 24 : α) = 0 := rfl
  have hhi : (rangeHi 24 : α) = 1 := rfl
  rw [hlo, hhi, min_max_eq_clampTo 0 1 (by norm_num)]
  by_cases h : s 24 = Dbl.nan
  · left; rw [h]; rfl
  · right; exact clampTo_mem 0 1 (by norm_num) (s 24) h

theorem followStep_state24 (T : Tractography α) (v : FollowVars α) :
    (followStep T v).state 24 = Dbl.nan ∨
      ∃ w : α, (followStep T v).state 24 = Dbl.fin w ∧ 0 ≤ w ∧ w ≤ 1 :=
  clampState_24 _

theorem not_throw_of_clamped (state : Nat → Dbl α)
    (h : state 24 = Dbl.nan ∨ ∃ w : α, state 24 = Dbl.fin w ∧ 0 ≤ w ∧ w ≤ 1) :
    ¬ (Dbl.fin 1 - state 24 < Dbl.fin (-(1 / 10 ^ 4))) := by
  rcases h with h | ⟨w, h, h0, h1⟩
  · rw [h]; simp
  · rw [h, Dbl.fin_sub_fin, Dbl.fin_lt_fin]
    have h4 : (0 : α) < 1 / 10 ^ 4 := by positivity
    linarith


theorem followRecord_returns (T : Tractography α) (v : FollowVars α)
    (hspr : T._steps_per_record ≠ 0)
    (h24 : v.state 24 = Dbl.nan ∨ ∃ w : α, v.state 24 = Dbl.fin w ∧ 0 ≤ w ∧ w ≤ 1) :
    ∃ w, followRecord T v = Except.ok w ∧ w.stepnr = v.stepnr ∧ w.x = v.x ∧
      w.is_discarded = v.is_discarded ∧
      (Int.tmod (v.stepnr + 1) T._steps_per_record = 0 →
        w.fiber_length = v.fiber_length + 1 ∧ w.fiber.position = v.fiber.position ++ [v.x] ∧
        w.fiber.state = v.fiber.state ++ [storeState T.libm v.state]) ∧
      (¬ Int.tmod (v.stepnr + 1) T._steps_per_record = 0 →
        w.fiber_length = v.fiber_length ∧ w.fiber = v.fiber) := by
  unfold followRecord
  simp only [if_neg hspr]
  by_cases hrec : Int.tmod (v.stepnr + 1) T._steps_per_record = 0
  · obtain ⟨fiber', hf, hst, hpos⟩ := Record_eq T v.x v.rtop1 v.rtop2 v.rtop3 v.unc v.state v.p
      v.fiber v.dNormMSE v.rtopModel v.rtopSignal
      (fun h => not_throw_of_clamped v.state h24 h.2)
    by_cases hsz : v.fiber_length ≥ v.fiber_size
    · simp only [hsz, if_true, hrec, hf]
      exact ⟨_, rfl, rfl, rfl, rfl, fun _ => ⟨rfl, hpos, hst⟩, fun h => absurd trivial h⟩
    · simp only [hsz, if_false, hrec, if_true, hf]
      exact ⟨_, rfl, rfl, rfl, rfl, fun _ => ⟨rfl, hpos, hst⟩, fun h => absurd trivial h⟩
  · by_cases hsz : v.fiber_length ≥ v.fiber_size
    · simp only [hsz, if_true, hrec, if_false]
      exact ⟨_, rfl, rfl, rfl, rfl, fun h => h.elim, fun _ => ⟨rfl, rfl⟩⟩
    · simp only [hsz, if_false, hrec]
      exact ⟨_, rfl, rfl, rfl, rfl, fun h => h.elim, fun _ => ⟨rfl, rfl⟩⟩

theorem stop_bool_iff (T : Tractography α) (u : FollowVars α) (in_csf : Bool)
    (hcsf : in_csf = true → T._csf_provided = true ∧ T.ScalarCSFValue u.x > Dbl.fin (1 / 2))
    (hcsf' : ¬ (T._csf_provided = true ∧ T.ScalarCSFValue u.x > Dbl.fin (1 / 2))) :
    ((!decide (T.ScalarMaskValue u.x > Dbl.fin 0) || decide (u.rtop1 < T._rtop1_min_stop)
        || decide (u.state 24 > T._fw_thresh) || in_csf
        || decide (T.curve_radius u.fiber.position < T._min_radius)
        || decide (u.dNormMSE > T._max_nmse) || decide (u.stepnr > T._max_length)) = true)
      ↔ stopCondition T u := by
  have hin : in_csf = false := by
    cases in_csf with
    | false => rfl
    | true => exact absurd (hcsf rfl) hcsf'
  subst hin
  unfold stopCondition
  simp only [Bool.or_eq_true, Bool.not_eq_true', decide_eq_false_iff_not, decide_eq_true_eq,
    Bool.or_false]
  tauto

theorem followPass_stop (T : Tractography α) (v : FollowVars α)
    (h : stopCondition T (followStep T v)) :
    followPass T v = Except.ok
      ({ followStep T v with is_discarded := discardFlag T (followStep T v) }, true) := by
  unfold followPass discardFlag
  simp only
  by_cases hc : T._csf_provided = true ∧ T.ScalarCSFValue (followStep T v).x > Dbl.fin (1 / 2)
  · have e1 : decide (T.ScalarCSFValue (followStep T v).x > Dbl.fin (1 / 2)) = true :=
      decide_eq_true hc.2
    rw [if_pos hc]
    simp only [hc.1, if_true, e1, Bool.and_self]
  · have hb : (T._csf_provided && (if T._csf_provided = true then
        decide (T.ScalarCSFValue (followStep T v).x > Dbl.fin (1 / 2)) else false)) = false := by
      by_cases hp : T._csf_provided = true
      · have hcsf : ¬ (T.ScalarCSFValue (followStep T v).x > Dbl.fin (1 / 2)) :=
          fun h' => hc ⟨hp, h'⟩
        simp only [hp, if_true, decide_eq_false hcsf, Bool.and_false]
      · simp only [hp, Bool.false_eq_true, if_false, Bool.and_false]
    simp only [hb, Bool.false_eq_true, if_false, if_neg hc]
    rw [if_pos]
    refine (stop_bool_iff T _ _ ?_ ?_).mpr ?_
    · intro hin
      by_cases hp : T._csf_provided = true
      · simp only [hp, if_true, decide_eq_true_eq] at hin
        exact ⟨hp, hin⟩
      · simp only [hp, Bool.false_eq_true, if_false] at hin
    · exact hc
    · exact h

theorem followPass_continue (T : Tractography α) (v : FollowVars α)
    (h : ¬ stopCondition T (followStep T v)) :
    followPass T v =
      match followRecord T { followStep T v with is_discarded := 0 } with
      | Except.error e => Except.error e
      | Except.ok w => Except.ok (w, false) := by
  have hc : ¬ (T._csf_provided = true ∧
      T.ScalarCSFValue (followStep T v).x > Dbl.fin (1 / 2)) :=
    fun hh => h (Or.inr (Or.inl hh))
  unfold followPass
  simp only
  have hb : (T._csf_provided && (if T._csf_provided = true then
      decide (T.ScalarCSFValue (followStep T v).x > Dbl.fin (1 / 2)) else false)) = false := by
    by_cases hp : T._csf_provided = true
    · have hcsf : ¬ (T.ScalarCSFValue (followStep T v).x > Dbl.fin (1 / 2)) :=
        fun h' => hc ⟨hp, h'⟩
      simp only [hp, if_true, decide_eq_false hcsf, Bool.and_false]
    · simp only [hp, Bool.false_eq_true, if_false, Bool.and_false]
  simp only [hb, Bool.false_eq_true, if_false]
  rw [if_neg]
  intro hs
  refine h ((stop_bool_iff T _ _ ?_ hc).mp hs)
  intro hin
  by_cases hp : T._csf_provided = true
  · simp only [hp, if_true, decide_eq_true_eq] at hin
    exact ⟨hp, hin⟩
  · simp only [hp, Bool.false_eq_true, if_false] at hin


theorem followLoop_run (T : Tractography α) (hspr : T._steps_per_record ≠ 0) :
    ∀ (fuel : Nat) (v : FollowVars α), (T._max_length - v.stepnr).toNat + 1 ≤ fuel →
      ∃ (n : Nat) (u w : Nat → FollowVars α), 1 ≤ n ∧ w 0 = v ∧
        (∀ k, 1 ≤ k → k ≤ n → u k = followStep T (w (k - 1)) ∧
          (u k).stepnr = v.stepnr + (k : Int)) ∧
        (∀ k, 1 ≤ k → k < n → ¬ stopCondition T (u k) ∧
          followRecord T { u k with is_discarded := 0 } = Except.ok (w k)) ∧
        stopCondition T (u n) ∧
        followLoop T fuel v = Except.ok { u n with is_discarded := discardFlag T (u n) } ∧
        (v.stepnr ≤ T._max_length → v.stepnr + (n : Int) ≤ T._max_length + 1) := by
  intro fuel
  induction fuel with
  | zero => intro v h; omega
  | succ fuel ih =>
    intro v hfuel
    by_cases hs : stopCondition T (followStep T v)
    · refine ⟨1, fun _ => followStep T v, fun _ => v, le_refl 1, rfl, ?_, ?_, hs, ?_, ?_⟩
      · intro k h1 h2
        obtain rfl : k = 1 := by omega
        exact ⟨rfl, by simp [(followStep_frame T v).1]⟩
      · intro k h1 h2; omega
      · unfold followLoop
        rw [followPass_stop T v hs]
      · intro h; simp only [Nat.cast_one]; omega
    · have hlen : ¬ ((followStep T v).stepnr > T._max_length) :=
        fun h => hs (Or.inr (Or.inr (Or.inr (Or.inr (Or.inr (Or.inr h))))))
      have hstep : (followStep T v).stepnr = v.stepnr + 1 := (followStep_frame T v).1
      obtain ⟨w₁, hw₁, hw₁s, _⟩ := followRecord_returns T
        { followStep T v with is_discarded := 0 } hspr (followStep_state24 T v)
      have hw₁s' : w₁.stepnr = v.stepnr + 1 := by rw [hw₁s]; exact hstep
      obtain ⟨n, u, w, hn, hw0, hu, hw, hstop, hloop, hbound⟩ := ih w₁ (by
        rw [hw₁s']
        rw [hstep] at hlen
        omega)
      refine ⟨n + 1, fun k => if k = 1 then followStep T v else u (k - 1),
        fun k => if k = 0 then v else w (k - 1), by omega, rfl, ?_, ?_, ?_, ?_, ?_⟩
      · intro k h1 h2
        by_cases hk : k = 1
        · subst hk
          exact ⟨rfl, by simp [hstep]⟩
        · have hk0 : ¬ (k - 1 = 0) := by omega
          simp only [hk, hk0, if_false]
          obtain ⟨e1, e2⟩ := hu (k - 1) (by omega) (by omega)
          refine ⟨e1, ?_⟩
          rw [e2, hw₁s']
          have : ((k - 1 : Nat) : Int) = (k : Int) - 1 := by omega
          rw [this]; ring
      · intro k h1 h2
        by_cases hk : k = 1
        · subst hk
          simp only [if_true, show ¬ (1 = 0) by decide, if_false, Nat.sub_self]
          exact ⟨hs, by rw [hw₁, hw0]⟩
        · have hk0 : ¬ (k = 0) := by omega
          simp only [hk, hk0, if_false]
          exact hw (k - 1) (by omega) (by omega)
      · have hn1 : ¬ (n + 1 = 1) := by omega
        simp only [hn1, if_false, Nat.add_sub_cancel]
        exact hstop
      · have hn1 : ¬ (n + 1 = 1) := by omega
        simp only [hn1, if_false, Nat.add_sub_cancel]
        unfold followLoop
        rw [followPass_continue T v hs, hw₁]
        exact hloop
      · intro h
        rw [hstep] at hlen
        have := hbound (by rw [hw₁s']; omega)
        rw [hw₁s'] at this
        push_cast
        omega

theorem followLoop_is_discarded (T : Tractography α) :
    ∀ (fuel : Nat) (v r : FollowVars α), followLoop T fuel v = Except.ok r →
      r.is_discarded = discardFlag T r := by
  intro fuel
  induction fuel with
  | zero => intro v r h; simp [followLoop] at h
  | succ fuel ih =>
    intro v r h
    unfold followLoop at h
    by_cases hs : stopCondition T (followStep T v)
    · rw [followPass_stop T v hs] at h
      simp only [Except.ok.injEq] at h
      rw [← h]
      rfl
    · rw [followPass_continue T v hs] at h
      cases hrec : followRecord T { followStep T v with is_discarded := 0 } with
      | error e => simp [hrec] at h
      | ok w =>
        simp only [hrec] at h
        exact ih w r h

end Propagation

section SampleRun

theorem sample_step_x (L : Libm ℚ) (b : Bool) (spr ml : Int) (mask : Vec ℚ 3 → Dbl ℚ)
    (v : FollowVars ℚ) (z : ℚ) (hz : v.x 2 = Dbl.fin z) :
    (followStep (sampleTractography L b spr ml mask) v).x 2 = Dbl.fin (z + 1) := by
  show Vec.add v.x (Vec.muls _ _) 2 = _
  simp [Vec.add, Vec.muls, sampleTractography, hz, Dbl.fin_div_fin]

theorem clampState_ones : clampState (fun _ => Dbl.fin (1 : ℚ)) = fun _ => Dbl.fin 1 := by
  funext k
  rw [clampState_apply]
  split_ifs with h
  · rw [min_max_eq_clampTo _ _ (rangeLo_le_rangeHi k)]
    apply clampTo_of_mem
    · unfold rangeLo; split_ifs <;> norm_num
    · unfold rangeHi; split_ifs <;> norm_num
  · rfl

theorem rtop1_ones :
    (rtopOfState (Libm.ofFinite id id id) (Dbl.fin (3 / 1000)) (Dbl.fin 5)
      (clampState (fun _ => Dbl.fin (1 : ℚ)))).rtop1 = Dbl.fin 5000000000000 := by
  rw [clampState_ones]
  simp only [rtopOfState, Dbl.fin_mul_fin, Libm.ofFinite]
  norm_num
  rw [Dbl.fin_div_fin _ _ (by norm_num), Dbl.fin_div_fin _ _ (by norm_num), Dbl.fin_add_fin,
    Dbl.fin_mul_fin]
  norm_num

theorem sample_step_rtop1 (b : Bool) (spr ml : Int) (mask : Vec ℚ 3 → Dbl ℚ)
    (v : FollowVars ℚ) (hs : v.state = fun _ => Dbl.fin 1) :
    (followStep (sampleTractography (Libm.ofFinite id id id) b spr ml mask) v).rtop1
      = Dbl.fin 5000000000000 := by
  show (rtopOfState (Libm.ofFinite id id id) (Dbl.fin (3 / 1000)) (Dbl.fin 5)
      (clampState v.state)).rtop1 = _
  rw [hs]
  exact rtop1_ones


theorem sample_not_stop (b : Bool) (spr ml : Int) (v : FollowVars ℚ)
    (hs : v.state = fun _ => Dbl.fin 1) (z : ℚ) (hz : v.x 2 = Dbl.fin z) (hz1 : z + 1 ≠ 0)
    (hlen : v.stepnr + 1 ≤ ml) :
    ¬ stopCondition (sampleTractography (Libm.ofFinite id id id) b spr ml sampleMask)
      (followStep (sampleTractography (Libm.ofFinite id id id) b spr ml sampleMask) v) := by
  unfold stopCondition
  simp only [not_or]
  refine ⟨?_, ?_, ?_, ?_, ?_, ?_, ?_⟩
  · rw [not_not]
    show sampleMask _ > Dbl.fin 0
    unfold sampleMask
    rw [sample_step_x _ _ _ _ _ v z hz]
    simp [Dbl.beq, hz1]
  · intro h
    exact absurd h.1 (by simp [sampleTractography])
  · show ¬ ((Dbl.fin 0 : Dbl ℚ) > Dbl.fin 1)
    simp
  · show ¬ ((Dbl.fin 10 : Dbl ℚ) < Dbl.fin 0)
    simp
  · rw [sample_step_rtop1 _ _ _ _ v hs]
    show ¬ ((Dbl.fin 5000000000000 : Dbl ℚ) < Dbl.fin 0)
    simp
  · show ¬ (Dbl.fin 1 < _)
    rcases followStep_state24
      (sampleTractography (Libm.ofFinite id id id) b spr ml sampleMask) v with h | ⟨w, h, _, h1⟩
    · rw [h]; simp
    · rw [h, Dbl.fin_lt_fin]; exact not_lt.mpr h1
  · show ¬ (ml < v.stepnr + 1)
    omega

end SampleRun

section PropagationClaims

variable {α : Type} [LinearOrderedField α]

theorem Follow3T_returns (T : Tractography α) (fuel : Nat)
    (seed : SeedPointInfo α (Vec α 3)) (fiber fiber₀ : UKFFiber α) (d : Nat) (m2 m3 : Vec α 3)
    (hspr : T._steps_per_record ≠ 0) (hfuel : T._max_length.toNat + 1 ≤ fuel)
    (hrec : recordStart T seed fiber = some fiber₀) :
    ∃ r, Follow3T T fuel seed fiber d m2 m3 = Except.ok r := by
  obtain ⟨n, u, w, _, _, _, _, _, hloop, _⟩ := followLoop_run T hspr fuel
    (followEntry T seed fiber₀ d m2 m3) (by
      have : (followEntry T seed fiber₀ d m2 m3).stepnr = 0 := rfl
      rw [this]; simpa using hfuel)
  refine ⟨{ u n with is_discarded := discardFlag T (u n) }, ?_⟩
  unfold Follow3T
  rw [hrec]
  exact hloop

/-- Claim C13: when the 4-argument `Follow3T` returns, `is_discarded` is 1 exactly when a CSF
mask is provided and the CSF value at the final position is above 0.5, and it is 0 in every
other case, whatever value it had on entry. -/
theorem Follow3T_is_discarded (T : Tractography α) (fuel : Nat)
    (seed : SeedPointInfo α (Vec α 3)) (fiber : UKFFiber α) (d : Nat) (m2 m3 : Vec α 3)
    (r : FollowVars α) (h : Follow3T T fuel seed fiber d m2 m3 = Except.ok r) :
    (r.is_discarded = 1 ↔
        T._csf_provided = true ∧ T.ScalarCSFValue r.x > Dbl.fin (1 / 2)) ∧
      (¬ (T._csf_provided = true ∧ T.ScalarCSFValue r.x > Dbl.fin (1 / 2)) →
        r.is_discarded = 0) := by
  unfold Follow3T at h
  cases hrec : recordStart T seed fiber with
  | none => simp [hrec] at h
  | some fiber₀ =>
    simp only [hrec] at h
    have hd := followLoop_is_discarded T fuel _ r h
    unfold discardFlag at hd
    constructor
    · constructor
      · intro h1
        by_contra hc
        rw [if_neg hc] at hd
        omega
      · intro hc
        rw [if_pos hc] at hd
        exact hd
    · intro hc
      rw [if_neg hc] at hd
      exact hd

end PropagationClaims

/-- Claim C13 for a run that is entered with `is_discarded = 7` and without a CSF mask: the
run returns with `is_discarded = 0`. -/
theorem Follow3T_is_discarded_witness :
    ∃ r, Follow3T (sampleTractography (Libm.ofFinite id id id) false 1 3 sampleMask) 4
        (sampleSeed (1 : ℚ)) emptyFiber 7 (fun _ => Dbl.nan) (fun _ => Dbl.nan) = Except.ok r ∧
      r.is_discarded = 0 := by
  obtain ⟨r, hr⟩ := Follow3T_returns
    (sampleTractography (Libm.ofFinite id id id) false 1 3 sampleMask) 4
    (sampleSeed (1 : ℚ)) emptyFiber _ 7 (fun _ => Dbl.nan) (fun _ => Dbl.nan)
    (by decide) (by decide) rfl
  exact ⟨r, hr, (Follow3T_is_discarded _ _ _ _ _ _ _ r hr).2 (fun h => by
    have : (sampleTractography (Libm.ofFinite id id id) false 1 3 (sampleMask (α := ℚ)))._csf_provided
      = false := rfl
    rw [this] at h
    exact Bool.false_ne_true h.1)⟩

section FirstStep

variable {α : Type} [LinearOrderedField α]

theorem recordStart_eq (T : Tractography α) (seed : SeedPointInfo α (Vec α 3))
    (fiber : UKFFiber α)
    (h : ¬ (T._record_free_water = true ∧
      Dbl.fin 1 - seed.state 24 < Dbl.fin (-(1 / 10 ^ 4)))) :
    ∃ f₀, recordStart T seed fiber = some f₀ ∧
      f₀.position = fiber.position ++ [seed.point] := by
  obtain ⟨f', hf', _, hpos⟩ := Record_eq T seed.point seed.fa seed.fa2 seed.fa3
    (computeUncertaintiesCharacteristics T.libm seed.covariance) seed.state seed.covariance
    fiber (Dbl.fin 0) seed.trace seed.trace2 h
  exact ⟨f', hf', hpos⟩

/-- Claim C12, amended: when the start sample is recorded (`Record` does not end in `throw`)
and the mask value at the position reached by the first step is not above 0, `Follow3T`
returns, whatever the estimator returns, with `fiber_length = 0` and with the fibre as the
record of the start sample left it: one position, the seed point, more than on entry. -/
theorem Follow3T_stops_at_first_step (T : Tractography α) (fuel : Nat)
    (seed : SeedPointInfo α (Vec α 3)) (fiber fiber₀ : UKFFiber α) (d : Nat) (m2 m3 : Vec α 3)
    (hfuel : 1 ≤ fuel) (hrec : recordStart T seed fiber = some fiber₀)
    (hmask : ¬ (T.ScalarMaskValue (followStep T (followEntry T seed fiber₀ d m2 m3)).x
      > Dbl.fin 0)) :
    ∃ r, Follow3T T fuel seed fiber d m2 m3 = Except.ok r ∧ r.fiber_length = 0 ∧
      r.fiber = fiber₀ ∧ r.fiber.position = fiber.position ++ [seed.point] ∧ r.stepnr = 1 := by
  have hs : stopCondition T (followStep T (followEntry T seed fiber₀ d m2 m3)) := Or.inl hmask
  obtain ⟨f, rfl⟩ : ∃ f, fuel = f + 1 := ⟨fuel - 1, by omega⟩
  refine ⟨{ followStep T (followEntry T seed fiber₀ d m2 m3) with
      is_discarded := discardFlag T (followStep T (followEntry T seed fiber₀ d m2 m3)) },
    ?_, ?_, ?_, ?_, ?_⟩
  · unfold Follow3T
    rw [hrec]
    unfold followLoop
    rw [followPass_stop T _ hs]
  · rfl
  · rfl
  · show fiber₀.position = _
    unfold recordStart at hrec
    by_cases hthrow : T._record_free_water = true ∧
        Dbl.fin 1 - seed.state 24 < Dbl.fin (-(1 / 10 ^ 4))
    · have hnone : recordFreeWater seed.state = none :=
        (recordFreeWater_eq_none seed.state).mpr hthrow.2
      unfold Record at hrec
      simp [hthrow.1, hnone] at hrec
    · obtain ⟨f', hf', _, hpos⟩ := Record_eq T seed.point seed.fa seed.fa2 seed.fa3
        (computeUncertaintiesCharacteristics T.libm seed.covariance) seed.state seed.covariance
        fiber (Dbl.fin 0) seed.trace seed.trace2 hthrow
      rw [hf'] at hrec
      cases hrec
      exact hpos
  · rfl

end FirstStep

/-- Claim C12 fails as stated: with a mask that is 0 at the seed position and positive one
step further, `_steps_per_record = 1` and `_max_length = 1`, `Follow3T` records the first step
(`fiber_length = 1`, two positions in the fibre); and for a seed with `state[24] = 2`, with
free water recorded, `Follow3T` does not return at all, although the mask is 0 everywhere. -/
theorem Follow3T_records_from_seed_outside_mask :
    sampleMask (sampleSeed (1 : ℚ)).point = Dbl.fin 0 ∧
    (∃ r, Follow3T (sampleTractography (Libm.ofFinite id id id) false 1 1 sampleMask) 2
        (sampleSeed (1 : ℚ)) emptyFiber 0 (fun _ => Dbl.nan) (fun _ => Dbl.nan) = Except.ok r ∧
      r.fiber_length = 1 ∧ r.fiber.position.length = 2) ∧
    Follow3T (sampleTractography (Libm.ofFinite id id id) true 1 1 (fun _ => Dbl.fin 0)) 2
        (sampleSeed (2 : ℚ)) emptyFiber 0 (fun _ => Dbl.nan) (fun _ => Dbl.nan)
      = Except.error Fault.thrown := by
  refine ⟨by simp [sampleMask, sampleSeed, Dbl.beq], ?_, ?_⟩
  · obtain ⟨f₀, hf₀, hp₀⟩ := recordStart_eq
      (sampleTractography (Libm.ofFinite id id id) false 1 1 sampleMask)
      (sampleSeed (1 : ℚ)) emptyFiber (fun h => absurd h.1 (by simp [sampleTractography]))
    have hns := sample_not_stop false 1 1
      (followEntry (sampleTractography (Libm.ofFinite id id id) false 1 1 sampleMask)
        (sampleSeed (1 : ℚ)) f₀ 0 (fun _ => Dbl.nan) (fun _ => Dbl.nan))
      rfl 0 rfl (by norm_num) (by show (0 : Int) + 1 ≤ 1; decide)
    obtain ⟨w₁, hw₁, hw₁s, _, _, hrecd, _⟩ := followRecord_returns
      (sampleTractography (Libm.ofFinite id id id) false 1 1 sampleMask)
      { followStep (sampleTractography (Libm.ofFinite id id id) false 1 1 sampleMask)
          (followEntry (sampleTractography (Libm.ofFinite id id id) false 1 1 sampleMask)
            (sampleSeed (1 : ℚ)) f₀ 0 (fun _ => Dbl.nan) (fun _ => Dbl.nan))
        with is_discarded := 0 }
      (by show (1 : Int) ≠ 0; decide) (followStep_state24 _ _)
    obtain ⟨hlen, hpos, _⟩ := hrecd (by show Int.tmod ((0 + 1) + 1) 1 = 0; decide)
    have hstop₂ : stopCondition
        (sampleTractography (Libm.ofFinite id id id) false 1 1 sampleMask)
        (followStep (sampleTractography (Libm.ofFinite id id id) false 1 1 sampleMask) w₁) := by
      refine Or.inr (Or.inr (Or.inr (Or.inr (Or.inr (Or.inr ?_)))))
      show (1 : Int) < w₁.stepnr + 1
      rw [hw₁s]
      show (1 : Int) < (0 + 1) + 1
      decide
    refine ⟨{ followStep (sampleTractography (Libm.ofFinite id id id) false 1 1 sampleMask) w₁ with
      is_discarded := discardFlag (sampleTractography (Libm.ofFinite id id id) false 1 1 sampleMask)
        (followStep (sampleTractography (Libm.ofFinite id id id) false 1 1 sampleMask) w₁) },
      ?_, ?_, ?_⟩
    · unfold Follow3T
      rw [hf₀]
      unfold followLoop
      rw [followPass_continue _ _ hns, hw₁]
      unfold followLoop
      rw [followPass_stop _ _ hstop₂]
    · show w₁.fiber_length = 1
      rw [hlen]; rfl
    · show w₁.fiber.position.length = 2
      rw [hpos]
      show (f₀.position ++ _).length = 2
      rw [hp₀]
      rfl
  · unfold Follow3T recordStart Record
    have hnone : recordFreeWater (sampleSeed (2 : ℚ)).state = none := by
      rw [recordFreeWater_eq_none]
      show (Dbl.fin 1 - Dbl.fin 2 : Dbl ℚ) < _
      rw [Dbl.fin_sub_fin, Dbl.fin_lt_fin]
      norm_num
    simp [sampleTractography, hnone]

/-- The amended claim C12 for a mask that is 0 everywhere. -/
theorem Follow3T_stops_at_first_step_witness :
    ∃ r, Follow3T (sampleTractography (Libm.ofFinite id id id) false 1 5 (fun _ => Dbl.fin 0)) 1
        (sampleSeed (1 : ℚ)) emptyFiber 0 (fun _ => Dbl.nan) (fun _ => Dbl.nan) = Except.ok r ∧
      r.fiber_length = 0 ∧ r.fiber.position = [(sampleSeed (1 : ℚ)).point] := by
  obtain ⟨r, hr, hl, _, hp, _⟩ := Follow3T_stops_at_first_step
    (sampleTractography (Libm.ofFinite id id id) false 1 5 (fun _ => Dbl.fin 0)) 1
    (sampleSeed (1 : ℚ)) emptyFiber _ 0 (fun _ => Dbl.nan) (fun _ => Dbl.nan)
    (le_refl 1) rfl (by
      show ¬ ((Dbl.fin 0 : Dbl ℚ) > Dbl.fin 0)
      simp)
  exact ⟨r, hr, hl, hp⟩

section Decimation

variable {α : Type} [LinearOrderedField α]

/-- Claim C14, amended: for `_steps_per_record ≥ 1`, a pass of the loop of `Follow3T` in which
no stop condition holds, step `k` say, is completed, and it appends a sample (one position,
one state, `fiber_length` one higher) exactly when `k + 1` is a multiple of
`_steps_per_record`; otherwise it leaves the fibre and `fiber_length` as they are. -/
theorem followPass_records_iff (T : Tractography α) (v : FollowVars α)
    (hspr : 1 ≤ T._steps_per_record) (hs : ¬ stopCondition T (followStep T v)) :
    ∃ w, followPass T v = Except.ok (w, false) ∧ w.stepnr = v.stepnr + 1 ∧
      (T._steps_per_record ∣ w.stepnr + 1 →
        w.fiber_length = v.fiber_length + 1 ∧ w.fiber.position = v.fiber.position ++ [w.x] ∧
        w.fiber.state.length = v.fiber.state.length + 1) ∧
      (¬ T._steps_per_record ∣ w.stepnr + 1 →
        w.fiber_length = v.fiber_length ∧ w.fiber = v.fiber) := by
  obtain ⟨w, hw, hws, hwx, _, hrec, hnrec⟩ := followRecord_returns T
    { followStep T v with is_discarded := 0 } (by omega) (followStep_state24 T v)
  have hstep : w.stepnr = v.stepnr + 1 := hws
  refine ⟨w, ?_, hstep, ?_, ?_⟩
  · rw [followPass_continue T v hs, hw]
  · intro hdvd
    rw [hstep] at hdvd
    obtain ⟨h1, h2, h3⟩ := hrec (Int.dvd_iff_tmod_eq_zero.mp hdvd)
    refine ⟨h1, ?_, ?_⟩
    · rw [h2, hwx]; rfl
    · rw [h3]; simp; rfl
  · intro hdvd
    rw [hstep] at hdvd
    exact hnrec (fun h => hdvd (Int.dvd_iff_tmod_eq_zero.mpr h))

end Decimation

/-- Claim C14 fails as stated: with `_steps_per_record = 2`, step 1 of the loop is not the last
one and appends a sample, although 1 is not a multiple of 2: the first sample of the loop comes
one step, not two steps, after the start sample. -/
theorem followPass_records_off_multiple :
    ¬ ((2 : Int) ∣ 1) ∧
    ∃ w, followPass (sampleTractography (Libm.ofFinite id id id) false 2 5 sampleMask)
        (followEntry (sampleTractography (Libm.ofFinite id id id) false 2 5 sampleMask)
          (sampleSeed (1 : ℚ)) emptyFiber 0 (fun _ => Dbl.nan) (fun _ => Dbl.nan))
        = Except.ok (w, false) ∧
      w.stepnr = 1 ∧ w.fiber_length = 1 ∧ w.fiber.position.length = 1 := by
  refine ⟨by decide, ?_⟩
  have hns := sample_not_stop false 2 5
    (followEntry (sampleTractography (Libm.ofFinite id id id) false 2 5 sampleMask)
      (sampleSeed (1 : ℚ)) emptyFiber 0 (fun _ => Dbl.nan) (fun _ => Dbl.nan))
    rfl 0 rfl (by norm_num) (by decide)
  obtain ⟨w, hw, hws, _, _, hrec, _⟩ := followRecord_returns
    (sampleTractography (Libm.ofFinite id id id) false 2 5 sampleMask)
    { followStep (sampleTractography (Libm.ofFinite id id id) false 2 5 sampleMask)
        (followEntry (sampleTractography (Libm.ofFinite id id id) false 2 5 sampleMask)
          (sampleSeed (1 : ℚ)) emptyFiber 0 (fun _ => Dbl.nan) (fun _ => Dbl.nan))
      with is_discarded := 0 }
    (by decide) (followStep_state24 _ _)
  obtain ⟨h1, h2, _⟩ := hrec (by decide)
  refine ⟨w, ?_, hws, h1, ?_⟩
  · rw [followPass_continue _ _ hns, hw]
  · rw [h2]; rfl

/-- The amended claim C14 with `_steps_per_record = 3` at step 1: the pass is completed and
appends nothing, since 2 is not a multiple of 3. -/
theorem followPass_records_iff_witness :
    ∃ w, followPass (sampleTractography (Libm.ofFinite id id id) false 3 5 sampleMask)
        (followEntry (sampleTractography (Libm.ofFinite id id id) false 3 5 sampleMask)
          (sampleSeed (1 : ℚ)) emptyFiber 0 (fun _ => Dbl.nan) (fun _ => Dbl.nan))
        = Except.ok (w, false) ∧
      w.stepnr = 1 ∧ w.fiber_length = 0 ∧ w.fiber = emptyFiber := by
  obtain ⟨w, hw, hws, _, hnrec⟩ := followPass_records_iff
    (sampleTractography (Libm.ofFinite id id id) false 3 5 sampleMask)
    (followEntry (sampleTractography (Libm.ofFinite id id id) false 3 5 sampleMask)
      (sampleSeed (1 : ℚ)) emptyFiber 0 (fun _ => Dbl.nan) (fun _ => Dbl.nan))
    (by decide)
    (sample_not_stop false 3 5
      (followEntry (sampleTractography (Libm.ofFinite id id id) false 3 5 sampleMask)
        (sampleSeed (1 : ℚ)) emptyFiber 0 (fun _ => Dbl.nan) (fun _ => Dbl.nan))
      rfl 0 rfl (by norm_num) (by decide))
  have hws' : w.stepnr = 1 := hws
  obtain ⟨h1, h2⟩ := hnrec (by rw [hws']; decide)
  exact ⟨w, hw, hws', h1, h2⟩

/-- Claim C15 fails as stated: with free water recorded, a working state whose entries are all
2 (so `1 - state[24] = -1`) makes `Record` end in `throw` before anything is appended to
`fiber.state`; and for a working state whose first entry is `+∞` the first triple of the
stored copy starts with NaN and is not of unit length. -/
theorem Record_without_normalized_copy :
    Record (sampleTractography (Libm.ofFinite id id id) true 1 1 (fun _ => Dbl.fin 0))
        (fun _ => Dbl.fin 0) (Dbl.fin 1) (Dbl.fin 1) (Dbl.fin 1)
        (computeUncertaintiesCharacteristics (Libm.ofFinite id id id) (fun _ _ => Dbl.fin 0))
        (fun _ => Dbl.fin (2 : ℚ)) (fun _ _ => Dbl.fin 0) emptyFiber (Dbl.fin 0) (Dbl.fin 1)
        (Dbl.fin 1) = none ∧
    ∃ fiber' store,
      Record (sampleTractography (Libm.ofFinite id id id) false 1 1 (fun _ => Dbl.fin 0))
        (fun _ => Dbl.fin 0) (Dbl.fin 1) (Dbl.fin 1) (Dbl.fin 1)
        (computeUncertaintiesCharacteristics (Libm.ofFinite id id id) (fun _ _ => Dbl.fin 0))
        (fun k => if k = 0 then Dbl.pinf else Dbl.fin (1 : ℚ)) (fun _ _ => Dbl.fin 0) emptyFiber
        (Dbl.fin 0) (Dbl.fin 1) (Dbl.fin 1) = some fiber' ∧
      fiber'.state = [store] ∧ store 0 = Dbl.nan := by
  constructor
  · have hnone : recordFreeWater (fun _ => Dbl.fin (2 : ℚ)) = none := by
      rw [recordFreeWater_eq_none]
      rw [Dbl.fin_sub_fin, Dbl.fin_lt_fin]
      norm_num
    unfold Record
    simp [sampleTractography, hnone]
  · obtain ⟨fiber', hrec, hst, _⟩ := Record_eq
      (sampleTractography (Libm.ofFinite id id id) false 1 1 (fun _ => Dbl.fin 0))
      (fun _ => Dbl.fin 0) (Dbl.fin 1) (Dbl.fin 1) (Dbl.fin 1)
      (computeUncertaintiesCharacteristics (Libm.ofFinite id id id) (fun _ _ => Dbl.fin 0))
      (fun k => if k = 0 then Dbl.pinf else Dbl.fin (1 : ℚ)) (fun _ _ => Dbl.fin 0) emptyFiber
      (Dbl.fin 0) (Dbl.fin 1) (Dbl.fin 1)
      (fun h => absurd h.1 (by simp [sampleTractography]))
    refine ⟨fiber', _, hrec, hst, ?_⟩
    show initNormalized (Libm.ofFinite id id id) Dbl.pinf (Dbl.fin 1) (Dbl.fin 1) 0 = Dbl.nan
    unfold initNormalized Vec.norm
    rw [dot3]
    rfl

/-- The amended claim C15 in real arithmetic for the working state whose entries are all 1. -/
theorem Record_appends_normalized_copy_witness :
    ∃ fiber' store,
      Record (sampleTractography (Libm.ofFinite Real.exp Real.log Real.sqrt) false 1 1
          (fun _ => Dbl.fin 0))
        (fun _ => Dbl.fin 0) (Dbl.fin 1) (Dbl.fin 1) (Dbl.fin 1)
        (computeUncertaintiesCharacteristics (Libm.ofFinite Real.exp Real.log Real.sqrt)
          (fun _ _ => Dbl.fin 0))
        (fun _ => Dbl.fin (1 : ℝ)) (fun _ _ => Dbl.fin 0) emptyFiber (Dbl.fin 0) (Dbl.fin 1)
        (Dbl.fin 1) = some fiber' ∧
      fiber'.state = emptyFiber.state ++ [store] ∧
      (∀ k, k ∉ [0, 1, 2, 7, 8, 9, 14, 15, 16] → store k = Dbl.fin 1) := by
  obtain ⟨fiber', store, h1, h2, h3, _⟩ := Record_appends_normalized_copy
    (sampleTractography (Libm.ofFinite Real.exp Real.log Real.sqrt) false 1 1
      (fun _ => Dbl.fin 0))
    (fun _ => Dbl.fin 0) (Dbl.fin 1) (Dbl.fin 1) (Dbl.fin 1)
    (computeUncertaintiesCharacteristics (Libm.ofFinite Real.exp Real.log Real.sqrt)
      (fun _ _ => Dbl.fin 0))
    (fun _ => Dbl.fin (1 : ℝ)) (fun _ _ => Dbl.fin 0) emptyFiber (Dbl.fin 0) (Dbl.fin 1)
    (Dbl.fin 1)
    (fun t ht => ⟨Real.sqrt t, Real.sqrt_pos.mpr ht, Real.mul_self_sqrt ht.le, by
      show (if t < 0 then Dbl.nan else Dbl.fin (Real.sqrt t)) = _
      rw [if_neg (not_lt.mpr ht.le)]⟩)
    (fun h => absurd h.1 (by simp [sampleTractography]))
    (fun b _ => ⟨1, 1, 1, rfl, rfl, rfl, Or.inl one_ne_zero⟩)
  exact ⟨fiber', store, h1, h2, h3⟩

/-! ## The free-water block of `Record` -/

section FreeWaterBlock

variable {α : Type} [LinearOrderedField α]

theorem recordHead_free_water (T : Tractography α) (x : Vec α 3) (fa fa2 fa3 : Dbl α)
    (state : Nat → Dbl α) (p : Nat → Nat → Dbl α) (fiber : UKFFiber α)
    (dNormMSE trace trace2 : Dbl α) :
    (recordHead T x fa fa2 fa3 state p fiber dNormMSE trace trace2).free_water =
      fiber.free_water ++ (if T._record_weights = true then [state 24] else []) := by
  unfold recordHead
  simp only
  split_ifs <;> simp

theorem recordTail_free_water (T : Tractography α) (u : Uncertainties α)
    (state : Nat → Dbl α) (p : Nat → Nat → Dbl α) (fiber : UKFFiber α) :
    (recordTail T u state p fiber).free_water = fiber.free_water := by
  unfold recordTail
  simp only
  split_ifs <;> rfl

theorem recordFreeWater_rounded (state : Nat → Dbl α)
    (h1 : Dbl.fin (-(1 / 10 ^ 4)) ≤ Dbl.fin 1 - state 24)
    (h2 : Dbl.fin 1 - state 24 < Dbl.fin 0) :
    recordFreeWater state = some (Dbl.fin 0) := by
  unfold recordFreeWater _nPosFreeWater
  simp only [if_pos h2, ge_iff_le, if_pos h1]

theorem recordFreeWater_unchanged (state : Nat → Dbl α)
    (h2 : ¬ (Dbl.fin 1 - state 24 < Dbl.fin 0)) :
    recordFreeWater state = some (Dbl.fin 1 - state 24) := by
  unfold recordFreeWater _nPosFreeWater
  simp only [if_neg h2]

/-- Claim C24: with free-water recording enabled, `Record` ends in `throw` exactly when
`1 - state[24]` is below `-1e-4`; a value in `[-1e-4, 0)` is appended to `free_water` as 0 and
a value that is not negative is appended unchanged (after the isotropic weight that the
weights block appends when `_record_weights` is set). -/
theorem Record_free_water (T : Tractography α) (x : Vec α 3) (fa fa2 fa3 : Dbl α)
    (u : Uncertainties α) (state : Nat → Dbl α) (p : Nat → Nat → Dbl α) (fiber : UKFFiber α)
    (dNormMSE trace trace2 : Dbl α) (hfw : T._record_free_water = true) :
    (Record T x fa fa2 fa3 u state p fiber dNormMSE trace trace2 = none ↔
      Dbl.fin 1 - state 24 < Dbl.fin (-(1 / 10 ^ 4))) ∧
    (Dbl.fin (-(1 / 10 ^ 4)) ≤ Dbl.fin 1 - state 24 → Dbl.fin 1 - state 24 < Dbl.fin 0 →
      ∃ fiber', Record T x fa fa2 fa3 u state p fiber dNormMSE trace trace2 = some fiber' ∧
        fiber'.free_water = fiber.free_water ++
          (if T._record_weights = true then [state 24] else []) ++ [Dbl.fin 0]) ∧
    (Dbl.fin 0 ≤ Dbl.fin 1 - state 24 →
      ∃ fiber', Record T x fa fa2 fa3 u state p fiber dNormMSE trace trace2 = some fiber' ∧
        fiber'.free_water = fiber.free_water ++
          (if T._record_weights = true then [state 24] else []) ++ [Dbl.fin 1 - state 24]) := by
  refine ⟨?_, ?_, ?_⟩
  · rw [← recordFreeWater_eq_none]
    unfold Record
    simp only [hfw, if_true]
    cases recordFreeWater state <;> simp
  · intro h1 h2
    unfold Record
    simp only [hfw, if_true, recordFreeWater_rounded state h1 h2]
    exact ⟨_, rfl, by rw [recordTail_free_water, recordHead_free_water]⟩
  · intro h0
    have h2 : ¬ (Dbl.fin 1 - state 24 < Dbl.fin 0) := by
      cases h : Dbl.fin 1 - state 24 with
      | nan => rw [h] at h0; exact absurd h0 (Dbl.not_le_nan _)
      | pinf => exact Dbl.not_pinf_lt _
      | ninf =>
        rw [h] at h0
        have hn : ¬ ((Dbl.fin 0 : Dbl α) ≤ Dbl.ninf) := by
          show ¬ (Dbl.ble (Dbl.fin 0) (Dbl.ninf : Dbl α) = true)
          simp [Dbl.ble]
        exact absurd h0 hn
      | fin v =>
        rw [h] at h0
        rw [Dbl.fin_lt_fin]
        exact not_lt.mpr ((Dbl.fin_le_fin _ _).mp h0)
    unfold Record
    simp only [hfw, if_true, recordFreeWater_unchanged state h2]
    exact ⟨_, rfl, by rw [recordTail_free_water, recordHead_free_water]⟩

/-- The claim C24 at a state whose free-water entry is 1: the value 0 is appended unchanged. -/
theorem Record_free_water_witness :
    (sampleTractography (Libm.ofFinite (id : ℚ → ℚ) id id) true 1 1 (fun _ => Dbl.fin 0))._record_free_water
      = true ∧
    ∃ fiber', Record (sampleTractography (Libm.ofFinite (id : ℚ → ℚ) id id) true 1 1
          (fun _ => Dbl.fin 0))
        (fun _ => Dbl.fin 0) (Dbl.fin 1) (Dbl.fin 1) (Dbl.fin 1)
        (computeUncertaintiesCharacteristics (Libm.ofFinite (id : ℚ → ℚ) id id)
          (fun _ _ => Dbl.fin 0))
        (fun _ => Dbl.fin 1) (fun _ _ => Dbl.fin 0) emptyFiber (Dbl.fin 0) (Dbl.fin 1)
        (Dbl.fin 1) = some fiber' ∧
      fiber'.free_water = [Dbl.fin 0] :=
  ⟨rfl, by
    obtain ⟨fiber', h1, h2⟩ := (Record_free_water
      (sampleTractography (Libm.ofFinite (id : ℚ → ℚ) id id) true 1 1 (fun _ => Dbl.fin 0))
      (fun _ => Dbl.fin 0) (Dbl.fin 1) (Dbl.fin 1) (Dbl.fin 1)
      (computeUncertaintiesCharacteristics (Libm.ofFinite (id : ℚ → ℚ) id id)
        (fun _ _ => Dbl.fin 0))
      (fun _ => Dbl.fin 1) (fun _ _ => Dbl.fin 0) emptyFiber (Dbl.fin 0) (Dbl.fin 1)
      (Dbl.fin 1) rfl).2.2 (by simp)
    refine ⟨fiber', h1, ?_⟩
    rw [h2]
    simp [sampleTractography, emptyFiber]⟩

end FreeWaterBlock

/-! ## The two-loop recursion `step` -/

namespace LFBGSB

section TwoLoop

variable {α : Type} [LinearOrderedField α] {n : Nat}

theorem foldl_dot_fin : ∀ (k : Nat) (a b : Fin k → α) (c : α),
    Fin.foldl k (fun acc i => acc + Dbl.fin (a i) * Dbl.fin (b i)) (Dbl.fin c) =
      Dbl.fin (c + ∑ j, a j * b j)
  | 0, a, b, c => by simp [Fin.foldl_zero]
  | k + 1, a, b, c => by
    rw [Fin.foldl_succ_last, foldl_dot_fin k (fun i => a i.castSucc) (fun i => b i.castSucc) c,
      Fin.sum_univ_castSucc, Dbl.fin_mul_fin, Dbl.fin_add_fin, add_assoc]

theorem dot_fin (a b : Fin n → α) :
    Vec.dot (fun j => Dbl.fin (a j)) (fun j => Dbl.fin (b j)) = Dbl.fin (∑ j, a j * b j) := by
  unfold Vec.dot
  rw [foldl_dot_fin n a b 0, zero_add]

theorem dot_fin_zero (a : Fin n → α) :
    Vec.dot (fun j => Dbl.fin (a j)) (fun _ => Dbl.fin (0 : α)) = Dbl.fin 0 := by
  rw [dot_fin a (fun _ => 0)]
  simp

theorem stepForward_zero (sv yv : Nat → Fin n → α) :
    ∀ (cols : List Nat) (alpha : Nat → Dbl α),
      (∀ i ∈ cols, (∑ j, yv i j * sv i j) ≠ 0) →
      ∃ alpha', stepForward (fun i j => Dbl.fin (sv i j)) (fun i j => Dbl.fin (yv i j)) cols
          ((fun _ => Dbl.fin 0), alpha) = ((fun _ => Dbl.fin 0), alpha') ∧
        (∀ i ∈ cols, alpha' i = Dbl.fin 0) ∧ (∀ i, i ∉ cols → alpha' i = alpha i)
  | [], alpha, _ => ⟨alpha, rfl, by simp, fun _ _ => rfl⟩
  | i :: cols, alpha, h => by
    have hd : (∑ j, yv i j * sv i j) ≠ 0 := h i (List.mem_cons_self _ _)
    have ha : Dbl.fin 1 / Vec.dot (fun j => Dbl.fin (yv i j)) (fun j => Dbl.fin (sv i j)) *
        Vec.dot (fun j => Dbl.fin (sv i j)) (fun _ => Dbl.fin (0 : α)) = Dbl.fin 0 := by
      rw [dot_fin, dot_fin_zero, Dbl.fin_div_fin _ _ hd, Dbl.fin_mul_fin, mul_zero]
    have hq : Vec.sub (fun _ => Dbl.fin (0 : α))
        (Vec.smul (Dbl.fin 0) (fun j => Dbl.fin (yv i j))) = fun _ => Dbl.fin 0 := by
      funext j
      simp [Vec.sub, Vec.smul]
    obtain ⟨alpha', h1, h2, h3⟩ := stepForward_zero sv yv cols
      (Function.update alpha i (Dbl.fin 0)) (fun k hk => h k (List.mem_cons_of_mem _ hk))
    refine ⟨alpha', ?_, ?_, ?_⟩
    · show stepForward _ _ cols (_, _) = _
      simp only [ha, hq]
      exact h1
    · intro k hk
      by_cases hkc : k ∈ cols
      · exact h2 k hkc
      · rcases List.mem_cons.mp hk with rfl | hk'
        · rw [h3 k hkc, Function.update_same]
        · exact absurd hk' hkc
    · intro k hk
      have hki : k ≠ i := fun e => hk (e ▸ List.mem_cons_self _ _)
      rw [h3 k (fun hc => hk (List.mem_cons_of_mem _ hc)), Function.update_noteq hki]

theorem stepBackward_zero (sv yv : Nat → Fin n → α) (alpha : Nat → Dbl α) :
    ∀ (cols : List Nat), (∀ i ∈ cols, (∑ j, yv i j * sv i j) ≠ 0 ∧ alpha i = Dbl.fin 0) →
      stepBackward (fun i j => Dbl.fin (sv i j)) (fun i j => Dbl.fin (yv i j)) alpha cols
        (fun _ => Dbl.fin 0) = fun _ => Dbl.fin 0
  | [], _ => rfl
  | i :: cols, h => by
    obtain ⟨hd, hz⟩ := h i (List.mem_cons_self _ _)
    have hb : Dbl.fin 1 / Vec.dot (fun j => Dbl.fin (yv i j)) (fun j => Dbl.fin (sv i j)) *
        Vec.dot (fun j => Dbl.fin (yv i j)) (fun _ => Dbl.fin (0 : α)) = Dbl.fin 0 := by
      rw [dot_fin, dot_fin_zero, Dbl.fin_div_fin _ _ hd, Dbl.fin_mul_fin, mul_zero]
    have hr : Vec.add (fun _ => Dbl.fin (0 : α))
        (Vec.smul (Dbl.fin 0 - Dbl.fin 0) (fun j => Dbl.fin (sv i j))) = fun _ => Dbl.fin 0 := by
      funext j
      simp [Vec.add, Vec.smul]
    show stepBackward _ _ alpha cols _ = _
    simp only [hb, hz, hr]
    exact stepBackward_zero sv yv alpha cols (fun k hk => h k (List.mem_cons_of_mem _ hk))

theorem stepBackward_append (s_mat y_mat : Nat → Vec α n) (alpha : Nat → Dbl α) :
    ∀ (l₁ l₂ : List Nat) (r : Vec α n),
      stepBackward s_mat y_mat alpha (l₁ ++ l₂) r =
        stepBackward s_mat y_mat alpha l₂ (stepBackward s_mat y_mat alpha l₁ r)
  | [], _, _ => rfl
  | i :: l₁, l₂, r => by
    show stepBackward s_mat y_mat alpha (l₁ ++ l₂) _ = _
    rw [stepBackward_append s_mat y_mat alpha l₁ l₂]
    rfl

/-- Claim C30: the two-loop recursion satisfies the secant equation.  For `M ≥ 1` stored pairs
with finite entries and `y_i · s_i ≠ 0` for every `i < M`, `step` applied to `g = y_0`
returns `s_0`. -/
theorem step_secant (sv yv : Nat → Fin n → α) (M : Nat) (hM : 1 ≤ M)
    (h : ∀ i, i < M →
      Vec.dot (fun j => Dbl.fin (yv i j)) (fun j => Dbl.fin (sv i j)) ≠ Dbl.fin 0) :
    step (fun j => Dbl.fin (yv 0 j)) (fun i j => Dbl.fin (sv i j))
      (fun i j => Dbl.fin (yv i j)) M = fun j => Dbl.fin (sv 0 j) := by
  have hd : ∀ i, i < M → (∑ j, yv i j * sv i j) ≠ 0 := by
    intro i hi e
    exact h i hi (by rw [dot_fin, e])
  obtain ⟨k, rfl⟩ : ∃ k, M = k + 1 := ⟨M - 1, by omega⟩
  have hd0 : (∑ j, yv 0 j * sv 0 j) ≠ 0 := hd 0 (by omega)
  have hyy : (∑ j, yv 0 j * yv 0 j) ≠ 0 := by
    intro e
    have hz : ∀ j ∈ Finset.univ, yv 0 j * yv 0 j = 0 :=
      (Finset.sum_eq_zero_iff_of_nonneg (fun j _ => mul_self_nonneg (yv 0 j))).mp e
    apply hd0
    apply Finset.sum_eq_zero
    intro j hj
    rw [mul_self_eq_zero.mp (hz j hj), zero_mul]
  have hrest : ∀ i ∈ List.map Nat.succ (List.range k), (∑ j, yv i j * sv i j) ≠ 0 := by
    intro i hi
    obtain ⟨a, ha, rfl⟩ := List.mem_map.mp hi
    exact hd _ (Nat.succ_lt_succ (List.mem_range.mp ha))
  have h0rest : (0 : Nat) ∉ List.map Nat.succ (List.range k) := by
    intro hi
    obtain ⟨a, _, ha⟩ := List.mem_map.mp hi
    exact Nat.succ_ne_zero a ha
  have ha0 : Dbl.fin 1 / Vec.dot (fun j => Dbl.fin (yv 0 j)) (fun j => Dbl.fin (sv 0 j)) *
      Vec.dot (fun j => Dbl.fin (sv 0 j)) (fun j => Dbl.fin (yv 0 j)) = Dbl.fin 1 := by
    have hc : (∑ j, sv 0 j * yv 0 j) = ∑ j, yv 0 j * sv 0 j :=
      Finset.sum_congr rfl (fun j _ => mul_comm _ _)
    rw [dot_fin, dot_fin, Dbl.fin_div_fin _ _ hd0, Dbl.fin_mul_fin, hc,
      one_div_mul_cancel hd0]
  have hq0 : Vec.sub (fun j => Dbl.fin (yv 0 j))
      (Vec.smul (Dbl.fin 1) (fun j => Dbl.fin (yv 0 j))) = fun _ => Dbl.fin 0 := by
    funext j
    simp [Vec.sub, Vec.smul]
  obtain ⟨alpha', h1, h2, h3⟩ := stepForward_zero sv yv (List.map Nat.succ (List.range k))
    (Function.update (fun _ => Dbl.fin 0) 0 (Dbl.fin 1)) hrest
  have hfwd : stepForward (fun i j => Dbl.fin (sv i j)) (fun i j => Dbl.fin (yv i j))
      (List.range (k + 1)) ((fun j => Dbl.fin (yv 0 j)), fun _ => Dbl.fin 0) =
      ((fun _ => Dbl.fin 0), alpha') := by
    rw [List.range_succ_eq_map]
    show stepForward _ _ (List.map Nat.succ (List.range k)) (_, _) = _
    simp only [ha0, hq0]
    exact h1
  have hal0 : alpha' 0 = Dbl.fin 1 := by
    rw [h3 0 h0rest, Function.update_same]
  have hr0 : Vec.divs (Vec.muls (fun _ => Dbl.fin (0 : α) : Vec α n)
      (Vec.dot (fun j => Dbl.fin (sv 0 j)) (fun j => Dbl.fin (yv 0 j))))
      (Vec.dot (fun j => Dbl.fin (yv 0 j)) (fun j => Dbl.fin (yv 0 j))) =
      fun _ => Dbl.fin 0 := by
    funext j
    simp only [Vec.divs, Vec.muls, dot_fin, Dbl.fin_mul_fin, Dbl.fin_div_fin _ _ hyy,
      zero_mul, zero_div]
  have hb0 : Dbl.fin 1 / Vec.dot (fun j => Dbl.fin (yv 0 j)) (fun j => Dbl.fin (sv 0 j)) *
      Vec.dot (fun j => Dbl.fin (yv 0 j)) (fun _ => Dbl.fin (0 : α)) = Dbl.fin 0 := by
    rw [dot_fin, dot_fin_zero, Dbl.fin_div_fin _ _ hd0, Dbl.fin_mul_fin, mul_zero]
  unfold step
  simp only [hfwd, hr0]
  rw [List.range_succ_eq_map, List.reverse_cons, stepBackward_append,
    stepBackward_zero sv yv alpha' _ (fun i hi => by
      rw [List.mem_reverse] at hi
      exact ⟨hrest i hi, h2 i hi⟩)]
  show Vec.add _ (Vec.smul (alpha' 0 - _) _) = _
  rw [hb0, hal0]
  funext j
  simp [Vec.add, Vec.smul]

/-- The claim C30 for one stored pair `s_0 = y_0 = (1)` in dimension 1. -/
theorem step_secant_witness :
    step (fun _ => Dbl.fin (1 : ℚ)) (fun _ _ => Dbl.fin 1) (fun _ _ => Dbl.fin 1) 1 =
      (fun _ => Dbl.fin 1 : Vec ℚ 1) :=
  step_secant (fun _ _ => (1 : ℚ)) (fun _ _ => 1) 1 (le_refl 1) (fun i _ => by
    rw [dot_fin]
    simp)

end TwoLoop

end LFBGSB

/-! ## The passes of `LineSearch` -/

namespace LFBGSB

section LineSearchPasses

variable {α : Type} [LinearOrderedField α] {n : Nat}

theorem LineSearch_eq (S : LFBGSB α n) (x grad dir : Vec α n) :
    LineSearch S x grad dir =
      if Vec.dot (S.objFunc x).2 dir ≥ Dbl.fin 0 then
        some { step := Dbl.fin 1, x := x, grad := (S.objFunc x).2 }
      else lineSearchLoop S x dir (S.objFunc x).1 (Vec.dot (S.objFunc x).2 dir)
        (wolfe1 * Vec.dot (S.objFunc x).2 dir) 100
        (lsStart (S.objFunc x).1 (Vec.dot (S.objFunc x).2 dir)) := rfl

/-- A pass whose counter reaches 100 returns. -/
theorem lineSearchPass_last (S : LFBGSB α n) (x_0 dir : Vec α n)
    (f_init dgrad_init dgrad_test : Dbl α) (st : LSState α) (h : 100 ≤ st.iter + 1) :
    ∃ r, lineSearchPass S x_0 dir f_init dgrad_init dgrad_test st = Sum.inl r := by
  cases hp : lineSearchPass S x_0 dir f_init dgrad_init dgrad_test st with
  | inl r => exact ⟨r, rfl⟩
  | inr st' =>
    have := (lineSearchPass_continue S x_0 dir _ _ _ st st' hp).2
    omega

/-- A loop that returns within `passes` passes returns in some pass `p` and in no earlier
one. -/
theorem lineSearchLoop_first (S : LFBGSB α n) (x_0 dir : Vec α n)
    (f_init dgrad_init dgrad_test : Dbl α) (r : LSResult α n) :
    ∀ (passes : Nat) (st : LSState α),
      lineSearchLoop S x_0 dir f_init dgrad_init dgrad_test passes st = some r →
      ∃ p, 1 ≤ p ∧ p ≤ passes ∧
        lineSearchLoop S x_0 dir f_init dgrad_init dgrad_test p st = some r ∧
        lineSearchLoop S x_0 dir f_init dgrad_init dgrad_test (p - 1) st = none
  | 0, st, h => by simp [lineSearchLoop] at h
  | q + 1, st, h => by
    unfold lineSearchLoop at h
    cases hp : lineSearchPass S x_0 dir f_init dgrad_init dgrad_test st with
    | inl r' =>
      rw [hp] at h
      refine ⟨1, le_refl 1, by omega, ?_, rfl⟩
      unfold lineSearchLoop
      rw [hp]
      exact h
    | inr st' =>
      rw [hp] at h
      obtain ⟨p, hp1, hp2, hp3, hp4⟩ := lineSearchLoop_first S x_0 dir _ _ _ r q st' h
      refine ⟨p + 1, by omega, by omega, ?_, ?_⟩
      · unfold lineSearchLoop
        rw [hp]
        exact hp3
      · obtain ⟨p', rfl⟩ : ∃ p', p = p' + 1 := ⟨p - 1, by omega⟩
        show lineSearchLoop S x_0 dir f_init dgrad_init dgrad_test (p' + 1) st = none
        unfold lineSearchLoop
        rw [hp]
        exact hp4

/-- Claim C27: `LineSearch` returns, and when it enters its loop it returns in some pass
`p ≤ 100` (one evaluation of the objective per pass, after the initial one); the counter of
a pass that goes on is one more than before, and a pass whose counter reaches 100 returns. -/
theorem LineSearch_at_most_100_passes (S : LFBGSB α n) (x grad dir : Vec α n) :
    (∃ r, LineSearch S x grad dir = some r ∧
      (Vec.dot (S.objFunc x).2 dir ≥ Dbl.fin 0 ∨
        ∃ p, 1 ≤ p ∧ p ≤ 100 ∧
          lineSearchLoop S x dir (S.objFunc x).1 (Vec.dot (S.objFunc x).2 dir)
            (wolfe1 * Vec.dot (S.objFunc x).2 dir) p
            (lsStart (S.objFunc x).1 (Vec.dot (S.objFunc x).2 dir)) = some r ∧
          lineSearchLoop S x dir (S.objFunc x).1 (Vec.dot (S.objFunc x).2 dir)
            (wolfe1 * Vec.dot (S.objFunc x).2 dir) (p - 1)
            (lsStart (S.objFunc x).1 (Vec.dot (S.objFunc x).2 dir)) = none)) ∧
    (∀ (f_init dgrad_init dgrad_test : Dbl α) (st st' : LSState α),
      lineSearchPass S x dir f_init dgrad_init dgrad_test st = Sum.inr st' →
        st'.iter = st.iter + 1) ∧
    (∀ (f_init dgrad_init dgrad_test : Dbl α) (st : LSState α), 100 ≤ st.iter + 1 →
      ∃ r, lineSearchPass S x dir f_init dgrad_init dgrad_test st = Sum.inl r) := by
  refine ⟨?_, fun f_init dgrad_init dgrad_test st st' h =>
    (lineSearchPass_continue S x dir _ _ _ st st' h).1,
    fun f_init dgrad_init dgrad_test st h => lineSearchPass_last S x dir _ _ _ st h⟩
  rw [LineSearch_eq]
  split_ifs with h
  · exact ⟨_, rfl, Or.inl h⟩
  · obtain ⟨r, hr, _⟩ := lineSearchLoop_returns S x dir (S.objFunc x).1
      (Vec.dot (S.objFunc x).2 dir) (wolfe1 * Vec.dot (S.objFunc x).2 dir) 100
      (lsStart (S.objFunc x).1 (Vec.dot (S.objFunc x).2 dir)) (by simp [lsStart]) (by omega)
    exact ⟨r, hr, Or.inr (lineSearchLoop_first S x dir _ _ _ r 100 _ hr)⟩

end LineSearchPasses

end LFBGSB

/-! ## The strong Wolfe test of `LineSearch` -/

namespace LFBGSB

section WolfeTest

variable {α : Type} [LinearOrderedField α] {n : Nat}

theorem fin_mul_rotate (c : α) (hc : 0 < c) (t d : Dbl α) :
    Dbl.fin c * t * d = t * (Dbl.fin c * d) := by
  have e1 : ∀ x : α, c * x = 0 ↔ x = 0 := fun x => by
    constructor
    · intro h
      rcases mul_eq_zero.mp h with h | h
      · exact absurd h hc.ne'
      · exact h
    · rintro rfl
      exact mul_zero c
  have e2 : ∀ x : α, 0 < c * x ↔ 0 < x := fun x => by
    constructor
    · intro h
      exact (pos_iff_pos_of_mul_pos h).mp hc
    · intro h
      exact mul_pos hc h
  have hc1 : Dbl.infTimes true c = Dbl.pinf := by simp [Dbl.infTimes, hc.ne', hc]
  have hc2 : Dbl.infTimes false c = Dbl.ninf := by simp [Dbl.infTimes, hc.ne', hc]
  have hi : ∀ (s : Bool) (x : α), Dbl.infTimes s (c * x) = Dbl.infTimes s x := by
    intro s x
    simp only [Dbl.infTimes, e1, e2]
  have hfp : ∀ x : α, Dbl.fin x * Dbl.pinf = Dbl.infTimes true x := fun _ => rfl
  have hfn : ∀ x : α, Dbl.fin x * Dbl.ninf = Dbl.infTimes false x := fun _ => rfl
  have hpf : ∀ x : α, Dbl.pinf * Dbl.fin x = Dbl.infTimes true x := fun _ => rfl
  have hnf : ∀ x : α, Dbl.ninf * Dbl.fin x = Dbl.infTimes false x := fun _ => rfl
  cases t <;> cases d <;>
    first
    | rfl
    | (simp only [Dbl.fin_mul_fin, hfp, hfn, hpf, hnf, hi, hc1, hc2] <;>
       first | rfl | (congr 1; ring))

theorem not_ge_of_lt_zero (a : Dbl α) (h : a < Dbl.fin 0) : ¬ (a ≥ Dbl.fin 0) := by
  cases a with
  | nan => exact absurd h (Dbl.not_nan_lt _)
  | pinf => exact absurd h (Dbl.not_pinf_lt _)
  | ninf =>
    show ¬ (Dbl.ble (Dbl.fin 0) (Dbl.ninf : Dbl α) = true)
    simp [Dbl.ble]
  | fin v =>
    rw [ge_iff_le, Dbl.fin_le_fin]
    exact not_le.mpr ((Dbl.fin_lt_fin _ _).mp h)

theorem abs_of_lt_zero (a : Dbl α) (h : a < Dbl.fin 0) : Dbl.abs a = -a := by
  cases a with
  | nan => rfl
  | pinf => exact absurd h (Dbl.not_pinf_lt _)
  | ninf => rfl
  | fin v =>
    show Dbl.fin |v| = Dbl.fin (-v)
    rw [abs_of_neg ((Dbl.fin_lt_fin _ _).mp h)]

/-- A pass whose trial step passes the strong Wolfe test returns that step. -/
theorem lineSearchPass_of_wolfe (S : LFBGSB α n) (x_0 dir : Vec α n)
    (f_init dgrad_init : Dbl α) (st : LSState α)
    (h1 : (S.objFunc (Vec.add x_0 (Vec.smul (lsTrialStep st (st.iter + 1)) dir))).1 ≤
      f_init + lsTrialStep st (st.iter + 1) * (wolfe1 * dgrad_init))
    (h2 : Dbl.abs (Vec.dot
        (S.objFunc (Vec.add x_0 (Vec.smul (lsTrialStep st (st.iter + 1)) dir))).2 dir) ≤
      wolfe2 * (-dgrad_init)) :
    lineSearchPass S x_0 dir f_init dgrad_init (wolfe1 * dgrad_init) st =
      Sum.inl { step := lsTrialStep st (st.iter + 1),
                x := Vec.add x_0 (Vec.smul (lsTrialStep st (st.iter + 1)) dir),
                grad := (S.objFunc
                  (Vec.add x_0 (Vec.smul (lsTrialStep st (st.iter + 1)) dir))).2 } := by
  unfold lineSearchPass
  simp only
  rw [if_pos]
  unfold lsInfo
  simp only [h1, h2, and_self, if_true]
  decide

theorem lineSearchStates_iter (S : LFBGSB α n) (x_0 dir : Vec α n)
    (f_init dgrad_init dgrad_test : Dbl α) :
    ∀ (p : Nat) (st₀ st : LSState α),
      lineSearchStates S x_0 dir f_init dgrad_init dgrad_test p st₀ = some st →
      st.iter = st₀.iter + p ∧ (1 ≤ p → st.iter < 100)
  | 0, st₀, st, h => by
    obtain ⟨rfl⟩ := Option.some.inj h
    exact ⟨rfl, fun h => absurd h (by omega)⟩
  | p + 1, st₀, st, h => by
    unfold lineSearchStates at h
    cases hp : lineSearchPass S x_0 dir f_init dgrad_init dgrad_test st₀ with
    | inl r => rw [hp] at h; exact absurd h (by simp)
    | inr st' =>
      rw [hp] at h
      obtain ⟨e1, e2⟩ := lineSearchPass_continue S x_0 dir _ _ _ st₀ st' hp
      obtain ⟨i1, i2⟩ := lineSearchStates_iter S x_0 dir _ _ _ p st' st h
      refine ⟨by omega, fun _ => ?_⟩
      rcases Nat.eq_zero_or_pos p with rfl | hpos
      · omega
      · exact i2 hpos

theorem lineSearchLoop_of_states (S : LFBGSB α n) (x_0 dir : Vec α n)
    (f_init dgrad_init dgrad_test : Dbl α) (r : LSResult α n) :
    ∀ (p : Nat) (st₀ st : LSState α),
      lineSearchStates S x_0 dir f_init dgrad_init dgrad_test p st₀ = some st →
      lineSearchPass S x_0 dir f_init dgrad_init dgrad_test st = Sum.inl r →
      ∀ q, p + 1 ≤ q → lineSearchLoop S x_0 dir f_init dgrad_init dgrad_test q st₀ = some r
  | 0, st₀, st, h, hr, q, hq => by
    obtain ⟨rfl⟩ := Option.some.inj h
    obtain ⟨q', rfl⟩ : ∃ q', q = q' + 1 := ⟨q - 1, by omega⟩
    unfold lineSearchLoop
    rw [hr]
  | p + 1, st₀, st, h, hr, q, hq => by
    obtain ⟨q', rfl⟩ : ∃ q', q = q' + 1 := ⟨q - 1, by omega⟩
    unfold lineSearchStates at h
    unfold lineSearchLoop
    cases hp : lineSearchPass S x_0 dir f_init dgrad_init dgrad_test st₀ with
    | inl r => rw [hp] at h; exact absurd h (by simp)
    | inr st' =>
      rw [hp] at h
      exact lineSearchLoop_of_states S x_0 dir _ _ _ r p st' st h hr q' (by omega)

end WolfeTest

end LFBGSB

section CoordinateObjective

variable {α : Type} [LinearOrderedField α]

/-- The value and the gradient that `objFunc` computes for the coordinate objective at a
finite point: the gradient is the Jacobian factor, the difference quotient being 1. -/
theorem objFunc_coordinate (L : Libm α) (lb ub x e sq : α)
    (hexp : L.exp (Dbl.fin x) = Dbl.fin e) (he : 1 + e ≠ 0)
    (hsq : L.sqrt LFBGSB.EPS = Dbl.fin sq)
    (hd : sq * ((lb + 22204 / 10 ^ 20 + (ub - 22204 / 10 ^ 20) * e) / (1 + e)) ≠ 0) :
    (coordinateObjective L lb ub).objFunc (fun _ => Dbl.fin x) =
      (Dbl.fin ((lb + 22204 / 10 ^ 20 + (ub - 22204 / 10 ^ 20) * e) / (1 + e)),
       fun _ => Dbl.fin (e * (ub - lb) / ((e + 1) * (e + 1)))) := by
  have hne : (e + 1) * (e + 1) ≠ 0 := by
    have : e + 1 ≠ 0 := by rwa [add_comm]
    exact mul_ne_zero this this
  have hinv : LFBGSB.invTransformAt L (Dbl.fin lb) (Dbl.fin ub) (Dbl.fin x) =
      Dbl.fin ((lb + 22204 / 10 ^ 20 + (ub - 22204 / 10 ^ 20) * e) / (1 + e)) := by
    unfold LFBGSB.invTransformAt LFBGSB.EPS
    simp only [Dbl.isFinite_fin, not_true_eq_false, if_false, hexp, Dbl.fin_add_fin,
      Dbl.fin_sub_fin, Dbl.fin_mul_fin, Dbl.fin_div_fin _ _ he]
  have hjac : LFBGSB.JacobAdjustAt L (Dbl.fin lb) (Dbl.fin ub) (Dbl.fin x) =
      Dbl.fin (e * (ub - lb) / ((e + 1) * (e + 1))) := by
    unfold LFBGSB.JacobAdjustAt Dbl.sq
    simp only [hexp, Dbl.fin_add_fin, Dbl.fin_sub_fin, Dbl.fin_mul_fin,
      Dbl.fin_div_fin _ _ hne]
  unfold LFBGSB.objFunc LFBGSB.invTransform LFBGSB.JacobAdjust LFBGSB.functionGradientMSE
  simp only [coordinateObjective, hinv, hjac, hsq, Dbl.fin_mul_fin, Dbl.fin_add_fin,
    Dbl.fin_sub_fin]
  refine Prod.ext rfl ?_
  funext i
  have hi : i = 0 := Subsingleton.elim i 0
  subst hi
  simp only [Function.update_same, Dbl.fin_sub_fin]
  have hdx : (lb + 22204 / 10 ^ 20 + (ub - 22204 / 10 ^ 20) * e) / (1 + e) +
      sq * ((lb + 22204 / 10 ^ 20 + (ub - 22204 / 10 ^ 20) * e) / (1 + e)) -
      (lb + 22204 / 10 ^ 20 + (ub - 22204 / 10 ^ 20) * e) / (1 + e) ≠ 0 := by
    rw [add_sub_cancel_left]
    exact hd
  rw [Dbl.fin_div_fin _ _ hdx, Dbl.fin_mul_fin, div_self hdx, mul_one]

end CoordinateObjective

namespace LFBGSB

section WolfeClaim

variable {α : Type} [LinearOrderedField α] {n : Nat}

theorem lsTrialStep_lsStart (f_init dgrad_init : Dbl α) :
    lsTrialStep (lsStart f_init dgrad_init) ((lsStart f_init dgrad_init).iter + 1) =
      Dbl.fin 1 := by
  unfold lsTrialStep lsStart
  have h1 : Dbl.min (Dbl.max (Dbl.fin (1 : α)) (Dbl.fin 0)) (Dbl.fin 10) = Dbl.fin 1 := by
    unfold Dbl.min Dbl.max
    have a : ¬ ((Dbl.fin 1 : Dbl α) < Dbl.fin 0) := by rw [Dbl.fin_lt_fin]; norm_num
    rw [if_neg a]
    have b : ¬ ((Dbl.fin 10 : Dbl α) < Dbl.fin 1) := by rw [Dbl.fin_lt_fin]; norm_num
    rw [if_neg b]
  simp only [h1]
  rw [if_neg]
  simp

/-- Claim C29: for a descent direction, when the trial step `t` of some pass of `LineSearch`
satisfies the sufficient-decrease condition `f(x + t d) ≤ f(x) + 1e-4 t (g·d)` and the
curvature condition `|g(x + t d)·d| ≤ 0.9 |g·d|`, `LineSearch` returns `t`, leaving
`x + t d` and the gradient there. -/
theorem LineSearch_returns_at_wolfe (S : LFBGSB α n) (x grad dir : Vec α n) (p : Nat)
    (st : LSState α)
    (hd : Vec.dot (S.objFunc x).2 dir < Dbl.fin 0)
    (hst : lineSearchStates S x dir (S.objFunc x).1 (Vec.dot (S.objFunc x).2 dir)
      (wolfe1 * Vec.dot (S.objFunc x).2 dir) p
      (lsStart (S.objFunc x).1 (Vec.dot (S.objFunc x).2 dir)) = some st)
    (hw1 : (S.objFunc (Vec.add x (Vec.smul (lsTrialStep st (st.iter + 1)) dir))).1 ≤
      (S.objFunc x).1 +
        Dbl.fin (1 / 10 ^ 4) * lsTrialStep st (st.iter + 1) * Vec.dot (S.objFunc x).2 dir)
    (hw2 : Dbl.abs (Vec.dot
        (S.objFunc (Vec.add x (Vec.smul (lsTrialStep st (st.iter + 1)) dir))).2 dir) ≤
      Dbl.fin (9 / 10) * Dbl.abs (Vec.dot (S.objFunc x).2 dir)) :
    LineSearch S x grad dir =
      some { step := lsTrialStep st (st.iter + 1),
             x := Vec.add x (Vec.smul (lsTrialStep st (st.iter + 1)) dir),
             grad := (S.objFunc
               (Vec.add x (Vec.smul (lsTrialStep st (st.iter + 1)) dir))).2 } := by
  have h4 : (0 : α) < 1 / 10 ^ 4 := by positivity
  rw [fin_mul_rotate _ h4] at hw1
  rw [abs_of_lt_zero _ hd] at hw2
  have hpass := lineSearchPass_of_wolfe S x dir (S.objFunc x).1 (Vec.dot (S.objFunc x).2 dir)
    st hw1 hw2
  have hiter := lineSearchStates_iter S x dir _ _ _ p _ st hst
  have hp : p + 1 ≤ 100 := by
    rcases Nat.eq_zero_or_pos p with rfl | hpos
    · omega
    · have h1 := hiter.1
      have h2 := hiter.2 hpos
      have h3 : (lsStart (S.objFunc x).1 (Vec.dot (S.objFunc x).2 dir)).iter = 0 := rfl
      omega
  rw [LineSearch_eq, if_neg (not_ge_of_lt_zero _ hd)]
  exact lineSearchLoop_of_states S x dir _ _ _ _ p _ st hst hpass 100 hp

end WolfeClaim

end LFBGSB

/-- The claim C29 in rational arithmetic (`exp` and `sqrt` replaced by the identity) for the
coordinate objective on `[0, 2]`, from the point 1 along the direction -1: the first trial
step 1 is returned. -/
theorem LineSearch_returns_at_wolfe_witness :
    ∃ r, LFBGSB.LineSearch (coordinateObjective (Libm.ofFinite (id : ℚ → ℚ) id id) 0 2)
        (fun _ => Dbl.fin 1) (fun _ => Dbl.fin 0) (fun _ => Dbl.fin (-1)) = some r ∧
      r.step = Dbl.fin 1 := by
  have hsq : (Libm.ofFinite (id : ℚ → ℚ) id id).sqrt LFBGSB.EPS = Dbl.fin (22204 / 10 ^ 20) := by
    show (if (22204 / 10 ^ 20 : ℚ) < 0 then Dbl.nan else Dbl.fin (id (22204 / 10 ^ 20))) = _
    rw [if_neg (by norm_num)]
    rfl
  have h1 := objFunc_coordinate (Libm.ofFinite (id : ℚ → ℚ) id id) 0 2 1 1 (22204 / 10 ^ 20)
    rfl (by norm_num) hsq (by norm_num)
  have h0 := objFunc_coordinate (Libm.ofFinite (id : ℚ → ℚ) id id) 0 2 0 0 (22204 / 10 ^ 20)
    rfl (by norm_num) hsq (by norm_num)
  have hx : Vec.add (fun _ => Dbl.fin (1 : ℚ)) (Vec.smul (Dbl.fin 1) (fun _ => Dbl.fin (-1)))
      = (fun _ => Dbl.fin 0 : Vec ℚ 1) := by
    funext i
    show Dbl.fin (1 + 1 * -1 : ℚ) = Dbl.fin 0
    norm_num
  refine ⟨_, @LFBGSB.LineSearch_returns_at_wolfe ℚ _ 1
    (coordinateObjective (Libm.ofFinite (id : ℚ → ℚ) id id) 0 2)
    (fun _ => Dbl.fin 1) (fun _ => Dbl.fin 0) (fun _ => Dbl.fin (-1)) 0
    (LFBGSB.lsStart
      ((coordinateObjective (Libm.ofFinite (id : ℚ → ℚ) id id) 0 2).objFunc
        (fun _ => Dbl.fin 1)).1
      (Vec.dot ((coordinateObjective (Libm.ofFinite (id : ℚ → ℚ) id id) 0 2).objFunc
        (fun _ => Dbl.fin 1)).2 (fun _ => Dbl.fin (-1)))) ?_ rfl ?_ ?_, ?_⟩
  · rw [h1, LFBGSB.dot_fin, Dbl.fin_lt_fin]
    norm_num
  · rw [LFBGSB.lsTrialStep_lsStart, hx, h0, h1, LFBGSB.dot_fin]
    simp only [Dbl.fin_mul_fin, Dbl.fin_add_fin, Dbl.fin_le_fin]
    norm_num
  · rw [LFBGSB.lsTrialStep_lsStart, hx, h0, h1, LFBGSB.dot_fin, LFBGSB.dot_fin]
    show Dbl.fin _ ≤ Dbl.fin _ * Dbl.fin _
    rw [Dbl.fin_mul_fin, Dbl.fin_le_fin]
    norm_num
  · dsimp only
    exact LFBGSB.lsTrialStep_lsStart _ _

/-! ## The range of the steps of `LineSearch` -/

namespace LFBGSB

section StepRange

variable {α : Type} [LinearOrderedField α] {n : Nat}

theorem clamp_finite (lo hi : α) (x : Dbl α) :
    ∃ t, Dbl.max (Dbl.fin lo) (Dbl.min (Dbl.fin hi) x) = Dbl.fin t := by
  unfold Dbl.max Dbl.min
  cases x with
  | nan =>
    rw [if_neg (Dbl.not_nan_lt _)]
    split_ifs
    · exact ⟨hi, rfl⟩
    · exact ⟨lo, rfl⟩
  | pinf =>
    rw [if_neg (Dbl.not_pinf_lt _)]
    split_ifs
    · exact ⟨hi, rfl⟩
    · exact ⟨lo, rfl⟩
  | ninf =>
    rw [if_pos (Dbl.ninf_lt_fin _), if_neg (Dbl.not_lt_ninf _)]
    exact ⟨lo, rfl⟩
  | fin v =>
    split_ifs
    · exact ⟨v, rfl⟩
    · exact ⟨lo, rfl⟩
    · exact ⟨hi, rfl⟩
    · exact ⟨lo, rfl⟩

theorem min_fin_fin (a b : α) : ∃ t, Dbl.min (Dbl.fin a) (Dbl.fin b) = Dbl.fin t ∧
    (t = a ∨ t = b) := by
  unfold Dbl.min
  split_ifs
  · exact ⟨b, rfl, Or.inr rfl⟩
  · exact ⟨a, rfl, Or.inl rfl⟩

theorem max_fin_fin (a b : α) : ∃ t, Dbl.max (Dbl.fin a) (Dbl.fin b) = Dbl.fin t ∧
    (t = a ∨ t = b) := by
  unfold Dbl.max
  split_ifs
  · exact ⟨b, rfl, Or.inr rfl⟩
  · exact ⟨a, rfl, Or.inl rfl⟩

/-- The interval update keeps the ends of the interval among the old ends and the trial
step, and leaves a finite new step, whatever the function values are. -/
theorem interv_uncert_bounded (L : Libm α) (v : Interval α) (f_step d_step : Dbl α)
    (lo hi : α) (hs : inStepRange v.step) (hb : inStepRange v.st_best)
    (ho : inStepRange v.st_other) :
    (∃ a : α, (interv_uncert L v f_step d_step (Dbl.fin lo) (Dbl.fin hi)).1.step = Dbl.fin a) ∧
    inStepRange (interv_uncert L v f_step d_step (Dbl.fin lo) (Dbl.fin hi)).1.st_best ∧
    inStepRange (interv_uncert L v f_step d_step (Dbl.fin lo) (Dbl.fin hi)).1.st_other := by
  unfold interv_uncert
  generalize interv_uncert_cases L v f_step d_step (Dbl.fin lo) (Dbl.fin hi) = c
  obtain ⟨info, bound, step_f, bracket⟩ := c
  obtain ⟨t, ht⟩ := clamp_finite lo hi step_f
  obtain ⟨s, hs1, hs2, hs3⟩ := hs
  obtain ⟨b, hb1, hb2, hb3⟩ := hb
  obtain ⟨o, ho1, ho2, ho3⟩ := ho
  simp only [ht, hs1, hb1, ho1]
  by_cases h1 : f_step > v.f_best
  · simp only [h1, if_true, Dbl.fin_sub_fin, Dbl.fin_mul_fin, Dbl.fin_add_fin]
    refine ⟨?_, ⟨b, rfl, hb2, hb3⟩, ⟨s, rfl, hs2, hs3⟩⟩
    split_ifs
    · obtain ⟨u, hu, _⟩ := min_fin_fin (b + 66 / 100 * (s - b)) t
      exact ⟨u, hu⟩
    · obtain ⟨u, hu, _⟩ := max_fin_fin (b + 66 / 100 * (s - b)) t
      exact ⟨u, hu⟩
    · exact ⟨t, rfl⟩
  · simp only [h1, if_false]
    by_cases h2 : d_step * (v.d_best / Dbl.abs v.d_best) < Dbl.fin 0
    · simp only [h2, if_true, Dbl.fin_sub_fin, Dbl.fin_mul_fin, Dbl.fin_add_fin]
      refine ⟨?_, ⟨s, rfl, hs2, hs3⟩, ⟨b, rfl, hb2, hb3⟩⟩
      split_ifs
      · obtain ⟨u, hu, _⟩ := min_fin_fin (s + 66 / 100 * (b - s)) t
        exact ⟨u, hu⟩
      · obtain ⟨u, hu, _⟩ := max_fin_fin (s + 66 / 100 * (b - s)) t
        exact ⟨u, hu⟩
      · exact ⟨t, rfl⟩
    · simp only [h2, if_false, ho1, Dbl.fin_sub_fin, Dbl.fin_mul_fin, Dbl.fin_add_fin]
      refine ⟨?_, ⟨s, rfl, hs2, hs3⟩, ⟨o, rfl, ho2, ho3⟩⟩
      split_ifs
      · obtain ⟨u, hu, _⟩ := min_fin_fin (s + 66 / 100 * (o - s)) t
        exact ⟨u, hu⟩
      · obtain ⟨u, hu, _⟩ := max_fin_fin (s + 66 / 100 * (o - s)) t
        exact ⟨u, hu⟩
      · exact ⟨t, rfl⟩

theorem lsMin_finite (st : LSState α) (h : lsBounded st) : ∃ a : α, lsMin st = Dbl.fin a := by
  obtain ⟨_, ⟨b, hb, _, _⟩, ⟨o, ho, _, _⟩⟩ := h
  unfold lsMin
  rw [hb, ho]
  split_ifs
  · obtain ⟨u, hu, _⟩ := min_fin_fin b o
    exact ⟨u, hu⟩
  · exact ⟨b, rfl⟩

theorem lsMax_finite (st : LSState α) (h : lsBounded st) : ∃ a : α, lsMax st = Dbl.fin a := by
  obtain ⟨⟨a, ha⟩, ⟨b, hb, _, _⟩, ⟨o, ho, _, _⟩⟩ := h
  unfold lsMax
  rw [hb, ho, ha]
  split_ifs
  · obtain ⟨u, hu, _⟩ := max_fin_fin b o
    exact ⟨u, hu⟩
  · exact ⟨a + 4 * (a - b), by rw [Dbl.fin_sub_fin, Dbl.fin_mul_fin, Dbl.fin_add_fin]⟩

/-- The step at which a pass evaluates the objective is a finite value of `[0, 10]`. -/
theorem lsTrialStep_inStepRange (st : LSState α) (iter : Nat) (h : lsBounded st) :
    inStepRange (lsTrialStep st iter) := by
  obtain ⟨⟨a, ha⟩, hb, _⟩ := h
  unfold lsTrialStep
  simp only
  split_ifs
  · exact hb
  · rw [ha]
    unfold Dbl.min Dbl.max
    simp only [Dbl.fin_lt_fin]
    split_ifs with h1 h2 h3
    · exact ⟨10, rfl, by norm_num, le_refl _⟩
    · exact ⟨0, rfl, le_refl _, by norm_num⟩
    · exact ⟨10, rfl, by norm_num, le_refl _⟩
    · exact ⟨a, rfl, not_lt.mp h1,
        not_lt.mp (fun hh => h3 ((Dbl.fin_lt_fin _ _).mpr hh))⟩

theorem lsInterval_bounded (L : Libm α) (st : LSState α) (stage_1 : Bool)
    (step f_step dgrad armijo_check_val dgrad_test : Dbl α) (h : lsBounded st)
    (hstep : inStepRange step) :
    (∃ a : α, (lsInterval L st stage_1 step f_step dgrad armijo_check_val dgrad_test).1.step
      = Dbl.fin a) ∧
    inStepRange (lsInterval L st stage_1 step f_step dgrad armijo_check_val dgrad_test).1.st_best
    ∧ inStepRange
      (lsInterval L st stage_1 step f_step dgrad armijo_check_val dgrad_test).1.st_other := by
  obtain ⟨lo, hlo⟩ := lsMin_finite st h
  obtain ⟨hi, hhi⟩ := lsMax_finite st h
  unfold lsInterval
  rw [hlo, hhi]
  split_ifs
  · exact interv_uncert_bounded L _ _ _ lo hi hstep h.2.1 h.2.2
  · exact interv_uncert_bounded L _ _ _ lo hi hstep h.2.1 h.2.2

theorem lsNext_bounded (L : Libm α) (st : LSState α) (iter : Nat)
    (step f_step dgrad armijo_check_val dgrad_init dgrad_test : Dbl α) (h : lsBounded st)
    (hstep : inStepRange step) :
    lsBounded (lsNext L st iter step f_step dgrad armijo_check_val dgrad_init dgrad_test) := by
  obtain ⟨⟨a, ha⟩, hb, ho⟩ := lsInterval_bounded L st
    (lsStage st f_step dgrad armijo_check_val dgrad_init) step f_step dgrad armijo_check_val
    dgrad_test h hstep
  refine ⟨?_, hb, ho⟩
  obtain ⟨b, hb1, _, _⟩ := hb
  obtain ⟨o, ho1, _, _⟩ := ho
  show ∃ a : α, (lsNext L st iter step f_step dgrad armijo_check_val dgrad_init
    dgrad_test).step = Dbl.fin a
  unfold lsNext
  simp only
  split_ifs
  · rw [hb1, ho1]
    exact ⟨b + 5 / 10 * (o - b), by
      rw [Dbl.fin_sub_fin, Dbl.fin_mul_fin, Dbl.fin_add_fin]⟩
  · exact ⟨a, ha⟩

theorem lineSearchPass_bounded (S : LFBGSB α n) (x_0 dir : Vec α n)
    (f_init dgrad_init dgrad_test : Dbl α) (st st' : LSState α) (h : lsBounded st)
    (hp : lineSearchPass S x_0 dir f_init dgrad_init dgrad_test st = Sum.inr st') :
    lsBounded st' := by
  unfold lineSearchPass at hp
  simp only at hp
  split_ifs at hp
  obtain ⟨rfl⟩ := Sum.inr.inj hp
  exact lsNext_bounded _ st _ _ _ _ _ _ _ h (lsTrialStep_inStepRange st _ h)

theorem lineSearchPass_step (S : LFBGSB α n) (x_0 dir : Vec α n)
    (f_init dgrad_init dgrad_test : Dbl α) (st : LSState α) (r : LSResult α n)
    (hp : lineSearchPass S x_0 dir f_init dgrad_init dgrad_test st = Sum.inl r) :
    r.step = lsTrialStep st (st.iter + 1) := by
  unfold lineSearchPass at hp
  simp only at hp
  split_ifs at hp
  obtain ⟨rfl⟩ := Sum.inl.inj hp
  rfl

theorem lineSearchStates_bounded (S : LFBGSB α n) (x_0 dir : Vec α n)
    (f_init dgrad_init dgrad_test : Dbl α) :
    ∀ (p : Nat) (st₀ st : LSState α), lsBounded st₀ →
      lineSearchStates S x_0 dir f_init dgrad_init dgrad_test p st₀ = some st → lsBounded st
  | 0, st₀, st, h, hst => by
    obtain ⟨rfl⟩ := Option.some.inj hst
    exact h
  | p + 1, st₀, st, h, hst => by
    unfold lineSearchStates at hst
    cases hp : lineSearchPass S x_0 dir f_init dgrad_init dgrad_test st₀ with
    | inl r => rw [hp] at hst; exact absurd hst (by simp)
    | inr st' =>
      rw [hp] at hst
      exact lineSearchStates_bounded S x_0 dir _ _ _ p st' st
        (lineSearchPass_bounded S x_0 dir _ _ _ st₀ st' h hp) hst

theorem lineSearchLoop_step (S : LFBGSB α n) (x_0 dir : Vec α n)
    (f_init dgrad_init dgrad_test : Dbl α) (r : LSResult α n) :
    ∀ (passes : Nat) (st : LSState α), lsBounded st →
      lineSearchLoop S x_0 dir f_init dgrad_init dgrad_test passes st = some r →
      inStepRange r.step
  | 0, st, _, h => by simp [lineSearchLoop] at h
  | q + 1, st, hb, h => by
    unfold lineSearchLoop at h
    cases hp : lineSearchPass S x_0 dir f_init dgrad_init dgrad_test st with
    | inl r' =>
      rw [hp] at h
      have e := Option.some.inj h
      rw [← e, lineSearchPass_step S x_0 dir _ _ _ st r' hp]
      exact lsTrialStep_inStepRange st _ hb
    | inr st' =>
      rw [hp] at h
      exact lineSearchLoop_step S x_0 dir _ _ _ r q st'
        (lineSearchPass_bounded S x_0 dir _ _ _ st st' hb hp) h

theorem lsStart_bounded (f_init dgrad_init : Dbl α) : lsBounded (lsStart f_init dgrad_init) :=
  ⟨⟨1, rfl⟩, ⟨0, rfl, le_refl _, by norm_num⟩, ⟨0, rfl, le_refl _, by norm_num⟩⟩

/-- Claim C28: for every objective (real-valued or not), point and direction, the step that
`LineSearch` returns is a finite value of `[0, 10]`, and so is the trial step of every pass
of its loop (`st` being the locals after `p` passes that did not return). -/
theorem LineSearch_steps_in_range (S : LFBGSB α n) (x grad dir : Vec α n) :
    (∃ r v, LineSearch S x grad dir = some r ∧ r.step = Dbl.fin v ∧ 0 ≤ v ∧ v ≤ 10) ∧
    (∀ (p : Nat) (st : LSState α),
      lineSearchStates S x dir (S.objFunc x).1 (Vec.dot (S.objFunc x).2 dir)
        (wolfe1 * Vec.dot (S.objFunc x).2 dir) p
        (lsStart (S.objFunc x).1 (Vec.dot (S.objFunc x).2 dir)) = some st →
      ∃ v, lsTrialStep st (st.iter + 1) = Dbl.fin v ∧ 0 ≤ v ∧ v ≤ 10) := by
  constructor
  · obtain ⟨r, hr, _⟩ := LineSearch_returns S x grad dir
    refine ⟨r, ?_⟩
    have hr' := hr
    rw [LineSearch_eq] at hr'
    split_ifs at hr' with h
    · obtain ⟨rfl⟩ := Option.some.inj hr'
      exact ⟨1, hr, rfl, by norm_num, by norm_num⟩
    · obtain ⟨v, hv, h0, h10⟩ := lineSearchLoop_step S x dir _ _ _ r 100 _
        (lsStart_bounded _ _) hr'
      exact ⟨v, hr, hv, h0, h10⟩
  · intro p st hst
    exact lsTrialStep_inStepRange st _
      (lineSearchStates_bounded S x dir _ _ _ p _ st (lsStart_bounded _ _) hst)

end StepRange

end LFBGSB

/-! ## The exits of the main loop of `Solve` -/

namespace LFBGSB

section MainLoop

variable {α : Type} [LinearOrderedField α] {n : Nat}

/-- The loop with its exits returns the same vector as `solveLoop`. -/
theorem solveLoop_eq_exit (S : LFBGSB α n) :
    ∀ (remaining : Nat) (st : SolveState α n),
      solveLoop S remaining st = (solveLoopExit S remaining st).map (fun r => r.x_prev)
  | 0, st => rfl
  | r + 1, st => by
    unfold solveLoop solveLoopExit solvePass
    split_ifs with h
    · simp only
      cases hls : LineSearch S st.x_prev st.g_prev
          (Vec.neg (step st.g st.sHistory st.yHistory (Nat.min (st.k + 1) m))) with
      | none => rfl
      | some ls =>
        simp only
        split_ifs
        · rfl
        · rfl
        · exact solveLoop_eq_exit S r _
    · rfl

theorem solvePass_returns (S : LFBGSB α n) (st : SolveState α n) :
    ∃ o, solvePass S st = some o := by
  obtain ⟨ls, hls, _⟩ := LineSearch_returns S st.x_prev st.g_prev
    (Vec.neg (step st.g st.sHistory st.yHistory (Nat.min (st.k + 1) m)))
  unfold solvePass
  simp only [hls]
  split_ifs
  · exact ⟨_, rfl⟩
  · exact ⟨_, rfl⟩
  · exact ⟨_, rfl⟩

/-- A pass that leaves the loop by the gradient test leaves an iterate whose gradient norm
is at most `tol`; the NaN exit leaves `x`. -/
theorem solvePass_exit (S : LFBGSB α n) (st : SolveState α n) (r : LoopResult α n)
    (h : solvePass S st = some (Sum.inl r)) :
    r.k = st.k + 1 ∧ r.exit ≠ LoopExit.loopTest ∧ r.exit ≠ LoopExit.iterationLimit ∧
    (r.exit = LoopExit.gradientTest →
      r.err = Vec.norm S.libm (S.objFunc r.x_prev).2 ∧ r.err ≤ tol) ∧
    (r.exit = LoopExit.nanGradient → r.x_prev = st.x) := by
  obtain ⟨ls, hls, hg, _⟩ := LineSearch_returns S st.x_prev st.g_prev
    (Vec.neg (step st.g st.sHistory st.yHistory (Nat.min (st.k + 1) m)))
  unfold solvePass at h
  simp only [hls] at h
  split_ifs at h with h1 h2
  · obtain ⟨rfl⟩ := Sum.inl.inj (Option.some.inj h)
    refine ⟨rfl, by simp, by simp, fun _ => ⟨?_, h1⟩, fun h => absurd h (by simp)⟩
    show Vec.norm S.libm ls.grad = Vec.norm S.libm (S.objFunc ls.x).2
    rw [hg]
  · obtain ⟨rfl⟩ := Sum.inl.inj (Option.some.inj h)
    exact ⟨rfl, by simp, by simp, fun h => absurd h (by simp), fun _ => rfl⟩
  · exact absurd (Option.some.inj h) (by simp)

/-- A pass that goes on has counted one more iteration and leaves in `err` the norm of the
step `x_prev - x` just made, with `x = x_prev`. -/
theorem solvePass_continue (S : LFBGSB α n) (st st' : SolveState α n)
    (h : solvePass S st = some (Sum.inr st')) :
    st'.k = st.k + 1 ∧ st'.err = Vec.norm S.libm (Vec.sub st'.x_prev st.x) ∧
    st'.x = st'.x_prev ∧ st'.g = st'.g_prev ∧ st'.g = (S.objFunc st'.x).2 ∧
    ¬ (Vec.norm S.libm st'.g ≤ tol) ∧ Vec.anyNaN st'.g = false := by
  obtain ⟨ls, hls, hg, _⟩ := LineSearch_returns S st.x_prev st.g_prev
    (Vec.neg (step st.g st.sHistory st.yHistory (Nat.min (st.k + 1) m)))
  unfold solvePass at h
  simp only [hls] at h
  split_ifs at h with h1 h2
  · exact absurd (Option.some.inj h) (by simp)
  · exact absurd (Option.some.inj h) (by simp)
  · obtain ⟨rfl⟩ := Sum.inr.inj (Option.some.inj h)
    exact ⟨rfl, rfl, rfl, rfl, hg, h1, by simpa using h2⟩

/-- Claim C26, amended: the main loop of `Solve` is left in one of four ways, after at most
`maxIter = 2000` iterations: by the gradient test (then the gradient norm at the iterate left
in `x_prev` is at most `tol`), by the NaN test, by the loop test `err > tol` failing, where
`err` is the norm of the step `x_prev - x` of the last pass (the value before the loop when no
pass was made) and not a gradient norm, or by the iteration count reaching `maxIter`. -/
theorem solveLoopExit_ways (S : LFBGSB α n) (st : SolveState α n) :
    (∃ r, solveLoopExit S maxIter st = some r ∧ solveLoop S maxIter st = some r.x_prev ∧
      st.k ≤ r.k ∧ r.k ≤ st.k + 2000 ∧
      (r.exit = LoopExit.gradientTest →
        r.err = Vec.norm S.libm (S.objFunc r.x_prev).2 ∧ r.err ≤ tol) ∧
      (r.exit = LoopExit.loopTest → ¬ (r.err > tol)) ∧
      (r.exit = LoopExit.iterationLimit → r.k = st.k + 2000 ∧ r.err > tol)) ∧
    (∀ st₁ st₂ : SolveState α n, solvePass S st₁ = some (Sum.inr st₂) →
      st₂.k = st₁.k + 1 ∧ st₂.err = Vec.norm S.libm (Vec.sub st₂.x_prev st₁.x)) := by
  have key : ∀ (remaining : Nat) (st : SolveState α n),
      ∃ r, solveLoopExit S remaining st = some r ∧ st.k ≤ r.k ∧ r.k ≤ st.k + remaining ∧
        (r.exit = LoopExit.gradientTest →
          r.err = Vec.norm S.libm (S.objFunc r.x_prev).2 ∧ r.err ≤ tol) ∧
        (r.exit = LoopExit.loopTest → ¬ (r.err > tol)) ∧
        (r.exit = LoopExit.iterationLimit → r.k = st.k + remaining ∧ r.err > tol) := by
    intro remaining
    induction remaining with
    | zero =>
      intro st
      refine ⟨_, rfl, le_refl _, le_refl _, ?_, ?_, ?_⟩
      · intro h
        by_cases he : st.err > tol
        · simp [he] at h
        · simp [he] at h
      · intro h
        by_cases he : st.err > tol
        · simp [he] at h
        · exact he
      · intro h
        by_cases he : st.err > tol
        · exact ⟨rfl, he⟩
        · simp [he] at h
    | succ q ih =>
      intro st
      unfold solveLoopExit
      split_ifs with he
      · obtain ⟨o, ho⟩ := solvePass_returns S st
        rw [ho]
        cases o with
        | inl r =>
          obtain ⟨h1, h2, h3, h4, _⟩ := solvePass_exit S st r ho
          exact ⟨r, rfl, by omega, by omega, h4, fun h => absurd h h2, fun h => absurd h h3⟩
        | inr st' =>
          obtain ⟨h1, _⟩ := solvePass_continue S st st' ho
          obtain ⟨r, hr, i1, i2, i3, i4, i5⟩ := ih st'
          refine ⟨r, hr, by omega, by omega, i3, i4, fun h => ?_⟩
          obtain ⟨j1, j2⟩ := i5 h
          exact ⟨by omega, j2⟩
      · exact ⟨_, rfl, le_refl _, Nat.le_add_right _ _, fun h => absurd h (by simp),
          fun _ => he, fun h => absurd h (by simp)⟩
  constructor
  · obtain ⟨r, hr, h1, h2, h3, h4, h5⟩ := key maxIter st
    refine ⟨r, hr, ?_, h1, h2, h3, h4, h5⟩
    rw [solveLoop_eq_exit, hr]
    rfl
  · intro st₁ st₂ h
    obtain ⟨h1, h2, _⟩ := solvePass_continue S st₁ st₂ h
    exact ⟨h1, h2⟩

end MainLoop

end LFBGSB

/-! ## The NaN test of the main loop of `Solve` -/

namespace LFBGSB

section NaNTest

variable {α : Type} [LinearOrderedField α] {n : Nat}

theorem foldl_dot_nan : ∀ (k : Nat) (a b : Fin k → Dbl α) (c : Dbl α),
    (c = Dbl.nan ∨ ∃ i, b i = Dbl.nan) →
    Fin.foldl k (fun acc i => acc + a i * b i) c = Dbl.nan
  | 0, a, b, c, h => by
    rcases h with h | ⟨i, _⟩
    · simpa [Fin.foldl_zero] using h
    · exact i.elim0
  | k + 1, a, b, c, h => by
    rw [Fin.foldl_succ_last]
    rcases h with h | ⟨i, hi⟩
    · rw [foldl_dot_nan k (fun i => a i.castSucc) (fun i => b i.castSucc) c (Or.inl h)]
      exact Dbl.nan_add _
    · rcases Fin.eq_castSucc_or_eq_last i with ⟨j, rfl⟩ | rfl
      · rw [foldl_dot_nan k (fun i => a i.castSucc) (fun i => b i.castSucc) c
          (Or.inr ⟨j, hi⟩)]
        exact Dbl.nan_add _
      · rw [hi, Dbl.mul_nan, Dbl.add_nan]

theorem dot_of_anyNaN (a b : Vec α n) (h : Vec.anyNaN b = true) : Vec.dot a b = Dbl.nan := by
  unfold Vec.anyNaN at h
  obtain ⟨i, _, hi⟩ := List.any_eq_true.mp h
  have hb : b i = Dbl.nan := by
    cases hbi : b i with
    | nan => rfl
    | pinf => rw [hbi] at hi; exact absurd hi (by simp [Dbl.isNaN])
    | ninf => rw [hbi] at hi; exact absurd hi (by simp [Dbl.isNaN])
    | fin v => rw [hbi] at hi; exact absurd hi (by simp [Dbl.isNaN])
  exact foldl_dot_nan n a b _ (Or.inr ⟨i, hb⟩)

theorem solveLoopExit_of_continue (S : LFBGSB α n) (remaining : Nat) (st st' : SolveState α n)
    (h : st.err > tol) (hp : solvePass S st = some (Sum.inr st')) :
    solveLoopExit S (remaining + 1) st = solveLoopExit S remaining st' := by
  rw [solveLoopExit, if_pos h, hp]

theorem solveLoopExit_of_exit (S : LFBGSB α n) (remaining : Nat) (st : SolveState α n)
    (r : LoopResult α n) (h : st.err > tol) (hp : solvePass S st = some (Sum.inl r)) :
    solveLoopExit S (remaining + 1) st = some r := by
  rw [solveLoopExit, if_pos h, hp]

theorem solveLoopExit_of_not_gt (S : LFBGSB α n) (remaining : Nat) (st : SolveState α n)
    (h : ¬ (st.err > tol)) :
    solveLoopExit S remaining st =
      some { x_prev := st.x_prev, exit := LoopExit.loopTest, k := st.k, err := st.err } := by
  cases remaining with
  | zero => rw [solveLoopExit, if_neg h]
  | succ r => rw [solveLoopExit, if_neg h]

/-- Claim C22, amended: when the gradient that a line search of the main loop leaves has a
NaN component (and `sqrt` of NaN is NaN), the pass leaves the loop at once with `x_prev = x`,
so that the loop returns `x`; after any pass that goes on, `x` is the iterate `x_prev` that
the line search left, its gradient `g` has no NaN component, and it is the start point of the
next line search. -/
theorem solveLoop_nan_abort (S : LFBGSB α n) (st : SolveState α n) (ls : LSResult α n)
    (hls : LineSearch S st.x_prev st.g_prev
      (Vec.neg (step st.g st.sHistory st.yHistory (Nat.min (st.k + 1) m))) = some ls)
    (hnan : Vec.anyNaN ls.grad = true) (hsqrt : S.libm.sqrt Dbl.nan = Dbl.nan) :
    (∃ r, solvePass S st = some (Sum.inl r) ∧ r.exit = LoopExit.nanGradient ∧
      r.x_prev = st.x) ∧
    (∀ remaining, st.err > tol → solveLoop S (remaining + 1) st = some st.x) ∧
    (∀ st₁ st₂ : SolveState α n, solvePass S st₁ = some (Sum.inr st₂) →
      st₂.x = st₂.x_prev ∧ st₂.g = (S.objFunc st₂.x).2 ∧ Vec.anyNaN st₂.g = false) := by
  have hnorm : ¬ (Vec.norm S.libm ls.grad ≤ tol) := by
    unfold Vec.norm
    rw [dot_of_anyNaN _ _ hnan, hsqrt]
    exact Dbl.not_nan_le _
  have hpass : solvePass S st = some (Sum.inl
      { x_prev := st.x, exit := LoopExit.nanGradient, k := st.k + 1,
        err := Vec.norm S.libm (Vec.sub ls.x st.x) }) := by
    unfold solvePass
    simp only [hls, if_neg hnorm, hnan, if_true]
  refine ⟨⟨_, hpass, rfl, rfl⟩, fun remaining herr => ?_, fun st₁ st₂ h => ?_⟩
  · rw [solveLoop_eq_exit, solveLoopExit_of_exit S remaining st _ herr hpass]
    rfl
  · obtain ⟨_, _, h3, _, h5, _, h7⟩ := solvePass_continue S st₁ st₂ h
    exact ⟨h3, h5, h7⟩

end NaNTest

end LFBGSB

/-- The amended claim C22 for the objective that is NaN everywhere: the loop returns `x`. -/
theorem solveLoop_nan_abort_witness :
    LFBGSB.solveLoop
      (constantObjective 1 (Libm.ofFinite (id : ℚ → ℚ) id id) 0 1 Dbl.nan) 1
      { x := fun _ => Dbl.fin 0, g := fun _ => Dbl.fin 1, x_prev := fun _ => Dbl.fin 0,
        g_prev := fun _ => Dbl.fin 1, err := Dbl.fin 1, k := 0,
        sHistory := fun _ _ => Dbl.fin 1, yHistory := fun _ _ => Dbl.fin 1 } =
      some (fun _ => Dbl.fin 0) := by
  obtain ⟨ls, hls, hg, _⟩ := LFBGSB.LineSearch_returns
    (constantObjective 1 (Libm.ofFinite (id : ℚ → ℚ) id id) 0 1 Dbl.nan)
    (fun _ => Dbl.fin 0) (fun _ => Dbl.fin 1)
    (Vec.neg (LFBGSB.step (fun _ => Dbl.fin (1 : ℚ)) (fun _ _ => Dbl.fin 1)
      (fun _ _ => Dbl.fin 1) (Nat.min (0 + 1) LFBGSB.m)))
  have hnan : Vec.anyNaN ls.grad = true := by
    rw [hg, LFBGSB.objFunc_grad_of_nan _ (fun _ => rfl)]
    rfl
  exact (LFBGSB.solveLoop_nan_abort
    (constantObjective 1 (Libm.ofFinite (id : ℚ → ℚ) id id) 0 1 Dbl.nan)
    { x := fun _ => Dbl.fin 0, g := fun _ => Dbl.fin 1, x_prev := fun _ => Dbl.fin 0,
      g_prev := fun _ => Dbl.fin 1, err := Dbl.fin 1, k := 0,
      sHistory := fun _ _ => Dbl.fin 1, yHistory := fun _ _ => Dbl.fin 1 }
    ls hls hnan rfl).2.1 0 (by
      show (Dbl.fin (1 / 10 ^ 12) : Dbl ℚ) < Dbl.fin 1
      rw [Dbl.fin_lt_fin]
      norm_num)

/-! ## Two passes of the main loop in real arithmetic -/

section SamplePasses

theorem sqrt_EPS_real :
    (Libm.ofFinite Real.exp Real.log Real.sqrt).sqrt LFBGSB.EPS =
      Dbl.fin (Real.sqrt (22204 / 10 ^ 20)) := by
  show (if (22204 / 10 ^ 20 : ℝ) < 0 then Dbl.nan
    else Dbl.fin (Real.sqrt (22204 / 10 ^ 20))) = _
  rw [if_neg (by norm_num)]

theorem sqrt_EPS_real_pos : (0 : ℝ) < Real.sqrt (22204 / 10 ^ 20) :=
  Real.sqrt_pos.mpr (by norm_num)

theorem exp_zero_real :
    (Libm.ofFinite Real.exp Real.log Real.sqrt).exp (Dbl.fin 0) = Dbl.fin 1 := by
  show Dbl.fin (Real.exp 0) = Dbl.fin 1
  rw [Real.exp_zero]

theorem const_sub {α : Type} [LinearOrderedField α] {n : Nat} (a b : α) :
    Vec.sub (fun _ => Dbl.fin a : Vec α n) (fun _ => Dbl.fin b) = fun _ => Dbl.fin (a - b) := by
  funext i
  simp [Vec.sub]

theorem const_add {α : Type} [LinearOrderedField α] {n : Nat} (a b : α) :
    Vec.add (fun _ => Dbl.fin a : Vec α n) (fun _ => Dbl.fin b) = fun _ => Dbl.fin (a + b) :=
  rfl

theorem const_smul {α : Type} [LinearOrderedField α] {n : Nat} (c b : α) :
    Vec.smul (Dbl.fin c) (fun _ => Dbl.fin b : Vec α n) = fun _ => Dbl.fin (c * b) := rfl

theorem const_muls {α : Type} [LinearOrderedField α] {n : Nat} (a c : α) :
    Vec.muls (fun _ => Dbl.fin a : Vec α n) (Dbl.fin c) = fun _ => Dbl.fin (a * c) := rfl

theorem const_divs {α : Type} [LinearOrderedField α] {n : Nat} (a c : α) (hc : c ≠ 0) :
    Vec.divs (fun _ => Dbl.fin a : Vec α n) (Dbl.fin c) = fun _ => Dbl.fin (a / c) := by
  funext i
  simp [Vec.divs, Dbl.fin_div_fin _ _ hc]

theorem const_neg {α : Type} [LinearOrderedField α] {n : Nat} (a : α) :
    Vec.neg (fun _ => Dbl.fin a : Vec α n) = fun _ => Dbl.fin (-a) := rfl

theorem const_dot_one {α : Type} [LinearOrderedField α] (a b : α) :
    Vec.dot (fun _ => Dbl.fin a : Vec α 1) (fun _ => Dbl.fin b) = Dbl.fin (a * b) := by
  rw [LFBGSB.dot_fin]
  simp

/-- The two-loop recursion for one stored pair in dimension 1. -/
theorem step_one {α : Type} [LinearOrderedField α] (g s y : α) (hy : y ≠ 0) (hs : s ≠ 0) :
    LFBGSB.step (fun _ => Dbl.fin g : Vec α 1) (fun _ _ => Dbl.fin s) (fun _ _ => Dbl.fin y) 1
      = fun _ => Dbl.fin (g * s / y) := by
  have hys : y * s ≠ 0 := mul_ne_zero hy hs
  have hyy : y * y ≠ 0 := mul_ne_zero hy hy
  have hr : List.range 1 = [0] := rfl
  unfold LFBGSB.step
  rw [hr]
  simp only [List.reverse_singleton, LFBGSB.stepForward, LFBGSB.stepBackward,
    const_dot_one, Dbl.fin_div_fin _ _ hys, Dbl.fin_mul_fin, const_smul, const_sub,
    const_muls, const_divs _ _ hyy, Function.update_same, Dbl.fin_sub_fin, const_add]
  funext i
  congr 1
  field_simp
  ring

/-- The norm of a finite vector of dimension 1 in real arithmetic. -/
theorem norm_real_one (v : ℝ) :
    Vec.norm (Libm.ofFinite Real.exp Real.log Real.sqrt) (fun _ => Dbl.fin v : Vec ℝ 1) =
      Dbl.fin |v| := by
  unfold Vec.norm
  rw [LFBGSB.dot_fin]
  simp only [Finset.univ_unique, Finset.sum_singleton]
  show (if v * v < 0 then Dbl.nan else Dbl.fin (Real.sqrt (v * v))) = _
  rw [if_neg (not_lt.mpr (mul_self_nonneg v)), Real.sqrt_mul_self_eq_abs]

/-- The objective `v ↦ v` on `[0, 2]` at the unconstrained point 0: value 1, gradient 1/2. -/
theorem objFunc_coordinate_zero :
    (coordinateObjective (Libm.ofFinite Real.exp Real.log Real.sqrt) 0 2).objFunc
      (fun _ => Dbl.fin 0) = (Dbl.fin 1, fun _ => Dbl.fin (1 / 2)) := by
  rw [objFunc_coordinate _ 0 2 0 1 _ exp_zero_real (by norm_num) sqrt_EPS_real
    (mul_ne_zero sqrt_EPS_real_pos.ne' (by norm_num))]
  refine Prod.ext ?_ ?_
  · show Dbl.fin _ = Dbl.fin _
    congr 1
    norm_num
  · funext i
    show Dbl.fin _ = Dbl.fin _
    congr 1
    norm_num

end SamplePasses

section SmallStepExit

theorem one_gt_tol_real : (Dbl.fin 1 : Dbl ℝ) > LFBGSB.tol := by
  show (Dbl.fin (1 / 10 ^ 12) : Dbl ℝ) < Dbl.fin 1
  rw [Dbl.fin_lt_fin]
  norm_num

/-- The pass of the main loop from the point 0 with gradient 1/2 and stored pair (-1, 1), for
the objective `v ↦ v` on `[0, 2]`: the direction 1/2 is no descent direction, the line search
returns the point unchanged, and the pass goes on with `err = 0`. -/
theorem solvePass_sample_small_step :
    ∃ st₁, LFBGSB.solvePass
        (coordinateObjective (Libm.ofFinite Real.exp Real.log Real.sqrt) 0 2)
        (sampleSolveState 0 0 (1 / 2) (-1) 1) = some (Sum.inr st₁) ∧
      st₁.err = Dbl.fin 0 ∧ st₁.k = 1 ∧ st₁.x_prev = fun _ => Dbl.fin 0 := by
  have hmin : Nat.min (0 + 1) LFBGSB.m = 1 := rfl
  have hls : LFBGSB.LineSearch
      (coordinateObjective (Libm.ofFinite Real.exp Real.log Real.sqrt) 0 2)
      (fun _ => Dbl.fin 0) (fun _ => Dbl.fin (1 / 2))
      (Vec.neg (LFBGSB.step (fun _ => Dbl.fin (1 / 2 : ℝ)) (fun _ _ => Dbl.fin (-1))
        (fun _ _ => Dbl.fin 1) (Nat.min (0 + 1) LFBGSB.m))) =
      some { step := Dbl.fin 1, x := fun _ => Dbl.fin 0, grad := fun _ => Dbl.fin (1 / 2) } := by
    rw [hmin, step_one _ _ _ one_ne_zero (by norm_num), const_neg, LFBGSB.LineSearch_eq,
      objFunc_coordinate_zero]
    simp only
    rw [const_dot_one, if_pos]
    show (Dbl.fin 0 : Dbl ℝ) ≤ Dbl.fin _
    rw [Dbl.fin_le_fin]
    norm_num
  have hn : ¬ (Vec.norm (Libm.ofFinite Real.exp Real.log Real.sqrt)
      (fun _ => Dbl.fin (1 / 2) : Vec ℝ 1) ≤ LFBGSB.tol) := by
    rw [norm_real_one]
    show ¬ ((Dbl.fin |1 / 2| : Dbl ℝ) ≤ Dbl.fin (1 / 10 ^ 12))
    rw [Dbl.fin_le_fin, abs_of_pos (by norm_num)]
    norm_num
  have hnan : Vec.anyNaN (fun _ => Dbl.fin (1 / 2) : Vec ℝ 1) = false := by
    simp [Vec.anyNaN]
  refine ⟨LFBGSB.SolveState.mk (fun _ => Dbl.fin 0) (fun _ => Dbl.fin (1 / 2))
    (fun _ => Dbl.fin 0) (fun _ => Dbl.fin (1 / 2))
    (Vec.norm (Libm.ofFinite Real.exp Real.log Real.sqrt)
      (Vec.sub (fun _ => Dbl.fin 0) (fun _ => Dbl.fin 0) : Vec ℝ 1))
    (0 + 1)
    (LFBGSB.shiftHistory (fun _ _ => Dbl.fin (-1)) (fun _ => Dbl.nan)
      (Vec.sub (fun _ => Dbl.fin 0) (fun _ => Dbl.fin 0)))
    (LFBGSB.shiftHistory (fun _ _ => Dbl.fin 1) (fun _ => Dbl.nan)
      (Vec.sub (fun _ => Dbl.fin (1 / 2)) (fun _ => Dbl.fin (1 / 2)))), ?_⟩
  constructor
  · unfold LFBGSB.solvePass
    simp only [sampleSolveState]
    rw [hls]
    simp only [coordinateObjective, if_neg hn, hnan]
    rfl
  · refine ⟨?_, rfl, rfl⟩
    show Vec.norm (Libm.ofFinite Real.exp Real.log Real.sqrt)
      (Vec.sub (fun _ => Dbl.fin 0) (fun _ => Dbl.fin 0) : Vec ℝ 1) = Dbl.fin 0
    rw [const_sub, norm_real_one, sub_zero, abs_zero]

/-- Counterexample to claim C26: for the objective `v ↦ v` on `[0, 2]`, from the loop state
with `x = x_prev = 0`, gradient 1/2 and stored pair (-1, 1), the main loop is left after one
iteration by its loop test, without the NaN abort, and the gradient norm at the iterate it
leaves is 1/2, not at most `1e-12`. -/
theorem solveLoop_stops_on_small_step :
    ∃ r, LFBGSB.solveLoopExit
        (coordinateObjective (Libm.ofFinite Real.exp Real.log Real.sqrt) 0 2)
        LFBGSB.maxIter (sampleSolveState 0 0 (1 / 2) (-1) 1) = some r ∧
      r.exit = LFBGSB.LoopExit.loopTest ∧ r.k = 1 ∧
      LFBGSB.solveLoop
        (coordinateObjective (Libm.ofFinite Real.exp Real.log Real.sqrt) 0 2)
        LFBGSB.maxIter (sampleSolveState 0 0 (1 / 2) (-1) 1) = some r.x_prev ∧
      ¬ (Vec.norm (Libm.ofFinite Real.exp Real.log Real.sqrt)
        ((coordinateObjective (Libm.ofFinite Real.exp Real.log Real.sqrt) 0 2).objFunc
          r.x_prev).2 ≤ LFBGSB.tol) := by
  obtain ⟨st₁, h1, h2, h3, h4⟩ := solvePass_sample_small_step
  have hz : ¬ (st₁.err > LFBGSB.tol) := by
    rw [h2]
    show ¬ ((Dbl.fin (1 / 10 ^ 12) : Dbl ℝ) < Dbl.fin 0)
    rw [Dbl.fin_lt_fin]
    norm_num
  have hrun : LFBGSB.solveLoopExit
      (coordinateObjective (Libm.ofFinite Real.exp Real.log Real.sqrt) 0 2)
      LFBGSB.maxIter (sampleSolveState 0 0 (1 / 2) (-1) 1) =
      some { x_prev := st₁.x_prev, exit := LFBGSB.LoopExit.loopTest, k := st₁.k,
             err := st₁.err } := by
    show LFBGSB.solveLoopExit _ (1999 + 1) _ = _
    rw [LFBGSB.solveLoopExit_of_continue _ 1999 _ st₁ one_gt_tol_real h1,
      LFBGSB.solveLoopExit_of_not_gt _ _ _ hz]
  refine ⟨_, hrun, rfl, h3, ?_, ?_⟩
  · rw [LFBGSB.solveLoop_eq_exit, hrun]
    rfl
  · show ¬ (Vec.norm _ ((coordinateObjective _ 0 2).objFunc st₁.x_prev).2 ≤ LFBGSB.tol)
    rw [h4, objFunc_coordinate_zero, norm_real_one]
    show ¬ ((Dbl.fin |1 / 2| : Dbl ℝ) ≤ Dbl.fin (1 / 10 ^ 12))
    rw [Dbl.fin_le_fin, abs_of_pos (by norm_num)]
    norm_num

end SmallStepExit

/-! ## A pass of the main loop with an infinite gradient -/

namespace LFBGSB

section NaNDirection

variable {α : Type} [LinearOrderedField α] {n : Nat}

theorem stepForward_nan (s_mat y_mat : Nat → Vec α n) :
    ∀ (cols : List Nat) (alpha : Nat → Dbl α),
      (stepForward s_mat y_mat cols ((fun _ => Dbl.nan), alpha)).1 = fun _ => Dbl.nan
  | [], _ => rfl
  | i :: cols, alpha => by
    have hq : Vec.sub (fun _ => Dbl.nan : Vec α n)
        (Vec.smul (Dbl.fin 1 / Vec.dot (y_mat i) (s_mat i) *
          Vec.dot (s_mat i) (fun _ => Dbl.nan)) (y_mat i)) = fun _ => Dbl.nan := by
      funext j
      simp [Vec.sub]
    show (stepForward s_mat y_mat cols (_, _)).1 = _
    rw [hq]
    exact stepForward_nan s_mat y_mat cols _

theorem stepBackward_nan (s_mat y_mat : Nat → Vec α n) (alpha : Nat → Dbl α) :
    ∀ (cols : List Nat),
      stepBackward s_mat y_mat alpha cols (fun _ => Dbl.nan) = fun _ => Dbl.nan
  | [] => rfl
  | i :: cols => by
    have hr : Vec.add (fun _ => Dbl.nan : Vec α n)
        (Vec.smul (alpha i - Dbl.fin 1 / Vec.dot (y_mat i) (s_mat i) *
          Vec.dot (y_mat i) (fun _ => Dbl.nan)) (s_mat i)) = fun _ => Dbl.nan := by
      funext j
      simp [Vec.add]
    show stepBackward s_mat y_mat alpha cols _ = _
    rw [hr]
    exact stepBackward_nan s_mat y_mat alpha cols

/-- When the first coefficient of the two-loop recursion is NaN, so is its result. -/
theorem step_nan_of_first (g : Vec α n) (s_mat y_mat : Nat → Vec α n) (M : Nat)
    (h : Dbl.fin 1 / Vec.dot (y_mat 0) (s_mat 0) * Vec.dot (s_mat 0) g = Dbl.nan) :
    step g s_mat y_mat (M + 1) = fun _ => Dbl.nan := by
  have hq : Vec.sub g (Vec.smul (Dbl.fin 1 / Vec.dot (y_mat 0) (s_mat 0) *
      Vec.dot (s_mat 0) g) (y_mat 0)) = fun _ => Dbl.nan := by
    funext j
    simp [Vec.sub, Vec.smul, h]
  have hf : (stepForward s_mat y_mat (List.range (M + 1)) (g, fun _ => Dbl.fin 0)).1 =
      fun _ => Dbl.nan := by
    rw [List.range_succ_eq_map]
    show (stepForward s_mat y_mat (List.map Nat.succ (List.range M)) (_, _)).1 = _
    rw [hq]
    exact stepForward_nan s_mat y_mat _ _
  have hr : Vec.divs (Vec.muls (fun _ => Dbl.nan : Vec α n)
      (Vec.dot (s_mat 0) (y_mat 0))) (Vec.dot (y_mat 0) (y_mat 0)) = fun _ => Dbl.nan := by
    funext j
    simp [Vec.divs, Vec.muls]
  unfold step
  simp only [hf, hr]
  exact stepBackward_nan s_mat y_mat _ _

theorem objFunc_grad_at_nan (S : LFBGSB α n) (hexp : S.libm.exp Dbl.nan = Dbl.nan) :
    (S.objFunc (fun _ => Dbl.nan)).2 = fun _ => Dbl.nan := by
  funext i
  simp [objFunc, JacobAdjust, JacobAdjustAt, hexp]

/-- A pass of the main loop whose search direction is NaN leaves the loop by the NaN test,
with `x_prev = x`. -/
theorem solvePass_of_nan_direction (S : LFBGSB α (n + 1)) (st : SolveState α (n + 1))
    (hexp : S.libm.exp Dbl.nan = Dbl.nan) (hsqrt : S.libm.sqrt Dbl.nan = Dbl.nan)
    (hdir : step st.g st.sHistory st.yHistory (Nat.min (st.k + 1) m) = fun _ => Dbl.nan) :
    ∃ r, solvePass S st = some (Sum.inl r) ∧ r.exit = LoopExit.nanGradient ∧
      r.x_prev = st.x := by
  obtain ⟨ls, hls, hg, hx⟩ := LineSearch_returns S st.x_prev st.g_prev
    (Vec.neg (step st.g st.sHistory st.yHistory (Nat.min (st.k + 1) m)))
  have hneg : Vec.neg (step st.g st.sHistory st.yHistory (Nat.min (st.k + 1) m)) =
      fun _ => Dbl.nan := by
    rw [hdir]
    rfl
  have hlsx : ls.x = fun _ => Dbl.nan := by
    rcases hx with ⟨h, _⟩ | ⟨_, h⟩
    · rw [hneg, dot_nan_right _ _ (fun _ => rfl)] at h
      exact absurd h (Dbl.not_le_nan _)
    · rw [h, hneg]
      funext j
      simp [Vec.add, Vec.smul]
  have hnan : Vec.anyNaN ls.grad = true := by
    rw [hg, hlsx, objFunc_grad_at_nan S hexp]
    simp [Vec.anyNaN, List.finRange_succ]
  have hnorm : ¬ (Vec.norm S.libm ls.grad ≤ tol) := by
    unfold Vec.norm
    rw [dot_of_anyNaN _ _ hnan, hsqrt]
    exact Dbl.not_nan_le _
  refine ⟨{ x_prev := st.x, exit := LoopExit.nanGradient, k := st.k + 1,
            err := Vec.norm S.libm (Vec.sub ls.x st.x) }, ?_, rfl, rfl⟩
  unfold solvePass
  simp only [hls, if_neg hnorm, hnan, if_true]

end NaNDirection

end LFBGSB

section InfiniteGradient

theorem dot_one {α : Type} [LinearOrderedField α] (a b : Vec α 1) :
    Vec.dot a b = Dbl.fin 0 + a 0 * b 0 := by
  unfold Vec.dot
  rw [Fin.foldl_succ_last, Fin.foldl_zero]
  rfl

theorem fin_add_pinf {α : Type} [LinearOrderedField α] (a : α) :
    (Dbl.fin a + Dbl.pinf : Dbl α) = Dbl.pinf := rfl

theorem pinf_mul_pos {α : Type} [LinearOrderedField α] (a : α) (h : 0 < a) :
    (Dbl.pinf * Dbl.fin a : Dbl α) = Dbl.pinf := by
  show Dbl.infTimes true a = Dbl.pinf
  simp [Dbl.infTimes, h.ne', h]

theorem pos_mul_pinf {α : Type} [LinearOrderedField α] (a : α) (h : 0 < a) :
    (Dbl.fin a * Dbl.pinf : Dbl α) = Dbl.pinf := by
  show Dbl.infTimes true a = Dbl.pinf
  simp [Dbl.infTimes, h.ne', h]

/-- The objective that is 0 at 1 and `+∞` elsewhere, on `[0, 2]`, at the unconstrained
point 0: value 0, gradient `+∞`. -/
theorem objFunc_spike_zero :
    (spikeObjective (Libm.ofFinite Real.exp Real.log Real.sqrt) 0 2 1).objFunc
      (fun _ => Dbl.fin 0) = (Dbl.fin 0, fun _ => Dbl.pinf) := by
  have hinv : LFBGSB.invTransformAt (Libm.ofFinite Real.exp Real.log Real.sqrt)
      (Dbl.fin 0) (Dbl.fin 2) (Dbl.fin 0) = Dbl.fin 1 := by
    unfold LFBGSB.invTransformAt LFBGSB.EPS
    simp only [Dbl.isFinite_fin, not_true_eq_false, if_false, exp_zero_real, Dbl.fin_add_fin,
      Dbl.fin_sub_fin, Dbl.fin_mul_fin, Dbl.fin_div_fin _ _ (by norm_num : (1 : ℝ) + 1 ≠ 0)]
    congr 1
    norm_num
  have hjac : LFBGSB.JacobAdjustAt (Libm.ofFinite Real.exp Real.log Real.sqrt)
      (Dbl.fin 0) (Dbl.fin 2) (Dbl.fin 0) = Dbl.fin (1 / 2) := by
    unfold LFBGSB.JacobAdjustAt Dbl.sq
    simp only [exp_zero_real, Dbl.fin_add_fin, Dbl.fin_sub_fin, Dbl.fin_mul_fin,
      Dbl.fin_div_fin _ _ (by norm_num : ((1 : ℝ) + 1) * (1 + 1) ≠ 0)]
    congr 1
    norm_num
  have hs := sqrt_EPS_real_pos
  unfold LFBGSB.objFunc LFBGSB.invTransform LFBGSB.JacobAdjust LFBGSB.functionGradientMSE
  simp only [spikeObjective, hinv, hjac, sqrt_EPS_real, Dbl.fin_mul_fin, Dbl.fin_add_fin,
    Dbl.fin_sub_fin]
  refine Prod.ext (by simp) ?_
  funext i
  have hi : i = 0 := Subsingleton.elim i 0
  subst hi
  have h1 : (Dbl.fin (1 + Real.sqrt (22204 / 10 ^ 20) * 1) : Dbl ℝ) ≠ Dbl.fin 1 := by
    intro h
    injection h with h
    linarith
  have hdx : ¬ (1 + Real.sqrt (22204 / 10 ^ 20) * 1 - 1 < 0) := by
    rw [not_lt]
    linarith
  simp only [Function.update_same, if_neg h1, if_true]
  show Dbl.fin (1 / 2) * ((Dbl.pinf - Dbl.fin 0) / Dbl.fin _) = Dbl.pinf
  have e1 : (Dbl.pinf - Dbl.fin 0 : Dbl ℝ) = Dbl.pinf := rfl
  have e2 : (Dbl.pinf / Dbl.fin (1 + Real.sqrt (22204 / 10 ^ 20) * 1 - 1) : Dbl ℝ) =
      Dbl.pinf := by
    show (if 1 + Real.sqrt (22204 / 10 ^ 20) * 1 - 1 < 0 then Dbl.ninf else Dbl.pinf) = _
    rw [if_neg hdx]
  rw [e1, e2, pos_mul_pinf _ (by norm_num)]

end InfiniteGradient

section InfiniteGradientRun

/-- The pass of the main loop from the point 0 with the stored pair (1, 1), `x = -1` and
`g = -1`, for the objective that is 0 at 1 and `+∞` elsewhere on `[0, 2]`: the gradient at 0
is `+∞`, the line search returns at once, and the pass goes on with `g = +∞`. -/
theorem solvePass_sample_infinite :
    LFBGSB.solvePass (spikeObjective (Libm.ofFinite Real.exp Real.log Real.sqrt) 0 2 1)
        (sampleSolveState (-1) 0 (-1) 1 1) =
      some (Sum.inr (LFBGSB.SolveState.mk (fun _ => Dbl.fin 0) (fun _ => Dbl.pinf)
        (fun _ => Dbl.fin 0) (fun _ => Dbl.pinf)
        (Vec.norm (Libm.ofFinite Real.exp Real.log Real.sqrt)
          (Vec.sub (fun _ => Dbl.fin 0) (fun _ => Dbl.fin (-1)) : Vec ℝ 1))
        (0 + 1)
        (LFBGSB.shiftHistory (fun _ _ => Dbl.fin 1) (fun _ => Dbl.nan)
          (Vec.sub (fun _ => Dbl.fin 0) (fun _ => Dbl.fin (-1))))
        (LFBGSB.shiftHistory (fun _ _ => Dbl.fin 1) (fun _ => Dbl.nan)
          (Vec.sub (fun _ => Dbl.pinf) (fun _ => Dbl.fin (-1)))))) := by
  have hmin : Nat.min (0 + 1) LFBGSB.m = 1 := rfl
  have hls : LFBGSB.LineSearch
      (spikeObjective (Libm.ofFinite Real.exp Real.log Real.sqrt) 0 2 1)
      (fun _ => Dbl.fin 0) (fun _ => Dbl.fin (-1))
      (Vec.neg (LFBGSB.step (fun _ => Dbl.fin (-1 : ℝ)) (fun _ _ => Dbl.fin 1)
        (fun _ _ => Dbl.fin 1) (Nat.min (0 + 1) LFBGSB.m))) =
      some { step := Dbl.fin 1, x := fun _ => Dbl.fin 0, grad := fun _ => Dbl.pinf } := by
    rw [hmin, step_one _ _ _ one_ne_zero one_ne_zero, const_neg, LFBGSB.LineSearch_eq,
      objFunc_spike_zero]
    simp only
    rw [dot_one, pinf_mul_pos _ (by norm_num), fin_add_pinf, if_pos]
    show Dbl.ble (Dbl.fin 0) (Dbl.pinf : Dbl ℝ) = true
    rfl
  have hn : ¬ (Vec.norm (Libm.ofFinite Real.exp Real.log Real.sqrt)
      (fun _ => Dbl.pinf : Vec ℝ 1) ≤ LFBGSB.tol) := by
    unfold Vec.norm
    rw [dot_one]
    show ¬ (Dbl.ble (Dbl.pinf : Dbl ℝ) (Dbl.fin (1 / 10 ^ 12)) = true)
    simp [Dbl.ble]
  have hnan : Vec.anyNaN (fun _ => Dbl.pinf : Vec ℝ 1) = false := by
    simp [Vec.anyNaN, Dbl.isNaN]
  unfold LFBGSB.solvePass
  simp only [sampleSolveState]
  rw [hls]
  simp only [spikeObjective, if_neg hn, hnan]
  rfl

/-- Counterexample to claim C22: for the objective that is 0 at 1 and `+∞` elsewhere on
`[0, 2]`, the line search of the first pass leaves the iterate 0 with the gradient `+∞`; the
loop does not stop but goes on with `g = +∞`, computes the next search direction from it, and
in the end returns the iterate 0, whose gradient is infinite. -/
theorem solveLoop_keeps_infinite_gradient :
    ∃ st₁ r, LFBGSB.solvePass
        (spikeObjective (Libm.ofFinite Real.exp Real.log Real.sqrt) 0 2 1)
        (sampleSolveState (-1) 0 (-1) 1 1) = some (Sum.inr st₁) ∧
      st₁.g = (fun _ => Dbl.pinf) ∧
      ((spikeObjective (Libm.ofFinite Real.exp Real.log Real.sqrt) 0 2 1).objFunc
        st₁.x_prev).2 = (fun _ => Dbl.pinf) ∧
      LFBGSB.solveLoopExit (spikeObjective (Libm.ofFinite Real.exp Real.log Real.sqrt) 0 2 1)
        LFBGSB.maxIter (sampleSolveState (-1) 0 (-1) 1 1) = some r ∧
      r.exit = LFBGSB.LoopExit.nanGradient ∧ r.x_prev = st₁.x_prev ∧
      LFBGSB.solveLoop (spikeObjective (Libm.ofFinite Real.exp Real.log Real.sqrt) 0 2 1)
        LFBGSB.maxIter (sampleSolveState (-1) 0 (-1) 1 1) = some st₁.x_prev := by
  have h1 := solvePass_sample_infinite
  have herr : (Vec.norm (Libm.ofFinite Real.exp Real.log Real.sqrt)
      (Vec.sub (fun _ => Dbl.fin 0) (fun _ => Dbl.fin (-1)) : Vec ℝ 1)) > LFBGSB.tol := by
    rw [const_sub, norm_real_one]
    show (Dbl.fin (1 / 10 ^ 12) : Dbl ℝ) < Dbl.fin |0 - -1|
    rw [Dbl.fin_lt_fin]
    norm_num
  have hfirst : Dbl.fin 1 / Vec.dot
      (Vec.sub (fun _ => Dbl.pinf) (fun _ => Dbl.fin (-1)) : Vec ℝ 1)
      (Vec.sub (fun _ => Dbl.fin 0) (fun _ => Dbl.fin (-1))) *
      Vec.dot (Vec.sub (fun _ => Dbl.fin 0) (fun _ => Dbl.fin (-1)) : Vec ℝ 1)
        (fun _ => Dbl.pinf) = Dbl.nan := by
    rw [const_sub, dot_one, dot_one]
    have e1 : (Vec.sub (fun _ => Dbl.pinf) (fun _ => Dbl.fin (-1)) : Vec ℝ 1) 0 = Dbl.pinf :=
      rfl
    rw [e1, pinf_mul_pos _ (by norm_num), pos_mul_pinf _ (by norm_num), fin_add_pinf]
    show Dbl.fin 0 * Dbl.pinf = (Dbl.nan : Dbl ℝ)
    show Dbl.infTimes true (0 : ℝ) = Dbl.nan
    simp [Dbl.infTimes]
  obtain ⟨r, hr1, hr2, hr3⟩ := LFBGSB.solvePass_of_nan_direction
    (spikeObjective (Libm.ofFinite Real.exp Real.log Real.sqrt) 0 2 1)
    (LFBGSB.SolveState.mk (fun _ => Dbl.fin 0) (fun _ => Dbl.pinf)
      (fun _ => Dbl.fin 0) (fun _ => Dbl.pinf)
      (Vec.norm (Libm.ofFinite Real.exp Real.log Real.sqrt)
        (Vec.sub (fun _ => Dbl.fin 0) (fun _ => Dbl.fin (-1)) : Vec ℝ 1))
      (0 + 1)
      (LFBGSB.shiftHistory (fun _ _ => Dbl.fin 1) (fun _ => Dbl.nan)
        (Vec.sub (fun _ => Dbl.fin 0) (fun _ => Dbl.fin (-1))))
      (LFBGSB.shiftHistory (fun _ _ => Dbl.fin 1) (fun _ => Dbl.nan)
        (Vec.sub (fun _ => Dbl.pinf) (fun _ => Dbl.fin (-1)))))
    rfl rfl (by
      show LFBGSB.step _ _ _ (1 + 1) = _
      exact LFBGSB.step_nan_of_first _ _ _ 1 hfirst)
  have hrun : LFBGSB.solveLoopExit
      (spikeObjective (Libm.ofFinite Real.exp Real.log Real.sqrt) 0 2 1)
      LFBGSB.maxIter (sampleSolveState (-1) 0 (-1) 1 1) = some r := by
    show LFBGSB.solveLoopExit _ (1999 + 1) _ = _
    rw [LFBGSB.solveLoopExit_of_continue _ 1999 _ _ one_gt_tol_real h1]
    show LFBGSB.solveLoopExit _ (1998 + 1) _ = _
    exact LFBGSB.solveLoopExit_of_exit _ 1998 _ r herr hr1
  refine ⟨_, r, h1, rfl, ?_, hrun, hr2, hr3, ?_⟩
  · show ((spikeObjective _ 0 2 1).objFunc (fun _ => Dbl.fin 0)).2 = _
    rw [objFunc_spike_zero]
  rw [LFBGSB.solveLoop_eq_exit, hrun]
  show some r.x_prev = _
  rw [hr3]

end InfiniteGradientRun

/-! ## The size checks of `Solve` -/

section SizeChecks

variable {α : Type} [LinearOrderedField α]

/-- Claim C21: `Solve(x0)` throws a `std::runtime_error` exactly when the size of `x0`
differs from the size of `lb` or of `ub`, the lower bound being checked first (message
"lower bound size incorrect", otherwise "upper bound size incorrect"); the object, and so
`XOpt`, is then left as it was, and the outcome is the same for every objective (no
evaluation of the objective takes place).  When both sizes agree the call returns with an
`XOpt` of the size of `x0`. -/
theorem Solve_raises_iff (O : LFBGSBObject α) (x0 : DynVec α) :
    ((∃ msg O', O.Solve x0 = SolveOutcome.raised msg O') ↔
      (x0.1 ≠ O.lb.1 ∨ x0.1 ≠ O.ub.1)) ∧
    (x0.1 ≠ O.lb.1 →
      ∀ fv, ({ O with functionValue := fv } : LFBGSBObject α).Solve x0 =
        SolveOutcome.raised ("lower bound size incorrect") { O with functionValue := fv }) ∧
    (x0.1 = O.lb.1 → x0.1 ≠ O.ub.1 →
      ∀ fv, ({ O with functionValue := fv } : LFBGSBObject α).Solve x0 =
        SolveOutcome.raised ("upper bound size incorrect") { O with functionValue := fv }) ∧
    (x0.1 = O.lb.1 → x0.1 = O.ub.1 →
      ∃ O', O.Solve x0 = SolveOutcome.returned O' ∧ O'.XOpt.1 = x0.1) := by
  have hret : x0.1 = O.lb.1 → x0.1 = O.ub.1 →
      ∃ O', O.Solve x0 = SolveOutcome.returned O' ∧ O'.XOpt.1 = x0.1 := by
    intro hl hu
    obtain ⟨r, hr, _⟩ := LFBGSB.Solve_returns (O.typed x0.1 hl.symm hu.symm) x0.2
    refine ⟨{ O with XOpt := ⟨x0.1, r.XOpt⟩ }, ?_, rfl⟩
    unfold LFBGSBObject.Solve
    rw [dif_pos hl, dif_pos hu]
    simp only [hr]
  refine ⟨⟨?_, ?_⟩, ?_, ?_, hret⟩
  · rintro ⟨msg, O', h⟩
    by_contra hc
    rw [not_or, not_not, not_not] at hc
    obtain ⟨O'', h2, _⟩ := hret hc.1 hc.2
    rw [h2] at h
    exact absurd h (by simp)
  · intro h
    by_cases hl : x0.1 = O.lb.1
    · have hu : x0.1 ≠ O.ub.1 := h.resolve_left (fun hn => hn hl)
      refine ⟨"upper bound size incorrect", O, ?_⟩
      unfold LFBGSBObject.Solve
      rw [dif_pos hl, dif_neg hu]
    · refine ⟨"lower bound size incorrect", O, ?_⟩
      unfold LFBGSBObject.Solve
      rw [dif_neg hl]
  · intro hl fv
    unfold LFBGSBObject.Solve
    rw [dif_neg hl]
  · intro hl hu fv
    unfold LFBGSBObject.Solve
    rw [dif_pos hl, dif_neg hu]

end SizeChecks

/-! ## The status of a run with an empty seed set -/

/-- Claim C23 (divergence): for an empty seed set `Run` returns `false`, which
`ModuleEntryPoint` returns as the status 0, that is `EXIT_SUCCESS`, whatever the other
inputs; the sibling exit for an empty fibre set (here with one seed) returns `EXIT_FAILURE`,
which arrives as the status 1. -/
theorem Run_empty_seed_set_status (numFibers : Nat) (writeStatus : Int) :
    ModuleEntryPoint (some (Run 0 numFibers writeStatus)) = EXIT_SUCCESS ∧
    ModuleEntryPoint (some (Run 0 numFibers writeStatus)) = 0 ∧
    ModuleEntryPoint (some (Run 1 0 writeStatus)) = EXIT_FAILURE ∧
    ModuleEntryPoint (some (Run 1 0 writeStatus)) = 1 :=
  ⟨rfl, rfl, rfl, rfl⟩

/-! ## The products under the square roots of `computeRTOPfromState` -/

section Determinants

variable {α : Type} [LinearOrderedField α]

/-- Claim C25 (divergence): the values `det_l1` and `det_t1` that `computeRTOPfromState` puts
under the square roots of `rtop1` are the products `a * b` of the two distinct eigenvalues,
whereas the determinant of the tensor `diag(a, b, b)` that `H` builds from the same entries
is `a * b * b`; for the state whose entries are all 1 the code has `1e-12` where the
determinant is `1e-18`. -/
theorem det_l1_is_not_determinant :
    (∀ (L : Libm α) (D_ISO PI_COEFF : Dbl α) (state : Nat → Dbl α),
      (rtopOfState L D_ISO PI_COEFF state).rtop1 = PI_COEFF * state 21 *
        (Dbl.fin (7 / 10) / L.sqrt (det_l1 state)
          + Dbl.fin (3 / 10) / L.sqrt (det_t1 state))) ∧
    (∀ s : Nat → α, det_l1 (fun k => Dbl.fin (s k)) =
        Dbl.fin (s 3 * (1 / 10 ^ 6) * (s 4 * (1 / 10 ^ 6))) ∧
      det_t1 (fun k => Dbl.fin (s k)) =
        Dbl.fin (s 5 * (1 / 10 ^ 6) * (s 6 * (1 / 10 ^ 6)))) ∧
    (∀ s : Nat → α,
      Matrix.det (Matrix.diagonal (fun i => lambdas11 s i * (1 / 10 ^ 6))) =
        s 3 * (1 / 10 ^ 6) * (s 4 * (1 / 10 ^ 6)) * (s 4 * (1 / 10 ^ 6)) ∧
      Matrix.det (Matrix.diagonal (fun i => lambdas12 s i * (1 / 10 ^ 6))) =
        s 5 * (1 / 10 ^ 6) * (s 6 * (1 / 10 ^ 6)) * (s 6 * (1 / 10 ^ 6))) ∧
    det_l1 (clampState (fun _ => Dbl.fin (1 : ℚ))) = Dbl.fin (1 / 10 ^ 12) ∧
    Matrix.det (Matrix.diagonal (fun i => lambdas11 (fun _ => (1 : ℚ)) i * (1 / 10 ^ 6))) =
      1 / 10 ^ 18 := by
  refine ⟨fun L D_ISO PI_COEFF state => rfl, fun s => ⟨rfl, rfl⟩, fun s => ⟨?_, ?_⟩, ?_, ?_⟩
  · rw [Matrix.det_diagonal, Fin.prod_univ_three]
    rfl
  · rw [Matrix.det_diagonal, Fin.prod_univ_three]
    rfl
  · rw [clampState_ones]
    show Dbl.fin ((1 : ℚ) * (1 / 10 ^ 6) * (1 * (1 / 10 ^ 6))) = _
    congr 1
    norm_num
  · rw [Matrix.det_diagonal, Fin.prod_univ_three]
    show (1 : ℚ) * (1 / 10 ^ 6) * (1 * (1 / 10 ^ 6)) * (1 * (1 / 10 ^ 6)) = _
    norm_num

end Determinants

/-! ## The history of the last `m` pairs in `Solve` -/

namespace LFBGSB

section History

variable {α : Type} [LinearOrderedField α] {n : Nat}

theorem foldl_dot_nan_left : ∀ (k : Nat) (a b : Fin k → Dbl α) (c : Dbl α),
    (c = Dbl.nan ∨ ∃ i, a i = Dbl.nan) →
    Fin.foldl k (fun acc i => acc + a i * b i) c = Dbl.nan
  | 0, a, b, c, h => by
    rcases h with h | ⟨i, _⟩
    · simpa [Fin.foldl_zero] using h
    · exact i.elim0
  | k + 1, a, b, c, h => by
    rw [Fin.foldl_succ_last]
    rcases h with h | ⟨i, hi⟩
    · rw [foldl_dot_nan_left k (fun i => a i.castSucc) (fun i => b i.castSucc) c (Or.inl h)]
      exact Dbl.nan_add _
    · rcases Fin.eq_castSucc_or_eq_last i with ⟨j, rfl⟩ | rfl
      · rw [foldl_dot_nan_left k (fun i => a i.castSucc) (fun i => b i.castSucc) c
          (Or.inr ⟨j, hi⟩)]
        exact Dbl.nan_add _
      · rw [hi, Dbl.nan_mul, Dbl.add_nan]

theorem stepForward_nan_of_column (s_mat y_mat : Nat → Vec α (n + 1)) (i : Nat)
    (hy : ∀ j, y_mat i j = Dbl.nan) :
    ∀ (cols : List Nat) (acc : Vec α (n + 1) × (Nat → Dbl α)), i ∈ cols →
      (stepForward s_mat y_mat cols acc).1 = fun _ => Dbl.nan
  | [], _, h => absurd h (List.not_mem_nil _)
  | c :: cols, (q, alpha), h => by
    show (stepForward s_mat y_mat cols (_, _)).1 = _
    by_cases hc : c = i
    · subst hc
      have hd : Vec.dot (y_mat c) (s_mat c) = Dbl.nan :=
        foldl_dot_nan_left _ _ _ _ (Or.inr ⟨0, hy 0⟩)
      have hq : Vec.sub q (Vec.smul (Dbl.fin 1 / Vec.dot (y_mat c) (s_mat c) *
          Vec.dot (s_mat c) q) (y_mat c)) = fun _ => Dbl.nan := by
        funext j
        simp [Vec.sub, Vec.smul, hd]
      rw [hq]
      exact stepForward_nan s_mat y_mat cols _
    · have hi : i ∈ cols := by
        rcases List.mem_cons.mp h with h | h
        · exact absurd h.symm hc
        · exact h
      exact stepForward_nan_of_column s_mat y_mat i hy cols _ hi

/-- Claim C31 (divergence): the two statements that shift a history matrix put `v` in column
0 and the old columns `0 .. 7` in the columns `1 .. 8`, but column `m - 1 = 9` receives what
lies behind the 8 columns of the temporary, not the old column 8; and in every pass with
`k ≥ 10` the recursion is called with `min(k, m) = 10` columns, so it reads column 9: when
that column of `yHistory` is NaN the search direction is NaN. -/
theorem shiftHistory_last_column :
    (∀ (H : Nat → Vec α n) (pastEnd v : Vec α n),
      shiftHistory H pastEnd v 0 = v ∧
      (∀ j, 1 ≤ j ∧ j ≤ 8 → shiftHistory H pastEnd v j = H (j - 1)) ∧
      shiftHistory H pastEnd v 9 = pastEnd) ∧
    shiftHistory (fun _ _ => Dbl.fin 1) (fun _ => Dbl.nan) (fun _ => Dbl.fin 1) 9 ≠
      ((fun _ _ => Dbl.fin 1 : Nat → Vec ℚ 1) 8) ∧
    (∀ (g : Vec α (n + 1)) (s_mat H : Nat → Vec α (n + 1)) (v : Vec α (n + 1)) (k : Nat),
      10 ≤ k →
      step g s_mat (shiftHistory H (fun _ => Dbl.nan) v) (Nat.min k m) = fun _ => Dbl.nan) := by
  refine ⟨fun H pastEnd v => ⟨rfl, fun j hj => ?_, rfl⟩, ?_, fun g s_mat H v k hk => ?_⟩
  · unfold shiftHistory m
    have h0 : j ≠ 0 := by omega
    have h8 : j ≤ 10 - 2 := by omega
    simp only [h0, if_false, h8, if_true]
  · intro h
    have h0 := congrFun h 0
    exact absurd h0 (by simp [shiftHistory, m])
  · have hmin : Nat.min k m = 10 := by
      unfold m
      exact Nat.min_eq_right hk
    rw [hmin]
    have hf : (stepForward s_mat (shiftHistory H (fun _ => Dbl.nan) v) (List.range 10)
        (g, fun _ => Dbl.fin 0)).1 = fun _ => Dbl.nan :=
      stepForward_nan_of_column s_mat _ 9 (fun _ => rfl) (List.range 10) _
        (List.mem_range.mpr (by norm_num))
    have hr : Vec.divs (Vec.muls (fun _ => Dbl.nan : Vec α (n + 1))
        (Vec.dot (s_mat 0) (shiftHistory H (fun _ => Dbl.nan) v 0)))
        (Vec.dot (shiftHistory H (fun _ => Dbl.nan) v 0)
          (shiftHistory H (fun _ => Dbl.nan) v 0)) = fun _ => Dbl.nan := by
      funext j
      simp [Vec.divs, Vec.muls]
    unfold step
    simp only [hf, hr]
    exact stepBackward_nan s_mat _ _ _

end History

end LFBGSB

/-! ## `JacobAdjust` and the derivative of `invTransform` -/

section Jacobian

theorem invTransformAt_real (lb ub t : ℝ) :
    LFBGSB.invTransformAt (Libm.ofFinite Real.exp Real.log Real.sqrt) (Dbl.fin lb) (Dbl.fin ub)
      (Dbl.fin t) =
      Dbl.fin ((lb + 22204 / 10 ^ 20 + (ub - 22204 / 10 ^ 20) * Real.exp t)
        / (1 + Real.exp t)) := by
  have he : (1 : ℝ) + Real.exp t ≠ 0 := by positivity
  have hexp : (Libm.ofFinite Real.exp Real.log Real.sqrt).exp (Dbl.fin t) =
      Dbl.fin (Real.exp t) := rfl
  unfold LFBGSB.invTransformAt LFBGSB.EPS
  simp only [Dbl.isFinite_fin, not_true_eq_false, if_false, hexp, Dbl.fin_add_fin,
    Dbl.fin_sub_fin, Dbl.fin_mul_fin, Dbl.fin_div_fin _ _ he]

theorem JacobAdjustAt_real (lb ub t : ℝ) :
    LFBGSB.JacobAdjustAt (Libm.ofFinite Real.exp Real.log Real.sqrt) (Dbl.fin lb) (Dbl.fin ub)
      (Dbl.fin t) =
      Dbl.fin (Real.exp t * (ub - lb) / ((Real.exp t + 1) * (Real.exp t + 1))) := by
  have hne : (Real.exp t + 1) * (Real.exp t + 1) ≠ 0 := by positivity
  have hexp : (Libm.ofFinite Real.exp Real.log Real.sqrt).exp (Dbl.fin t) =
      Dbl.fin (Real.exp t) := rfl
  unfold LFBGSB.JacobAdjustAt Dbl.sq
  simp only [hexp, Dbl.fin_add_fin, Dbl.fin_sub_fin, Dbl.fin_mul_fin,
    Dbl.fin_div_fin _ _ hne]

/-- The derivative of the quotient that `invTransform` computes for a finite argument. -/
theorem hasDerivAt_invTransform_quotient (lb ub t : ℝ) :
    HasDerivAt
      (fun u : ℝ => (lb + 22204 / 10 ^ 20 + (ub - 22204 / 10 ^ 20) * Real.exp u)
        / (1 + Real.exp u))
      (Real.exp t * (ub - lb - 2 * (22204 / 10 ^ 20))
        / ((Real.exp t + 1) * (Real.exp t + 1))) t := by
  have he : (1 : ℝ) + Real.exp t ≠ 0 := by positivity
  have hnum : HasDerivAt
      (fun u : ℝ => lb + 22204 / 10 ^ 20 + (ub - 22204 / 10 ^ 20) * Real.exp u)
      ((ub - 22204 / 10 ^ 20) * Real.exp t) t :=
    ((Real.hasDerivAt_exp t).const_mul _).const_add _
  have hden : HasDerivAt (fun u : ℝ => 1 + Real.exp u) (Real.exp t) t :=
    (Real.hasDerivAt_exp t).const_add _
  have h := hnum.div hden he
  convert h using 1
  field_simp
  ring

/-- Claim C32, amended: for finite bounds and every finite `t`, `JacobAdjust` is the
derivative of the map `t ↦ lb + (ub - lb) * exp(t) / (1 + exp(t))` without the `EPS` offsets;
the derivative of `invTransform` itself is smaller by `2 * EPS * exp(t) / (exp(t) + 1)^2`;
and the gradient of `objFunc` is the product of `JacobAdjust` and the difference quotient of
the objective at `invTransform(x)`, coordinate by coordinate. -/
theorem JacobAdjust_derivative (lb ub t : ℝ) :
    HasDerivAt (fun u : ℝ => lb + (ub - lb) * Real.exp u / (1 + Real.exp u))
      (finiteValue (LFBGSB.JacobAdjustAt (Libm.ofFinite Real.exp Real.log Real.sqrt)
        (Dbl.fin lb) (Dbl.fin ub) (Dbl.fin t))) t ∧
    HasDerivAt
      (fun u : ℝ => finiteValue (LFBGSB.invTransformAt
        (Libm.ofFinite Real.exp Real.log Real.sqrt) (Dbl.fin lb) (Dbl.fin ub) (Dbl.fin u)))
      (finiteValue (LFBGSB.JacobAdjustAt (Libm.ofFinite Real.exp Real.log Real.sqrt)
        (Dbl.fin lb) (Dbl.fin ub) (Dbl.fin t))
        - 2 * (22204 / 10 ^ 20) * Real.exp t / (Real.exp t + 1) ^ 2) t ∧
    (∀ (n : Nat) (S : LFBGSB ℝ n) (x : Vec ℝ n) (i : Fin n),
      (S.objFunc x).2 i = LFBGSB.JacobAdjustAt S.libm (S.lb i) (S.ub i) (x i) *
        S.functionGradientMSE (S.invTransform x) i) := by
  have he : (1 : ℝ) + Real.exp t ≠ 0 := by positivity
  have he' : Real.exp t + 1 ≠ 0 := by positivity
  refine ⟨?_, ?_, fun n S x i => rfl⟩
  · rw [JacobAdjustAt_real]
    show HasDerivAt _ (Real.exp t * (ub - lb) / ((Real.exp t + 1) * (Real.exp t + 1))) t
    have hnum : HasDerivAt (fun u : ℝ => (ub - lb) * Real.exp u)
        ((ub - lb) * Real.exp t) t := (Real.hasDerivAt_exp t).const_mul _
    have hden : HasDerivAt (fun u : ℝ => 1 + Real.exp u) (Real.exp t) t :=
      (Real.hasDerivAt_exp t).const_add _
    have h := (hnum.div hden he).const_add lb
    convert h using 1
    field_simp
    ring
  · have hf : (fun u : ℝ => finiteValue (LFBGSB.invTransformAt
        (Libm.ofFinite Real.exp Real.log Real.sqrt) (Dbl.fin lb) (Dbl.fin ub) (Dbl.fin u))) =
        fun u : ℝ => (lb + 22204 / 10 ^ 20 + (ub - 22204 / 10 ^ 20) * Real.exp u)
          / (1 + Real.exp u) := by
      funext u
      rw [invTransformAt_real]
      rfl
    rw [hf, JacobAdjustAt_real]
    have h := hasDerivAt_invTransform_quotient lb ub t
    convert h using 1
    show Real.exp t * (ub - lb) / ((Real.exp t + 1) * (Real.exp t + 1))
      - 2 * (22204 / 10 ^ 20) * Real.exp t / (Real.exp t + 1) ^ 2 = _
    field_simp
    ring

/-- Counterexample to claim C32: for the bounds `[0, 2]` at `t = 0`, `JacobAdjust` is `1/2`,
which is not the derivative of `invTransform` there (that derivative is
`(1 - 2.2204e-16) / 2`). -/
theorem JacobAdjust_is_not_derivative :
    LFBGSB.JacobAdjustAt (Libm.ofFinite Real.exp Real.log Real.sqrt) (Dbl.fin 0) (Dbl.fin 2)
      (Dbl.fin 0) = Dbl.fin (1 / 2) ∧
    ¬ HasDerivAt
      (fun u : ℝ => finiteValue (LFBGSB.invTransformAt
        (Libm.ofFinite Real.exp Real.log Real.sqrt) (Dbl.fin 0) (Dbl.fin 2) (Dbl.fin u)))
      (1 / 2) 0 := by
  constructor
  · rw [JacobAdjustAt_real, Real.exp_zero]
    congr 1
    norm_num
  · intro h
    have hf : (fun u : ℝ => finiteValue (LFBGSB.invTransformAt
        (Libm.ofFinite Real.exp Real.log Real.sqrt) (Dbl.fin 0) (Dbl.fin 2) (Dbl.fin u))) =
        fun u : ℝ => (0 + 22204 / 10 ^ 20 + (2 - 22204 / 10 ^ 20) * Real.exp u)
          / (1 + Real.exp u) := by
      funext u
      rw [invTransformAt_real]
      rfl
    rw [hf] at h
    have h2 := hasDerivAt_invTransform_quotient 0 2 0
    have e := h.unique h2
    rw [Real.exp_zero] at e
    norm_num at e

end Jacobian

/-! ## The length of a step of `Step3T` -/

section StepLength

variable {α : Type} [LinearOrderedField α]

/-- Claim C33: `Step3T` adds `(m1[2] / voxel[0], m1[1] / voxel[1], m1[0] / voxel[2]) *
_stepLength` to the position, `m1` being the primary orientation after the estimation; for a
unit vector `m1` and positive voxel spacings the displacement in physical units (each
component times the spacing of its axis) has the squared length `_stepLength ^ 2`, so its
Euclidean length is `|_stepLength|`, which is `_stepLength` for a step length that is not
negative. -/
theorem Step3T_step_length (T : Tractography α) (v : FollowVars α) (x d vox : Fin 3 → α)
    (sl : α) (hx : v.x = fun k => Dbl.fin (x k))
    (hm : (Step3T T v).m1 = fun k => Dbl.fin (d k))
    (hd : d 0 * d 0 + d 1 * d 1 + d 2 * d 2 = 1)
    (hv : T.voxel = fun k => Dbl.fin (vox k)) (hpos : ∀ k, 0 < vox k)
    (hs : T._stepLength = Dbl.fin sl) :
    ∃ dx : Fin 3 → α, (Step3T T v).x = (fun k => Dbl.fin (x k + dx k)) ∧
      dx 0 = d 2 / vox 0 * sl ∧ dx 1 = d 1 / vox 1 * sl ∧ dx 2 = d 0 / vox 2 * sl ∧
      (dx 0 * vox 0) ^ 2 + (dx 1 * vox 1) ^ 2 + (dx 2 * vox 2) ^ 2 = sl ^ 2 ∧
      (∀ r : α, 0 ≤ r →
        r * r = (dx 0 * vox 0) ^ 2 + (dx 1 * vox 1) ^ 2 + (dx 2 * vox 2) ^ 2 → r = |sl|) ∧
      (0 ≤ sl → ∀ r : α, 0 ≤ r →
        r * r = (dx 0 * vox 0) ^ 2 + (dx 1 * vox 1) ^ 2 + (dx 2 * vox 2) ^ 2 → r = sl) := by
  have h0 : vox 0 ≠ 0 := (hpos 0).ne'
  have h1 : vox 1 ≠ 0 := (hpos 1).ne'
  have h2 : vox 2 ≠ 0 := (hpos 2).ne'
  have hxe : (Step3T T v).x = Vec.add v.x (Vec.muls
      ![(Step3T T v).m1 2 / T.voxel 0, (Step3T T v).m1 1 / T.voxel 1,
        (Step3T T v).m1 0 / T.voxel 2] T._stepLength) := rfl
  have hsq : (d 2 / vox 0 * sl * vox 0) ^ 2 + (d 1 / vox 1 * sl * vox 1) ^ 2 +
      (d 0 / vox 2 * sl * vox 2) ^ 2 = sl ^ 2 := by
    have e0 : d 2 / vox 0 * sl * vox 0 = d 2 * sl := by field_simp
    have e1 : d 1 / vox 1 * sl * vox 1 = d 1 * sl := by field_simp
    have e2 : d 0 / vox 2 * sl * vox 2 = d 0 * sl := by field_simp
    rw [e0, e1, e2]
    have : (d 2 * sl) ^ 2 + (d 1 * sl) ^ 2 + (d 0 * sl) ^ 2 =
        (d 0 * d 0 + d 1 * d 1 + d 2 * d 2) * sl ^ 2 := by ring
    rw [this, hd, one_mul]
  have habs : ∀ r : α, 0 ≤ r → r * r = sl ^ 2 → r = |sl| := by
    intro r hr h
    have h' : r ^ 2 = sl ^ 2 := by rw [← h]; ring
    have := abs_eq_abs.mpr ((sq_eq_sq_iff_abs_eq_abs r sl).mp h' |> abs_eq_abs.mp)
    rw [abs_of_nonneg hr] at this
    exact this
  refine ⟨![d 2 / vox 0 * sl, d 1 / vox 1 * sl, d 0 / vox 2 * sl], ?_, rfl, rfl, rfl, hsq,
    fun r hr h => habs r hr (h.trans hsq), fun hsl r hr h => ?_⟩
  · rw [hxe, hm, hx, hv, hs]
    funext k
    fin_cases k
    · show Dbl.fin (x 0) + Dbl.fin (d 2) / Dbl.fin (vox 0) * Dbl.fin sl = _
      rw [Dbl.fin_div_fin _ _ h0, Dbl.fin_mul_fin, Dbl.fin_add_fin]
      rfl
    · show Dbl.fin (x 1) + Dbl.fin (d 1) / Dbl.fin (vox 1) * Dbl.fin sl = _
      rw [Dbl.fin_div_fin _ _ h1, Dbl.fin_mul_fin, Dbl.fin_add_fin]
      rfl
    · show Dbl.fin (x 2) + Dbl.fin (d 0) / Dbl.fin (vox 2) * Dbl.fin sl = _
      rw [Dbl.fin_div_fin _ _ h2, Dbl.fin_mul_fin, Dbl.fin_add_fin]
      rfl
  · rw [habs r hr (h.trans hsq), abs_of_nonneg hsl]

end StepLength

/-- The claim C33 for the sample run: from the origin, with `m1 = (1, 0, 0)`, unit voxels and
step length 1, the position moves by `(0, 0, 1)`. -/
theorem Step3T_step_length_witness :
    ∃ dx : Fin 3 → ℚ,
      (Step3T (sampleTractography (Libm.ofFinite id id id) false 1 1 (fun _ => Dbl.fin 1))
        (followEntry (sampleTractography (Libm.ofFinite id id id) false 1 1
          (fun _ => Dbl.fin 1)) (sampleSeed 1) emptyFiber 0 (fun _ => Dbl.fin 0)
          (fun _ => Dbl.fin 0))).x = (fun k => Dbl.fin ((fun _ => (0 : ℚ)) k + dx k)) ∧
      (dx 0 * 1) ^ 2 + (dx 1 * 1) ^ 2 + (dx 2 * 1) ^ 2 = (1 : ℚ) ^ 2 := by
  obtain ⟨dx, h1, _, _, _, h5, _⟩ := Step3T_step_length
    (sampleTractography (Libm.ofFinite id id id) false 1 1 (fun _ => Dbl.fin 1))
    (followEntry (sampleTractography (Libm.ofFinite id id id) false 1 1
      (fun _ => Dbl.fin 1)) (sampleSeed 1) emptyFiber 0 (fun _ => Dbl.fin 0)
      (fun _ => Dbl.fin 0))
    (fun _ => (0 : ℚ)) ![1, 0, 0] (fun _ => 1) 1 rfl
    (by
      funext k
      fin_cases k <;> rfl)
    (by simp) rfl (fun _ => one_pos) rfl
  exact ⟨dx, h1, h5⟩

/-! ## The refinement loop of `LoopUKF` -/

section Refinement

variable {α : Type} [LinearOrderedField α]

/-- The loop of `LoopUKF` entered with the state and the error of estimate `j`, with
`remaining` passes left: it stops at the first refinement `i + 1 > j` whose error reduction
is below 0.001, or after all passes. -/
theorem loopUKFIter_spec (T : Tractography α) (state₀ : Nat → Dbl α)
    (covariance₀ : Nat → Nat → Dbl α) (signal : Nat → Dbl α) :
    ∀ (remaining j : Nat) (state_prev : Nat → Dbl α) (d : Dbl α),
      (∃ i, j ≤ i ∧ i < j + remaining ∧
        (∀ l, j ≤ l → l < i →
          ¬ ((ukfEstimate T state₀ covariance₀ signal l).2.2
            - (ukfEstimate T state₀ covariance₀ signal (l + 1)).2.2 < Dbl.fin (1 / 1000))) ∧
        (ukfEstimate T state₀ covariance₀ signal i).2.2
          - (ukfEstimate T state₀ covariance₀ signal (i + 1)).2.2 < Dbl.fin (1 / 1000) ∧
        loopUKFIter T (T.Filter state₀ covariance₀ signal).2.1 signal remaining
          (ukfEstimate T state₀ covariance₀ signal j).1 state_prev
          (ukfEstimate T state₀ covariance₀ signal j).2.2 d =
          ((if i = j then state_prev else (ukfEstimate T state₀ covariance₀ signal i).1),
           (ukfEstimate T state₀ covariance₀ signal (i + 1)).2.2) ∧
        loopUKFCalls T (T.Filter state₀ covariance₀ signal).2.1 signal remaining
          (ukfEstimate T state₀ covariance₀ signal j).1
          (ukfEstimate T state₀ covariance₀ signal j).2.2 = i + 1 - j) ∨
      ((∀ l, j ≤ l → l < j + remaining →
          ¬ ((ukfEstimate T state₀ covariance₀ signal l).2.2
            - (ukfEstimate T state₀ covariance₀ signal (l + 1)).2.2 < Dbl.fin (1 / 1000))) ∧
        loopUKFIter T (T.Filter state₀ covariance₀ signal).2.1 signal remaining
          (ukfEstimate T state₀ covariance₀ signal j).1 state_prev
          (ukfEstimate T state₀ covariance₀ signal j).2.2 d =
          ((if remaining = 0 then state_prev
            else (ukfEstimate T state₀ covariance₀ signal (j + remaining)).1),
           (if remaining = 0 then d
            else (ukfEstimate T state₀ covariance₀ signal (j + remaining)).2.2)) ∧
        loopUKFCalls T (T.Filter state₀ covariance₀ signal).2.1 signal remaining
          (ukfEstimate T state₀ covariance₀ signal j).1
          (ukfEstimate T state₀ covariance₀ signal j).2.2 = remaining) := by
  intro remaining
  induction remaining with
  | zero =>
    intro j state_prev d
    right
    exact ⟨fun l h1 h2 => absurd h2 (by omega), rfl, rfl⟩
  | succ q ih =>
    intro j state_prev d
    have hunf : loopUKFIter T (T.Filter state₀ covariance₀ signal).2.1 signal (q + 1)
        (ukfEstimate T state₀ covariance₀ signal j).1 state_prev
        (ukfEstimate T state₀ covariance₀ signal j).2.2 d =
        if (ukfEstimate T state₀ covariance₀ signal j).2.2
          - (ukfEstimate T state₀ covariance₀ signal (j + 1)).2.2 < Dbl.fin (1 / 1000)
        then (state_prev, (ukfEstimate T state₀ covariance₀ signal (j + 1)).2.2)
        else loopUKFIter T (T.Filter state₀ covariance₀ signal).2.1 signal q
          (ukfEstimate T state₀ covariance₀ signal (j + 1)).1
          (ukfEstimate T state₀ covariance₀ signal (j + 1)).1
          (ukfEstimate T state₀ covariance₀ signal (j + 1)).2.2
          (ukfEstimate T state₀ covariance₀ signal (j + 1)).2.2 := rfl
    have hunc : loopUKFCalls T (T.Filter state₀ covariance₀ signal).2.1 signal (q + 1)
        (ukfEstimate T state₀ covariance₀ signal j).1
        (ukfEstimate T state₀ covariance₀ signal j).2.2 =
        if (ukfEstimate T state₀ covariance₀ signal j).2.2
          - (ukfEstimate T state₀ covariance₀ signal (j + 1)).2.2 < Dbl.fin (1 / 1000)
        then 1
        else 1 + loopUKFCalls T (T.Filter state₀ covariance₀ signal).2.1 signal q
          (ukfEstimate T state₀ covariance₀ signal (j + 1)).1
          (ukfEstimate T state₀ covariance₀ signal (j + 1)).2.2 := rfl
    by_cases hlt : (ukfEstimate T state₀ covariance₀ signal j).2.2
        - (ukfEstimate T state₀ covariance₀ signal (j + 1)).2.2 < Dbl.fin (1 / 1000)
    · left
      refine ⟨j, le_refl _, by omega, fun l h1 h2 => absurd h2 (by omega), hlt, ?_, ?_⟩
      · rw [if_pos rfl, hunf, if_pos hlt]
      · rw [hunc, if_pos hlt]
        omega
    · have hstep : loopUKFIter T (T.Filter state₀ covariance₀ signal).2.1 signal (q + 1)
          (ukfEstimate T state₀ covariance₀ signal j).1 state_prev
          (ukfEstimate T state₀ covariance₀ signal j).2.2 d =
          loopUKFIter T (T.Filter state₀ covariance₀ signal).2.1 signal q
            (ukfEstimate T state₀ covariance₀ signal (j + 1)).1
            (ukfEstimate T state₀ covariance₀ signal (j + 1)).1
            (ukfEstimate T state₀ covariance₀ signal (j + 1)).2.2
            (ukfEstimate T state₀ covariance₀ signal (j + 1)).2.2 := by
        rw [hunf, if_neg hlt]
      have hcalls : loopUKFCalls T (T.Filter state₀ covariance₀ signal).2.1 signal (q + 1)
          (ukfEstimate T state₀ covariance₀ signal j).1
          (ukfEstimate T state₀ covariance₀ signal j).2.2 =
          1 + loopUKFCalls T (T.Filter state₀ covariance₀ signal).2.1 signal q
            (ukfEstimate T state₀ covariance₀ signal (j + 1)).1
            (ukfEstimate T state₀ covariance₀ signal (j + 1)).2.2 := by
        rw [hunc, if_neg hlt]
      rcases ih (j + 1) (ukfEstimate T state₀ covariance₀ signal (j + 1)).1
          (ukfEstimate T state₀ covariance₀ signal (j + 1)).2.2 with
        ⟨i, h1, h2, h3, h4, h5, h6⟩ | ⟨h3, h5, h6⟩
      · left
        refine ⟨i, by omega, by omega, fun l l1 l2 => ?_, h4, ?_, ?_⟩
        · rcases Nat.eq_or_lt_of_le l1 with e | e
          · rw [← e]; exact hlt
          · exact h3 l e l2
        · rw [hstep, h5, if_neg (show ¬ i = j by omega)]
          by_cases hi : i = j + 1
          · rw [if_pos hi, hi]
          · rw [if_neg hi]
        · rw [hcalls, h6]
          omega
      · right
        refine ⟨fun l l1 l2 => ?_, ?_, ?_⟩
        · rcases Nat.eq_or_lt_of_le l1 with e | e
          · rw [← e]; exact hlt
          · exact h3 l e (by omega)
        · rw [hstep, h5, if_neg (Nat.succ_ne_zero q), if_neg (Nat.succ_ne_zero q)]
          have e : j + 1 + q = j + (q + 1) := by omega
          by_cases hq : q = 0
          · subst hq
            simp
          · rw [if_neg hq, if_neg hq, e]
        · rw [hcalls, h6]
          omega

/-- Claim C34: `LoopUKF` calls the estimator at least once and at most
`1 + _maxUKFIterations` times; it stops right after the first refinement `i + 1` whose error
reduction (error of estimate `i` minus error of estimate `i + 1`) is below 0.001, having made
`i + 2` calls, and returns the state of estimate `i`; when no refinement has a reduction
below 0.001 it makes all `1 + _maxUKFIterations` calls and returns the state of the last
estimate. -/
theorem LoopUKF_refinement (T : Tractography α) (state : Nat → Dbl α)
    (covariance : Nat → Nat → Dbl α) (signal : Nat → Dbl α) :
    1 ≤ LoopUKFCalls T state covariance signal ∧
    LoopUKFCalls T state covariance signal ≤ 1 + T._maxUKFIterations.toNat ∧
    ((∃ i, i < T._maxUKFIterations.toNat ∧
        (∀ l, l < i →
          ¬ ((ukfEstimate T state covariance signal l).2.2
            - (ukfEstimate T state covariance signal (l + 1)).2.2 < Dbl.fin (1 / 1000))) ∧
        (ukfEstimate T state covariance signal i).2.2
          - (ukfEstimate T state covariance signal (i + 1)).2.2 < Dbl.fin (1 / 1000) ∧
        (LoopUKF T state covariance signal).1 = (ukfEstimate T state covariance signal i).1 ∧
        LoopUKFCalls T state covariance signal = i + 2) ∨
      ((∀ l, l < T._maxUKFIterations.toNat →
          ¬ ((ukfEstimate T state covariance signal l).2.2
            - (ukfEstimate T state covariance signal (l + 1)).2.2 < Dbl.fin (1 / 1000))) ∧
        (LoopUKF T state covariance signal).1 =
          (ukfEstimate T state covariance signal T._maxUKFIterations.toNat).1 ∧
        LoopUKFCalls T state covariance signal = T._maxUKFIterations.toNat + 1)) := by
  have hL : (LoopUKF T state covariance signal).1 =
      (loopUKFIter T (T.Filter state covariance signal).2.1 signal T._maxUKFIterations.toNat
        (ukfEstimate T state covariance signal 0).1 (ukfEstimate T state covariance signal 0).1
        (ukfEstimate T state covariance signal 0).2.2
        (ukfEstimate T state covariance signal 0).2.2).1 := rfl
  have hC : LoopUKFCalls T state covariance signal =
      1 + loopUKFCalls T (T.Filter state covariance signal).2.1 signal
        T._maxUKFIterations.toNat (ukfEstimate T state covariance signal 0).1
        (ukfEstimate T state covariance signal 0).2.2 := rfl
  rcases loopUKFIter_spec T state covariance signal T._maxUKFIterations.toNat 0
      (ukfEstimate T state covariance signal 0).1
      (ukfEstimate T state covariance signal 0).2.2 with
    ⟨i, _, h2, h3, h4, h5, h6⟩ | ⟨h3, h5, h6⟩
  · have hi : i < T._maxUKFIterations.toNat := by omega
    refine ⟨by omega, by omega, Or.inl ⟨i, hi, fun l hl => h3 l (Nat.zero_le l) hl, h4, ?_,
      by omega⟩⟩
    rw [hL, h5]
    by_cases h0 : i = 0
    · rw [if_pos h0, h0]
    · rw [if_neg h0]
  · refine ⟨by omega, by omega, Or.inr ⟨fun l hl => h3 l (Nat.zero_le l) (by omega), ?_,
      by omega⟩⟩
    rw [hL, h5]
    by_cases h0 : T._maxUKFIterations.toNat = 0
    · rw [if_pos h0, h0]
    · rw [if_neg h0, Nat.zero_add]

/-- Claim C40 (divergence): the covariance that `LoopUKF` hands back is that of the first
call of the estimator, and when the loop stops at refinement `i + 1` the state is that of
estimate `i` but the error is that of estimate `i + 1`.  For the estimator that adds 1 to
every entry of the state and of the covariance and reports ten times the first entry of the
state it is given, with one refinement allowed: from the zero state the state and covariance
returned are those of the first call, whose error is 0, and the error returned is 10. -/
theorem LoopUKF_results_of_different_calls :
    (∀ (T : Tractography α) (state : Nat → Dbl α) (covariance : Nat → Nat → Dbl α)
      (signal : Nat → Dbl α),
      (LoopUKF T state covariance signal).2.1 = (ukfEstimate T state covariance signal 0).2.1 ∧
      ∀ i, i < T._maxUKFIterations.toNat →
        (∀ l, l < i →
          ¬ ((ukfEstimate T state covariance signal l).2.2
            - (ukfEstimate T state covariance signal (l + 1)).2.2 < Dbl.fin (1 / 1000))) →
        (ukfEstimate T state covariance signal i).2.2
          - (ukfEstimate T state covariance signal (i + 1)).2.2 < Dbl.fin (1 / 1000) →
        (LoopUKF T state covariance signal).1 = (ukfEstimate T state covariance signal i).1 ∧
        (LoopUKF T state covariance signal).2.2 =
          (ukfEstimate T state covariance signal (i + 1)).2.2) ∧
    LoopUKF refiningTractography (fun _ => Dbl.fin 0) (fun _ _ => Dbl.fin 0)
      (fun _ => Dbl.fin 0) = (fun _ => Dbl.fin 1, fun _ _ => Dbl.fin 1, Dbl.fin 10) ∧
    refiningTractography.Filter (fun _ => Dbl.fin 0) (fun _ _ => Dbl.fin 0)
      (fun _ => Dbl.fin 0) = (fun _ => Dbl.fin 1, fun _ _ => Dbl.fin 1, Dbl.fin 0) ∧
    refiningTractography.Filter (fun _ => Dbl.fin 1) (fun _ _ => Dbl.fin 1)
      (fun _ => Dbl.fin 0) = (fun _ => Dbl.fin 2, fun _ _ => Dbl.fin 2, Dbl.fin 10) := by
  have hf0 : refiningTractography.Filter (fun _ => Dbl.fin 0) (fun _ _ => Dbl.fin 0)
      (fun _ => Dbl.fin 0) = (fun _ => Dbl.fin 1, fun _ _ => Dbl.fin 1, Dbl.fin 0) := by
    show ((fun _ => Dbl.fin (0 + 1) : Nat → Dbl ℚ), (fun _ _ => Dbl.fin (0 + 1) :
      Nat → Nat → Dbl ℚ), (Dbl.fin (0 * 10) : Dbl ℚ)) = _
    norm_num
  have hf1 : refiningTractography.Filter (fun _ => Dbl.fin 1) (fun _ _ => Dbl.fin 1)
      (fun _ => Dbl.fin 0) = (fun _ => Dbl.fin 2, fun _ _ => Dbl.fin 2, Dbl.fin 10) := by
    show ((fun _ => Dbl.fin (1 + 1) : Nat → Dbl ℚ), (fun _ _ => Dbl.fin (1 + 1) :
      Nat → Nat → Dbl ℚ), (Dbl.fin (1 * 10) : Dbl ℚ)) = _
    norm_num
  refine ⟨fun T state covariance signal => ⟨rfl, fun i hi hl hlt => ?_⟩, ?_, hf0, hf1⟩
  · have hL : LoopUKF T state covariance signal =
        ((loopUKFIter T (T.Filter state covariance signal).2.1 signal
          T._maxUKFIterations.toNat
          (ukfEstimate T state covariance signal 0).1
          (ukfEstimate T state covariance signal 0).1
          (ukfEstimate T state covariance signal 0).2.2
          (ukfEstimate T state covariance signal 0).2.2).1,
         (T.Filter state covariance signal).2.1,
         (loopUKFIter T (T.Filter state covariance signal).2.1 signal
          T._maxUKFIterations.toNat
          (ukfEstimate T state covariance signal 0).1
          (ukfEstimate T state covariance signal 0).1
          (ukfEstimate T state covariance signal 0).2.2
          (ukfEstimate T state covariance signal 0).2.2).2) := rfl
    rcases loopUKFIter_spec T state covariance signal T._maxUKFIterations.toNat 0
        (ukfEstimate T state covariance signal 0).1
        (ukfEstimate T state covariance signal 0).2.2 with
      ⟨i', _, h2, h3, h4, h5, _⟩ | ⟨h3, _, _⟩
    · have hii : i' = i := by
        rcases Nat.lt_trichotomy i' i with h | h | h
        · exact absurd h4 (hl i' h)
        · exact h
        · exact absurd hlt (h3 i (Nat.zero_le i) h)
      subst hii
      rw [hL, h5]
      refine ⟨?_, rfl⟩
      show (if i' = 0 then _ else _) = _
      by_cases h0 : i' = 0
      · rw [if_pos h0, h0]
      · rw [if_neg h0]
    · exact absurd hlt (h3 i (Nat.zero_le i) (by omega))
  · have hmax : refiningTractography._maxUKFIterations.toNat = 0 + 1 := rfl
    unfold LoopUKF
    simp only [hf0, hmax, loopUKFIter, hf1]
    rw [if_pos]
    simp only [Dbl.fin_sub_fin, Dbl.fin_lt_fin]
    norm_num

end Refinement

/-! ## The reordering of the compartments in `Step3T` -/

section Reordering

variable {α : Type} [LinearOrderedField α]

theorem dbl_le_of_not_lt (a b : Dbl α) (ha : a ≠ Dbl.nan) (hb : b ≠ Dbl.nan)
    (h : ¬ (a < b)) : b ≤ a := by
  cases a <;> cases b <;>
    first
    | exact absurd rfl ha
    | exact absurd rfl hb
    | exact (Dbl.fin_le_fin _ _).mpr (le_of_not_lt (fun hh => h ((Dbl.fin_lt_fin _ _).mpr hh)))
    | (show Dbl.ble _ _ = true; rfl)
    | exact (h (show Dbl.blt _ _ = true from rfl)).elim

theorem dbl_le_of_lt (a b : Dbl α) (h : a < b) : a ≤ b := by
  cases a <;> cases b <;>
    first
    | exact (Dbl.fin_le_fin _ _).mpr (le_of_lt ((Dbl.fin_lt_fin _ _).mp h))
    | (show Dbl.ble _ _ = true; rfl)
    | exact absurd (show false = true from h) Bool.false_ne_true

theorem dbl_le_of_le_of_lt (a b c : Dbl α) (h1 : a ≤ b) (h2 : b < c) : a ≤ c := by
  cases a <;> cases b <;> cases c <;>
    first
    | exact (Dbl.fin_le_fin _ _).mpr (le_of_lt (lt_of_le_of_lt
        ((Dbl.fin_le_fin _ _).mp h1) ((Dbl.fin_lt_fin _ _).mp h2)))
    | (show Dbl.ble _ _ = true; rfl)
    | exact absurd (show false = true from h1) Bool.false_ne_true
    | exact absurd (show false = true from h2) Bool.false_ne_true

theorem dbl_le_trans (a b c : Dbl α) (h1 : a ≤ b) (h2 : b ≤ c) : a ≤ c := by
  cases a <;> cases b <;> cases c <;>
    first
    | exact (Dbl.fin_le_fin _ _).mpr (le_trans
        ((Dbl.fin_le_fin _ _).mp h1) ((Dbl.fin_le_fin _ _).mp h2))
    | (show Dbl.ble _ _ = true; rfl)
    | exact absurd (show false = true from h1) Bool.false_ne_true
    | exact absurd (show false = true from h2) Bool.false_ne_true

theorem dbl_le_refl (a : Dbl α) (ha : a ≠ Dbl.nan) : a ≤ a := by
  cases a <;>
    first
    | exact absurd rfl ha
    | exact (Dbl.fin_le_fin _ _).mpr (le_refl _)
    | (show Dbl.ble _ _ = true; rfl)

/-- Claim C35, amended: when none of the three dot products with `old_dir` is NaN, after the
reordering the primary orientation is one of the three orientations and no other has a
larger dot product with `old_dir`; compartment 2 or 3 is swapped in only when its dot
product is strictly larger than that of the primary orientation, and at most one call of
`SwapState` is made. -/
theorem Step3T_reorder_primary (old_dir m1 l1 m2 l2 m3 l3 : Vec α 3) (state : Nat → Dbl α)
    (covariance : Nat → Nat → Dbl α)
    (h1 : Vec.dot m1 old_dir ≠ Dbl.nan) (h2 : Vec.dot m2 old_dir ≠ Dbl.nan)
    (h3 : Vec.dot m3 old_dir ≠ Dbl.nan) :
    ∃ r, Step3T_reorder old_dir m1 l1 m2 l2 m3 l3 state covariance = some r ∧
      Vec.dot m1 old_dir ≤ Vec.dot r.m1 old_dir ∧
      Vec.dot m2 old_dir ≤ Vec.dot r.m1 old_dir ∧
      Vec.dot m3 old_dir ≤ Vec.dot r.m1 old_dir ∧
      ((r.swapCalls = [] ∧ r.m1 = m1 ∧ r.m2 = m2 ∧ r.m3 = m3) ∨
       (r.swapCalls = [2] ∧ r.m1 = m2 ∧ r.m2 = m1 ∧ r.m3 = m3 ∧
          Vec.dot m1 old_dir < Vec.dot m2 old_dir) ∨
       (r.swapCalls = [3] ∧ r.m1 = m3 ∧ r.m2 = m2 ∧ r.m3 = m1 ∧
          Vec.dot m1 old_dir < Vec.dot m3 old_dir)) ∧
      r.swapCalls.length ≤ 1 := by
  unfold Step3T_reorder
  simp only
  by_cases hA : Vec.dot m1 old_dir < Vec.dot m2 old_dir ∧
      Vec.dot m3 old_dir < Vec.dot m2 old_dir
  · obtain ⟨q, hq⟩ := SwapState_returns state covariance 2 (Or.inl rfl)
    have hq' : SwapState state covariance 2 = some q := hq
    rw [if_pos hA, hq']
    exact ⟨_, rfl, dbl_le_of_lt _ _ hA.1, dbl_le_refl _ h2, dbl_le_of_lt _ _ hA.2,
      Or.inr (Or.inl ⟨rfl, rfl, rfl, rfl, hA.1⟩), by simp⟩
  · rw [if_neg hA]
    by_cases hB : Vec.dot m1 old_dir < Vec.dot m3 old_dir
    · obtain ⟨q, hq⟩ := SwapState_returns state covariance 3 (Or.inr rfl)
      have hq' : SwapState state covariance 3 = some q := hq
      rw [if_pos hB, hq']
      have h23 : Vec.dot m2 old_dir ≤ Vec.dot m3 old_dir := by
        by_cases h12 : Vec.dot m1 old_dir < Vec.dot m2 old_dir
        · have h32 : ¬ (Vec.dot m3 old_dir < Vec.dot m2 old_dir) := fun h => hA ⟨h12, h⟩
          exact dbl_le_of_not_lt _ _ h3 h2 h32
        · exact dbl_le_of_le_of_lt _ _ _ (dbl_le_of_not_lt _ _ h1 h2 h12) hB
      exact ⟨_, rfl, dbl_le_of_lt _ _ hB, h23, dbl_le_refl _ h3,
        Or.inr (Or.inr ⟨rfl, rfl, rfl, rfl, hB⟩), by simp⟩
    · rw [if_neg hB]
      have h31 : Vec.dot m3 old_dir ≤ Vec.dot m1 old_dir := dbl_le_of_not_lt _ _ h1 h3 hB
      have h21 : Vec.dot m2 old_dir ≤ Vec.dot m1 old_dir := by
        by_cases h12 : Vec.dot m1 old_dir < Vec.dot m2 old_dir
        · have h32 : ¬ (Vec.dot m3 old_dir < Vec.dot m2 old_dir) := fun h => hA ⟨h12, h⟩
          exact dbl_le_trans _ _ _ (dbl_le_of_not_lt _ _ h3 h2 h32) h31
        · exact dbl_le_of_not_lt _ _ h1 h2 h12
      exact ⟨_, rfl, dbl_le_refl _ h1, h21, h31,
        Or.inl ⟨rfl, rfl, rfl, rfl⟩, by simp⟩

end Reordering

/-- The amended claim C35 for the orientations `(1,0,0)`, `(0,1,0)`, `(0,0,1)` and the previous
direction `(0,1,0)`: compartment 2 becomes the primary one. -/
theorem Step3T_reorder_primary_witness :
    ∃ r, Step3T_reorder (fun j => Dbl.fin ((![0, 1, 0] : Fin 3 → ℚ) j))
        (fun j => Dbl.fin ((![1, 0, 0] : Fin 3 → ℚ) j)) (fun _ => Dbl.fin 1)
        (fun j => Dbl.fin ((![0, 1, 0] : Fin 3 → ℚ) j)) (fun _ => Dbl.fin 1)
        (fun j => Dbl.fin ((![0, 0, 1] : Fin 3 → ℚ) j)) (fun _ => Dbl.fin 1)
        (fun _ => Dbl.fin 0) (fun _ _ => Dbl.fin 0) = some r ∧
      r.swapCalls.length ≤ 1 := by
  obtain ⟨r, hr, _, _, _, _, h⟩ := Step3T_reorder_primary
    (fun j => Dbl.fin ((![0, 1, 0] : Fin 3 → ℚ) j))
    (fun j => Dbl.fin ((![1, 0, 0] : Fin 3 → ℚ) j)) (fun _ => Dbl.fin 1)
    (fun j => Dbl.fin ((![0, 1, 0] : Fin 3 → ℚ) j)) (fun _ => Dbl.fin 1)
    (fun j => Dbl.fin ((![0, 0, 1] : Fin 3 → ℚ) j)) (fun _ => Dbl.fin 1)
    (fun _ => Dbl.fin 0) (fun _ _ => Dbl.fin 0)
    (by rw [LFBGSB.dot_fin]; exact fun h => Dbl.noConfusion h)
    (by rw [LFBGSB.dot_fin]; exact fun h => Dbl.noConfusion h)
    (by rw [LFBGSB.dot_fin]; exact fun h => Dbl.noConfusion h)
  exact ⟨r, hr, h⟩

/-! ## `SwapState` and the symmetry of the covariance -/

section Symmetry

/-- Claim C36: for `i = 2` and `i = 3` and every symmetric covariance, the covariance that
`SwapState` leaves is symmetric. -/
theorem SwapState_symmetric {β : Type} (state : Nat → β) (covariance : Nat → Nat → β)
    (i : Nat) (hi : i = 2 ∨ i = 3) (hsym : ∀ a b, covariance a b = covariance b a) :
    ∃ r, SwapState state covariance (i : Int) = some r ∧ ∀ a b, r.2 a b = r.2 b a := by
  obtain ⟨r, hr, _, hc⟩ := SwapState_indices state covariance i hi
  refine ⟨r, hr, fun a b => ?_⟩
  have hout := (SwapState_outside state covariance (i : Int) r hr).2
  by_cases ha : a < 25
  · by_cases hb : b < 25
    · rw [hc a b ha hb, hc b a hb ha]
      exact hsym _ _
    · rw [hout a b (Or.inr (by omega)), hout b a (Or.inl (by omega))]
      exact hsym _ _
  · rw [hout a b (Or.inl (by omega)), hout b a (Or.inr (by omega))]
    exact hsym _ _

/-- The claim C36 for `i = 2` and the symmetric matrix with the entries `a + b`. -/
theorem SwapState_symmetric_witness :
    ∃ r, SwapState (fun k => k) (fun a b => a + b) ((2 : Nat) : Int) = some r ∧
      ∀ a b, r.2 a b = r.2 b a :=
  SwapState_symmetric (fun k => k) (fun a b => a + b) 2 (Or.inl rfl)
    (fun a b => Nat.add_comm a b)

end Symmetry

/-! ## The number of entries that `Record` appends -/

section WholeSamples

variable {α : Type} [LinearOrderedField α]

theorem Record_both_flags (T : Tractography α) (x : Vec α 3) (fa fa2 fa3 : Dbl α)
    (u : Uncertainties α) (state : Nat → Dbl α) (p : Nat → Nat → Dbl α)
    (fiber fiber' : UKFFiber α) (dNormMSE trace trace2 : Dbl α)
    (hw : T._record_weights = true) (hf : T._record_free_water = true)
    (h : Record T x fa fa2 fa3 u state p fiber dNormMSE trace trace2 = some fiber') :
    (∃ fw, fiber'.free_water = fiber.free_water ++ [state 24] ++ [fw] ∧
      recordFreeWater state = some fw) ∧
    fiber'.position = fiber.position ++ [x] := by
  have hno : ¬ (T._record_free_water = true ∧
      Dbl.fin 1 - state 24 < Dbl.fin (-(1 / 10 ^ 4))) := by
    rintro ⟨_, hlt⟩
    have hn := (recordFreeWater_eq_none state).mpr hlt
    unfold Record at h
    simp only [hf, if_true, hn] at h
    exact absurd h (by simp)
  obtain ⟨f2, h2, _, hpos⟩ := Record_eq T x fa fa2 fa3 u state p fiber dNormMSE trace
    trace2 hno
  have e : f2 = fiber' := Option.some.inj (h2.symm.trans h)
  subst e
  refine ⟨?_, hpos⟩
  unfold Record at h
  simp only [hf, if_true] at h
  cases hfw : recordFreeWater state with
  | none => rw [hfw] at h; exact absurd h (by simp)
  | some fw =>
    rw [hfw] at h
    have e2 := Option.some.inj h
    refine ⟨fw, ?_, rfl⟩
    rw [← e2, recordTail_free_water]
    show (recordHead T x fa fa2 fa3 state p fiber dNormMSE trace trace2).free_water ++ [fw]
      = _
    rw [recordHead_free_water, if_pos hw]

/-- Claim C37 (divergence): when `_record_weights` and `_record_free_water` are both set, a
successful call of `Record` appends two entries to `free_water` (the isotropic weight
`state[24]` and then `1 - state[24]`) and one entry to `position`; for the sample run with
both flags and the state whose entries are all 1, the empty fibre has after one call one
position and the two `free_water` entries 1 and 0. -/
theorem Record_free_water_twice :
    (∀ (T : Tractography α) (x : Vec α 3) (fa fa2 fa3 : Dbl α) (u : Uncertainties α)
      (state : Nat → Dbl α) (p : Nat → Nat → Dbl α) (fiber fiber' : UKFFiber α)
      (dNormMSE trace trace2 : Dbl α),
      T._record_weights = true → T._record_free_water = true →
      Record T x fa fa2 fa3 u state p fiber dNormMSE trace trace2 = some fiber' →
      fiber'.free_water.length = fiber.free_water.length + 2 ∧
      fiber'.position.length = fiber.position.length + 1) ∧
    ∃ fiber', Record weightsAndFreeWaterTractography (fun _ => Dbl.fin 0) (Dbl.fin 1)
        (Dbl.fin 1) (Dbl.fin 1)
        (computeUncertaintiesCharacteristics (Libm.ofFinite id id id) (fun _ _ => Dbl.fin 0))
        (fun _ => Dbl.fin 1) (fun _ _ => Dbl.fin 0) emptyFiber (Dbl.fin 0) (Dbl.fin 1)
        (Dbl.fin 1) = some fiber' ∧
      fiber'.free_water = [Dbl.fin 1, Dbl.fin 0] ∧ fiber'.position.length = 1 := by
  constructor
  · intro T x fa fa2 fa3 u state p fiber fiber' dNormMSE trace trace2 hw hf h
    obtain ⟨⟨fw, h1, _⟩, h2⟩ := Record_both_flags T x fa fa2 fa3 u state p fiber fiber' dNormMSE trace
      trace2 hw hf h
    rw [h1, h2]
    simp
  · have hfw : recordFreeWater (fun _ => Dbl.fin (1 : ℚ)) = some (Dbl.fin 0) := by
      rw [recordFreeWater_unchanged _ (by
        rw [Dbl.fin_sub_fin, Dbl.fin_lt_fin]
        norm_num)]
      rw [Dbl.fin_sub_fin]
      norm_num
    have hno : ¬ (weightsAndFreeWaterTractography._record_free_water = true ∧
        Dbl.fin 1 - (fun _ => Dbl.fin (1 : ℚ)) 24 < Dbl.fin (-(1 / 10 ^ 4))) := by
      rintro ⟨_, hlt⟩
      rw [Dbl.fin_sub_fin, Dbl.fin_lt_fin] at hlt
      norm_num at hlt
    obtain ⟨f2, h2, _, _⟩ := Record_eq weightsAndFreeWaterTractography (fun _ => Dbl.fin 0)
      (Dbl.fin 1) (Dbl.fin 1) (Dbl.fin 1)
      (computeUncertaintiesCharacteristics (Libm.ofFinite id id id) (fun _ _ => Dbl.fin 0))
      (fun _ => Dbl.fin 1) (fun _ _ => Dbl.fin 0) emptyFiber (Dbl.fin 0) (Dbl.fin 1)
      (Dbl.fin 1) hno
    obtain ⟨⟨fw, h3, h4⟩, h5⟩ := Record_both_flags weightsAndFreeWaterTractography (fun _ => Dbl.fin 0)
      (Dbl.fin 1) (Dbl.fin 1) (Dbl.fin 1)
      (computeUncertaintiesCharacteristics (Libm.ofFinite id id id) (fun _ _ => Dbl.fin 0))
      (fun _ => Dbl.fin 1) (fun _ _ => Dbl.fin 0) emptyFiber f2 (Dbl.fin 0) (Dbl.fin 1)
      (Dbl.fin 1) rfl rfl h2
    refine ⟨f2, h2, ?_, ?_⟩
    · rw [h3]
      rw [hfw] at h4
      rw [← Option.some.inj h4]
      rfl
    · rw [h5]
      rfl

end WholeSamples

/-! ## The frame built from a single direction in `Init` -/

section SingleDirection

/-- Claim C38 (divergence): for the single detected direction `d = (0, 0, 1)`, a unit vector,
the vector `(-d[1], d[0], 0)` is the zero vector, its norm is 0, and the orientation slots 2
and 3 of the coarse state are NaN in every entry instead of unit vectors orthogonal to `d`;
slot 1 is `d`. -/
theorem coarseInit_direction_along_z (ODF : Nat → Dbl ℝ) (param : Nat → Dbl ℝ) :
    (coarseInit (Libm.ofFinite Real.exp Real.log Real.sqrt) ODF
      (singleDirection ![Dbl.fin 0, Dbl.fin 0, Dbl.fin 1])).dir_init 0 =
        ![Dbl.fin 0, Dbl.fin 0, Dbl.fin 1] ∧
    (∀ k, (coarseInit (Libm.ofFinite Real.exp Real.log Real.sqrt) ODF
      (singleDirection ![Dbl.fin 0, Dbl.fin 0, Dbl.fin 1])).dir_init 1 k = Dbl.nan) ∧
    (∀ k, (coarseInit (Libm.ofFinite Real.exp Real.log Real.sqrt) ODF
      (singleDirection ![Dbl.fin 0, Dbl.fin 0, Dbl.fin 1])).dir_init 2 k = Dbl.nan) ∧
    (∀ j, j ∈ [7, 8, 9, 14, 15, 16] →
      coarseState param (coarseInit (Libm.ofFinite Real.exp Real.log Real.sqrt) ODF
        (singleDirection ![Dbl.fin 0, Dbl.fin 0, Dbl.fin 1])) j = Dbl.nan) := by
  have hn : Vec.norm (Libm.ofFinite Real.exp Real.log Real.sqrt)
      (![-(Dbl.fin 0), Dbl.fin 0, Dbl.fin 0] : Vec ℝ 3) = Dbl.fin 0 := by
    unfold Vec.norm
    rw [dot3]
    show (Libm.ofFinite Real.exp Real.log Real.sqrt).sqrt
      (Dbl.fin (0 + -0 * -0 + 0 * 0 + 0 * 0)) = _
    show (if (0 + -0 * -0 + 0 * 0 + 0 * 0 : ℝ) < 0 then Dbl.nan
      else Dbl.fin (Real.sqrt (0 + -0 * -0 + 0 * 0 + 0 * 0))) = _
    rw [if_neg (by norm_num)]
    congr 1
    norm_num
  have ho : Vec.divs (![-(Dbl.fin 0), Dbl.fin 0, Dbl.fin 0] : Vec ℝ 3)
      (Vec.norm (Libm.ofFinite Real.exp Real.log Real.sqrt)
        (![-(Dbl.fin 0), Dbl.fin 0, Dbl.fin 0] : Vec ℝ 3)) = fun _ => Dbl.nan := by
    rw [hn]
    funext k
    fin_cases k
    · show Dbl.fin (-0) / Dbl.fin (0 : ℝ) = Dbl.nan
      show (if (0 : ℝ) = 0 then Dbl.infTimes true (-0 : ℝ) else _) = _
      rw [if_pos rfl]
      simp [Dbl.infTimes]
    · show Dbl.fin 0 / Dbl.fin (0 : ℝ) = Dbl.nan
      show (if (0 : ℝ) = 0 then Dbl.infTimes true (0 : ℝ) else _) = _
      rw [if_pos rfl]
      simp [Dbl.infTimes]
    · show Dbl.fin 0 / Dbl.fin (0 : ℝ) = Dbl.nan
      show (if (0 : ℝ) = 0 then Dbl.infTimes true (0 : ℝ) else _) = _
      rw [if_pos rfl]
      simp [Dbl.infTimes]
  have hc : ∀ (a : Vec ℝ 3) (c : Dbl ℝ),
      Vec.divs (cross a (fun _ => Dbl.nan)) c = fun _ => Dbl.nan := by
    intro a c
    funext k
    fin_cases k <;> simp [Vec.divs, cross]
  have h1 : (coarseInit (Libm.ofFinite Real.exp Real.log Real.sqrt) ODF
      (singleDirection ![Dbl.fin 0, Dbl.fin 0, Dbl.fin 1])).dir_init 1 = fun _ => Dbl.nan := by
    unfold coarseInit
    simp only [singleDirection, if_true]
    show Vec.divs _ _ = _
    exact ho
  have h2 : (coarseInit (Libm.ofFinite Real.exp Real.log Real.sqrt) ODF
      (singleDirection ![Dbl.fin 0, Dbl.fin 0, Dbl.fin 1])).dir_init 2 = fun _ => Dbl.nan := by
    unfold coarseInit
    simp only [singleDirection, if_true]
    have ho2 : Vec.divs (![-((![Dbl.fin 0, Dbl.fin 0, Dbl.fin 1] : Vec ℝ 3) 1),
        (![Dbl.fin 0, Dbl.fin 0, Dbl.fin 1] : Vec ℝ 3) 0, Dbl.fin 0] : Vec ℝ 3)
        (Vec.norm (Libm.ofFinite Real.exp Real.log Real.sqrt)
          (![-((![Dbl.fin 0, Dbl.fin 0, Dbl.fin 1] : Vec ℝ 3) 1),
            (![Dbl.fin 0, Dbl.fin 0, Dbl.fin 1] : Vec ℝ 3) 0, Dbl.fin 0] : Vec ℝ 3)) =
        fun _ => Dbl.nan := ho
    rw [ho2]
    exact hc _ _
  refine ⟨rfl, fun k => congrFun h1 k, fun k => congrFun h2 k, fun j hj => ?_⟩
  simp only [List.mem_cons, List.mem_singleton, List.not_mem_nil, or_false] at hj
  rcases hj with rfl | rfl | rfl | rfl | rfl | rfl
  · exact congrFun h1 0
  · exact congrFun h1 1
  · exact congrFun h1 2
  · exact congrFun h2 0
  · exact congrFun h2 1
  · exact congrFun h2 2

end SingleDirection

/-! ## The free-water entry seen by the records inside the loop of `Follow3T` -/

section LoopFreeWater

variable {α : Type} [LinearOrderedField α]

theorem not_negative_of_clamped (state : Nat → Dbl α)
    (h : state 24 = Dbl.nan ∨ ∃ w : α, state 24 = Dbl.fin w ∧ 0 ≤ w ∧ w ≤ 1) :
    ¬ (Dbl.fin 1 - state 24 < Dbl.fin 0) := by
  rcases h with h | ⟨w, h, _, h1⟩
  · rw [h]; simp
  · rw [h, Dbl.fin_sub_fin, Dbl.fin_lt_fin]
    linarith

theorem followRecord_not_thrown (T : Tractography α) (v : FollowVars α)
    (h24 : v.state 24 = Dbl.nan ∨ ∃ w : α, v.state 24 = Dbl.fin w ∧ 0 ≤ w ∧ w ≤ 1) :
    followRecord T v ≠ Except.error Fault.thrown := by
  by_cases hspr : T._steps_per_record = 0
  · unfold followRecord
    simp only [if_pos hspr]
    intro h
    cases h
  · obtain ⟨w, hw, _⟩ := followRecord_returns T v hspr h24
    rw [hw]
    intro h
    cases h

theorem followPass_not_thrown (T : Tractography α) (v : FollowVars α) :
    followPass T v ≠ Except.error Fault.thrown := by
  by_cases hs : stopCondition T (followStep T v)
  · rw [followPass_stop T v hs]
    intro h
    cases h
  · rw [followPass_continue T v hs]
    have hr := followRecord_not_thrown T { followStep T v with is_discarded := 0 }
      (followStep_state24 T v)
    cases hf : followRecord T { followStep T v with is_discarded := 0 } with
    | error e =>
      intro h
      apply hr
      rw [hf]
      cases h
      rfl
    | ok w =>
      intro h
      cases h

theorem followLoop_not_thrown (T : Tractography α) (fuel : Nat) (v : FollowVars α) :
    followLoop T fuel v ≠ Except.error Fault.thrown := by
  induction fuel generalizing v with
  | zero =>
    intro h
    cases h
  | succ n ih =>
    unfold followLoop
    have hp := followPass_not_thrown T v
    cases hf : followPass T v with
    | error e =>
      intro h
      apply hp
      rw [hf]
      cases h
      rfl
    | ok r =>
      obtain ⟨w, b⟩ := r
      cases b
      · exact ih w
      · intro h
        cases h

/-- Claim C39, amended: in every pass of the loop of `Follow3T`, from any variables `v` and
for any estimator, the state that `Step3T` leaves for the record of the pass has a free-water
entry `state[24]` that is NaN or lies in `[0, 1]`; `1 - state[24]` is not negative, the
free-water block of `Record` appends it unchanged, and neither the pass nor the loop, with any
number of passes granted, ends in the `throw` of `Record`. -/
theorem followPass_free_water_clamped (T : Tractography α) (v : FollowVars α) (fuel : Nat) :
    ((followStep T v).state 24 = Dbl.nan ∨
      ∃ w : α, (followStep T v).state 24 = Dbl.fin w ∧ 0 ≤ w ∧ w ≤ 1) ∧
    ¬ (Dbl.fin 1 - (followStep T v).state 24 < Dbl.fin 0) ∧
    recordFreeWater (followStep T v).state = some (Dbl.fin 1 - (followStep T v).state 24) ∧
    followRecord T { followStep T v with is_discarded := 0 } ≠ Except.error Fault.thrown ∧
    followPass T v ≠ Except.error Fault.thrown ∧
    followLoop T fuel v ≠ Except.error Fault.thrown :=
  ⟨followStep_state24 T v,
    not_negative_of_clamped _ (followStep_state24 T v),
    recordFreeWater_unchanged _ (not_negative_of_clamped _ (followStep_state24 T v)),
    followRecord_not_thrown T _ (followStep_state24 T v),
    followPass_not_thrown T v,
    followLoop_not_thrown T fuel v⟩

end LoopFreeWater

section NaNFreeWater

theorem Record_appends_free_water {α : Type} [LinearOrderedField α] (T : Tractography α)
    (x : Vec α 3) (fa fa2 fa3 : Dbl α)
    (u : Uncertainties α) (state : Nat → Dbl α) (p : Nat → Nat → Dbl α) (fiber : UKFFiber α)
    (dNormMSE trace trace2 : Dbl α) (hfw : T._record_free_water = true)
    (hw : T._record_weights = false) (h2 : ¬ (Dbl.fin 1 - state 24 < Dbl.fin 0)) :
    ∃ fiber', Record T x fa fa2 fa3 u state p fiber dNormMSE trace trace2 = some fiber' ∧
      fiber'.free_water = fiber.free_water ++ [Dbl.fin 1 - state 24] := by
  unfold Record
  simp only [hfw, if_true, recordFreeWater_unchanged state h2]
  refine ⟨_, rfl, ?_⟩
  rw [recordTail_free_water]
  show (recordHead T x fa fa2 fa3 state p fiber dNormMSE trace trace2).free_water ++ _ = _
  rw [recordHead_free_water, hw]
  simp

theorem followRecord_of_Record {α : Type} [LinearOrderedField α] (T : Tractography α)
    (v : FollowVars α) (fiber' : UKFFiber α) (hspr : T._steps_per_record ≠ 0)
    (hmod : Int.tmod (v.stepnr + 1) T._steps_per_record = 0)
    (hR : Record T v.x v.rtop1 v.rtop2 v.rtop3 v.unc v.state v.p v.fiber v.dNormMSE
      v.rtopModel v.rtopSignal = some fiber') :
    ∃ w, followRecord T v = Except.ok w ∧ w.fiber = fiber' ∧ w.stepnr = v.stepnr := by
  unfold followRecord
  simp only [if_neg hspr]
  by_cases hsz : v.fiber_length ≥ v.fiber_size
  · simp only [hsz, if_true, hmod, hR]
    exact ⟨_, rfl, rfl, rfl⟩
  · simp only [hsz, if_false, hmod, if_true, hR]
    exact ⟨_, rfl, rfl, rfl⟩

theorem nanFreeWater_state (fiber : UKFFiber ℚ) :
    (followStep nanFreeWaterTractography (nanFreeWaterEntry fiber)).state =
      assignEntry (fun _ => Dbl.fin (1 : ℚ)) 24 Dbl.nan := by
  show clampState (assignEntry (fun _ => Dbl.fin (1 : ℚ)) 24 Dbl.nan) = _
  funext k
  by_cases hk : k = 24
  · subst hk
    rcases clampState_24 (assignEntry (fun _ => Dbl.fin (1 : ℚ)) 24 Dbl.nan) with h | ⟨w, h, _, _⟩
    · rw [h]; rfl
    · rw [clampState_apply, if_pos (by omega)] at h
      exact absurd h (by simp [assignEntry, Dbl.max, Dbl.min])
  · have h1 : assignEntry (fun _ => Dbl.fin (1 : ℚ)) 24 Dbl.nan k = Dbl.fin 1 := by
      simp [assignEntry, hk]
    rw [h1, clampState_apply]
    split_ifs with h
    · have h2 : clampState (fun _ => Dbl.fin (1 : ℚ)) k = Dbl.fin 1 := by
        rw [clampState_ones]
      rw [clampState_apply, if_pos h] at h2
      rw [h1]
      exact h2
    · exact h1


theorem nanFreeWater_rtop1 (fiber : UKFFiber ℚ) :
    (followStep nanFreeWaterTractography (nanFreeWaterEntry fiber)).rtop1
      = Dbl.fin 5000000000000 := by
  have h : (followStep nanFreeWaterTractography (nanFreeWaterEntry fiber)).rtop1 =
      (rtopOfState (Libm.ofFinite id id id) (Dbl.fin (3 / 1000)) (Dbl.fin 5)
        (followStep nanFreeWaterTractography (nanFreeWaterEntry fiber)).state).rtop1 := rfl
  rw [h, nanFreeWater_state]
  have h2 : (rtopOfState (Libm.ofFinite id id id) (Dbl.fin (3 / 1000)) (Dbl.fin 5)
      (assignEntry (fun _ => Dbl.fin (1 : ℚ)) 24 Dbl.nan)).rtop1 =
      (rtopOfState (Libm.ofFinite id id id) (Dbl.fin (3 / 1000)) (Dbl.fin 5)
        (clampState (fun _ => Dbl.fin (1 : ℚ)))).rtop1 := by
    rw [clampState_ones]
    rfl
  rw [h2]
  exact rtop1_ones

theorem nanFreeWater_not_stop (fiber : UKFFiber ℚ) :
    ¬ stopCondition nanFreeWaterTractography
      (followStep nanFreeWaterTractography (nanFreeWaterEntry fiber)) := by
  unfold stopCondition
  simp only [not_or]
  refine ⟨?_, ?_, ?_, ?_, ?_, ?_, ?_⟩
  · rw [not_not]
    show (Dbl.fin 1 : Dbl ℚ) > Dbl.fin 0
    simp
  · intro h
    exact absurd h.1 (by simp [nanFreeWaterTractography, sampleTractography])
  · show ¬ ((Dbl.fin 0 : Dbl ℚ) > Dbl.fin 1)
    simp
  · show ¬ ((Dbl.fin 10 : Dbl ℚ) < Dbl.fin 0)
    simp
  · rw [nanFreeWater_rtop1]
    show ¬ ((Dbl.fin 5000000000000 : Dbl ℚ) < Dbl.fin 0)
    simp
  · rw [nanFreeWater_state]
    show ¬ (Dbl.fin 1 < (Dbl.nan : Dbl ℚ))
    simp
  · show ¬ ((1 : Int) < 0 + 1)
    decide

/-- Claim C39 fails as stated: with an estimator that returns NaN in the free-water entry,
the clamping of `computeRTOPfromState` leaves the NaN in place, so the state of the first pass
of the loop of `Follow3T` has `state[24] = NaN`, which is not in `[0, 1]`; no stop condition
holds, `Record` is called with this state and appends `1 - NaN = NaN` to `free_water` after
the 0 of the start point. -/
theorem Follow3T_records_nan_free_water :
    ∃ f₀, recordStart nanFreeWaterTractography (sampleSeed 1) emptyFiber = some f₀ ∧
      (followStep nanFreeWaterTractography (nanFreeWaterEntry f₀)).state 24 = Dbl.nan ∧
      ¬ (∃ w : ℚ, (followStep nanFreeWaterTractography (nanFreeWaterEntry f₀)).state 24
          = Dbl.fin w ∧ 0 ≤ w ∧ w ≤ 1) ∧
      ∃ r, Follow3T nanFreeWaterTractography 2 (sampleSeed 1) emptyFiber 0
          (fun _ => Dbl.nan) (fun _ => Dbl.nan) = Except.ok r ∧
        r.fiber.free_water = [Dbl.fin 0, Dbl.nan] := by
  obtain ⟨f₀, hf₀, hfw₀⟩ := Record_appends_free_water nanFreeWaterTractography
    (sampleSeed (1 : ℚ)).point (sampleSeed (1 : ℚ)).fa (sampleSeed (1 : ℚ)).fa2
    (sampleSeed (1 : ℚ)).fa3
    (computeUncertaintiesCharacteristics nanFreeWaterTractography.libm
      (sampleSeed (1 : ℚ)).covariance)
    (sampleSeed (1 : ℚ)).state (sampleSeed (1 : ℚ)).covariance emptyFiber (Dbl.fin 0)
    (sampleSeed (1 : ℚ)).trace (sampleSeed (1 : ℚ)).trace2 rfl rfl
    (by
      show ¬ ((Dbl.fin 1 - Dbl.fin 1 : Dbl ℚ) < Dbl.fin 0)
      rw [Dbl.fin_sub_fin, Dbl.fin_lt_fin]
      norm_num)
  have h24 : (followStep nanFreeWaterTractography (nanFreeWaterEntry f₀)).state 24 = Dbl.nan := by
    rw [nanFreeWater_state]
    rfl
  have hrs : recordStart nanFreeWaterTractography (sampleSeed 1) emptyFiber = some f₀ := hf₀
  have hns := nanFreeWater_not_stop f₀
  obtain ⟨f₁, hf₁, hfw₁⟩ := Record_appends_free_water nanFreeWaterTractography
    (followStep nanFreeWaterTractography (nanFreeWaterEntry f₀)).x
    (followStep nanFreeWaterTractography (nanFreeWaterEntry f₀)).rtop1
    (followStep nanFreeWaterTractography (nanFreeWaterEntry f₀)).rtop2
    (followStep nanFreeWaterTractography (nanFreeWaterEntry f₀)).rtop3
    (followStep nanFreeWaterTractography (nanFreeWaterEntry f₀)).unc
    (followStep nanFreeWaterTractography (nanFreeWaterEntry f₀)).state
    (followStep nanFreeWaterTractography (nanFreeWaterEntry f₀)).p
    f₀
    (followStep nanFreeWaterTractography (nanFreeWaterEntry f₀)).dNormMSE
    (followStep nanFreeWaterTractography (nanFreeWaterEntry f₀)).rtopModel
    (followStep nanFreeWaterTractography (nanFreeWaterEntry f₀)).rtopSignal rfl rfl
    (by rw [h24]; simp)
  obtain ⟨w₁, hw₁, hw₁f, hw₁s⟩ := followRecord_of_Record nanFreeWaterTractography
    { followStep nanFreeWaterTractography (nanFreeWaterEntry f₀) with is_discarded := 0 } f₁
    (by show (1 : Int) ≠ 0; decide) (by show Int.tmod ((0 + 1) + 1) 1 = 0; decide) hf₁
  have hstop₂ : stopCondition nanFreeWaterTractography
      (followStep nanFreeWaterTractography w₁) := by
    refine Or.inr (Or.inr (Or.inr (Or.inr (Or.inr (Or.inr ?_)))))
    show (1 : Int) < w₁.stepnr + 1
    rw [hw₁s]
    show (1 : Int) < (0 + 1) + 1
    decide
  refine ⟨f₀, hrs, h24, ?_, ?_⟩
  · rintro ⟨w, hw, _⟩
    rw [h24] at hw
    exact Dbl.noConfusion hw
  · refine ⟨{ followStep nanFreeWaterTractography w₁ with
      is_discarded := discardFlag nanFreeWaterTractography
        (followStep nanFreeWaterTractography w₁) }, ?_, ?_⟩
    · unfold Follow3T
      rw [hrs]
      show followLoop nanFreeWaterTractography 2 (nanFreeWaterEntry f₀) = _
      unfold followLoop
      rw [followPass_continue _ _ hns, hw₁]
      unfold followLoop
      rw [followPass_stop _ _ hstop₂]
    · show w₁.fiber.free_water = _
      rw [hw₁f, hfw₁, hfw₀, h24]
      show ([] ++ [Dbl.fin 1 - Dbl.fin (1 : ℚ)] ++ [Dbl.fin 1 - Dbl.nan] : List (Dbl ℚ)) = _
      rw [Dbl.fin_sub_fin, Dbl.sub_nan]
      norm_num

end NaNFreeWater

/-- Claim C35 fails as stated: for `old_dir = (1, 0, 0)`, `m1 = (0, 1, 0)`, `m2 = (1, 0, 0)`
and an orientation `m3` whose entries are NaN, the dot products are 0, 1 and NaN; both tests
of the block are false (`NaN < 1` and `0 < NaN` are), no swap is made, and the primary
orientation stays `m1` although `m2` has the larger dot product with `old_dir`. -/
theorem Step3T_reorder_nan_orientation :
    ∃ r, Step3T_reorder (fun j => Dbl.fin ((![1, 0, 0] : Fin 3 → ℚ) j))
        (fun j => Dbl.fin ((![0, 1, 0] : Fin 3 → ℚ) j)) (fun _ => Dbl.fin 1)
        (fun j => Dbl.fin ((![1, 0, 0] : Fin 3 → ℚ) j)) (fun _ => Dbl.fin 1)
        (fun _ => Dbl.nan) (fun _ => Dbl.fin 1)
        (fun _ => Dbl.fin 0) (fun _ _ => Dbl.fin 0) = some r ∧
      r.swapCalls = [] ∧
      r.m1 = (fun j => Dbl.fin ((![0, 1, 0] : Fin 3 → ℚ) j)) ∧
      Vec.dot r.m1 (fun j => Dbl.fin ((![1, 0, 0] : Fin 3 → ℚ) j)) = Dbl.fin 0 ∧
      Vec.dot (fun j => Dbl.fin ((![1, 0, 0] : Fin 3 → ℚ) j) : Vec ℚ 3)
        (fun j => Dbl.fin ((![1, 0, 0] : Fin 3 → ℚ) j)) = Dbl.fin 1 ∧
      Vec.dot (fun _ => Dbl.nan : Vec ℚ 3)
        (fun j => Dbl.fin ((![1, 0, 0] : Fin 3 → ℚ) j)) = Dbl.nan := by
  have d1 : Vec.dot (fun j => Dbl.fin ((![0, 1, 0] : Fin 3 → ℚ) j) : Vec ℚ 3)
      (fun j => Dbl.fin ((![1, 0, 0] : Fin 3 → ℚ) j)) = Dbl.fin 0 := by
    rw [LFBGSB.dot_fin]
    congr 1
    simp [Fin.sum_univ_three]
  have d2 : Vec.dot (fun j => Dbl.fin ((![1, 0, 0] : Fin 3 → ℚ) j) : Vec ℚ 3)
      (fun j => Dbl.fin ((![1, 0, 0] : Fin 3 → ℚ) j)) = Dbl.fin 1 := by
    rw [LFBGSB.dot_fin]
    congr 1
    simp [Fin.sum_univ_three]
  have d3 : Vec.dot (fun _ => Dbl.nan : Vec ℚ 3)
      (fun j => Dbl.fin ((![1, 0, 0] : Fin 3 → ℚ) j)) = Dbl.nan := by
    rw [dot3]
    simp
  have hval : Step3T_reorder (fun j => Dbl.fin ((![1, 0, 0] : Fin 3 → ℚ) j))
      (fun j => Dbl.fin ((![0, 1, 0] : Fin 3 → ℚ) j)) (fun _ => Dbl.fin 1)
      (fun j => Dbl.fin ((![1, 0, 0] : Fin 3 → ℚ) j)) (fun _ => Dbl.fin 1)
      (fun _ => Dbl.nan) (fun _ => Dbl.fin 1)
      (fun _ => Dbl.fin 0) (fun _ _ => Dbl.fin 0) =
      some (Reordered.mk (fun j => Dbl.fin ((![0, 1, 0] : Fin 3 → ℚ) j)) (fun _ => Dbl.fin 1)
        (fun j => Dbl.fin ((![1, 0, 0] : Fin 3 → ℚ) j)) (fun _ => Dbl.fin 1)
        (fun _ => Dbl.nan) (fun _ => Dbl.fin 1)
        (fun _ => Dbl.fin 0) (fun _ _ => Dbl.fin 0) []) := by
    unfold Step3T_reorder
    simp only [d1, d2, d3]
    rw [if_neg (fun h => absurd h.2 (Dbl.not_nan_lt _)), if_neg (Dbl.not_lt_nan _)]
  exact ⟨_, hval, rfl, rfl, d1, d2, d3⟩

/-! ## The closed form of the specification and `computeRTOPfromState` -/

section ClosedForm

theorem sqrt_real_sq (L : Libm ℝ) (hL : L = Libm.ofFinite Real.exp Real.log Real.sqrt)
    (a b : ℝ) (hb : 0 ≤ b) (hab : a = b * b) : L.sqrt (Dbl.fin a) = Dbl.fin b := by
  subst hL
  show (if a < 0 then Dbl.nan else Dbl.fin (Real.sqrt a)) = _
  have ha : ¬ a < 0 := by
    rw [hab]
    exact not_lt.2 (mul_self_nonneg b)
  rw [if_neg ha, hab, Real.sqrt_mul_self hb]

/-- Claim C9 (divergence): for the state with `w1 = 1`, `w2 = w3 = w_iso = 0` and every
diffusivity 1 (inside the ranges), `D_ISO = 0.003` and the real square root,
`computeRTOPfromState` returns `rtop = pi^1.5 * 1e6`: the value
`pi^1.5 * (0.7 / sqrt(l1 * l2) + 0.3 / sqrt(l3 * l4))` with the products of two scaled
diffusivities under the roots.  The closed form of the specification, with the determinants
`l1 * l2 * l2` and `l3 * l4 * l4` of the tensors, is `pi^1.5 * 1e9`, a different number. -/
theorem computeRTOPfromState_not_with_determinants :
    (computeRTOPfromState (Libm.ofFinite Real.exp Real.log Real.sqrt) (Dbl.fin (3 / 1000))
        (Dbl.fin (Real.pi ^ (3 / 2 : ℝ)))
        (fun k => Dbl.fin (if 22 ≤ k then 0 else 1))).2.rtop
      = Dbl.fin (Real.pi ^ (3 / 2 : ℝ) * 10 ^ 6) ∧
    rtopClosedForm (Libm.ofFinite Real.exp Real.log Real.sqrt)
        (Dbl.fin (Real.pi ^ (3 / 2 : ℝ))) (Dbl.fin 1) (Dbl.fin 1) (Dbl.fin 1) (Dbl.fin 1)
        (Dbl.fin 1)
      = Dbl.fin (Real.pi ^ (3 / 2 : ℝ) * 10 ^ 9) ∧
    Real.pi ^ (3 / 2 : ℝ) * 10 ^ 6 ≠ Real.pi ^ (3 / 2 : ℝ) * 10 ^ 9 := by
  have hs6 : (Libm.ofFinite Real.exp Real.log Real.sqrt).sqrt
      (Dbl.fin ((1 : ℝ) * (1 / 10 ^ 6) * (1 * (1 / 10 ^ 6)))) = Dbl.fin (1 / 10 ^ 6) :=
    sqrt_real_sq _ rfl _ _ (by positivity) (by norm_num)
  have hs9 : (Libm.ofFinite Real.exp Real.log Real.sqrt).sqrt
      (Dbl.fin ((1 : ℝ) * (1 / 10 ^ 6) * (1 * (1 / 10 ^ 6)) * (1 * (1 / 10 ^ 6))))
        = Dbl.fin (1 / 10 ^ 9) :=
    sqrt_real_sq _ rfl _ _ (by positivity) (by norm_num)
  refine ⟨?_, ?_, ?_⟩
  · rw [rtop_single_compartment (Libm.ofFinite Real.exp Real.log Real.sqrt)
      (Dbl.fin (3 / 1000)) (Dbl.fin (Real.pi ^ (3 / 2 : ℝ)))
      (fun k => Dbl.fin (if 22 ≤ k then 0 else 1)) (fun k => if 22 ≤ k then 0 else 1)
      (3 / 1000) (Real.pi ^ (3 / 2 : ℝ))
      (fun a ha => ⟨Real.sqrt a, Real.sqrt_pos.2 ha, by
        show (if a < 0 then Dbl.nan else Dbl.fin (Real.sqrt a)) = Dbl.fin (Real.sqrt a)
        rw [if_neg (not_lt.2 ha.le)]⟩)
      rfl (by norm_num) rfl (fun _ => rfl)
      (fun k hk => by
        have h1 : ¬ (22 ≤ k) := by omega
        simp only [h1, if_false]
        unfold rangeLo rangeHi
        split_ifs <;> first | omega | norm_num)
      (by simp) (by simp) (by simp) (by simp)]
    have e3 : (if 22 ≤ 3 then (0 : ℝ) else 1) = 1 := by norm_num
    have e4 : (if 22 ≤ 4 then (0 : ℝ) else 1) = 1 := by norm_num
    have e5 : (if 22 ≤ 5 then (0 : ℝ) else 1) = 1 := by norm_num
    have e6 : (if 22 ≤ 6 then (0 : ℝ) else 1) = 1 := by norm_num
    simp only [e3, e4, e5, e6, Dbl.fin_mul_fin, hs6]
    rw [Dbl.fin_div_fin _ _ (by positivity), Dbl.fin_div_fin _ _ (by positivity),
      Dbl.fin_add_fin, Dbl.fin_mul_fin]
    congr 1
    norm_num
  · unfold rtopClosedForm
    simp only [Dbl.fin_mul_fin, hs9]
    rw [Dbl.fin_div_fin _ _ (by positivity), Dbl.fin_div_fin _ _ (by positivity),
      Dbl.fin_add_fin, Dbl.fin_mul_fin]
    congr 1
    norm_num
  · have hp : (0 : ℝ) < Real.pi ^ (3 / 2 : ℝ) := Real.rpow_pos_of_pos Real.pi_pos _
    intro h
    have := mul_left_cancel₀ hp.ne' h
    norm_num at this

end ClosedForm

/-! ## The seeds of two starting points under two threads -/


/-- Claim C17 (divergence): two accepted starting points, at 0 and at 1, with one detected
direction each, one per thread.  The pass for each appends a seed and its twin, and
`seed_infos` can end as seed of 0, seed of 1, twin of 0, twin of 1: the two records of the
starting point 0 are at the positions 0 and 2, and the record that follows the seed of 0
belongs to the starting point 1. -/
theorem Init_two_threads_split_pair :
    ∃ a a' b b' : SeedPointInfo ℚ Nat,
      seedsOfStartingPoint sampleSeedConfig (sampleStartingPoint 0).point
          (sampleStartingPoint 0).param (sampleStartingPoint 0).signal (sampleStartingPoint 0).ODF
          (sampleStartingPoint 0).s2ga_value (sampleStartingPoint 0).maxima = some [a, a'] ∧
      seedsOfStartingPoint sampleSeedConfig (sampleStartingPoint 1).point
          (sampleStartingPoint 1).param (sampleStartingPoint 1).signal (sampleStartingPoint 1).ODF
          (sampleStartingPoint 1).s2ga_value (sampleStartingPoint 1).maxima = some [b, b'] ∧
      InitWithTwoThreads sampleSeedConfig [sampleStartingPoint 0] [sampleStartingPoint 1]
        [a, b, a', b'] ∧
      a.point = 0 ∧ a'.point = 0 ∧ b.point = 1 ∧ b'.point = 1 ∧
      [a, b, a', b'][1]? = some b ∧ b.point ≠ a.point := by
  have key : ∀ pt : Nat, ∃ s t : SeedPointInfo ℚ Nat,
      seedsOfStartingPoint sampleSeedConfig (sampleStartingPoint pt).point
          (sampleStartingPoint pt).param (sampleStartingPoint pt).signal
          (sampleStartingPoint pt).ODF (sampleStartingPoint pt).s2ga_value
          (sampleStartingPoint pt).maxima = some [s, t] ∧ s.point = pt ∧ t.point = pt := by
    intro pt
    obtain ⟨st, hst⟩ := NonLinearLeastSquareOptimization_returns sampleSeedConfig.optimizer
      (coarseState (fun _ => Dbl.fin 1)
        (coarseInit sampleSeedConfig.optimizer.libm (fun _ => Dbl.fin 1) (sampleMaxima 1 1)))
      (fun _ => Dbl.fin 1)
    have htest : (if sampleSeedConfig._full_brain then (Dbl.fin 0 : Dbl ℚ) else Dbl.fin 0)
        > sampleSeedConfig._seeding_threshold ∨
        ¬ sampleSeedConfig._full_brain ∨ sampleSeedConfig._is_seeds := Or.inr (Or.inr rfl)
    unfold seedsOfStartingPoint
    simp only [sampleStartingPoint, if_pos htest]
    unfold seedsOfPoint
    have h10 : ¬ (1 < (sampleMaxima 1 1).n_of_dirs) := by decide
    simp only [hst, h10, if_false]
    exact ⟨_, _, rfl, rfl, rfl⟩
  obtain ⟨a, a', ha, hpa, hpa'⟩ := key 0
  obtain ⟨b, b', hb, hpb, hpb'⟩ := key 1
  refine ⟨a, a', b, b', ha, hb, ⟨[a, a'], [b, b'], ?_, ?_, ?_⟩, hpa, hpa', hpb, hpb', rfl, ?_⟩
  · simp only [seedsOfChunk, ha, List.append_nil]
  · simp only [seedsOfChunk, hb, List.append_nil]
  · exact Interleaving.left a (Interleaving.right b (Interleaving.left a'
      (Interleaving.right b' Interleaving.nil)))
  · rw [hpa, hpb]
    decide

/-! ## Work partitioner: sums beyond the range of `int` -/

section PartitionerOverflow

theorem workLoop_wrapped (fuel : Nat) (hf : 4 ≤ fuel) (i : Nat) (hi : i < 2147483647) :
    workLoop 2147483647 2 fuel (i : Int) [] = some (wrappedWorkList i) := by
  obtain ⟨f, rfl⟩ : ∃ f, fuel = f + 4 := ⟨fuel - 4, by omega⟩
  unfold wrappedWorkList
  by_cases h0 : i = 0
  · subst h0
    have e1 : wrapInt32 (((0 : Nat) : Int) + 2147483647) = 2147483647 := by
      unfold wrapInt32; norm_num
    unfold workLoop
    rw [if_pos (by norm_num), e1]
    unfold workLoop
    rw [if_neg (by norm_num)]
    rfl
  · by_cases h1 : i = 1
    · subst h1
      have e1 : wrapInt32 (((1 : Nat) : Int) + 2147483647) = -2147483648 := by
        unfold wrapInt32; norm_num
      have e2 : wrapInt32 (-2147483648 + 2147483647) = -1 := by
        unfold wrapInt32; norm_num
      have e3 : wrapInt32 (-1 + 2147483647) = 2147483646 := by
        unfold wrapInt32; norm_num
      unfold workLoop
      rw [if_pos (by norm_num), e1]
      unfold workLoop
      rw [if_pos (by norm_num), e2]
      unfold workLoop
      rw [if_pos (by norm_num), e3]
      unfold workLoop
      rw [if_neg (by norm_num)]
      simp
    · unfold workLoop
      rw [if_neg (by omega), if_neg h0, if_neg h1]

theorem GenerateWorkDistribution_wrapped (fuel : Nat) (hf : 4 ≤ fuel) :
    GenerateWorkDistribution fuel 2147483647 2
      = some ((List.range 2147483647).map wrappedWorkList) := by
  have ht : (2147483647 : Int).toNat = 2147483647 := rfl
  unfold GenerateWorkDistribution
  rw [if_neg (by norm_num), ht]
  have h := workFor_eq 2147483647 2 fuel wrappedWorkList 2147483647 0 [] rfl
    (fun j hj => by
      rw [Nat.zero_add]
      exact workLoop_wrapped fuel hf j hj)
  rw [List.nil_append, List.nil_append] at h
  rw [h]
  congr 2
  funext j
  rw [Nat.zero_add]


theorem wrappedWorkList_mem (i : Nat) (hi : i < 2147483647) :
    wrappedWorkList i ∈ (List.range 2147483647).map wrappedWorkList :=
  List.mem_map.2 ⟨i, List.mem_range.2 hi, rfl⟩

/-- Claim C1 fails as stated: for `numWorkers = 2147483647` and `numItems = 2` the sum
`1 + 2147483647` of worker 1 leaves the range of `int`; with the wrap to `-2147483648` the
loop goes on, and the lists returned contain `-2147483648`, which is not an index: they are
not a rearrangement of `0, 1`. -/
theorem GenerateWorkDistribution_overflow_values :
    ∃ d : List (List Int),
      (∀ fuel : Nat, 4 ≤ fuel → GenerateWorkDistribution fuel 2147483647 2 = some d) ∧
      (-2147483648 : Int) ∈ d.flatten ∧ ¬ d.flatten.Perm [0, 1] := by
  have hmem : (-2147483648 : Int) ∈ ((List.range 2147483647).map wrappedWorkList).flatten :=
    List.mem_flatten.2 ⟨wrappedWorkList 1, wrappedWorkList_mem 1 (by norm_num), by
      simp [wrappedWorkList]⟩
  refine ⟨_, fun fuel hf => GenerateWorkDistribution_wrapped fuel hf, hmem, fun hperm => ?_⟩
  have := hperm.subset hmem
  simp at this

/-- Claim C7 fails as stated: for `numWorkers = 2147483647` and `numItems = 2` the list of
worker 1 has three entries (`1`, and after the overflow `-2147483648` and `-1`) and the list
of worker 2 has none. -/
theorem GenerateWorkDistribution_overflow_lengths :
    ∃ d : List (List Int),
      (∀ fuel : Nat, 4 ≤ fuel → GenerateWorkDistribution fuel 2147483647 2 = some d) ∧
      ∃ l₁ ∈ d, ∃ l₂ ∈ d, l₁.length = 3 ∧ l₂.length = 0 :=
  ⟨_, fun fuel hf => GenerateWorkDistribution_wrapped fuel hf,
    wrappedWorkList 1, wrappedWorkList_mem 1 (by norm_num),
    wrappedWorkList 2, wrappedWorkList_mem 2 (by norm_num), rfl, rfl⟩

/-- Claim C8 fails as stated: for `numWorkers = 2147483647` and `numItems = 2` the only value
`1 + k * numWorkers` below `numItems` is `1`, but the list of worker 1 is
`1, -2147483648, -1`. -/
theorem GenerateWorkDistribution_overflow_worker :
    ∃ d : List (List Int),
      (∀ fuel : Nat, 4 ≤ fuel → GenerateWorkDistribution fuel 2147483647 2 = some d) ∧
      d[1]? = some [1, -2147483648, -1] ∧
      (∀ k : Nat, k < 1 ↔ (1 : Int) + (k : Int) * 2147483647 < 2) ∧
      strided 1 2147483647 1 = [1] := by
  refine ⟨_, fun fuel hf => GenerateWorkDistribution_wrapped fuel hf, ?_, fun k => ?_, ?_⟩
  · rw [List.getElem?_map, List.getElem?_range (by norm_num)]
    rfl
  · omega
  · rfl

theorem workLoop_never_returns (fuel : Nat) :
    ∀ (iter : Int) (acc : List Int), iter % 2 = 0 → -2 ^ 31 ≤ iter → iter < 2 ^ 31 →
      workLoop 2 2147483647 fuel iter acc = none := by
  induction fuel with
  | zero => intro iter acc _ _ _; rfl
  | succ fuel ih =>
    intro iter acc hev hlo hhi
    unfold workLoop
    rw [if_pos (by omega)]
    apply ih
    · unfold wrapInt32; omega
    · unfold wrapInt32; omega
    · unfold wrapInt32; omega

/-- For `numWorkers = 2` and `numItems = 2147483647` the loop of worker 0 does not end: `iter`
stays even, the wrap keeps it in the range of `int`, and every even `int` is below
`numItems`.  No fuel makes `GenerateWorkDistribution` return. -/
theorem GenerateWorkDistribution_no_return (fuel : Nat) :
    GenerateWorkDistribution fuel 2 2147483647 = none := by
  unfold GenerateWorkDistribution
  rw [if_neg (by norm_num)]
  show workFor 2 2147483647 fuel 2 0 [[], []] = none
  unfold workFor
  have h := workLoop_never_returns fuel 0 [] (by norm_num) (by norm_num) (by norm_num)
  show (match workLoop 2 2147483647 fuel ((0 : Nat) : Int) [] with
    | none => none
    | some work_list => workFor 2 2147483647 fuel 1 (0 + 1) ([[], []].set 0 work_list)) = none
  rw [show ((0 : Nat) : Int) = 0 from rfl, h]

end PartitionerOverflow

/-! ## The inverse transform in `double` arithmetic -/

section Rounding

theorem log2_eq (x : ℚ) (e : Int) (h0 : 0 < x) (h1 : (2 : ℚ) ^ e ≤ x)
    (h2 : x < (2 : ℚ) ^ (e + 1)) : Int.log 2 x = e := by
  have a := (Int.zpow_le_iff_le_log (b := 2) (by norm_num) h0).1 (by exact_mod_cast h1)
  have b := (Int.lt_zpow_iff_log_lt (b := 2) (by norm_num) h0).1 (by exact_mod_cast h2)
  omega

theorem roundHalfEven_eq (q : ℚ) (n : Int) (h : |q - n| < 1 / 2) : roundHalfEven q = n := by
  unfold roundHalfEven
  have hf := Int.floor_le q
  have hf2 := Int.lt_floor_add_one q
  rw [abs_lt] at h
  by_cases h1 : q - ⌊q⌋ < 1 / 2
  · rw [if_pos h1]
    have h3 : ((⌊q⌋ - n : Int) : ℚ) < 1 := by push_cast; linarith
    have h4 : (-1 : ℚ) < ((⌊q⌋ - n : Int) : ℚ) := by push_cast; linarith
    have h5 : ⌊q⌋ - n < 1 := by exact_mod_cast h3
    have h6 : -1 < ⌊q⌋ - n := by exact_mod_cast h4
    omega
  · rw [if_neg h1]
    push_neg at h1
    have hn : ⌊q⌋ + 1 = n := by
      have h3 : ((⌊q⌋ + 1 - n : Int) : ℚ) < 1 := by push_cast; linarith
      have h4 : (-1 : ℚ) < ((⌊q⌋ + 1 - n : Int) : ℚ) := by push_cast; linarith
      have h5 : ⌊q⌋ + 1 - n < 1 := by exact_mod_cast h3
      have h6 : -1 < ⌊q⌋ + 1 - n := by exact_mod_cast h4
      omega
    by_cases h2 : 1 / 2 < q - ⌊q⌋
    · rw [if_pos h2, hn]
    · exfalso
      have h8 : q - ⌊q⌋ = 1 / 2 := le_antisymm (not_lt.1 h2) h1
      have h7 : (n : ℚ) = ⌊q⌋ + 1 := by exact_mod_cast hn.symm
      rw [h7] at h
      linarith [h.1, h.2]

/-- The value of `roundToDouble` at a positive `x` of the binade `[p, 2 p)`, `p = 2 ^ e`: the
multiple `n * q` of the spacing `q = 2 ^ (e - 52)` that is nearer to `x` than half a
spacing. -/
theorem roundToDouble_eq (x p q : ℚ) (e n : Int) (hx : 0 < x) (he : -1022 ≤ e)
    (hp : (2 : ℚ) ^ e = p) (hq : (2 : ℚ) ^ (e - 52) = q)
    (h1 : p ≤ x) (h2 : x < 2 * p)
    (hn : |x / q - n| < 1 / 2) (hfin : |(n : ℚ) * q| < 2 ^ 1024) :
    roundToDouble x = Dbl.fin (n * q) := by
  have hlog : Int.log 2 |x| = e := by
    rw [abs_of_pos hx]
    apply log2_eq x e hx
    · rw [hp]; exact h1
    · rw [zpow_add_one₀ (by norm_num), hp]; linarith
  unfold roundToDouble
  rw [if_neg hx.ne']
  simp only [hlog, max_eq_left he, hq, roundHalfEven_eq _ n hn]
  rw [if_neg (not_le.2 hfin)]

theorem EPS64_eq : LFBGSB.EPS64 = Dbl.fin (4503506228394817 / 2 ^ 104) := by
  unfold LFBGSB.EPS64
  rw [roundToDouble_eq (22204 / 10 ^ 20) (1 / 2 ^ 53) (1 / 2 ^ 105) (-53) 9007012456789634
    (by norm_num) (by norm_num) (by norm_num) (by norm_num) (by norm_num) (by norm_num)
    (by rw [abs_lt]; constructor <;> norm_num) (by rw [abs_lt]; constructor <;> norm_num)]
  congr 1
  norm_num

/-- Claim C20 fails as stated: in `double` arithmetic the inverse transform leaves the box.
For the first solver coordinate of phase 1 (state entry 3, box `[1, 3000]`) and the iterate
`45.53486493049711`, whose exponential is the double `59640403567815475200`, the statement
`out = (lb + EPS + (ub - EPS) * exp(in)) / (1.0 + exp(in))` gives `3000 + 2 ^ (-41)`
(`3000.0000000000005`), above the upper end 3000 of the range of a fast diffusivity. -/
theorem invTransformAt64_above_upper_bound :
    LFBGSB.invTransformAt64 (Libm.ofFinite (fun _ => 59640403567815475200) id id)
        (Dbl.fin (lowerBound 0)) (Dbl.fin (upperBound 0))
        (Dbl.fin (4553486493049711 / 10 ^ 14))
      = Dbl.fin (3000 + 1 / 2 ^ 41) ∧
    freeIndex1 0 = 3 ∧ rangeHi 3 = (3000 : ℚ) ∧ ¬ ((3000 + 1 / 2 ^ 41 : ℚ) ≤ rangeHi 3) := by
  have hlb : (lowerBound 0 : ℚ) = 1 := rfl
  have hub : (upperBound 0 : ℚ) = 3000 := rfl
  have s1 : roundToDouble (1 + 4503506228394817 / 2 ^ 104) = Dbl.fin (1 + 1 / 2 ^ 52) := by
    rw [roundToDouble_eq (1 + 4503506228394817 / 2 ^ 104) 1 (1 / 2 ^ 52) 0 4503599627370497
      (by norm_num) (by norm_num) (by norm_num) (by norm_num) (by norm_num) (by norm_num)
      (by rw [abs_lt]; constructor <;> norm_num) (by rw [abs_lt]; constructor <;> norm_num)]
    congr 1
    norm_num
  have s2 : roundToDouble (3000 - 4503506228394817 / 2 ^ 104) = Dbl.fin 3000 := by
    rw [roundToDouble_eq (3000 - 4503506228394817 / 2 ^ 104) (2 ^ 11) (1 / 2 ^ 41) 11
      6597069766656000
      (by norm_num) (by norm_num) (by norm_num) (by norm_num) (by norm_num) (by norm_num)
      (by rw [abs_lt]; constructor <;> norm_num) (by rw [abs_lt]; constructor <;> norm_num)]
    congr 1
    norm_num
  have s3 : roundToDouble (3000 * 59640403567815475200)
      = Dbl.fin (178921210703446439624704) := by
    rw [roundToDouble_eq (3000 * 59640403567815475200) (2 ^ 77) (2 ^ 25) 77 5332267603380872
      (by norm_num) (by norm_num) (by norm_num) (by norm_num) (by norm_num) (by norm_num)
      (by rw [abs_lt]; constructor <;> norm_num) (by rw [abs_lt]; constructor <;> norm_num)]
    congr 1
    norm_num
  have s4 : roundToDouble (1 + 1 / 2 ^ 52 + 178921210703446439624704)
      = Dbl.fin (178921210703446439624704) := by
    rw [roundToDouble_eq (1 + 1 / 2 ^ 52 + 178921210703446439624704) (2 ^ 77) (2 ^ 25) 77
      5332267603380872
      (by norm_num) (by norm_num) (by norm_num) (by norm_num) (by norm_num) (by norm_num)
      (by rw [abs_lt]; constructor <;> norm_num) (by rw [abs_lt]; constructor <;> norm_num)]
    congr 1
    norm_num
  have s5 : roundToDouble (1 + 59640403567815475200) = Dbl.fin 59640403567815475200 := by
    rw [roundToDouble_eq (1 + 59640403567815475200) (2 ^ 65) (2 ^ 13) 65 7280322701149350
      (by norm_num) (by norm_num) (by norm_num) (by norm_num) (by norm_num) (by norm_num)
      (by rw [abs_lt]; constructor <;> norm_num) (by rw [abs_lt]; constructor <;> norm_num)]
    congr 1
    norm_num
  have s6 : roundToDouble (178921210703446439624704 / 59640403567815475200)
      = Dbl.fin (3000 + 1 / 2 ^ 41) := by
    rw [roundToDouble_eq (178921210703446439624704 / 59640403567815475200) (2 ^ 11)
      (1 / 2 ^ 41) 11 6597069766656001
      (by norm_num) (by norm_num) (by norm_num) (by norm_num) (by norm_num) (by norm_num)
      (by rw [abs_lt]; constructor <;> norm_num) (by rw [abs_lt]; constructor <;> norm_num)]
    congr 1
    norm_num
  have hout : Dbl.rounded
      (Dbl.rounded (Dbl.rounded (Dbl.fin 1 + LFBGSB.EPS64)
          + Dbl.rounded (Dbl.rounded (Dbl.fin 3000 - LFBGSB.EPS64)
              * Dbl.fin 59640403567815475200))
        / Dbl.rounded (Dbl.fin 1 + Dbl.fin 59640403567815475200))
      = Dbl.fin (3000 + 1 / 2 ^ 41) := by
    rw [EPS64_eq, Dbl.fin_add_fin, Dbl.fin_sub_fin]
    show Dbl.rounded (Dbl.rounded (roundToDouble _ + Dbl.rounded (roundToDouble _ * _))
      / Dbl.rounded _) = _
    rw [s1, s2, Dbl.fin_mul_fin, Dbl.fin_add_fin]
    show Dbl.rounded (Dbl.rounded (Dbl.fin _ + roundToDouble _) / roundToDouble _) = _
    rw [s3, s5, Dbl.fin_add_fin]
    show Dbl.rounded (roundToDouble _ / Dbl.fin _) = _
    rw [s4, Dbl.fin_div_fin _ _ (by norm_num)]
    exact s6
  refine ⟨?_, rfl, rfl, ?_⟩
  · have hexp : (Libm.ofFinite (fun _ => (59640403567815475200 : ℚ)) id id).exp
        (Dbl.fin (4553486493049711 / 10 ^ 14)) = Dbl.fin 59640403567815475200 := rfl
    unfold LFBGSB.invTransformAt64
    rw [hlb, hub, hexp]
    simp only [hout]
    rfl
  · have h : rangeHi 3 = (3000 : ℚ) := rfl
    rw [h]
    norm_num

end Rounding

end UKF
